import Mathlib

/-!
# Two-level address translation with page replacement (`partFour/code.cpp`)

A shallow embedding of the translation-and-replacement engine of
`src/partFour/code.cpp`, followed by theorems about it.

Modelling conventions.

* C++ `int` values are Lean `Int` (exact integers). Signed overflow is undefined behaviour in
  C++ and lies outside the model; where a statement depends on it the bound is a hypothesis.
* `std::vector<T>` is `List T`; `std::queue<int>` is `List Int` with the front
  at the head; `std::map<int, T>` is `StdMap T`, an association list whose
  operations are `find`, `insert`, `erase` and `adjust`.
* A `PageTable*` is a `TableRef`: the key of the owning directory in
  `segment_directories` paired with the key of the table in `page_tables`
  (nodes of a `std::map` never move, so this pair identifies the pointee).
* The global `frame_to_page_map` is carried as a field of `SegmentTable`.
* `rand()` is an explicit argument.
* The `std::string& fault` out-parameter is the enumeration `Fault`, one
  constructor for each string literal the program assigns to it.
* Console output is not modelled, except for the lines of `printMemoryMap` (`memoryMap`).
* The three methods in which `src/partThree/main.cpp` differs from partFour are embedded in the
  namespace `PartThree`, over the same state type.
-/

namespace PartFour

/-! ## `std::map<int, T>` -/

/-- Association list standing for a `std::map<int, T>`. -/
abbrev StdMap (β : Type) := List (Int × β)

namespace StdMap

variable {β : Type}

/-- Lookup, as in `m.find(k)`: the value stored under `k`, if any. -/
def find : StdMap β → Int → Option β
  | [], _ => none
  | (k', v) :: rest, k => if k' = k then some v else find rest k

/-- Assignment through `m[k] = v`: replaces the value under `k`, or adds the key in order. -/
def insert (k : Int) (v : β) : StdMap β → StdMap β
  | [] => [(k, v)]
  | (k', v') :: rest =>
    if k < k' then (k, v) :: (k', v') :: rest
    else if k = k' then (k, v) :: rest
    else (k', v') :: insert k v rest

/-- Removal, as in `m.erase(k)`. -/
def erase : StdMap β → Int → StdMap β
  | [], _ => []
  | (k', v) :: rest, k => if k' = k then erase rest k else (k', v) :: erase rest k

/-- In-place mutation of the value stored under `k` (a write through a pointer or reference to
the element `find` returns). -/
def adjust : StdMap β → Int → (β → β) → StdMap β
  | [], _, _ => []
  | (k', v) :: rest, k, f =>
    if k' = k then (k', f v) :: rest else (k', v) :: adjust rest k f

end StdMap

/-! ## Data model -/

inductive ReplacementAlgorithm where
  | FIFO
  | LRU
  deriving DecidableEq, Repr

inductive Protection where
  | READ_ONLY
  | READ_WRITE
  deriving DecidableEq, Repr

/-- The value of `INT_MAX` for a 32-bit `int`. -/
def INT_MAX : Int := 2147483647

structure Page where
  frame_number : Int := -1
  present : Bool := false
  protection : Protection := Protection.READ_WRITE
  last_access_time : Int := 0
  deriving DecidableEq, Repr

instance : Inhabited Page := ⟨{}⟩

structure Segment where
  base_address : Int
  limit : Int
  protection : Protection
  deriving DecidableEq, Repr

instance : Inhabited Segment := ⟨⟨0, 0, Protection.READ_WRITE⟩⟩

/-- The strings assigned to the `fault` out-parameter. -/
inductive Fault where
  | OK
  | InvalidSegment
  | SegmentProtection
  | NoPageDirectory
  | InvalidDirectoryIndex
  | PageNumberExceedsLimit
  | OffsetExceedsPageSize
  | InvalidPageNumber
  | PageProtection
  | PageNotInMemory
  | ReplacementFailed
  deriving DecidableEq, Repr

/-- The string literal each `Fault` stands for. -/
def Fault.message : Fault → String
  | Fault.OK => "OK"
  | Fault.InvalidSegment => "Segmentation Fault: Invalid segment"
  | Fault.SegmentProtection => "Protection Violation: Cannot write to read-only segment"
  | Fault.NoPageDirectory => "Segmentation Fault: No page directory for segment"
  | Fault.InvalidDirectoryIndex => "Page Fault: Invalid page directory index"
  | Fault.PageNumberExceedsLimit => "Page Fault: Page number exceeds limit"
  | Fault.OffsetExceedsPageSize => "Offset Fault: Offset exceeds page size"
  | Fault.InvalidPageNumber => "Page Fault: Invalid page number"
  | Fault.PageProtection => "Protection Violation: Cannot write to read-only page"
  | Fault.PageNotInMemory => "Page Fault: Page not in memory"
  | Fault.ReplacementFailed => "Error: Page replacement failed"

/-- Stand-in for a `PageTable*`: (key in `segment_directories`, key in `page_tables`). -/
abbrev TableRef := Int × Int

/-! ## `PageTable` -/

structure PageTable where
  pages : List Page
  page_size : Int
  deriving DecidableEq, Repr

namespace PageTable

/-- The constructor `PageTable(numPages, pSize)`; `rnd k` is the value `rand()` returns for the
`k`-th page. A negative `numPages` makes `pages.resize` throw, which is `none`. -/
def new (numPages pSize : Int) (rnd : Nat → Nat) : Option PageTable :=
  if numPages < 0 then none
  else some
    { pages := (List.range numPages.toNat).map (fun k =>
        { present := false
          protection := if rnd k % 2 ≠ 0 then Protection.READ_WRITE else Protection.READ_ONLY
          frame_number := -1
          last_access_time := 0 })
      page_size := pSize }

/-- The element `pages[pageNum]`. -/
def page (pt : PageTable) (pageNum : Int) : Page :=
  pt.pages.getD pageNum.toNat default

/-- Writes `pg` to `pages[pageNum]`. -/
def setPage (pt : PageTable) (pageNum : Int) (pg : Page) : PageTable :=
  { pt with pages := pt.pages.set pageNum.toNat pg }

/-- The method `getFrameNumber(pageNum, time, accessType, fault)`: the returned `int`, the value
of `fault` afterwards and the table afterwards. -/
def getFrameNumber (pt : PageTable) (pageNum time : Int) (accessType : Protection)
    (fault : Fault) : Int × Fault × PageTable :=
  if pageNum < 0 ∨ pageNum ≥ (pt.pages.length : Int) then
    (-1, Fault.InvalidPageNumber, pt)
  else if accessType = Protection.READ_WRITE ∧ (pt.page pageNum).protection = Protection.READ_ONLY then
    (-1, Fault.PageProtection, pt)
  else if (pt.page pageNum).present = false then
    (-2, Fault.PageNotInMemory, pt)
  else
    ((pt.page pageNum).frame_number, fault,
      pt.setPage pageNum { pt.page pageNum with last_access_time := time })

/-- The method `setFrame(pageNum, frame, prot, time)`, on the table `self` and the global
`frame_to_page_map`. -/
def setFrame (pt : PageTable) (self : TableRef) (pageNum frame : Int) (prot : Protection)
    (time : Int) (frame_to_page_map : StdMap (TableRef × Int)) :
    PageTable × StdMap (TableRef × Int) :=
  if pageNum ≥ 0 ∧ pageNum < (pt.pages.length : Int) then
    (pt.setPage pageNum
      { pt.page pageNum with
        frame_number := frame
        present := true
        protection := prot
        last_access_time := time },
     StdMap.insert frame (self, pageNum) frame_to_page_map)
  else (pt, frame_to_page_map)

/-- The method `invalidatePage(pageNum)`. -/
def invalidatePage (pt : PageTable) (pageNum : Int) : PageTable :=
  if pageNum ≥ 0 ∧ pageNum < (pt.pages.length : Int) then
    pt.setPage pageNum { pt.page pageNum with frame_number := -1, present := false }
  else pt

end PageTable

/-! ## `PageDirectory` -/

structure PageDirectory where
  page_tables : StdMap PageTable
  page_table_size : Int
  deriving DecidableEq, Repr

namespace PageDirectory

/-- The constructor `PageDirectory(defaultPageTableSize)`. -/
def new (defaultPageTableSize : Int) : PageDirectory :=
  { page_tables := [], page_table_size := defaultPageTableSize }

/-- The method `getPageTable(pageDirIndex)`; `none` is `nullptr`. -/
def getPageTable (d : PageDirectory) (pageDirIndex : Int) : Option PageTable :=
  StdMap.find d.page_tables pageDirIndex

/-- The method `addPageTable(pageDirIndex, numPages, pageSize)`. -/
def addPageTable (d : PageDirectory) (pageDirIndex numPages pageSize : Int) (rnd : Nat → Nat) :
    Option PageDirectory :=
  (PageTable.new numPages pageSize rnd).map (fun pt =>
    { d with page_tables := StdMap.insert pageDirIndex pt d.page_tables })

end PageDirectory

/-! ## `PhysicalMemory` and `SegmentTable` -/

structure PhysicalMemory where
  num_frames : Int
  free_frames : List Bool
  fifo_queue : List Int
  time : Int
  algo : ReplacementAlgorithm
  deriving DecidableEq, Repr

/-- The manager, together with the global `frame_to_page_map`. -/
structure SegmentTable where
  segments : List Segment
  segment_directories : StdMap PageDirectory
  physMem : PhysicalMemory
  page_size : Int
  frame_to_page_map : StdMap (TableRef × Int)
  deriving DecidableEq, Repr

namespace PhysicalMemory

/-- The constructor `PhysicalMemory(frames, algorithm)`; a negative `frames` makes
`free_frames.resize` throw, which is `none`. -/
def new (frames : Int) (algorithm : ReplacementAlgorithm) : Option PhysicalMemory :=
  if frames < 0 then none
  else some
    { num_frames := frames
      free_frames := List.replicate frames.toNat true
      fifo_queue := []
      time := 0
      algo := algorithm }

/-- The scan `for (i = 0; i < num_frames; ++i) if (free_frames[i])`: the first free index. -/
def firstFree (pm : PhysicalMemory) : Option Nat :=
  (List.range pm.num_frames.toNat).find? (fun i => pm.free_frames.getD i false)

end PhysicalMemory

namespace SegmentTable

/-- Dereference of a `PageTable*`. -/
def table? (st : SegmentTable) (ref : TableRef) : Option PageTable :=
  (StdMap.find st.segment_directories ref.1).bind (fun d => StdMap.find d.page_tables ref.2)

/-- Mutation of the table a `PageTable*` points to. -/
def updTable (st : SegmentTable) (ref : TableRef) (f : PageTable → PageTable) : SegmentTable :=
  { st with
    segment_directories := StdMap.adjust st.segment_directories ref.1 (fun d =>
      { d with page_tables := StdMap.adjust d.page_tables ref.2 f }) }

/-- The value `pt->pages[pageNum].last_access_time` read through a map entry. -/
def lastAccess (st : SegmentTable) (info : TableRef × Int) : Int :=
  match st.table? info.1 with
  | some pt => (pt.page info.2).last_access_time
  | none => 0

/-- The LRU loop over `frame_to_page_map` in key order: the final `(minTime, victimFrame)`. -/
def lruScan (st : SegmentTable) : Int × Int :=
  st.frame_to_page_map.foldl
    (fun acc e => if st.lastAccess e.2 < acc.1 then (st.lastAccess e.2, e.1) else acc)
    (INT_MAX, -1)

/-- The tail of `allocateFrame` from `if (victimFrame != -1)` on. -/
def evict (st : SegmentTable) (victimFrame : Int) : SegmentTable :=
  if victimFrame ≠ -1 then
    let st1 :=
      match StdMap.find st.frame_to_page_map victimFrame with
      | some (victim_pt, victim_pageNum) =>
        { st.updTable victim_pt (fun pt => pt.invalidatePage victim_pageNum) with
          frame_to_page_map := StdMap.erase st.frame_to_page_map victimFrame }
      | none => st
    if victimFrame ≥ 0 ∧ victimFrame < st1.physMem.num_frames then
      { st1 with physMem :=
          { st1.physMem with free_frames := st1.physMem.free_frames.set victimFrame.toNat false } }
    else st1
  else st

/-- The method `PhysicalMemory::allocateFrame()`: the returned `int` and the state afterwards. -/
def allocateFrame (st : SegmentTable) : Int × SegmentTable :=
  match st.physMem.firstFree with
  | some i =>
    ((i : Int),
      { st with physMem :=
          { st.physMem with
            free_frames := st.physMem.free_frames.set i false
            fifo_queue :=
              if st.physMem.algo = ReplacementAlgorithm.FIFO then st.physMem.fifo_queue ++ [(i : Int)]
              else st.physMem.fifo_queue } })
  | none =>
    if st.physMem.algo = ReplacementAlgorithm.FIFO then
      match st.physMem.fifo_queue with
      | [] => (-1, st)
      | victimFrame :: rest =>
        (victimFrame,
          ({ st with physMem := { st.physMem with fifo_queue := rest ++ [victimFrame] } }).evict
            victimFrame)
    else
      ((st.lruScan).2, st.evict (st.lruScan).2)

/-- The call `pt->setFrame(pageNum, frame, prot, time)` through the pointer `ref`. -/
def setFrameAt (st : SegmentTable) (ref : TableRef) (pageNum frame : Int) (prot : Protection)
    (time : Int) : SegmentTable :=
  match st.table? ref with
  | some t =>
    { st.updTable ref (fun _ => (t.setFrame ref pageNum frame prot time st.frame_to_page_map).1) with
      frame_to_page_map := (t.setFrame ref pageNum frame prot time st.frame_to_page_map).2 }
  | none => st

/-- The method `PhysicalMemory::freeFrame(frame)`. -/
def freeFrame (st : SegmentTable) (frame : Int) : SegmentTable :=
  if frame ≥ 0 ∧ frame < st.physMem.num_frames then
    { st with
      physMem := { st.physMem with free_frames := st.physMem.free_frames.set frame.toNat true }
      frame_to_page_map := StdMap.erase st.frame_to_page_map frame }
  else st

/-- The constructor `SegmentTable(numFrames, pSize, algo)`, with the global map empty. -/
def new (numFrames pSize : Int) (algo : ReplacementAlgorithm) : Option SegmentTable :=
  (PhysicalMemory.new numFrames algo).map (fun pm =>
    { segments := []
      segment_directories := []
      physMem := pm
      page_size := pSize
      frame_to_page_map := [] })

/-- The loop `for (i = 0; i < dirSize; ++i) addPageTable(i, tableSize, page_size)` of
`addSegment`, run for the indices in `idxs`. -/
def addTables (d : PageDirectory) (tableSize pageSize : Int) (rnd : Nat → Nat → Nat) :
    List Nat → Option PageDirectory
  | [] => some d
  | i :: idxs =>
    (d.addPageTable (i : Int) tableSize pageSize (rnd i)).bind (fun d1 =>
      addTables d1 tableSize pageSize rnd idxs)

/-- The method `addSegment(id, base, limit, prot, dirSize, tableSize)`; `rnd i k` is the value of
`rand()` for page `k` of table `i`. -/
def addSegment (st : SegmentTable) (id base limit : Int) (prot : Protection)
    (dirSize tableSize : Int) (rnd : Nat → Nat → Nat) : Option SegmentTable :=
  (addTables (PageDirectory.new tableSize) tableSize st.page_size rnd
      (List.range dirSize.toNat)).map (fun d =>
    { st with
      segments := st.segments ++ [⟨base, limit, prot⟩]
      segment_directories := StdMap.insert id d st.segment_directories })

end SegmentTable

/-- What one `translateAddress` call hands back: the returned `int` and the two out-parameters. -/
structure TranslateResult where
  ret : Int
  latency : Int
  fault : Fault
  deriving DecidableEq, Repr

namespace SegmentTable

/-- The statement `physMem->time++`. -/
def tick (st : SegmentTable) : SegmentTable :=
  { st with physMem := { st.physMem with time := st.physMem.time + 1 } }

/-- The method `translateAddress(segNum, pageDir, pageNum, offset, accessType, latency, fault)`;
`rnd` is the value `rand()` returns. On the two paths that return an address, `ret` is the exact
integer `frame * pt->page_size + offset`: it is the `int` the method returns whenever it lies in
the range of `int`, and beyond that range the C++ expression overflows. -/
def translateAddress (st0 : SegmentTable) (segNum pageDir pageNum offset : Int)
    (accessType : Protection) (rnd : Nat) : TranslateResult × SegmentTable :=
  let st := st0.tick
  let latency : Int := 1 + (rnd : Int) % 5
  if segNum < 0 ∨ segNum ≥ (st.segments.length : Int) then
    (⟨-1, latency, Fault.InvalidSegment⟩, st)
  else
    let segment := st.segments.getD segNum.toNat default
    if accessType = Protection.READ_WRITE ∧ segment.protection = Protection.READ_ONLY then
      (⟨-1, latency, Fault.SegmentProtection⟩, st)
    else
      match StdMap.find st.segment_directories segNum with
      | none => (⟨-1, latency, Fault.NoPageDirectory⟩, st)
      | some dir =>
        match dir.getPageTable pageDir with
        | none => (⟨-1, latency, Fault.InvalidDirectoryIndex⟩, st)
        | some pt =>
          if pageNum < 0 ∨ pageNum ≥ (pt.pages.length : Int) then
            (⟨-1, latency, Fault.PageNumberExceedsLimit⟩, st)
          else if offset < 0 ∨ offset ≥ pt.page_size then
            (⟨-1, latency, Fault.OffsetExceedsPageSize⟩, st)
          else
            let r := pt.getFrameNumber pageNum st.physMem.time accessType Fault.OK
            let st1 := st.updTable (segNum, pageDir) (fun _ => r.2.2)
            if r.1 = -1 then
              (⟨-1, latency, r.2.1⟩, st1)
            else if r.1 = -2 then
              let a := st1.allocateFrame
              if a.1 = -1 then
                (⟨-1, latency + 100, Fault.ReplacementFailed⟩, a.2)
              else
                let st2 := a.2.setFrameAt (segNum, pageDir) pageNum a.1 segment.protection
                  a.2.physMem.time
                (⟨a.1 * pt.page_size + offset, latency + 100, r.2.1⟩, st2)
            else
              (⟨r.1 * pt.page_size + offset, latency, r.2.1⟩, st1)

/-- The entry `pages[pageNum]` of the table `ref` points to, when both exist. -/
def pageAt (st : SegmentTable) (ref : TableRef) (pageNum : Int) : Option Page :=
  (st.table? ref).bind (fun t => if 0 ≤ pageNum then t.pages[pageNum.toNat]? else none)

end SegmentTable

/-! ## Configurations and runs -/

/-- The arguments of one `addSegment` call, with the `rand()` values its constructors draw. -/
structure SegmentConfig where
  id : Int
  base : Int
  limit : Int
  prot : Protection
  dirSize : Int
  tableSize : Int
  rnd : Nat → Nat → Nat

/-- The arguments of one `translateAddress` call, with the `rand()` value it draws. -/
structure Request where
  segNum : Int
  pageDir : Int
  pageNum : Int
  offset : Int
  accessType : Protection
  rnd : Nat
  deriving DecidableEq, Repr

namespace SegmentTable

/-- A sequence of `addSegment` calls. -/
def addSegments (st : SegmentTable) : List SegmentConfig → Option SegmentTable
  | [] => some st
  | c :: cs =>
    (st.addSegment c.id c.base c.limit c.prot c.dirSize c.tableSize c.rnd).bind (fun st1 =>
      addSegments st1 cs)

/-- Construction of a manager followed by a sequence of `addSegment` calls. -/
def configure (numFrames pSize : Int) (algo : ReplacementAlgorithm) (cs : List SegmentConfig) :
    Option SegmentTable :=
  (SegmentTable.new numFrames pSize algo).bind (fun st => st.addSegments cs)

/-- One `translateAddress` call with the arguments of `q`. -/
def serve (st : SegmentTable) (q : Request) : TranslateResult × SegmentTable :=
  st.translateAddress q.segNum q.pageDir q.pageNum q.offset q.accessType q.rnd

/-- The state after a sequence of `translateAddress` calls. -/
def run (st : SegmentTable) : List Request → SegmentTable
  | [] => st
  | q :: qs => run (st.serve q).2 qs

/-- The results of a sequence of `translateAddress` calls, in order. -/
def results (st : SegmentTable) : List Request → List TranslateResult
  | [] => []
  | q :: qs => (st.serve q).1 :: results (st.serve q).2 qs

end SegmentTable

/-- A freshly configured manager: built by the constructor and `addSegment` calls with pairwise
distinct ids. -/
def Configured (st : SegmentTable) : Prop :=
  ∃ (numFrames pSize : Int) (algo : ReplacementAlgorithm) (cs : List SegmentConfig),
    (cs.map (fun c => c.id)).Nodup ∧ SegmentTable.configure numFrames pSize algo cs = some st

/-- No two distinct (table, page) pairs are present with the same frame number. -/
def NoAliasing (st : SegmentTable) : Prop :=
  ∀ (ref1 ref2 : TableRef) (p1 p2 : Int) (pg1 pg2 : Page),
    st.pageAt ref1 p1 = some pg1 → st.pageAt ref2 p2 = some pg2 →
    pg1.present = true → pg2.present = true →
    pg1.frame_number = pg2.frame_number → (ref1, p1) = (ref2, p2)

/-- Two segments: id 0 read-write with one table of four read-write pages, id 1 read-only with
one table of two read-only pages. -/
def exampleSegments : List SegmentConfig :=
  [{ id := 0, base := 0, limit := 1, prot := Protection.READ_WRITE, dirSize := 1, tableSize := 4,
     rnd := fun _ _ => 1 },
   { id := 1, base := 0, limit := 1, prot := Protection.READ_ONLY, dirSize := 1, tableSize := 2,
     rnd := fun _ _ => 0 }]

/-- The manager `configure 2 16 FIFO exampleSegments` produces: a pool of two frames. -/
def exampleManager : SegmentTable :=
  { segments := [⟨0, 1, Protection.READ_WRITE⟩, ⟨0, 1, Protection.READ_ONLY⟩]
    segment_directories :=
      [(0, { page_tables :=
               [(0, { pages := List.replicate 4 { protection := Protection.READ_WRITE }
                      page_size := 16 })]
             page_table_size := 4 }),
       (1, { page_tables :=
               [(0, { pages := List.replicate 2 { protection := Protection.READ_ONLY }
                      page_size := 16 })]
             page_table_size := 2 })]
    physMem :=
      { num_frames := 2, free_frames := [true, true], fifo_queue := [], time := 0,
        algo := ReplacementAlgorithm.FIFO }
    page_size := 16
    frame_to_page_map := [] }

/-- Reads of pages 0, 1 and 2 of the table of segment 0, then a write to its page 1. -/
def exampleRequests : List Request :=
  [⟨0, 0, 0, 3, Protection.READ_ONLY, 7⟩, ⟨0, 0, 1, 3, Protection.READ_ONLY, 7⟩,
   ⟨0, 0, 2, 3, Protection.READ_ONLY, 7⟩, ⟨0, 0, 1, 15, Protection.READ_WRITE, 7⟩]

/-- The consistency invariant of a manager. The frame `hole` is exempt from `occ`: it is the
frame `allocateFrame` has just handed out and `setFrame` has not yet bound (`-1` for none). -/
structure Inv (hole : Int) (st : SegmentTable) : Prop where
  fwd : ∀ (ref : TableRef) (p : Int) (pg : Page), st.pageAt ref p = some pg → pg.present = true →
    StdMap.find st.frame_to_page_map pg.frame_number = some (ref, p)
  bwd : ∀ (f : Int) (ref : TableRef) (p : Int), StdMap.find st.frame_to_page_map f = some (ref, p) →
    ∃ pg, st.pageAt ref p = some pg ∧ pg.present = true ∧ pg.frame_number = f
  keys : ∀ (f : Int) (v : TableRef × Int), StdMap.find st.frame_to_page_map f = some v →
    0 ≤ f ∧ f < st.physMem.num_frames ∧ st.physMem.free_frames.getD f.toNat false = false
  queue : ∀ f ∈ st.physMem.fifo_queue, 0 ≤ f ∧ f < st.physMem.num_frames
  len : st.physMem.free_frames.length = st.physMem.num_frames.toNat
  occ : ∀ i : Nat, (i : Int) ≠ hole → (i : Int) < st.physMem.num_frames →
    st.physMem.free_frames.getD i false = false → StdMap.find st.frame_to_page_map i ≠ none
  fifo : st.physMem.algo = ReplacementAlgorithm.FIFO → ∀ i : Nat,
    (i : Int) < st.physMem.num_frames → st.physMem.free_frames.getD i false = false →
    (i : Int) ∈ st.physMem.fifo_queue
  times : ∀ (ref : TableRef) (p : Int) (pg : Page), st.pageAt ref p = some pg →
    pg.present = true → pg.last_access_time ≤ st.physMem.time

/-- Frame `f` has been handed out by `allocateFrame` and awaits binding. -/
structure Ready (f : Int) (st : SegmentTable) : Prop where
  inv : Inv f st
  lo : 0 ≤ f
  hi : f < st.physMem.num_frames
  occupied : st.physMem.free_frames.getD f.toNat false = false
  unmapped : StdMap.find st.frame_to_page_map f = none
  queued : st.physMem.algo = ReplacementAlgorithm.FIFO → f ∈ st.physMem.fifo_queue

/-- The request passes every check `translateAddress` makes before it asks the page table:
segment range, segment protection, directory present, table present, page range, offset range.
`dir` and `pt` are the directory and table the request resolves to. -/
structure Checks (st : SegmentTable) (segNum pageDir pageNum offset : Int)
    (accessType : Protection) (dir : PageDirectory) (pt : PageTable) : Prop where
  seg_lo : 0 ≤ segNum
  seg_hi : segNum < (st.segments.length : Int)
  seg_prot : ¬ (accessType = Protection.READ_WRITE ∧
    (st.segments.getD segNum.toNat default).protection = Protection.READ_ONLY)
  directory : StdMap.find st.segment_directories segNum = some dir
  table : dir.getPageTable pageDir = some pt
  page_lo : 0 ≤ pageNum
  page_hi : pageNum < (pt.pages.length : Int)
  off_lo : 0 ≤ offset
  off_hi : offset < pt.page_size

/-- The request passes the segment-range and segment-protection checks of `translateAddress`. -/
structure SegmentPasses (st : SegmentTable) (segNum : Int) (accessType : Protection) : Prop where
  seg_lo : 0 ≤ segNum
  seg_hi : segNum < (st.segments.length : Int)
  seg_prot : ¬ (accessType = Protection.READ_WRITE ∧
    (st.segments.getD segNum.toNat default).protection = Protection.READ_ONLY)

/-- The manager `configure 0 16 LRU exampleSegments` produces: a pool without frames. -/
def exampleEmptyPool : SegmentTable :=
  { exampleManager with
    physMem :=
      { num_frames := 0, free_frames := [], fifo_queue := [], time := 0,
        algo := ReplacementAlgorithm.LRU } }

/-- The method `PhysicalMemory::utilization()`. A `double` is modelled by an exact rational
(rounding is not modelled); `none` stands for the result of the division when `num_frames` is 0,
which is not a number (`0.0 / 0.0`) or an infinity. -/
def PhysicalMemory.utilization (pm : PhysicalMemory) : Option ℚ :=
  if pm.num_frames = 0 then none
  else some ((pm.free_frames.count false : ℚ) / (pm.num_frames : ℚ) * 100)

/-- The page-fault resolutions of a run, in order. A call resolved a page fault when it returns
with the fault string "Page Fault: Page not in memory" (set by `getFrameNumber` and kept when
`allocateFrame` succeeds). For each such call: the frame number the addressed page holds after
the call, and whether no frame was free when the call was made (the frame came from a victim). -/
def SegmentTable.resolutions (st : SegmentTable) : List Request → List (Int × Bool)
  | [] => []
  | q :: qs =>
    (if (st.serve q).1.fault = Fault.PageNotInMemory then
      [((((st.serve q).2.pageAt (q.segNum, q.pageDir) q.pageNum).getD default).frame_number,
        st.physMem.firstFree.isNone)]
     else []) ++ SegmentTable.resolutions (st.serve q).2 qs

/-- The pool under FIFO after `m` page-fault resolutions and no `freeFrame`: frames `0 .. m-1`
are occupied, and the queue holds the `min m k` most recently allocated frames in allocation
order, which are `(m - min m k + j) mod k` for `j = 0, 1, ...`, with `k` the pool size. -/
structure FifoShape (m : Nat) (st : SegmentTable) : Prop where
  algo : st.physMem.algo = ReplacementAlgorithm.FIFO
  nonneg : 0 ≤ st.physMem.num_frames
  free : ∀ i : Nat, i < st.physMem.num_frames.toNat →
    st.physMem.free_frames.getD i false = decide (m ≤ i)
  qlen : st.physMem.fifo_queue.length = min m st.physMem.num_frames.toNat
  qget : ∀ j : Nat, j < min m st.physMem.num_frames.toNat →
    st.physMem.fifo_queue[j]? =
      some (((m - min m st.physMem.num_frames.toNat + j) % st.physMem.num_frames.toNat : Nat) : Int)

/-- What never changes in a page table once built: the number of pages and the page size. -/
def PageTable.shape (t : PageTable) : Nat × Int := (t.pages.length, t.page_size)

/-- The table of segment 0 of `exampleManager`: four read-write pages of size 16. -/
def exampleTable : PageTable :=
  { pages := List.replicate 4 { protection := Protection.READ_WRITE }, page_size := 16 }

/-- The directory of segment 0 of `exampleManager`. -/
def exampleDirectory : PageDirectory :=
  { page_tables := [(0, exampleTable)], page_table_size := 4 }

/-- The lines under "Frames in Use" that `printMemoryMap` prints: for each entry of
`frame_to_page_map`, in iteration order, the frame, the page number and the `last_access_time`
read through the table pointer. -/
def SegmentTable.memoryMap (st : SegmentTable) : List (Int × Int × Int) :=
  st.frame_to_page_map.map (fun e => (e.1, e.2.2, st.lastAccess e.2))

/-! ## The partThree variant of the engine

`src/partThree/main.cpp` has the classes of `src/partFour/code.cpp` with the same fields,
constructors, `setFrame`, `invalidatePage`, `addSegment` and `freeFrame`. It differs in three
methods: `getFrameNumber` and `translateAddress` have no `fault` out-parameter, and
`allocateFrame` marks the frame of an evicted victim free. These three are modelled here, over
the same state type. -/

namespace PartThree

/-- The method `getFrameNumber(pageNum, time, accessType)` of partThree: the returned `int` and
the table afterwards. -/
def getFrameNumber (pt : PageTable) (pageNum time : Int) (accessType : Protection) :
    Int × PageTable :=
  if pageNum < 0 ∨ pageNum ≥ (pt.pages.length : Int) then
    (-1, pt)
  else if accessType = Protection.READ_WRITE ∧ (pt.page pageNum).protection = Protection.READ_ONLY then
    (-1, pt)
  else if (pt.page pageNum).present = false then
    (-2, pt)
  else
    ((pt.page pageNum).frame_number,
      pt.setPage pageNum { pt.page pageNum with last_access_time := time })

/-- The tail of partThree's `allocateFrame` from `if (victimFrame != -1)` on; it ends with
`free_frames[victimFrame] = true`. -/
def evict (st : SegmentTable) (victimFrame : Int) : SegmentTable :=
  if victimFrame ≠ -1 then
    let st1 :=
      match StdMap.find st.frame_to_page_map victimFrame with
      | some (victim_pt, victim_pageNum) =>
        { st.updTable victim_pt (fun pt => pt.invalidatePage victim_pageNum) with
          frame_to_page_map := StdMap.erase st.frame_to_page_map victimFrame }
      | none => st
    if victimFrame ≥ 0 ∧ victimFrame < st1.physMem.num_frames then
      { st1 with physMem :=
          { st1.physMem with free_frames := st1.physMem.free_frames.set victimFrame.toNat true } }
    else st1
  else st

/-- The method `PhysicalMemory::allocateFrame()` of partThree: the returned `int` and the state
afterwards. -/
def allocateFrame (st : SegmentTable) : Int × SegmentTable :=
  match st.physMem.firstFree with
  | some i =>
    ((i : Int),
      { st with physMem :=
          { st.physMem with
            free_frames := st.physMem.free_frames.set i false
            fifo_queue :=
              if st.physMem.algo = ReplacementAlgorithm.FIFO then st.physMem.fifo_queue ++ [(i : Int)]
              else st.physMem.fifo_queue } })
  | none =>
    if st.physMem.algo = ReplacementAlgorithm.FIFO then
      match st.physMem.fifo_queue with
      | [] => (-1, st)
      | victimFrame :: rest =>
        (victimFrame,
          evict { st with physMem := { st.physMem with fifo_queue := rest ++ [victimFrame] } }
            victimFrame)
    else
      ((st.lruScan).2, evict st (st.lruScan).2)

/-- The method `translateAddress(segNum, pageDir, pageNum, offset, accessType, latency)` of
partThree: the returned `int`, the value of `latency` afterwards and the state afterwards; `rnd`
is the value `rand()` returns. -/
def translateAddress (st0 : SegmentTable) (segNum pageDir pageNum offset : Int)
    (accessType : Protection) (rnd : Nat) : (Int × Int) × SegmentTable :=
  let st := st0.tick
  let latency : Int := 1 + (rnd : Int) % 5
  if segNum < 0 ∨ segNum ≥ (st.segments.length : Int) then
    ((-1, latency), st)
  else
    let segment := st.segments.getD segNum.toNat default
    if accessType = Protection.READ_WRITE ∧ segment.protection = Protection.READ_ONLY then
      ((-1, latency), st)
    else
      match StdMap.find st.segment_directories segNum with
      | none => ((-1, latency), st)
      | some dir =>
        match dir.getPageTable pageDir with
        | none => ((-1, latency), st)
        | some pt =>
          if pageNum < 0 ∨ pageNum ≥ (pt.pages.length : Int) then
            ((-1, latency), st)
          else if offset < 0 ∨ offset ≥ pt.page_size then
            ((-1, latency), st)
          else
            let r := getFrameNumber pt pageNum st.physMem.time accessType
            let st1 := st.updTable (segNum, pageDir) (fun _ => r.2)
            if r.1 = -1 then
              ((-1, latency), st1)
            else if r.1 = -2 then
              let a := allocateFrame st1
              if a.1 = -1 then
                ((-1, latency + 100), a.2)
              else
                let st2 := a.2.setFrameAt (segNum, pageDir) pageNum a.1 segment.protection
                  a.2.physMem.time
                ((a.1 * pt.page_size + offset, latency + 100), st2)
            else
              ((r.1 * pt.page_size + offset, latency), st1)

/-- One partThree `translateAddress` call with the arguments of `q`. -/
def serve (st : SegmentTable) (q : Request) : (Int × Int) × SegmentTable :=
  translateAddress st q.segNum q.pageDir q.pageNum q.offset q.accessType q.rnd

/-- The state after a sequence of partThree `translateAddress` calls. -/
def run (st : SegmentTable) : List Request → SegmentTable
  | [] => st
  | q :: qs => run (serve st q).2 qs

/-- The values returned by a sequence of partThree `translateAddress` calls, in order. -/
def results (st : SegmentTable) : List Request → List Int
  | [] => []
  | q :: qs => (serve st q).1.1 :: results (serve st q).2 qs

end PartThree

/-- Reads of pages 0, 1, 2 and 3 of the table of segment 0, in turn, at offset 3. -/
def exampleReads : List Request :=
  [⟨0, 0, 0, 3, Protection.READ_ONLY, 7⟩, ⟨0, 0, 1, 3, Protection.READ_ONLY, 7⟩,
   ⟨0, 0, 2, 3, Protection.READ_ONLY, 7⟩, ⟨0, 0, 3, 3, Protection.READ_ONLY, 7⟩]

/-- The number of pages of a table that are present. -/
def PageTable.presentCount (t : PageTable) : Nat :=
  t.pages.countP (fun pg => pg.present)

/-- The number of present pages over the tables of a directory. -/
def PageDirectory.presentCount (d : PageDirectory) : Nat :=
  (d.page_tables.map (fun e => e.2.presentCount)).sum

/-- The number of present pages over all tables of all directories. -/
def SegmentTable.presentCount (st : SegmentTable) : Nat :=
  (st.segment_directories.map (fun e => e.2.presentCount)).sum

/-- The page numbers of the present pages of a table, in increasing order. -/
def PageTable.presentPages (t : PageTable) : List Nat :=
  (List.range t.pages.length).filter (fun k => (t.pages.getD k default).present)

/-- The present pages of a manager, each named by its table and page number, in the order of the
directory keys, table keys and page numbers. -/
def SegmentTable.presentPages (st : SegmentTable) : List (TableRef × Int) :=
  st.segment_directories.flatMap (fun e =>
    e.2.page_tables.flatMap (fun e2 =>
      e2.2.presentPages.map (fun (k : Nat) => ((e.1, e2.1), (k : Int)))))

/-- The keys of `segment_directories` and of every `page_tables` are strictly increasing, as
the iteration order of a `std::map` is. -/
structure DirSorted (st : SegmentTable) : Prop where
  dirs : (st.segment_directories.map Prod.fst).Pairwise (fun a b => a < b)
  tables : ∀ e ∈ st.segment_directories,
    (e.2.page_tables.map Prod.fst).Pairwise (fun a b => a < b)

/-! ## States with the protection bits disregarded

The functions `unprot` replace every protection by `READ_WRITE`; two states have the same
image exactly when they differ in protections only. -/

/-- The map with `g` applied to every value. -/
def StdMap.mapVals {β γ : Type} (g : β → γ) (m : StdMap β) : StdMap γ :=
  m.map (fun e => (e.1, g e.2))

/-- The page entry with its protection disregarded. -/
def Page.unprot (pg : Page) : Page :=
  { pg with protection := Protection.READ_WRITE }

/-- The table with the protection of every page disregarded. -/
def PageTable.unprot (t : PageTable) : PageTable :=
  { t with pages := t.pages.map Page.unprot }

/-- The directory with the protection of every page disregarded. -/
def PageDirectory.unprot (d : PageDirectory) : PageDirectory :=
  { d with page_tables := StdMap.mapVals PageTable.unprot d.page_tables }

/-- The segment descriptor with its protection disregarded. -/
def Segment.unprot (s : Segment) : Segment :=
  { s with protection := Protection.READ_WRITE }

/-- The manager with the protection of every segment and of every page disregarded. -/
def SegmentTable.unprot (st : SegmentTable) : SegmentTable :=
  { st with
    segments := st.segments.map Segment.unprot
    segment_directories := StdMap.mapVals PageDirectory.unprot st.segment_directories }

/-- Two `addSegment` calls that differ at most in the protection and in the values `rand()`
returns to the `PageTable` constructors. -/
def SegmentConfig.SameShape (c1 c2 : SegmentConfig) : Prop :=
  c1.id = c2.id ∧ c1.base = c2.base ∧ c1.limit = c2.limit ∧ c1.dirSize = c2.dirSize ∧
    c1.tableSize = c2.tableSize

instance (c1 c2 : SegmentConfig) : Decidable (SegmentConfig.SameShape c1 c2) := by
  unfold SegmentConfig.SameShape
  exact inferInstance

/-- The segments of `exampleSegments` with other protections: id 0 read-only with read-only
pages, id 1 read-write with read-write pages. -/
def exampleSegmentsAlt : List SegmentConfig :=
  [{ id := 0, base := 0, limit := 1, prot := Protection.READ_ONLY, dirSize := 1, tableSize := 4,
     rnd := fun _ _ => 0 },
   { id := 1, base := 0, limit := 1, prot := Protection.READ_WRITE, dirSize := 1, tableSize := 2,
     rnd := fun _ _ => 1 }]

/-- The manager `configure 2 16 FIFO exampleSegmentsAlt` produces. -/
def exampleManagerAlt : SegmentTable :=
  { segments := [⟨0, 1, Protection.READ_ONLY⟩, ⟨0, 1, Protection.READ_WRITE⟩]
    segment_directories :=
      [(0, { page_tables :=
               [(0, { pages := List.replicate 4 { protection := Protection.READ_ONLY }
                      page_size := 16 })]
             page_table_size := 4 }),
       (1, { page_tables :=
               [(0, { pages := List.replicate 2 { protection := Protection.READ_WRITE }
                      page_size := 16 })]
             page_table_size := 2 })]
    physMem :=
      { num_frames := 2, free_frames := [true, true], fifo_queue := [], time := 0,
        algo := ReplacementAlgorithm.FIFO }
    page_size := 16
    frame_to_page_map := [] }

/-! ## Lemmas on `StdMap` -/

namespace StdMap

variable {β : Type}

theorem find_insert (m : StdMap β) (k j : Int) (v : β) :
    find (insert k v m) j = if j = k then some v else find m j := by
  induction m with
  | nil =>
    by_cases h : j = k
    · simp [insert, find, h]
    · have h2 : ¬ k = j := fun e => h e.symm
      simp [insert, find, h, h2]
  | cons e rest ih =>
    obtain ⟨k1, v1⟩ := e
    by_cases hlt : k < k1
    · by_cases h : j = k
      · simp [insert, find, hlt, h]
      · have h2 : ¬ k = j := fun e => h e.symm
        simp [insert, find, hlt, h, h2]
    · by_cases heq : k = k1
      · subst heq
        by_cases h : j = k
        · simp [insert, find, h]
        · have h2 : ¬ k = j := fun e => h e.symm
          simp [insert, find, h, h2]
      · by_cases h : j = k
        · subst h
          have h3 : ¬ k1 = j := fun e => heq e.symm
          simp [insert, find, hlt, heq, h3, ih]
        · simp [insert, find, hlt, heq, h, ih]

theorem find_erase (m : StdMap β) (k j : Int) :
    find (erase m k) j = if j = k then none else find m j := by
  induction m with
  | nil => simp [erase, find]
  | cons e rest ih =>
    obtain ⟨k1, v1⟩ := e
    by_cases h1 : k1 = k
    · subst h1
      by_cases h : j = k1
      · subst h
        simpa [erase] using ih
      · have h2 : ¬ k1 = j := fun e => h e.symm
        simp [erase, ih, h, h2, find]
    · by_cases h : j = k
      · subst h
        simp [erase, ih, h1, find]
      · simp [erase, ih, h1, h, find]

theorem find_adjust (m : StdMap β) (k j : Int) (f : β → β) :
    find (adjust m k f) j = if j = k then (find m k).map f else find m j := by
  induction m with
  | nil => simp [adjust, find]
  | cons e rest ih =>
    obtain ⟨k1, v1⟩ := e
    by_cases h1 : k1 = k
    · subst h1
      by_cases h : j = k1
      · simp [adjust, find, h]
      · have h2 : ¬ k1 = j := fun e => h e.symm
        simp [adjust, find, h, h2]
    · by_cases h : j = k
      · subst h
        simp [adjust, find, h1, ih]
      · simp [adjust, find, h1, h, ih]

theorem adjust_eq_self (m : StdMap β) (k : Int) (f : β → β) (v : β)
    (hf : find m k = some v) (hv : f v = v) : adjust m k f = m := by
  induction m with
  | nil => rfl
  | cons e rest ih =>
    obtain ⟨k1, v1⟩ := e
    by_cases h1 : k1 = k
    · subst h1
      simp [find] at hf
      subst hf
      simp [adjust, hv]
    · simp [find, h1] at hf
      simp [adjust, h1, ih hf]

theorem adjust_of_find_none (m : StdMap β) (k : Int) (f : β → β) (h : find m k = none) :
    adjust m k f = m := by
  induction m with
  | nil => rfl
  | cons e rest ih =>
    obtain ⟨k1, v1⟩ := e
    by_cases h1 : k1 = k
    · simp [find, h1] at h
    · simp only [find, h1, if_false] at h
      simp [adjust, h1, ih h]

theorem find_eq_none_iff (m : StdMap β) (k : Int) :
    find m k = none ↔ k ∉ m.map Prod.fst := by
  induction m with
  | nil => simp [find]
  | cons e rest ih =>
    obtain ⟨k1, v1⟩ := e
    by_cases h1 : k1 = k
    · simp [find, h1]
    · have h2 : ¬ k = k1 := fun e => h1 e.symm
      simp only [find, h1, if_false, ih, List.map_cons, List.mem_cons, h2, false_or]

theorem mem_of_find (m : StdMap β) (k : Int) (v : β) (h : find m k = some v) : (k, v) ∈ m := by
  induction m with
  | nil => simp [find] at h
  | cons e rest ih =>
    obtain ⟨k1, v1⟩ := e
    by_cases h1 : k1 = k
    · simp [find, h1] at h
      simp [h1, h]
    · simp [find, h1] at h
      exact List.mem_cons_of_mem _ (ih h)

end StdMap

/-! ## Lemmas on table and page access -/

namespace SegmentTable

theorem table?_updTable (st : SegmentTable) (ref ref' : TableRef) (f : PageTable → PageTable) :
    (st.updTable ref f).table? ref' =
      if ref' = ref then (st.table? ref).map f else st.table? ref' := by
  obtain ⟨a, b⟩ := ref
  obtain ⟨a', b'⟩ := ref'
  simp only [table?, updTable, StdMap.find_adjust, Prod.mk.injEq]
  by_cases ha : a' = a
  · subst ha
    cases hd : StdMap.find st.segment_directories a' with
    | none => simp
    | some d =>
      by_cases hb : b' = b
      · simp [hb, StdMap.find_adjust]
      · simp [hb, StdMap.find_adjust]
  · simp [ha]

theorem updTable_eq_self (st : SegmentTable) (ref : TableRef) (f : PageTable → PageTable)
    (t : PageTable) (ht : st.table? ref = some t) (hf : f t = t) : st.updTable ref f = st := by
  obtain ⟨a, b⟩ := ref
  simp only [table?] at ht
  cases hd : StdMap.find st.segment_directories a with
  | none => simp [hd] at ht
  | some d =>
    simp only [hd, Option.some_bind] at ht
    have h1 : StdMap.adjust d.page_tables b f = d.page_tables :=
      StdMap.adjust_eq_self _ _ _ t ht hf
    have h2 : StdMap.adjust st.segment_directories a
        (fun d => { d with page_tables := StdMap.adjust d.page_tables b f }) =
        st.segment_directories := by
      apply StdMap.adjust_eq_self _ _ _ d hd
      simp [h1]
    simp only [updTable, h2]

theorem pageAt_some (st : SegmentTable) (ref : TableRef) (p : Int) (pg : Page)
    (h : st.pageAt ref p = some pg) :
    ∃ t, st.table? ref = some t ∧ 0 ≤ p ∧ p < (t.pages.length : Int) ∧
      t.pages[p.toNat]? = some pg ∧ t.page p = pg := by
  unfold pageAt at h
  cases ht : st.table? ref with
  | none => simp [ht] at h
  | some t =>
    simp only [ht, Option.some_bind] at h
    by_cases hp : 0 ≤ p
    · simp only [hp, if_true] at h
      refine ⟨t, rfl, hp, ?_, h, ?_⟩
      · obtain ⟨hlt, _⟩ := List.getElem?_eq_some.mp h
        omega
      · simp [PageTable.page, List.getD_eq_getElem?_getD, h]
    · simp [hp] at h

theorem pageAt_of_table (st : SegmentTable) (ref : TableRef) (p : Int) (t : PageTable)
    (ht : st.table? ref = some t) (h0 : 0 ≤ p) (h1 : p < (t.pages.length : Int)) :
    st.pageAt ref p = some (t.page p) := by
  have hlt : p.toNat < t.pages.length := by omega
  simp [pageAt, ht, h0, PageTable.page, List.getD_eq_getElem?_getD, List.getElem?_eq_getElem hlt]

/-- Effect on `pageAt` of a write to one existing page through a table pointer. -/
theorem pageAt_updTable_set (st : SegmentTable) (ref : TableRef) (q : Int)
    (f : PageTable → PageTable) (g : PageTable → Page) (t : PageTable) (pg0 : Page)
    (ht : st.table? ref = some t) (hq : st.pageAt ref q = some pg0)
    (hf : (f t).pages = t.pages.set q.toNat (g t)) (ref' : TableRef) (p : Int) :
    (st.updTable ref f).pageAt ref' p =
      if ref' = ref ∧ p = q then some (g t) else st.pageAt ref' p := by
  obtain ⟨t', ht', h0, h1, _, _⟩ := pageAt_some st ref q pg0 hq
  rw [ht] at ht'
  cases ht'
  have hlt : q.toNat < t.pages.length := by omega
  by_cases hr : ref' = ref
  · subst hr
    by_cases hp : p = q
    · subst hp
      simp [pageAt, table?_updTable, ht, hf, h0, hlt]
    · simp only [pageAt, table?_updTable, ht, if_true, Option.map_some', Option.some_bind, hf, hp,
        and_false, if_false]
      by_cases hp0 : 0 ≤ p
      · have hne : q.toNat ≠ p.toNat := by omega
        simp [hp0, List.getElem?_set_ne hne]
      · simp [hp0]
  · simp [pageAt, table?_updTable, hr]

end SegmentTable

/-! ## Preservation of the invariant by the elementary steps -/

namespace SegmentTable

theorem inv_tick (hole : Int) (st : SegmentTable) (h : Inv hole st) : Inv hole st.tick where
  fwd := h.fwd
  bwd := h.bwd
  keys := h.keys
  queue := h.queue
  len := h.len
  occ := h.occ
  fifo := h.fifo
  times := fun ref p pg hp hpres => by
    have := h.times ref p pg hp hpres
    show pg.last_access_time ≤ st.physMem.time + 1
    omega

/-- A hit: rewriting `last_access_time` of a present page keeps the invariant. -/
theorem inv_touch (hole : Int) (st : SegmentTable) (h : Inv hole st) (ref : TableRef) (q : Int)
    (f : PageTable → PageTable) (t : PageTable) (pg0 : Page)
    (ht : st.table? ref = some t) (hq : st.pageAt ref q = some pg0)
    (hpres : pg0.present = true)
    (hf : (f t).pages = t.pages.set q.toNat { pg0 with last_access_time := st.physMem.time }) :
    Inv hole (st.updTable ref f) := by
  have key := pageAt_updTable_set st ref q f
    (fun _ => { pg0 with last_access_time := st.physMem.time }) t pg0 ht hq hf
  refine ⟨?_, ?_, h.keys, h.queue, h.len, h.occ, h.fifo, ?_⟩
  · intro ref' p pg hp hpr
    rw [key] at hp
    by_cases hc : ref' = ref ∧ p = q
    · obtain ⟨rfl, rfl⟩ := hc
      simp only [and_self, if_true, Option.some.injEq] at hp
      subst hp
      exact h.fwd _ _ pg0 hq hpres
    · simp only [hc, if_false] at hp
      exact h.fwd _ _ _ hp hpr
  · intro fr ref' p hfind
    obtain ⟨pg, hpg, hpr, hfr⟩ := h.bwd fr ref' p hfind
    by_cases hc : ref' = ref ∧ p = q
    · obtain ⟨rfl, rfl⟩ := hc
      rw [hq] at hpg
      cases hpg
      exact ⟨{ pg0 with last_access_time := st.physMem.time }, by rw [key]; simp, hpres, hfr⟩
    · exact ⟨pg, by rw [key]; simp only [hc, if_false]; exact hpg, hpr, hfr⟩
  · intro ref' p pg hp hpr
    rw [key] at hp
    by_cases hc : ref' = ref ∧ p = q
    · obtain ⟨rfl, rfl⟩ := hc
      simp only [and_self, if_true, Option.some.injEq] at hp
      subst hp
      exact le_refl _
    · simp only [hc, if_false] at hp
      exact h.times _ _ _ hp hpr

theorem getD_set_false (l : List Bool) (i j : Nat) :
    (l.set i false).getD j false = if i = j then false else l.getD j false := by
  simp only [List.getD_eq_getElem?_getD, List.getElem?_set]
  by_cases h : i = j
  · subst h
    by_cases h2 : i < l.length <;> simp [h2]
  · simp [h]

theorem updTable_of_table?_none (st : SegmentTable) (ref : TableRef) (f : PageTable → PageTable)
    (ht : st.table? ref = none) : st.updTable ref f = st := by
  obtain ⟨a, b⟩ := ref
  simp only [table?] at ht
  have h2 : StdMap.adjust st.segment_directories a
      (fun d => { d with page_tables := StdMap.adjust d.page_tables b f }) =
      st.segment_directories := by
    cases hd : StdMap.find st.segment_directories a with
    | none => exact StdMap.adjust_of_find_none _ _ _ hd
    | some d =>
      simp only [hd, Option.some_bind] at ht
      apply StdMap.adjust_eq_self _ _ _ d hd
      simp [StdMap.adjust_of_find_none _ _ f ht]
  simp only [updTable, h2]

theorem pageAt_invalidate (st : SegmentTable) (r : TableRef) (q : Int) (ref : TableRef) (p : Int) :
    (st.updTable r (fun pt => pt.invalidatePage q)).pageAt ref p =
      if ref = r ∧ p = q then
        (st.pageAt r q).map (fun pg => { pg with frame_number := -1, present := false })
      else st.pageAt ref p := by
  cases hq : st.pageAt r q with
  | some pg0 =>
    obtain ⟨t, ht, h0, h1, _, hpage⟩ := pageAt_some st r q pg0 hq
    have hf : ((fun pt : PageTable => pt.invalidatePage q) t).pages =
        t.pages.set q.toNat { pg0 with frame_number := -1, present := false } := by
      simp [PageTable.invalidatePage, PageTable.setPage, h0, h1, hpage]
    rw [pageAt_updTable_set st r q (fun pt : PageTable => pt.invalidatePage q)
      (fun _ => { pg0 with frame_number := -1, present := false }) t pg0 ht hq hf]
    rfl
  | none =>
    have hsame : st.updTable r (fun pt => pt.invalidatePage q) = st := by
      cases ht : st.table? r with
      | none => exact updTable_of_table?_none st r _ ht
      | some t =>
        apply updTable_eq_self st r _ t ht
        by_cases hr : q ≥ 0 ∧ q < (t.pages.length : Int)
        · have := pageAt_of_table st r q t ht hr.1 hr.2
          rw [hq] at this
          cases this
        · simp [PageTable.invalidatePage, hr]
    rw [hsame]
    by_cases hc : ref = r ∧ p = q
    · obtain ⟨rfl, rfl⟩ := hc
      simp [hq]
    · simp [hc]

theorem inv_hole_weaken (v : Int) (st : SegmentTable) (h : Inv (-1) st) : Inv v st :=
  { h with occ := fun i _ hi hocc => h.occ i (by omega) hi hocc }

theorem inv_hole_fill (v : Int) (st : SegmentTable) (h : Inv v st)
    (hv : StdMap.find st.frame_to_page_map v ≠ none) : Inv (-1) st :=
  { h with
    occ := fun i _ hi hocc => by
      by_cases hiv : (i : Int) = v
      · rw [hiv]; exact hv
      · exact h.occ i hiv hi hocc }

/-- Replacing the FIFO queue by one with the same or more in-range members. -/
theorem inv_queue (hole : Int) (st : SegmentTable) (h : Inv hole st) (q : List Int)
    (hsub : ∀ f ∈ st.physMem.fifo_queue, f ∈ q)
    (hrange : ∀ f ∈ q, 0 ≤ f ∧ f < st.physMem.num_frames) :
    Inv hole { st with physMem := { st.physMem with fifo_queue := q } } where
  fwd := h.fwd
  bwd := h.bwd
  keys := h.keys
  queue := hrange
  len := h.len
  occ := h.occ
  fifo := fun ha i hi hocc => hsub _ (h.fifo ha i hi hocc)
  times := h.times

/-- Eviction, first half: the victim's page is invalidated and its map entry erased. -/
theorem inv_unmap (st : SegmentTable) (h : Inv (-1) st) (v : Int) (r : TableRef) (q : Int)
    (hv : StdMap.find st.frame_to_page_map v = some (r, q)) :
    Inv v { st.updTable r (fun pt => pt.invalidatePage q) with
            frame_to_page_map := StdMap.erase st.frame_to_page_map v } := by
  obtain ⟨pg0, hpg0, hpres0, hfr0⟩ := h.bwd v r q hv
  have key : ∀ ref p, (SegmentTable.pageAt
      { st.updTable r (fun pt => pt.invalidatePage q) with
        frame_to_page_map := StdMap.erase st.frame_to_page_map v } ref p) =
      if ref = r ∧ p = q then some { pg0 with frame_number := -1, present := false }
      else st.pageAt ref p := by
    intro ref p
    have := pageAt_invalidate st r q ref p
    rw [hpg0] at this
    exact this
  refine ⟨?_, ?_, ?_, h.queue, h.len, ?_, h.fifo, ?_⟩
  · intro ref p pg hp hpr
    rw [key] at hp
    by_cases hc : ref = r ∧ p = q
    · simp only [hc, and_self, if_true, Option.some.injEq] at hp
      subst hp
      simp at hpr
    · simp only [hc, if_false] at hp
      have h1 := h.fwd ref p pg hp hpr
      have hne : pg.frame_number ≠ v := by
        intro e
        rw [e, hv] at h1
        simp only [Option.some.injEq, Prod.mk.injEq] at h1
        exact hc ⟨h1.1.symm, h1.2.symm⟩
      show StdMap.find (StdMap.erase st.frame_to_page_map v) pg.frame_number = some (ref, p)
      rw [StdMap.find_erase]
      simp [hne, h1]
  · intro f ref p hfind
    have hfind' : StdMap.find (StdMap.erase st.frame_to_page_map v) f = some (ref, p) := hfind
    rw [StdMap.find_erase] at hfind'
    by_cases hfv : f = v
    · simp [hfv] at hfind'
    · simp only [hfv, if_false] at hfind'
      obtain ⟨pg, hpg, hpr, hfr⟩ := h.bwd f ref p hfind'
      have hc : ¬ (ref = r ∧ p = q) := by
        rintro ⟨rfl, rfl⟩
        rw [hpg0] at hpg
        cases hpg
        exact hfv (hfr.symm.trans hfr0)
      exact ⟨pg, by rw [key]; simp only [hc, if_false]; exact hpg, hpr, hfr⟩
  · intro f val hfind
    have hfind' : StdMap.find (StdMap.erase st.frame_to_page_map v) f = some val := hfind
    rw [StdMap.find_erase] at hfind'
    by_cases hfv : f = v
    · simp [hfv] at hfind'
    · simp only [hfv, if_false] at hfind'
      exact h.keys f val hfind'
  · intro i hiv hi hocc
    show StdMap.find (StdMap.erase st.frame_to_page_map v) i ≠ none
    rw [StdMap.find_erase]
    simp only [hiv, if_false]
    exact h.occ i (by omega) hi hocc
  · intro ref p pg hp hpr
    rw [key] at hp
    by_cases hc : ref = r ∧ p = q
    · simp only [hc, and_self, if_true, Option.some.injEq] at hp
      subst hp
      simp at hpr
    · simp only [hc, if_false] at hp
      exact h.times ref p pg hp hpr

/-- Marking an unmapped, queued frame occupied makes it ready for binding. -/
theorem ready_mark (st : SegmentTable) (v : Int) (h : Inv v st)
    (hun : StdMap.find st.frame_to_page_map v = none) (h0 : 0 ≤ v)
    (h1 : v < st.physMem.num_frames)
    (hq : st.physMem.algo = ReplacementAlgorithm.FIFO → v ∈ st.physMem.fifo_queue) :
    Ready v { st with physMem :=
      { st.physMem with free_frames := st.physMem.free_frames.set v.toNat false } } := by
  refine ⟨⟨h.fwd, h.bwd, ?_, h.queue, ?_, ?_, ?_, h.times⟩, h0, h1, ?_, hun, hq⟩
  · intro f val hfind
    obtain ⟨a, b, c⟩ := h.keys f val hfind
    refine ⟨a, b, ?_⟩
    show (st.physMem.free_frames.set v.toNat false).getD f.toNat false = false
    rw [getD_set_false, c]
    simp
  · show (st.physMem.free_frames.set v.toNat false).length = st.physMem.num_frames.toNat
    rw [List.length_set]
    exact h.len
  · intro i hiv hi hocc
    have hocc' : (st.physMem.free_frames.set v.toNat false).getD i false = false := hocc
    rw [getD_set_false] at hocc'
    have hne : v.toNat ≠ i := by omega
    simp only [hne, if_false] at hocc'
    exact h.occ i hiv hi hocc'
  · intro ha i hi hocc
    have hocc' : (st.physMem.free_frames.set v.toNat false).getD i false = false := hocc
    rw [getD_set_false] at hocc'
    by_cases hiv : (i : Int) = v
    · rw [hiv]; exact hq ha
    · have hne : v.toNat ≠ i := by omega
      simp only [hne, if_false] at hocc'
      exact h.fifo ha i hi hocc'
  · show (st.physMem.free_frames.set v.toNat false).getD v.toNat false = false
    rw [getD_set_false]
    simp

theorem pageAt_evict (st : SegmentTable) (v : Int) (ref : TableRef) (p : Int) :
    (st.evict v).pageAt ref p =
      if v ≠ -1 ∧ StdMap.find st.frame_to_page_map v = some (ref, p) then
        (st.pageAt ref p).map (fun pg => { pg with frame_number := -1, present := false })
      else st.pageAt ref p := by
  unfold evict
  by_cases hv : v = -1
  · simp [hv]
  · simp only [ne_eq, hv, not_false_eq_true, if_true, true_and]
    cases hfind : StdMap.find st.frame_to_page_map v with
    | none =>
      simp only [false_and, if_false, reduceCtorEq]
      split <;> rfl
    | some val =>
      obtain ⟨r, q⟩ := val
      have key := pageAt_invalidate st r q ref p
      simp only [Option.some.injEq, Prod.mk.injEq]
      have hcond : (r = ref ∧ q = p) ↔ (ref = r ∧ p = q) := by
        constructor <;> rintro ⟨a, b⟩ <;> exact ⟨a.symm, b.symm⟩
      simp only [hcond]
      by_cases hc : ref = r ∧ p = q
      · obtain ⟨rfl, rfl⟩ := hc
        simp only [and_self, if_true] at key ⊢
        rw [← key]
        split <;> rfl
      · simp only [hc, if_false] at key ⊢
        rw [← key]
        split <;> rfl

theorem evict_frame (st : SegmentTable) (v : Int) :
    (st.evict v).physMem.time = st.physMem.time ∧
    (st.evict v).physMem.num_frames = st.physMem.num_frames ∧
    (st.evict v).physMem.algo = st.physMem.algo ∧
    (st.evict v).physMem.fifo_queue = st.physMem.fifo_queue ∧
    (st.evict v).segments = st.segments ∧
    (st.evict v).page_size = st.page_size := by
  unfold evict
  by_cases hv : v = -1
  · simp [hv]
  · simp only [ne_eq, hv, not_false_eq_true, if_true]
    cases hfind : StdMap.find st.frame_to_page_map v with
    | none =>
      simp only
      split <;> exact ⟨rfl, rfl, rfl, rfl, rfl, rfl⟩
    | some val =>
      obtain ⟨r, q⟩ := val
      simp only
      split <;> exact ⟨rfl, rfl, rfl, rfl, rfl, rfl⟩

/-- Eviction of an in-range, queued victim leaves its frame ready for binding. -/
theorem ready_evict (st : SegmentTable) (h : Inv (-1) st) (v : Int) (h0 : 0 ≤ v)
    (h1 : v < st.physMem.num_frames)
    (hq : st.physMem.algo = ReplacementAlgorithm.FIFO → v ∈ st.physMem.fifo_queue) :
    Ready v (st.evict v) := by
  have hv : v ≠ -1 := by omega
  unfold evict
  simp only [ne_eq, hv, not_false_eq_true, if_true]
  cases hfind : StdMap.find st.frame_to_page_map v with
  | none =>
    simp only [ge_iff_le, h0, h1, and_self, if_true]
    exact ready_mark st v (inv_hole_weaken v st h) hfind h0 h1 hq
  | some val =>
    obtain ⟨r, q⟩ := val
    have hrange : v ≥ 0 ∧ v < (SegmentTable.physMem
        { st.updTable r (fun pt => pt.invalidatePage q) with
          frame_to_page_map := StdMap.erase st.frame_to_page_map v }).num_frames := ⟨h0, h1⟩
    simp only [hrange, and_self, if_true]
    refine ready_mark _ v (inv_unmap st h v r q hfind) ?_ h0 h1 hq
    show StdMap.find (StdMap.erase st.frame_to_page_map v) v = none
    rw [StdMap.find_erase]
    simp

/-- The LRU loop from accumulator `acc`: the result is `acc` or comes from an entry, and its
time is a lower bound of `acc.1` and of every entry's time. -/
theorem lruScan_fold (st : SegmentTable) (l : StdMap (TableRef × Int)) (acc : Int × Int) :
    (l.foldl (fun acc e => if st.lastAccess e.2 < acc.1 then (st.lastAccess e.2, e.1) else acc)
        acc = acc ∨
      ∃ e ∈ l, l.foldl (fun acc e =>
        if st.lastAccess e.2 < acc.1 then (st.lastAccess e.2, e.1) else acc) acc =
          (st.lastAccess e.2, e.1)) ∧
    (l.foldl (fun acc e => if st.lastAccess e.2 < acc.1 then (st.lastAccess e.2, e.1) else acc)
        acc).1 ≤ acc.1 ∧
    ∀ e ∈ l, (l.foldl (fun acc e =>
        if st.lastAccess e.2 < acc.1 then (st.lastAccess e.2, e.1) else acc) acc).1 ≤
      st.lastAccess e.2 := by
  induction l generalizing acc with
  | nil => simp
  | cons e rest ih =>
    simp only [List.foldl_cons, List.mem_cons]
    by_cases hlt : st.lastAccess e.2 < acc.1
    · simp only [hlt, if_true]
      obtain ⟨ha, hb, hc⟩ := ih (st.lastAccess e.2, e.1)
      refine ⟨?_, ?_, ?_⟩
      · right
        rcases ha with ha | ⟨e', he', ha⟩
        · exact ⟨e, Or.inl rfl, ha⟩
        · exact ⟨e', Or.inr he', ha⟩
      · exact le_trans hb (le_of_lt hlt)
      · intro e' he'
        rcases he' with rfl | he'
        · exact hb
        · exact hc e' he'
    · simp only [hlt, if_false]
      obtain ⟨ha, hb, hc⟩ := ih acc
      refine ⟨?_, hb, ?_⟩
      · rcases ha with ha | ⟨e', he', ha⟩
        · exact Or.inl ha
        · exact Or.inr ⟨e', Or.inr he', ha⟩
      · intro e' he'
        rcases he' with rfl | he'
        · exact le_trans hb (not_lt.mp hlt)
        · exact hc e' he'

/-- The LRU victim is `-1` or a key of `frame_to_page_map`. -/
theorem lruScan_key (st : SegmentTable) (hv : (st.lruScan).2 ≠ -1) :
    ∃ val, StdMap.find st.frame_to_page_map (st.lruScan).2 = some val := by
  obtain ⟨ha, _, _⟩ := lruScan_fold st st.frame_to_page_map (INT_MAX, -1)
  rcases ha with ha | ⟨e, he, ha⟩
  · exfalso
    apply hv
    unfold lruScan
    rw [ha]
  · have hkey : (st.lruScan).2 = e.1 := by
      unfold lruScan
      rw [ha]
    rw [hkey]
    cases hfind : StdMap.find st.frame_to_page_map e.1 with
    | some val => exact ⟨val, rfl⟩
    | none =>
      exfalso
      rw [StdMap.find_eq_none_iff] at hfind
      exact hfind (List.mem_map_of_mem Prod.fst he)

/-- When some entry was accessed before `INT_MAX`, the LRU loop selects an entry. -/
theorem lruScan_found (st : SegmentTable) (e : Int × (TableRef × Int))
    (he : e ∈ st.frame_to_page_map) (hlt : st.lastAccess e.2 < INT_MAX) :
    ∃ e' ∈ st.frame_to_page_map, (st.lruScan).2 = e'.1 := by
  obtain ⟨ha, _, hc⟩ := lruScan_fold st st.frame_to_page_map (INT_MAX, -1)
  rcases ha with ha | ⟨e', he', ha⟩
  · exfalso
    have := hc e he
    rw [ha] at this
    simp only at this
    omega
  · exact ⟨e', he', by unfold lruScan; rw [ha]⟩

theorem firstFree_some (pm : PhysicalMemory) (i : Nat) (h : pm.firstFree = some i) :
    pm.free_frames.getD i false = true ∧ (i : Int) < pm.num_frames ∧
      ∀ j < i, pm.free_frames.getD j false = false := by
  unfold PhysicalMemory.firstFree at h
  rw [List.find?_range_eq_some] at h
  obtain ⟨a, b, c⟩ := h
  refine ⟨a, ?_, ?_⟩
  · have := List.mem_range.mp b
    omega
  · intro j hj
    have := c j hj
    simpa using this

theorem firstFree_none (pm : PhysicalMemory) (h : pm.firstFree = none) (i : Nat)
    (hi : (i : Int) < pm.num_frames) : pm.free_frames.getD i false = false := by
  unfold PhysicalMemory.firstFree at h
  rw [List.find?_eq_none] at h
  have := h i (List.mem_range.mpr (by omega))
  simpa using this

theorem evict_neg_one (st : SegmentTable) : st.evict (-1) = st := by
  simp [evict]

/-- The method `allocateFrame` keeps the invariant: on failure nothing is pending, on success the
returned frame is ready for binding. -/
theorem allocateFrame_inv (st : SegmentTable) (h : Inv (-1) st) :
    ((st.allocateFrame).1 = -1 → Inv (-1) (st.allocateFrame).2) ∧
    ((st.allocateFrame).1 ≠ -1 → Ready (st.allocateFrame).1 (st.allocateFrame).2) := by
  unfold allocateFrame
  cases hff : st.physMem.firstFree with
  | some i =>
    obtain ⟨hfree, hi, _⟩ := firstFree_some st.physMem i hff
    simp only
    refine ⟨fun hneg => by omega, fun _ => ?_⟩
    have hun : StdMap.find st.frame_to_page_map (i : Int) = none := by
      cases hfind : StdMap.find st.frame_to_page_map (i : Int) with
      | none => rfl
      | some val =>
        have := (h.keys i val hfind).2.2
        rw [Int.toNat_ofNat, hfree] at this
        cases this
    have h1 := inv_queue (i : Int) st (inv_hole_weaken (i : Int) st h)
      (if st.physMem.algo = ReplacementAlgorithm.FIFO then st.physMem.fifo_queue ++ [(i : Int)]
        else st.physMem.fifo_queue)
      (by intro f hf; split <;> simp [hf])
      (by
        intro f hf
        split at hf
        · rcases List.mem_append.mp hf with hf | hf
          · exact h.queue f hf
          · simp only [List.mem_singleton] at hf
            subst hf
            exact ⟨by omega, hi⟩
        · exact h.queue f hf)
    have h2 := ready_mark _ (i : Int) h1 hun (by omega) hi (by
      intro ha
      have ha' : st.physMem.algo = ReplacementAlgorithm.FIFO := ha
      show (i : Int) ∈ (if st.physMem.algo = ReplacementAlgorithm.FIFO then
        st.physMem.fifo_queue ++ [(i : Int)] else st.physMem.fifo_queue)
      simp [ha'])
    simpa using h2
  | none =>
    simp only
    by_cases ha : st.physMem.algo = ReplacementAlgorithm.FIFO
    · rw [if_pos ha]
      cases hq : st.physMem.fifo_queue with
      | nil =>
        simp only
        exact ⟨fun _ => h, fun hne => absurd rfl hne⟩
      | cons v rest =>
        simp only
        have hv := h.queue v (by rw [hq]; exact List.mem_cons_self _ _)
        have h1 := inv_queue (-1) st h (rest ++ [v])
          (by intro f hf; rw [hq] at hf; rcases List.mem_cons.mp hf with rfl | hf <;> simp [*])
          (by
            intro f hf
            apply h.queue
            rw [hq]
            rcases List.mem_append.mp hf with hf | hf
            · exact List.mem_cons_of_mem _ hf
            · simp only [List.mem_singleton] at hf
              simp [hf])
        refine ⟨fun hneg => by omega, fun _ => ?_⟩
        exact ready_evict _ h1 v hv.1 hv.2 (fun _ => by
          show v ∈ rest ++ [v]
          simp)
    · rw [if_neg ha]
      by_cases hv : (st.lruScan).2 = -1
      · rw [hv, evict_neg_one]
        exact ⟨fun _ => h, fun hne => absurd rfl hne⟩
      · obtain ⟨val, hfind⟩ := lruScan_key st hv
        obtain ⟨h0, h1, _⟩ := h.keys _ val hfind
        exact ⟨fun hneg => absurd hneg hv,
          fun _ => ready_evict st h _ h0 h1 (fun hf => absurd hf ha)⟩

/-- Fields `allocateFrame` never writes. -/
theorem allocateFrame_frame (st : SegmentTable) :
    (st.allocateFrame).2.physMem.time = st.physMem.time ∧
    (st.allocateFrame).2.physMem.num_frames = st.physMem.num_frames ∧
    (st.allocateFrame).2.physMem.algo = st.physMem.algo ∧
    (st.allocateFrame).2.segments = st.segments ∧
    (st.allocateFrame).2.page_size = st.page_size := by
  unfold allocateFrame
  cases hff : st.physMem.firstFree with
  | some i => exact ⟨rfl, rfl, rfl, rfl, rfl⟩
  | none =>
    simp only
    by_cases ha : st.physMem.algo = ReplacementAlgorithm.FIFO
    · rw [if_pos ha]
      cases hq : st.physMem.fifo_queue with
      | nil => exact ⟨rfl, rfl, rfl, rfl, rfl⟩
      | cons v rest =>
        simp only
        obtain ⟨a, b, c, _, d, e⟩ := evict_frame
          { st with physMem := { st.physMem with fifo_queue := rest ++ [v] } } v
        exact ⟨a, b, c, d, e⟩
    · rw [if_neg ha]
      obtain ⟨a, b, c, _, d, e⟩ := evict_frame st (st.lruScan).2
      exact ⟨a, b, c, d, e⟩

/-- Effect of `allocateFrame` on a page entry: none, or the invalidation of a mapped page. -/
theorem allocateFrame_pageAt (st : SegmentTable) (ref : TableRef) (p : Int) :
    (st.allocateFrame).2.pageAt ref p = st.pageAt ref p ∨
    ((∃ v, StdMap.find st.frame_to_page_map v = some (ref, p)) ∧
      (st.allocateFrame).2.pageAt ref p =
        (st.pageAt ref p).map (fun pg => { pg with frame_number := -1, present := false })) := by
  unfold allocateFrame
  cases hff : st.physMem.firstFree with
  | some i => exact Or.inl rfl
  | none =>
    simp only
    by_cases ha : st.physMem.algo = ReplacementAlgorithm.FIFO
    · rw [if_pos ha]
      cases hq : st.physMem.fifo_queue with
      | nil => exact Or.inl rfl
      | cons v rest =>
        simp only
        rw [pageAt_evict]
        split
        · rename_i hc
          exact Or.inr ⟨⟨v, hc.2⟩, rfl⟩
        · exact Or.inl rfl
    · rw [if_neg ha]
      rw [pageAt_evict]
      split
      · rename_i hc
        exact Or.inr ⟨⟨_, hc.2⟩, rfl⟩
      · exact Or.inl rfl

/-- The call `pt->setFrame` on an existing page, spelled out. -/
theorem setFrameAt_of_page (st : SegmentTable) (ref : TableRef) (q f : Int) (prot : Protection)
    (time : Int) (pg0 : Page) (hq : st.pageAt ref q = some pg0) :
    ∃ t, st.table? ref = some t ∧
      (t.setFrame ref q f prot time st.frame_to_page_map).1.pages = t.pages.set q.toNat
        { pg0 with frame_number := f, present := true, protection := prot,
                   last_access_time := time } ∧
      st.setFrameAt ref q f prot time =
        { st.updTable ref (fun _ => (t.setFrame ref q f prot time st.frame_to_page_map).1) with
          frame_to_page_map := StdMap.insert f (ref, q) st.frame_to_page_map } := by
  obtain ⟨t, ht, h0, h1, _, hpage⟩ := pageAt_some st ref q pg0 hq
  refine ⟨t, ht, ?_, ?_⟩
  · simp [PageTable.setFrame, PageTable.setPage, h0, h1, hpage]
  · simp [setFrameAt, ht, PageTable.setFrame, h0, h1]

theorem pageAt_setFrameAt (st : SegmentTable) (ref : TableRef) (q f : Int) (prot : Protection)
    (time : Int) (pg0 : Page) (hq : st.pageAt ref q = some pg0) (ref' : TableRef) (p : Int) :
    (st.setFrameAt ref q f prot time).pageAt ref' p =
      if ref' = ref ∧ p = q then
        some { pg0 with frame_number := f, present := true, protection := prot,
                        last_access_time := time }
      else st.pageAt ref' p := by
  obtain ⟨t, ht, hpages, heq⟩ := setFrameAt_of_page st ref q f prot time pg0 hq
  rw [heq]
  exact pageAt_updTable_set st ref q
    (fun _ => (t.setFrame ref q f prot time st.frame_to_page_map).1)
    (fun _ => { pg0 with frame_number := f, present := true, protection := prot,
                         last_access_time := time }) t pg0 ht hq hpages ref' p

theorem setFrameAt_frame (st : SegmentTable) (ref : TableRef) (q f : Int) (prot : Protection)
    (time : Int) (pg0 : Page) (hq : st.pageAt ref q = some pg0) :
    (st.setFrameAt ref q f prot time).physMem = st.physMem ∧
    (st.setFrameAt ref q f prot time).segments = st.segments ∧
    (st.setFrameAt ref q f prot time).page_size = st.page_size ∧
    (st.setFrameAt ref q f prot time).frame_to_page_map =
      StdMap.insert f (ref, q) st.frame_to_page_map := by
  obtain ⟨t, ht, hpages, heq⟩ := setFrameAt_of_page st ref q f prot time pg0 hq
  rw [heq]
  exact ⟨rfl, rfl, rfl, rfl⟩

/-- Binding a ready frame to a page that is not present restores the full invariant. -/
theorem inv_bind (st : SegmentTable) (f : Int) (h : Ready f st) (ref : TableRef) (q : Int)
    (prot : Protection) (pg0 : Page) (hq : st.pageAt ref q = some pg0)
    (habs : pg0.present = false) :
    Inv (-1) (st.setFrameAt ref q f prot st.physMem.time) := by
  have key := pageAt_setFrameAt st ref q f prot st.physMem.time pg0 hq
  obtain ⟨hpm, _, _, hmap⟩ := setFrameAt_frame st ref q f prot st.physMem.time pg0 hq
  have hi := h.inv
  refine ⟨?_, ?_, ?_, ?_, ?_, ?_, ?_, ?_⟩
  · intro ref' p pg hp hpr
    rw [key] at hp
    rw [hmap, StdMap.find_insert]
    by_cases hc : ref' = ref ∧ p = q
    · obtain ⟨rfl, rfl⟩ := hc
      simp only [and_self, if_true, Option.some.injEq] at hp
      subst hp
      simp
    · simp only [hc, if_false] at hp
      have h1 := hi.fwd ref' p pg hp hpr
      have hne : pg.frame_number ≠ f := by
        intro e
        rw [e, h.unmapped] at h1
        cases h1
      simp [hne, h1]
  · intro g ref' p hfind
    rw [hmap, StdMap.find_insert] at hfind
    by_cases hg : g = f
    · subst hg
      simp only [if_true, Option.some.injEq, Prod.mk.injEq] at hfind
      obtain ⟨rfl, rfl⟩ := hfind
      exact ⟨{ pg0 with frame_number := g, present := true, protection := prot,
                        last_access_time := st.physMem.time }, by rw [key]; simp, rfl, rfl⟩
    · simp only [hg, if_false] at hfind
      obtain ⟨pg, hpg, hpr, hfr⟩ := hi.bwd g ref' p hfind
      have hc : ¬ (ref' = ref ∧ p = q) := by
        rintro ⟨rfl, rfl⟩
        rw [hq] at hpg
        cases hpg
        rw [habs] at hpr
        cases hpr
      exact ⟨pg, by rw [key]; simp only [hc, if_false]; exact hpg, hpr, hfr⟩
  · intro g val hfind
    rw [hmap, StdMap.find_insert] at hfind
    rw [hpm]
    by_cases hg : g = f
    · subst hg
      exact ⟨h.lo, h.hi, h.occupied⟩
    · simp only [hg, if_false] at hfind
      exact hi.keys g val hfind
  · rw [hpm]; exact hi.queue
  · rw [hpm]; exact hi.len
  · intro i _ hlt hocc
    rw [hpm] at hlt hocc
    rw [hmap, StdMap.find_insert]
    by_cases hg : (i : Int) = f
    · simp [hg]
    · simp only [hg, if_false]
      exact hi.occ i hg hlt hocc
  · rw [hpm]; exact hi.fifo
  · intro ref' p pg hp hpr
    rw [key] at hp
    rw [hpm]
    by_cases hc : ref' = ref ∧ p = q
    · simp only [hc, and_self, if_true, Option.some.injEq] at hp
      subst hp
      exact le_refl _
    · simp only [hc, if_false] at hp
      exact hi.times ref' p pg hp hpr

/-! ## The three outcomes of `translateAddress` once the checks pass -/

theorem checks_table {st : SegmentTable} {segNum pageDir pageNum offset : Int}
    {accessType : Protection} {dir : PageDirectory} {pt : PageTable}
    (c : Checks st segNum pageDir pageNum offset accessType dir pt) :
    st.tick.table? (segNum, pageDir) = some pt := by
  have h1 := c.directory
  have h2 := c.table
  unfold PageDirectory.getPageTable at h2
  simp [SegmentTable.table?, SegmentTable.tick, h1, h2]

theorem checks_pageAt {st : SegmentTable} {segNum pageDir pageNum offset : Int}
    {accessType : Protection} {dir : PageDirectory} {pt : PageTable}
    (c : Checks st segNum pageDir pageNum offset accessType dir pt) :
    st.tick.pageAt (segNum, pageDir) pageNum = some (pt.page pageNum) :=
  pageAt_of_table _ _ _ pt (checks_table c) c.page_lo c.page_hi

/-- A write to a read-only page: the page-level protection violation, state untouched. -/
theorem translateAddress_page_protection (st : SegmentTable)
    (segNum pageDir pageNum offset : Int) (accessType : Protection) (rnd : Nat)
    (dir : PageDirectory) (pt : PageTable)
    (c : Checks st segNum pageDir pageNum offset accessType dir pt)
    (hw : accessType = Protection.READ_WRITE)
    (hro : (pt.page pageNum).protection = Protection.READ_ONLY) :
    st.translateAddress segNum pageDir pageNum offset accessType rnd =
      (⟨-1, 1 + (rnd : Int) % 5, Fault.PageProtection⟩, st.tick) := by
  have hseg : ¬ (segNum < 0 ∨ segNum ≥ (st.tick.segments.length : Int)) := by
    have := c.seg_lo; have := c.seg_hi
    show ¬ (segNum < 0 ∨ segNum ≥ (st.segments.length : Int))
    omega
  have hsp : ¬ (accessType = Protection.READ_WRITE ∧
      (st.tick.segments.getD segNum.toNat default).protection = Protection.READ_ONLY) := c.seg_prot
  have hdir : StdMap.find st.tick.segment_directories segNum = some dir := c.directory
  have hpg : ¬ (pageNum < 0 ∨ pageNum ≥ (pt.pages.length : Int)) := by
    have := c.page_lo; have := c.page_hi; omega
  have hoff : ¬ (offset < 0 ∨ offset ≥ pt.page_size) := by
    have := c.off_lo; have := c.off_hi; omega
  have hr : pt.getFrameNumber pageNum st.tick.physMem.time accessType Fault.OK =
      (-1, Fault.PageProtection, pt) := by
    simp [PageTable.getFrameNumber, hpg, hw, hro]
  have hupd : st.tick.updTable (segNum, pageDir) (fun _ => pt) = st.tick :=
    updTable_eq_self _ _ (fun _ => pt) pt (checks_table c) rfl
  unfold translateAddress
  simp only [hseg, hsp, hdir, c.table, hpg, hoff, hr, if_false, if_true, hupd]

/-- A miss: the page is not present, so a frame is requested and bound. -/
theorem translateAddress_miss (st : SegmentTable)
    (segNum pageDir pageNum offset : Int) (accessType : Protection) (rnd : Nat)
    (dir : PageDirectory) (pt : PageTable)
    (c : Checks st segNum pageDir pageNum offset accessType dir pt)
    (hpp : ¬ (accessType = Protection.READ_WRITE ∧
      (pt.page pageNum).protection = Protection.READ_ONLY))
    (habs : (pt.page pageNum).present = false) :
    st.translateAddress segNum pageDir pageNum offset accessType rnd =
      if (st.tick.allocateFrame).1 = -1 then
        (⟨-1, 1 + (rnd : Int) % 5 + 100, Fault.ReplacementFailed⟩, (st.tick.allocateFrame).2)
      else
        (⟨(st.tick.allocateFrame).1 * pt.page_size + offset, 1 + (rnd : Int) % 5 + 100,
            Fault.PageNotInMemory⟩,
          (st.tick.allocateFrame).2.setFrameAt (segNum, pageDir) pageNum
            (st.tick.allocateFrame).1 (st.segments.getD segNum.toNat default).protection
            (st.tick.allocateFrame).2.physMem.time) := by
  have hseg : ¬ (segNum < 0 ∨ segNum ≥ (st.tick.segments.length : Int)) := by
    have := c.seg_lo; have := c.seg_hi
    show ¬ (segNum < 0 ∨ segNum ≥ (st.segments.length : Int))
    omega
  have hsp : ¬ (accessType = Protection.READ_WRITE ∧
      (st.tick.segments.getD segNum.toNat default).protection = Protection.READ_ONLY) := c.seg_prot
  have hdir : StdMap.find st.tick.segment_directories segNum = some dir := c.directory
  have hpg : ¬ (pageNum < 0 ∨ pageNum ≥ (pt.pages.length : Int)) := by
    have := c.page_lo; have := c.page_hi; omega
  have hoff : ¬ (offset < 0 ∨ offset ≥ pt.page_size) := by
    have := c.off_lo; have := c.off_hi; omega
  have hr : pt.getFrameNumber pageNum st.tick.physMem.time accessType Fault.OK =
      (-2, Fault.PageNotInMemory, pt) := by
    simp only [PageTable.getFrameNumber, hpg, hpp, habs, if_false, if_true]
  have h12 : ¬ ((-2 : Int) = -1) := by decide
  have hupd : st.tick.updTable (segNum, pageDir) (fun _ => pt) = st.tick :=
    updTable_eq_self _ _ (fun _ => pt) pt (checks_table c) rfl
  unfold translateAddress
  simp only [hseg, hsp, hdir, c.table, hpg, hoff, hr, if_false, if_true, h12, hupd]
  rfl

/-- A hit: the page is present, its access time is rewritten and its frame is used. -/
theorem translateAddress_hit (st : SegmentTable)
    (segNum pageDir pageNum offset : Int) (accessType : Protection) (rnd : Nat)
    (dir : PageDirectory) (pt : PageTable)
    (c : Checks st segNum pageDir pageNum offset accessType dir pt)
    (hpp : ¬ (accessType = Protection.READ_WRITE ∧
      (pt.page pageNum).protection = Protection.READ_ONLY))
    (hpres : (pt.page pageNum).present = true)
    (h1 : (pt.page pageNum).frame_number ≠ -1) (h2 : (pt.page pageNum).frame_number ≠ -2) :
    st.translateAddress segNum pageDir pageNum offset accessType rnd =
      (⟨(pt.page pageNum).frame_number * pt.page_size + offset, 1 + (rnd : Int) % 5, Fault.OK⟩,
        st.tick.updTable (segNum, pageDir) (fun _ =>
          pt.setPage pageNum { pt.page pageNum with last_access_time := st.physMem.time + 1 })) := by
  have hseg : ¬ (segNum < 0 ∨ segNum ≥ (st.tick.segments.length : Int)) := by
    have := c.seg_lo; have := c.seg_hi
    show ¬ (segNum < 0 ∨ segNum ≥ (st.segments.length : Int))
    omega
  have hsp : ¬ (accessType = Protection.READ_WRITE ∧
      (st.tick.segments.getD segNum.toNat default).protection = Protection.READ_ONLY) := c.seg_prot
  have hdir : StdMap.find st.tick.segment_directories segNum = some dir := c.directory
  have hpg : ¬ (pageNum < 0 ∨ pageNum ≥ (pt.pages.length : Int)) := by
    have := c.page_lo; have := c.page_hi; omega
  have hoff : ¬ (offset < 0 ∨ offset ≥ pt.page_size) := by
    have := c.off_lo; have := c.off_hi; omega
  have hnabs : ¬ ((pt.page pageNum).present = false) := by simp [hpres]
  have hr : pt.getFrameNumber pageNum st.tick.physMem.time accessType Fault.OK =
      ((pt.page pageNum).frame_number, Fault.OK,
        pt.setPage pageNum { pt.page pageNum with last_access_time := st.physMem.time + 1 }) := by
    simp only [PageTable.getFrameNumber, hpg, hpp, hnabs, if_false]
    rfl
  unfold translateAddress
  simp only [hseg, hsp, hdir, c.table, hpg, hoff, hr, if_false, h1, h2]

/-- Either every check passes, or the call is rejected with only the clock advanced. -/
theorem translateAddress_checked_or_rejected (st : SegmentTable)
    (segNum pageDir pageNum offset : Int) (accessType : Protection) (rnd : Nat) :
    (∃ dir pt, Checks st segNum pageDir pageNum offset accessType dir pt) ∨
    ((st.translateAddress segNum pageDir pageNum offset accessType rnd).2 = st.tick ∧
     (st.translateAddress segNum pageDir pageNum offset accessType rnd).1.ret = -1 ∧
     (st.translateAddress segNum pageDir pageNum offset accessType rnd).1.latency =
       1 + (rnd : Int) % 5) := by
  by_cases hseg : segNum < 0 ∨ segNum ≥ (st.tick.segments.length : Int)
  · right
    unfold translateAddress
    simp only [hseg, if_true, and_self]
  by_cases hsp : accessType = Protection.READ_WRITE ∧
      (st.tick.segments.getD segNum.toNat default).protection = Protection.READ_ONLY
  · right
    unfold translateAddress
    simp only [hseg, hsp, and_self, if_true, if_false]
  cases hdir : StdMap.find st.tick.segment_directories segNum with
  | none =>
    right
    unfold translateAddress
    simp only [hseg, hsp, hdir, if_false, and_self]
  | some dir =>
    cases htab : dir.getPageTable pageDir with
    | none =>
      right
      unfold translateAddress
      simp only [hseg, hsp, hdir, htab, if_false, and_self]
    | some pt =>
      by_cases hpg : pageNum < 0 ∨ pageNum ≥ (pt.pages.length : Int)
      · right
        unfold translateAddress
        simp only [hseg, hsp, hdir, htab, hpg, if_false, if_true, and_self]
      by_cases hoff : offset < 0 ∨ offset ≥ pt.page_size
      · right
        unfold translateAddress
        simp only [hseg, hsp, hdir, htab, hpg, hoff, if_false, if_true, and_self]
      left
      have hseg' : ¬ (segNum < 0 ∨ segNum ≥ (st.segments.length : Int)) := hseg
      exact ⟨dir, pt, ⟨by omega, by omega, hsp, hdir, htab, by omega, by omega, by omega,
        by omega⟩⟩

/-- Every `translateAddress` call keeps the invariant. -/
theorem translateAddress_inv (st : SegmentTable) (h : Inv (-1) st)
    (segNum pageDir pageNum offset : Int) (accessType : Protection) (rnd : Nat) :
    Inv (-1) (st.translateAddress segNum pageDir pageNum offset accessType rnd).2 := by
  have ht := inv_tick (-1) st h
  rcases translateAddress_checked_or_rejected st segNum pageDir pageNum offset accessType rnd
    with ⟨dir, pt, c⟩ | ⟨hrej, _, _⟩
  · have hpage := checks_pageAt c
    by_cases hpp : accessType = Protection.READ_WRITE ∧
        (pt.page pageNum).protection = Protection.READ_ONLY
    · rw [translateAddress_page_protection st _ _ _ _ _ rnd dir pt c hpp.1 hpp.2]
      exact ht
    by_cases hpres : (pt.page pageNum).present = true
    · have hmap := ht.fwd _ _ _ hpage hpres
      obtain ⟨h0, _, _⟩ := ht.keys _ _ hmap
      rw [translateAddress_hit st _ _ _ _ _ rnd dir pt c hpp hpres (by omega) (by omega)]
      exact inv_touch (-1) st.tick ht (segNum, pageDir) pageNum _ pt (pt.page pageNum)
        (checks_table c) hpage hpres rfl
    · have habs : (pt.page pageNum).present = false := by
        cases hb : (pt.page pageNum).present
        · rfl
        · exact absurd hb hpres
      rw [translateAddress_miss st _ _ _ _ _ rnd dir pt c hpp habs]
      obtain ⟨hfail, hok⟩ := allocateFrame_inv st.tick ht
      by_cases ha : (st.tick.allocateFrame).1 = -1
      · rw [if_pos ha]
        exact hfail ha
      · rw [if_neg ha]
        have hstill : (st.tick.allocateFrame).2.pageAt (segNum, pageDir) pageNum =
            some (pt.page pageNum) := by
          rcases allocateFrame_pageAt st.tick (segNum, pageDir) pageNum with hsame | ⟨⟨v, hv⟩, _⟩
          · rw [hsame]; exact hpage
          · obtain ⟨pg, hpg, hpr, _⟩ := ht.bwd v _ _ hv
            rw [hpage] at hpg
            cases hpg
            rw [habs] at hpr
            cases hpr
        exact inv_bind _ _ (hok ha) (segNum, pageDir) pageNum _ (pt.page pageNum) hstill habs
  · rw [hrej]
    exact ht

theorem run_inv (st : SegmentTable) (h : Inv (-1) st) (reqs : List Request) :
    Inv (-1) (st.run reqs) := by
  induction reqs generalizing st with
  | nil => exact h
  | cons q qs ih => exact ih _ (translateAddress_inv st h _ _ _ _ _ _)

/-! ## The freshly configured manager -/

theorem new_pages_absent (numPages pSize : Int) (rnd : Nat → Nat) (t : PageTable)
    (h : PageTable.new numPages pSize rnd = some t) : ∀ pg ∈ t.pages, pg.present = false := by
  unfold PageTable.new at h
  by_cases hn : numPages < 0
  · simp [hn] at h
  · simp only [hn, if_false, Option.some.injEq] at h
    subst h
    intro pg hpg
    simp only [List.mem_map] at hpg
    obtain ⟨k, _, rfl⟩ := hpg
    rfl

theorem addTables_absent (tableSize pageSize : Int) (rnd : Nat → Nat → Nat) (idxs : List Nat)
    (d d' : PageDirectory)
    (hd : ∀ i t, StdMap.find d.page_tables i = some t → ∀ pg ∈ t.pages, pg.present = false)
    (h : addTables d tableSize pageSize rnd idxs = some d') :
    ∀ i t, StdMap.find d'.page_tables i = some t → ∀ pg ∈ t.pages, pg.present = false := by
  induction idxs generalizing d with
  | nil =>
    simp only [addTables, Option.some.injEq] at h
    subst h
    exact hd
  | cons i0 rest ih =>
    simp only [addTables, PageDirectory.addPageTable] at h
    cases hnew : PageTable.new tableSize pageSize (rnd i0) with
    | none => simp [hnew] at h
    | some t0 =>
      simp only [hnew, Option.map_some', Option.some_bind] at h
      refine ih _ ?_ h
      intro i t hfind
      simp only [StdMap.find_insert] at hfind
      by_cases hi : i = (i0 : Int)
      · simp only [hi, if_true, Option.some.injEq] at hfind
        subst hfind
        exact new_pages_absent _ _ _ _ hnew
      · simp only [hi, if_false] at hfind
        exact hd i t hfind

/-- What `addSegment` preserves: the pool, the global map, and absence of every page. -/
theorem addSegment_fresh (st st' : SegmentTable) (id base limit : Int) (prot : Protection)
    (dirSize tableSize : Int) (rnd : Nat → Nat → Nat)
    (hd : ∀ k d, StdMap.find st.segment_directories k = some d →
      ∀ i t, StdMap.find d.page_tables i = some t → ∀ pg ∈ t.pages, pg.present = false)
    (h : st.addSegment id base limit prot dirSize tableSize rnd = some st') :
    st'.physMem = st.physMem ∧ st'.frame_to_page_map = st.frame_to_page_map ∧
    st'.page_size = st.page_size ∧
    (∀ k d, StdMap.find st'.segment_directories k = some d →
      ∀ i t, StdMap.find d.page_tables i = some t → ∀ pg ∈ t.pages, pg.present = false) := by
  unfold addSegment at h
  cases hadd : addTables (PageDirectory.new tableSize) tableSize st.page_size rnd
      (List.range dirSize.toNat) with
  | none => simp [hadd] at h
  | some d0 =>
    simp only [hadd, Option.map_some', Option.some.injEq] at h
    subst h
    refine ⟨rfl, rfl, rfl, ?_⟩
    intro k d hfind
    simp only [StdMap.find_insert] at hfind
    by_cases hk : k = id
    · simp only [hk, if_true, Option.some.injEq] at hfind
      subst hfind
      exact addTables_absent _ _ _ _ _ _ (by intro i t hf; simp [PageDirectory.new, StdMap.find] at hf)
        hadd
    · simp only [hk, if_false] at hfind
      exact hd k d hfind

theorem addSegments_fresh (cs : List SegmentConfig) (st st' : SegmentTable)
    (hd : ∀ k d, StdMap.find st.segment_directories k = some d →
      ∀ i t, StdMap.find d.page_tables i = some t → ∀ pg ∈ t.pages, pg.present = false)
    (h : st.addSegments cs = some st') :
    st'.physMem = st.physMem ∧ st'.frame_to_page_map = st.frame_to_page_map ∧
    st'.page_size = st.page_size ∧
    (∀ k d, StdMap.find st'.segment_directories k = some d →
      ∀ i t, StdMap.find d.page_tables i = some t → ∀ pg ∈ t.pages, pg.present = false) := by
  induction cs generalizing st with
  | nil =>
    simp only [addSegments, Option.some.injEq] at h
    subst h
    exact ⟨rfl, rfl, rfl, hd⟩
  | cons c rest ih =>
    simp only [addSegments] at h
    cases h1 : st.addSegment c.id c.base c.limit c.prot c.dirSize c.tableSize c.rnd with
    | none => simp [h1] at h
    | some st1 =>
      simp only [h1, Option.some_bind] at h
      obtain ⟨a, b, c1, d1⟩ := addSegment_fresh st st1 _ _ _ _ _ _ _ hd h1
      obtain ⟨a', b', c', d'⟩ := ih st1 d1 h
      exact ⟨a'.trans a, b'.trans b, c'.trans c1, d'⟩

/-- What a configured manager looks like before the first request. -/
theorem configure_fresh (numFrames pSize : Int) (algo : ReplacementAlgorithm)
    (cs : List SegmentConfig) (st : SegmentTable)
    (h : configure numFrames pSize algo cs = some st) :
    0 ≤ numFrames ∧
    st.physMem = { num_frames := numFrames, free_frames := List.replicate numFrames.toNat true,
                   fifo_queue := [], time := 0, algo := algo } ∧
    st.frame_to_page_map = [] ∧ st.page_size = pSize ∧
    (∀ ref p pg, st.pageAt ref p = some pg → pg.present = false) := by
  unfold configure SegmentTable.new PhysicalMemory.new at h
  by_cases hn : numFrames < 0
  · simp [hn] at h
  · simp only [hn, if_false, Option.map_some', Option.some_bind] at h
    obtain ⟨a, b, c, d⟩ := addSegments_fresh cs _ st
      (by intro k d hf; simp [StdMap.find] at hf) h
    refine ⟨by omega, a, b, c, ?_⟩
    intro ref p pg hp
    obtain ⟨t, ht, _, _, hget, _⟩ := pageAt_some st ref p pg hp
    unfold table? at ht
    cases hdir : StdMap.find st.segment_directories ref.1 with
    | none => simp [hdir] at ht
    | some dir =>
      simp only [hdir, Option.some_bind] at ht
      exact d _ dir hdir _ t ht pg (List.getElem?_mem hget)

theorem getD_replicate_true (n i : Nat) (hi : i < n) :
    (List.replicate n true).getD i false = true := by
  simp [List.getD_eq_getElem?_getD, List.getElem?_replicate, hi]

/-- A freshly configured manager satisfies the invariant. -/
theorem configured_inv (st : SegmentTable) (h : Configured st) : Inv (-1) st := by
  obtain ⟨numFrames, pSize, algo, cs, _, hcfg⟩ := h
  obtain ⟨h0, hpm, hmap, _, habs⟩ := configure_fresh numFrames pSize algo cs st hcfg
  refine ⟨?_, ?_, ?_, ?_, ?_, ?_, ?_, ?_⟩
  · intro ref p pg hp hpr
    rw [habs ref p pg hp] at hpr
    cases hpr
  · intro f ref p hf
    rw [hmap] at hf
    simp [StdMap.find] at hf
  · intro f v hf
    rw [hmap] at hf
    simp [StdMap.find] at hf
  · intro f hf
    rw [hpm] at hf
    simp at hf
  · rw [hpm]
    simp
  · intro i _ hi hocc
    rw [hpm] at hi hocc
    simp only at hi hocc
    rw [getD_replicate_true _ _ (by omega)] at hocc
    cases hocc
  · intro _ i hi hocc
    rw [hpm] at hi hocc
    simp only at hi hocc
    rw [getD_replicate_true _ _ (by omega)] at hocc
    cases hocc
  · intro ref p pg hp hpr
    rw [habs ref p pg hp] at hpr
    cases hpr

theorem reachable_inv (st : SegmentTable) (h : Configured st) (reqs : List Request) :
    Inv (-1) (st.run reqs) :=
  run_inv st (configured_inv st h) reqs

end SegmentTable

namespace SegmentTable

/-- A present page, whatever its frame number: the access time is rewritten, then the frame
number decides between the `-1` return, the page-fault path and the plain hit. -/
theorem translateAddress_present (st : SegmentTable)
    (segNum pageDir pageNum offset : Int) (accessType : Protection) (rnd : Nat)
    (dir : PageDirectory) (pt : PageTable)
    (c : Checks st segNum pageDir pageNum offset accessType dir pt)
    (hpp : ¬ (accessType = Protection.READ_WRITE ∧
      (pt.page pageNum).protection = Protection.READ_ONLY))
    (hpres : (pt.page pageNum).present = true) :
    st.translateAddress segNum pageDir pageNum offset accessType rnd =
      if (pt.page pageNum).frame_number = -1 then
        (⟨-1, 1 + (rnd : Int) % 5, Fault.OK⟩,
          st.tick.updTable (segNum, pageDir) (fun _ =>
            pt.setPage pageNum { pt.page pageNum with last_access_time := st.physMem.time + 1 }))
      else if (pt.page pageNum).frame_number = -2 then
        if ((st.tick.updTable (segNum, pageDir) (fun _ =>
            pt.setPage pageNum { pt.page pageNum with last_access_time := st.physMem.time + 1 })
            ).allocateFrame).1 = -1 then
          (⟨-1, 1 + (rnd : Int) % 5 + 100, Fault.ReplacementFailed⟩,
            ((st.tick.updTable (segNum, pageDir) (fun _ =>
              pt.setPage pageNum { pt.page pageNum with last_access_time := st.physMem.time + 1 })
              ).allocateFrame).2)
        else
          (⟨((st.tick.updTable (segNum, pageDir) (fun _ =>
              pt.setPage pageNum { pt.page pageNum with last_access_time := st.physMem.time + 1 })
              ).allocateFrame).1 * pt.page_size + offset, 1 + (rnd : Int) % 5 + 100, Fault.OK⟩,
            ((st.tick.updTable (segNum, pageDir) (fun _ =>
              pt.setPage pageNum { pt.page pageNum with last_access_time := st.physMem.time + 1 })
              ).allocateFrame).2.setFrameAt (segNum, pageDir) pageNum
              ((st.tick.updTable (segNum, pageDir) (fun _ =>
                pt.setPage pageNum { pt.page pageNum with last_access_time := st.physMem.time + 1 })
                ).allocateFrame).1
              (st.segments.getD segNum.toNat default).protection
              ((st.tick.updTable (segNum, pageDir) (fun _ =>
                pt.setPage pageNum { pt.page pageNum with last_access_time := st.physMem.time + 1 })
                ).allocateFrame).2.physMem.time)
      else
        (⟨(pt.page pageNum).frame_number * pt.page_size + offset, 1 + (rnd : Int) % 5, Fault.OK⟩,
          st.tick.updTable (segNum, pageDir) (fun _ =>
            pt.setPage pageNum { pt.page pageNum with last_access_time := st.physMem.time + 1 })) := by
  have hseg : ¬ (segNum < 0 ∨ segNum ≥ (st.tick.segments.length : Int)) := by
    have := c.seg_lo; have := c.seg_hi
    show ¬ (segNum < 0 ∨ segNum ≥ (st.segments.length : Int))
    omega
  have hsp : ¬ (accessType = Protection.READ_WRITE ∧
      (st.tick.segments.getD segNum.toNat default).protection = Protection.READ_ONLY) := c.seg_prot
  have hdir : StdMap.find st.tick.segment_directories segNum = some dir := c.directory
  have hpg : ¬ (pageNum < 0 ∨ pageNum ≥ (pt.pages.length : Int)) := by
    have := c.page_lo; have := c.page_hi; omega
  have hoff : ¬ (offset < 0 ∨ offset ≥ pt.page_size) := by
    have := c.off_lo; have := c.off_hi; omega
  have hnabs : ¬ ((pt.page pageNum).present = false) := by simp [hpres]
  have hr : pt.getFrameNumber pageNum st.tick.physMem.time accessType Fault.OK =
      ((pt.page pageNum).frame_number, Fault.OK,
        pt.setPage pageNum { pt.page pageNum with last_access_time := st.physMem.time + 1 }) := by
    simp only [PageTable.getFrameNumber, hpg, hpp, hnabs, if_false]
    rfl
  unfold translateAddress
  simp only [hseg, hsp, hdir, c.table, hpg, hoff, hr, if_false]
  rfl

/-- After `allocateFrame` and `setFrame`, the addressed page holds the allocated frame. -/
theorem pageAt_after_bind (s : SegmentTable) (ref : TableRef) (q : Int) (prot : Protection)
    (time : Int) (pg0 : Page) (hq : s.pageAt ref q = some pg0) :
    ∃ pg, ((s.allocateFrame).2.setFrameAt ref q (s.allocateFrame).1 prot time).pageAt ref q =
        some pg ∧ pg.frame_number = (s.allocateFrame).1 ∧ pg.present = true := by
  have hex : ∃ pg1, (s.allocateFrame).2.pageAt ref q = some pg1 := by
    rcases allocateFrame_pageAt s ref q with hsame | ⟨_, hinv⟩
    · exact ⟨pg0, by rw [hsame]; exact hq⟩
    · exact ⟨_, by rw [hinv, hq]; rfl⟩
  obtain ⟨pg1, hpg1⟩ := hex
  refine ⟨{ pg1 with frame_number := (s.allocateFrame).1, present := true, protection := prot,
                     last_access_time := time }, ?_, rfl, rfl⟩
  rw [pageAt_setFrameAt _ ref q _ prot time pg1 hpg1]
  simp

/-- With a frame in the pool and, under LRU, every recorded access time below `INT_MAX`,
`allocateFrame` does not fail. -/
theorem allocateFrame_succeeds (s : SegmentTable) (h : Inv (-1) s)
    (hn : 1 ≤ s.physMem.num_frames)
    (ht : s.physMem.algo = ReplacementAlgorithm.LRU → ∀ ref p pg, s.pageAt ref p = some pg →
      pg.present = true → pg.last_access_time < INT_MAX) :
    (s.allocateFrame).1 ≠ -1 := by
  unfold allocateFrame
  cases hff : s.physMem.firstFree with
  | some i =>
    simp only
    omega
  | none =>
    simp only
    have hocc0 := firstFree_none s.physMem hff 0 (by simpa using hn)
    by_cases ha : s.physMem.algo = ReplacementAlgorithm.FIFO
    · rw [if_pos ha]
      have hmem := h.fifo ha 0 (by simpa using hn) hocc0
      cases hq : s.physMem.fifo_queue with
      | nil =>
        rw [hq] at hmem
        simp at hmem
      | cons v rest =>
        simp only
        have := h.queue v (by rw [hq]; exact List.mem_cons_self _ _)
        omega
    · rw [if_neg ha]
      simp only
      have hfind := h.occ 0 (by simp) (by simpa using hn) hocc0
      cases hf : StdMap.find s.frame_to_page_map ((0 : Nat) : Int) with
      | none => exact absurd hf hfind
      | some val =>
        obtain ⟨r, q⟩ := val
        obtain ⟨pg, hpg, hpr, _⟩ := h.bwd _ r q hf
        obtain ⟨t, htab, _, _, _, hpage⟩ := pageAt_some s r q pg hpg
        have hla : s.lastAccess (r, q) < INT_MAX := by
          simp only [lastAccess, htab, hpage]
          have hlru : s.physMem.algo = ReplacementAlgorithm.LRU := by
            cases halgo : s.physMem.algo
            · exact absurd halgo ha
            · rfl
          exact ht hlru r q pg hpg hpr
        obtain ⟨e', he', hkey⟩ := lruScan_found s (_, (r, q)) (StdMap.mem_of_find _ _ _ hf) hla
        rw [hkey]
        cases hf' : StdMap.find s.frame_to_page_map e'.1 with
        | none =>
          rw [StdMap.find_eq_none_iff] at hf'
          exact absurd (List.mem_map_of_mem Prod.fst he') hf'
        | some val' =>
          have := (h.keys _ val' hf').1
          omega

end SegmentTable

/-! ## Frame ownership -/

/-- C1: from a manager configured with pairwise distinct segment ids, after every finite
sequence of `translateAddress` calls (either policy, any arguments) no two distinct
(table, page) pairs are both present with the same `frame_number`. -/
theorem C1_no_frame_aliasing (st0 : SegmentTable) (h : Configured st0) (reqs : List Request) :
    NoAliasing (st0.run reqs) := by
  have hinv := SegmentTable.reachable_inv st0 h reqs
  intro ref1 ref2 p1 p2 pg1 pg2 h1 h2 hp1 hp2 hfr
  have e1 := hinv.fwd ref1 p1 pg1 h1 hp1
  have e2 := hinv.fwd ref2 p2 pg2 h2 hp2
  rw [hfr, e2] at e1
  exact (Option.some.inj e1).symm

/-- C1 at the example manager after the example requests. -/
theorem C1_no_frame_aliasing_witness : NoAliasing (exampleManager.run exampleRequests) :=
  C1_no_frame_aliasing exampleManager ⟨2, 16, ReplacementAlgorithm.FIFO, exampleSegments,
    by decide, rfl⟩ exampleRequests

/-- C2: after every finite sequence of `translateAddress` calls on a freshly configured manager,
page `p` of table `ref` is present with frame `f` if and only if `frame_to_page_map` maps `f` to
`(ref, p)`. -/
theorem C2_presence_iff_index (st0 : SegmentTable) (h : Configured st0) (reqs : List Request)
    (ref : TableRef) (p f : Int) :
    (∃ pg, (st0.run reqs).pageAt ref p = some pg ∧ pg.present = true ∧ pg.frame_number = f) ↔
      StdMap.find (st0.run reqs).frame_to_page_map f = some (ref, p) := by
  have hinv := SegmentTable.reachable_inv st0 h reqs
  constructor
  · rintro ⟨pg, hpg, hpr, rfl⟩
    exact hinv.fwd ref p pg hpg hpr
  · exact hinv.bwd f ref p

/-- C2 at the example manager: after the example requests the index maps frame 0 to page 2 of
table (0, 0), and that page is present with frame 0. -/
theorem C2_presence_iff_index_witness :
    StdMap.find (exampleManager.run exampleRequests).frame_to_page_map 0 = some ((0, 0), 2) ∧
    ∃ pg, (exampleManager.run exampleRequests).pageAt (0, 0) 2 = some pg ∧
      pg.present = true ∧ pg.frame_number = 0 :=
  ⟨by decide,
   (C2_presence_iff_index exampleManager ⟨2, 16, ReplacementAlgorithm.FIFO, exampleSegments,
      by decide, rfl⟩ exampleRequests (0, 0) 2 0).mpr (by decide)⟩

/-! ## The translation result -/

/-- C3: whenever `translateAddress` does not return the fault value `-1`, every check passed and
the result is `frame * pageSize + offset` in exact integers, where `frame` is the `frame_number`
the addressed page holds after the call and `pageSize` the `page_size` of the resolved table; on
a miss `frame` is what `allocateFrame` returned. -/
theorem C3_physical_address (st : SegmentTable) (segNum pageDir pageNum offset : Int)
    (accessType : Protection) (rnd : Nat)
    (hret : (st.translateAddress segNum pageDir pageNum offset accessType rnd).1.ret ≠ -1) :
    ∃ dir pt pg, Checks st segNum pageDir pageNum offset accessType dir pt ∧
      (st.translateAddress segNum pageDir pageNum offset accessType rnd).2.pageAt
        (segNum, pageDir) pageNum = some pg ∧
      (st.translateAddress segNum pageDir pageNum offset accessType rnd).1.ret =
        pg.frame_number * pt.page_size + offset ∧
      ((pt.page pageNum).present = false → pg.frame_number = (st.tick.allocateFrame).1) := by
  rcases SegmentTable.translateAddress_checked_or_rejected st segNum pageDir pageNum offset
    accessType rnd with ⟨dir, pt, c⟩ | ⟨_, hrej, _⟩
  swap
  · exact absurd hrej hret
  have hpage := SegmentTable.checks_pageAt c
  by_cases hpp : accessType = Protection.READ_WRITE ∧
      (pt.page pageNum).protection = Protection.READ_ONLY
  · rw [SegmentTable.translateAddress_page_protection st _ _ _ _ _ rnd dir pt c hpp.1 hpp.2]
      at hret
    exact absurd rfl hret
  by_cases hpres : (pt.page pageNum).present = true
  · have htouch := SegmentTable.pageAt_updTable_set st.tick (segNum, pageDir) pageNum
      (fun _ => pt.setPage pageNum
        { pt.page pageNum with last_access_time := st.physMem.time + 1 })
      (fun _ => { pt.page pageNum with last_access_time := st.physMem.time + 1 }) pt
      (pt.page pageNum) (SegmentTable.checks_table c) hpage rfl (segNum, pageDir) pageNum
    simp only [and_self, if_true] at htouch
    rw [SegmentTable.translateAddress_present st _ _ _ _ _ rnd dir pt c hpp hpres] at hret ⊢
    by_cases h1 : (pt.page pageNum).frame_number = -1
    · rw [if_pos h1] at hret
      exact absurd rfl hret
    rw [if_neg h1] at hret ⊢
    by_cases h2 : (pt.page pageNum).frame_number = -2
    · rw [if_pos h2] at hret ⊢
      by_cases ha : ((st.tick.updTable (segNum, pageDir) (fun _ => pt.setPage pageNum
          { pt.page pageNum with last_access_time := st.physMem.time + 1 })).allocateFrame).1 = -1
      · rw [if_pos ha] at hret
        exact absurd rfl hret
      · rw [if_neg ha]
        obtain ⟨pg, hpg, hfr, _⟩ := SegmentTable.pageAt_after_bind _ (segNum, pageDir) pageNum
          (st.segments.getD segNum.toNat default).protection
          ((st.tick.updTable (segNum, pageDir) (fun _ => pt.setPage pageNum
            { pt.page pageNum with last_access_time := st.physMem.time + 1 })).allocateFrame
            ).2.physMem.time _ htouch
        refine ⟨dir, pt, pg, c, hpg, ?_, ?_⟩
        · rw [hfr]
        · intro habs
          rw [habs] at hpres
          cases hpres
    · rw [if_neg h2]
      refine ⟨dir, pt, _, c, htouch, rfl, ?_⟩
      intro habs
      rw [habs] at hpres
      cases hpres
  · have habs : (pt.page pageNum).present = false := by
      cases hb : (pt.page pageNum).present
      · rfl
      · exact absurd hb hpres
    rw [SegmentTable.translateAddress_miss st _ _ _ _ _ rnd dir pt c hpp habs] at hret ⊢
    by_cases ha : (st.tick.allocateFrame).1 = -1
    · rw [if_pos ha] at hret
      exact absurd rfl hret
    · rw [if_neg ha]
      obtain ⟨pg, hpg, hfr, _⟩ := SegmentTable.pageAt_after_bind st.tick (segNum, pageDir) pageNum
        (st.segments.getD segNum.toNat default).protection
        (st.tick.allocateFrame).2.physMem.time _ hpage
      exact ⟨dir, pt, pg, c, hpg, by rw [hfr], fun _ => hfr⟩

/-- C3 at the example manager: reading offset 3 of page 0 returns an address. -/
theorem C3_physical_address_witness :
    ∃ dir pt pg, Checks exampleManager 0 0 0 3 Protection.READ_ONLY dir pt ∧
      (exampleManager.translateAddress 0 0 0 3 Protection.READ_ONLY 7).2.pageAt (0, 0) 0 =
        some pg ∧
      (exampleManager.translateAddress 0 0 0 3 Protection.READ_ONLY 7).1.ret =
        pg.frame_number * pt.page_size + 3 ∧
      ((pt.page 0).present = false → pg.frame_number = (exampleManager.tick.allocateFrame).1) :=
  C3_physical_address exampleManager 0 0 0 3 Protection.READ_ONLY 7 (by decide)

/-! ## The order of the checks -/

namespace SegmentTable

/-- Once every check has passed, the `fault` string is one of four. -/
theorem translateAddress_fault_of_checks (st : SegmentTable)
    (segNum pageDir pageNum offset : Int) (accessType : Protection) (rnd : Nat)
    (dir : PageDirectory) (pt : PageTable)
    (c : Checks st segNum pageDir pageNum offset accessType dir pt) :
    (st.translateAddress segNum pageDir pageNum offset accessType rnd).1.fault = Fault.OK ∨
    (st.translateAddress segNum pageDir pageNum offset accessType rnd).1.fault =
      Fault.PageProtection ∨
    (st.translateAddress segNum pageDir pageNum offset accessType rnd).1.fault =
      Fault.PageNotInMemory ∨
    (st.translateAddress segNum pageDir pageNum offset accessType rnd).1.fault =
      Fault.ReplacementFailed := by
  by_cases hpp : accessType = Protection.READ_WRITE ∧
      (pt.page pageNum).protection = Protection.READ_ONLY
  · rw [translateAddress_page_protection st _ _ _ _ _ rnd dir pt c hpp.1 hpp.2]
    exact Or.inr (Or.inl rfl)
  by_cases hpres : (pt.page pageNum).present = true
  · rw [translateAddress_present st _ _ _ _ _ rnd dir pt c hpp hpres]
    split
    · exact Or.inl rfl
    · split
      · split
        · exact Or.inr (Or.inr (Or.inr rfl))
        · exact Or.inl rfl
      · exact Or.inl rfl
  · have habs : (pt.page pageNum).present = false := by
      cases hb : (pt.page pageNum).present
      · rfl
      · exact absurd hb hpres
    rw [translateAddress_miss st _ _ _ _ _ rnd dir pt c hpp habs]
    split
    · exact Or.inr (Or.inr (Or.inr rfl))
    · exact Or.inr (Or.inr (Or.inl rfl))

end SegmentTable

/-- C4: for every in-range segment index whose descriptor is `READ_ONLY`, a write access returns
the segment-level protection violation for every `pageDir`, `pageNum` and `offset`; only the
clock changes, so no frame is allocated and no page entry is written. -/
theorem C4_read_only_segment_write (st : SegmentTable) (segNum pageDir pageNum offset : Int)
    (rnd : Nat) (h0 : 0 ≤ segNum) (h1 : segNum < (st.segments.length : Int))
    (hro : (st.segments.getD segNum.toNat default).protection = Protection.READ_ONLY) :
    (st.translateAddress segNum pageDir pageNum offset Protection.READ_WRITE rnd).1.ret = -1 ∧
    (st.translateAddress segNum pageDir pageNum offset Protection.READ_WRITE rnd).1.fault =
      Fault.SegmentProtection ∧
    (st.translateAddress segNum pageDir pageNum offset Protection.READ_WRITE rnd).2 = st.tick ∧
    (st.translateAddress segNum pageDir pageNum offset Protection.READ_WRITE rnd
      ).2.segment_directories = st.segment_directories ∧
    (st.translateAddress segNum pageDir pageNum offset Protection.READ_WRITE rnd
      ).2.physMem.free_frames = st.physMem.free_frames ∧
    (st.translateAddress segNum pageDir pageNum offset Protection.READ_WRITE rnd
      ).2.physMem.fifo_queue = st.physMem.fifo_queue ∧
    (st.translateAddress segNum pageDir pageNum offset Protection.READ_WRITE rnd
      ).2.frame_to_page_map = st.frame_to_page_map := by
  have hseg : ¬ (segNum < 0 ∨ segNum ≥ (st.tick.segments.length : Int)) := by
    show ¬ (segNum < 0 ∨ segNum ≥ (st.segments.length : Int))
    omega
  have hsp : (st.tick.segments.getD segNum.toNat default).protection = Protection.READ_ONLY := hro
  have heq : st.translateAddress segNum pageDir pageNum offset Protection.READ_WRITE rnd =
      (⟨-1, 1 + (rnd : Int) % 5, Fault.SegmentProtection⟩, st.tick) := by
    unfold SegmentTable.translateAddress
    simp only [hseg, hsp, and_self, if_true, if_false]
  rw [heq]
  exact ⟨rfl, rfl, rfl, rfl, rfl, rfl, rfl⟩

/-- C4 at the example manager: a write to read-only segment 1, with an invalid directory index,
page number and offset. -/
theorem C4_read_only_segment_write_witness :
    (exampleManager.translateAddress 1 9 (-4) 99 Protection.READ_WRITE 7).1.ret = -1 ∧
    (exampleManager.translateAddress 1 9 (-4) 99 Protection.READ_WRITE 7).1.fault =
      Fault.SegmentProtection ∧
    (exampleManager.translateAddress 1 9 (-4) 99 Protection.READ_WRITE 7).2 =
      exampleManager.tick ∧
    (exampleManager.translateAddress 1 9 (-4) 99 Protection.READ_WRITE 7
      ).2.segment_directories = exampleManager.segment_directories ∧
    (exampleManager.translateAddress 1 9 (-4) 99 Protection.READ_WRITE 7
      ).2.physMem.free_frames = exampleManager.physMem.free_frames ∧
    (exampleManager.translateAddress 1 9 (-4) 99 Protection.READ_WRITE 7
      ).2.physMem.fifo_queue = exampleManager.physMem.fifo_queue ∧
    (exampleManager.translateAddress 1 9 (-4) 99 Protection.READ_WRITE 7
      ).2.frame_to_page_map = exampleManager.frame_to_page_map :=
  C4_read_only_segment_write exampleManager 1 9 (-4) 99 7 (by decide) (by decide) (by decide)

/-- C5: `translateAddress` returns the invalid-segment fault whenever `segNum < 0` or
`segNum >= segments.size()`, for every value of the other arguments; and when `segNum` is in
range, a write to a `READ_ONLY` segment gets the segment-protection fault for every value of
the other arguments, so no other check comes before the segment-protection check. -/
theorem C5_segment_range_first (st : SegmentTable) (segNum pageDir pageNum offset : Int)
    (accessType : Protection) (rnd : Nat) :
    ((segNum < 0 ∨ segNum ≥ (st.segments.length : Int)) →
      (st.translateAddress segNum pageDir pageNum offset accessType rnd).1.ret = -1 ∧
      (st.translateAddress segNum pageDir pageNum offset accessType rnd).1.fault =
        Fault.InvalidSegment) ∧
    (¬ (segNum < 0 ∨ segNum ≥ (st.segments.length : Int)) →
      (accessType = Protection.READ_WRITE ∧
        (st.segments.getD segNum.toNat default).protection = Protection.READ_ONLY) →
      (st.translateAddress segNum pageDir pageNum offset accessType rnd).1.ret = -1 ∧
      (st.translateAddress segNum pageDir pageNum offset accessType rnd).1.fault =
        Fault.SegmentProtection) := by
  constructor
  · intro h
    have hseg : segNum < 0 ∨ segNum ≥ (st.tick.segments.length : Int) := h
    unfold SegmentTable.translateAddress
    simp only [hseg, if_true, and_self]
  · intro h hp
    have hseg : ¬ (segNum < 0 ∨ segNum ≥ (st.tick.segments.length : Int)) := h
    have hsp : accessType = Protection.READ_WRITE ∧
      (st.tick.segments.getD segNum.toNat default).protection = Protection.READ_ONLY := hp
    unfold SegmentTable.translateAddress
    simp only [hseg, hsp, and_self, if_true, if_false]

/-- C6: for an in-range segment that passes the segment-protection check and has a directory,
`getPageTable` returns `nullptr` exactly when the index is not a key of `page_tables`, and
`translateAddress` returns the invalid-directory-index fault exactly in that case, whatever
`pageNum` and `offset` are. -/
theorem C6_directory_fault (st : SegmentTable) (segNum pageDir pageNum offset : Int)
    (accessType : Protection) (rnd : Nat) (dir : PageDirectory)
    (hs : SegmentPasses st segNum accessType)
    (hdir : StdMap.find st.segment_directories segNum = some dir) :
    (dir.getPageTable pageDir = none ↔ pageDir ∉ dir.page_tables.map Prod.fst) ∧
    ((st.translateAddress segNum pageDir pageNum offset accessType rnd).1.fault =
        Fault.InvalidDirectoryIndex ↔ dir.getPageTable pageDir = none) := by
  refine ⟨StdMap.find_eq_none_iff _ _, ?_⟩
  have hseg : ¬ (segNum < 0 ∨ segNum ≥ (st.tick.segments.length : Int)) := by
    have := hs.seg_lo; have := hs.seg_hi
    show ¬ (segNum < 0 ∨ segNum ≥ (st.segments.length : Int))
    omega
  have hsp : ¬ (accessType = Protection.READ_WRITE ∧
      (st.tick.segments.getD segNum.toNat default).protection = Protection.READ_ONLY) :=
    hs.seg_prot
  have hdir' : StdMap.find st.tick.segment_directories segNum = some dir := hdir
  cases htab : dir.getPageTable pageDir with
  | none =>
    have heq : st.translateAddress segNum pageDir pageNum offset accessType rnd =
        (⟨-1, 1 + (rnd : Int) % 5, Fault.InvalidDirectoryIndex⟩, st.tick) := by
      unfold SegmentTable.translateAddress
      simp only [hseg, hsp, hdir', htab, if_false]
    rw [heq]
    simp
  | some pt =>
    simp only [reduceCtorEq, iff_false]
    by_cases hpg : pageNum < 0 ∨ pageNum ≥ (pt.pages.length : Int)
    · have heq : st.translateAddress segNum pageDir pageNum offset accessType rnd =
          (⟨-1, 1 + (rnd : Int) % 5, Fault.PageNumberExceedsLimit⟩, st.tick) := by
        unfold SegmentTable.translateAddress
        simp only [hseg, hsp, hdir', htab, hpg, if_false, if_true]
      rw [heq]
      simp
    by_cases hoff : offset < 0 ∨ offset ≥ pt.page_size
    · have heq : st.translateAddress segNum pageDir pageNum offset accessType rnd =
          (⟨-1, 1 + (rnd : Int) % 5, Fault.OffsetExceedsPageSize⟩, st.tick) := by
        unfold SegmentTable.translateAddress
        simp only [hseg, hsp, hdir', htab, hpg, hoff, if_false, if_true]
      rw [heq]
      simp
    have c : Checks st segNum pageDir pageNum offset accessType dir pt :=
      ⟨hs.seg_lo, hs.seg_hi, hs.seg_prot, hdir, htab, by omega, by omega, by omega, by omega⟩
    rcases SegmentTable.translateAddress_fault_of_checks st segNum pageDir pageNum offset
      accessType rnd dir pt c with h | h | h | h <;> rw [h] <;> simp

/-- C6 at the example manager: segment 0 has a table at index 0 only, so index 5 faults. -/
theorem C6_directory_fault_witness :
    (exampleManager.translateAddress 0 5 0 3 Protection.READ_ONLY 7).1.fault =
      Fault.InvalidDirectoryIndex :=
  ((C6_directory_fault exampleManager 0 5 0 3 Protection.READ_ONLY 7
    { page_tables :=
        [(0, { pages := List.replicate 4 { protection := Protection.READ_WRITE }
               page_size := 16 })]
      page_table_size := 4 }
    ⟨by decide, by decide, by decide⟩ rfl).2).mpr rfl

/-- C7: when the segment, segment-protection and directory checks pass and `pageNum` is negative
or at least the resolved table's page count, `translateAddress` returns the
page-number-exceeds-limit fault for every `offset`, in or out of `[0, pageSize)`: the page-range
check comes before the offset check. -/
theorem C7_page_range_before_offset (st : SegmentTable) (segNum pageDir pageNum offset : Int)
    (accessType : Protection) (rnd : Nat) (dir : PageDirectory) (pt : PageTable)
    (hs : SegmentPasses st segNum accessType)
    (hdir : StdMap.find st.segment_directories segNum = some dir)
    (htab : dir.getPageTable pageDir = some pt)
    (hpage : pageNum < 0 ∨ pageNum ≥ (pt.pages.length : Int)) :
    (st.translateAddress segNum pageDir pageNum offset accessType rnd).1.ret = -1 ∧
    (st.translateAddress segNum pageDir pageNum offset accessType rnd).1.fault =
      Fault.PageNumberExceedsLimit ∧
    (st.translateAddress segNum pageDir pageNum offset accessType rnd).2 = st.tick := by
  have hseg : ¬ (segNum < 0 ∨ segNum ≥ (st.tick.segments.length : Int)) := by
    have := hs.seg_lo; have := hs.seg_hi
    show ¬ (segNum < 0 ∨ segNum ≥ (st.segments.length : Int))
    omega
  have hsp : ¬ (accessType = Protection.READ_WRITE ∧
      (st.tick.segments.getD segNum.toNat default).protection = Protection.READ_ONLY) :=
    hs.seg_prot
  have hdir' : StdMap.find st.tick.segment_directories segNum = some dir := hdir
  have heq : st.translateAddress segNum pageDir pageNum offset accessType rnd =
      (⟨-1, 1 + (rnd : Int) % 5, Fault.PageNumberExceedsLimit⟩, st.tick) := by
    unfold SegmentTable.translateAddress
    simp only [hseg, hsp, hdir', htab, hpage, if_false, if_true]
  rw [heq]
  exact ⟨rfl, rfl, rfl⟩

/-- C7 at the example manager: page 4 of a four-page table with offset 16 of a 16-byte page. -/
theorem C7_page_range_before_offset_witness :
    (exampleManager.translateAddress 0 0 4 16 Protection.READ_ONLY 7).1.ret = -1 ∧
    (exampleManager.translateAddress 0 0 4 16 Protection.READ_ONLY 7).1.fault =
      Fault.PageNumberExceedsLimit ∧
    (exampleManager.translateAddress 0 0 4 16 Protection.READ_ONLY 7).2 = exampleManager.tick :=
  C7_page_range_before_offset exampleManager 0 0 4 16 Protection.READ_ONLY 7
    { page_tables :=
        [(0, { pages := List.replicate 4 { protection := Protection.READ_WRITE }
               page_size := 16 })]
      page_table_size := 4 }
    { pages := List.replicate 4 { protection := Protection.READ_WRITE }, page_size := 16 }
    ⟨by decide, by decide, by decide⟩ rfl rfl (by decide)

/-- C8: when the segment, segment-protection, directory and page-range checks pass,
`translateAddress` returns the offset fault if and only if `offset < 0` or
`offset >= pageSize`; the fault is returned whether or not the page is present and changes
nothing but the clock (no frame is allocated). With `pageSize = 16`, offset 16 gets the offset
fault and offset 15 does not. -/
theorem C8_offset_fault (st : SegmentTable) (segNum pageDir pageNum offset : Int)
    (accessType : Protection) (rnd : Nat) (dir : PageDirectory) (pt : PageTable)
    (hs : SegmentPasses st segNum accessType)
    (hdir : StdMap.find st.segment_directories segNum = some dir)
    (htab : dir.getPageTable pageDir = some pt)
    (hp0 : 0 ≤ pageNum) (hp1 : pageNum < (pt.pages.length : Int)) :
    ((st.translateAddress segNum pageDir pageNum offset accessType rnd).1.fault =
        Fault.OffsetExceedsPageSize ↔ (offset < 0 ∨ offset ≥ pt.page_size)) ∧
    ((offset < 0 ∨ offset ≥ pt.page_size) →
      (st.translateAddress segNum pageDir pageNum offset accessType rnd).1.ret = -1 ∧
      (st.translateAddress segNum pageDir pageNum offset accessType rnd).2 = st.tick) ∧
    (pt.page_size = 16 → offset = 16 →
      (st.translateAddress segNum pageDir pageNum offset accessType rnd).1.fault =
        Fault.OffsetExceedsPageSize) ∧
    (pt.page_size = 16 → offset = 15 →
      (st.translateAddress segNum pageDir pageNum offset accessType rnd).1.fault ≠
        Fault.OffsetExceedsPageSize) := by
  have hseg : ¬ (segNum < 0 ∨ segNum ≥ (st.tick.segments.length : Int)) := by
    have := hs.seg_lo; have := hs.seg_hi
    show ¬ (segNum < 0 ∨ segNum ≥ (st.segments.length : Int))
    omega
  have hsp : ¬ (accessType = Protection.READ_WRITE ∧
      (st.tick.segments.getD segNum.toNat default).protection = Protection.READ_ONLY) :=
    hs.seg_prot
  have hdir' : StdMap.find st.tick.segment_directories segNum = some dir := hdir
  have hpg : ¬ (pageNum < 0 ∨ pageNum ≥ (pt.pages.length : Int)) := by omega
  have hbad : (offset < 0 ∨ offset ≥ pt.page_size) →
      st.translateAddress segNum pageDir pageNum offset accessType rnd =
        (⟨-1, 1 + (rnd : Int) % 5, Fault.OffsetExceedsPageSize⟩, st.tick) := by
    intro hoff
    unfold SegmentTable.translateAddress
    simp only [hseg, hsp, hdir', htab, hpg, hoff, if_false, if_true]
  have hgood : ¬ (offset < 0 ∨ offset ≥ pt.page_size) →
      (st.translateAddress segNum pageDir pageNum offset accessType rnd).1.fault ≠
        Fault.OffsetExceedsPageSize := by
    intro hoff
    have c : Checks st segNum pageDir pageNum offset accessType dir pt :=
      ⟨hs.seg_lo, hs.seg_hi, hs.seg_prot, hdir, htab, hp0, hp1, by omega, by omega⟩
    rcases SegmentTable.translateAddress_fault_of_checks st segNum pageDir pageNum offset
      accessType rnd dir pt c with h | h | h | h <;> rw [h] <;> simp
  refine ⟨⟨?_, ?_⟩, ?_, ?_, ?_⟩
  · intro hf
    by_contra hoff
    exact hgood hoff hf
  · intro hoff
    rw [hbad hoff]
  · intro hoff
    rw [hbad hoff]
    exact ⟨rfl, rfl⟩
  · intro h16 ho
    rw [hbad (by omega)]
  · intro h16 ho
    exact hgood (by omega)

/-- C8 at the example manager (page size 16): offset 16 of page 1 gets the offset fault with
the state untouched, offset 15 does not get it. -/
theorem C8_offset_fault_witness :
    (exampleManager.translateAddress 0 0 1 16 Protection.READ_ONLY 7).1.fault =
      Fault.OffsetExceedsPageSize ∧
    (exampleManager.translateAddress 0 0 1 16 Protection.READ_ONLY 7).2 = exampleManager.tick ∧
    (exampleManager.translateAddress 0 0 1 15 Protection.READ_ONLY 7).1.fault ≠
      Fault.OffsetExceedsPageSize :=
  ⟨(C8_offset_fault exampleManager 0 0 1 16 Protection.READ_ONLY 7
      { page_tables :=
          [(0, { pages := List.replicate 4 { protection := Protection.READ_WRITE }
                 page_size := 16 })]
        page_table_size := 4 }
      { pages := List.replicate 4 { protection := Protection.READ_WRITE }, page_size := 16 }
      ⟨by decide, by decide, by decide⟩ rfl rfl (by decide) (by decide)).2.2.1 rfl rfl,
   ((C8_offset_fault exampleManager 0 0 1 16 Protection.READ_ONLY 7
      { page_tables :=
          [(0, { pages := List.replicate 4 { protection := Protection.READ_WRITE }
                 page_size := 16 })]
        page_table_size := 4 }
      { pages := List.replicate 4 { protection := Protection.READ_WRITE }, page_size := 16 }
      ⟨by decide, by decide, by decide⟩ rfl rfl (by decide) (by decide)).2.1
      (Or.inr (by decide))).2,
   (C8_offset_fault exampleManager 0 0 1 15 Protection.READ_ONLY 7
      { page_tables :=
          [(0, { pages := List.replicate 4 { protection := Protection.READ_WRITE }
                 page_size := 16 })]
        page_table_size := 4 }
      { pages := List.replicate 4 { protection := Protection.READ_WRITE }, page_size := 16 }
      ⟨by decide, by decide, by decide⟩ rfl rfl (by decide) (by decide)).2.2.2 rfl rfl⟩

/-- C9: for every page table and every in-range page whose protection is `READ_ONLY`,
`getFrameNumber` with a write access returns `-1` with the page-protection fault whether or not
the page is present; it returns no frame and leaves the table, the entry's `last_access_time`
included, as it was. -/
theorem C9_page_protection_before_presence (pt : PageTable) (pageNum time : Int) (fault : Fault)
    (h0 : 0 ≤ pageNum) (h1 : pageNum < (pt.pages.length : Int))
    (hro : (pt.page pageNum).protection = Protection.READ_ONLY) :
    pt.getFrameNumber pageNum time Protection.READ_WRITE fault =
      (-1, Fault.PageProtection, pt) := by
  have hpg : ¬ (pageNum < 0 ∨ pageNum ≥ (pt.pages.length : Int)) := by omega
  simp [PageTable.getFrameNumber, hpg, hro]

/-- C9 at a table whose page 0 is present in frame 3 and read-only. -/
theorem C9_page_protection_before_presence_witness :
    PageTable.getFrameNumber
      { pages := [{ frame_number := 3, present := true, protection := Protection.READ_ONLY,
                    last_access_time := 5 }], page_size := 16 }
      0 9 Protection.READ_WRITE Fault.OK =
    (-1, Fault.PageProtection,
      { pages := [{ frame_number := 3, present := true, protection := Protection.READ_ONLY,
                    last_access_time := 5 }], page_size := 16 }) :=
  C9_page_protection_before_presence _ 0 9 Fault.OK (by decide) (by decide) rfl

/-! ## `allocateFrame` -/

namespace SegmentTable

theorem firstFree_isSome (pm : PhysicalMemory) (j : Nat) (hj : (j : Int) < pm.num_frames)
    (hfree : pm.free_frames.getD j false = true) : ∃ i, pm.firstFree = some i := by
  cases h : pm.firstFree with
  | some i => exact ⟨i, rfl⟩
  | none =>
    have := firstFree_none pm h j hj
    rw [hfree] at this
    cases this

end SegmentTable

/-- C11: if at least one frame is free, `allocateFrame` returns the lowest-numbered free frame,
marks it occupied, appends it to the FIFO queue under FIFO and leaves the queue alone under LRU,
and changes no page table and no `frame_to_page_map` entry (nothing is evicted). -/
theorem C11_free_frame_first (st : SegmentTable) (j : Nat)
    (hj : (j : Int) < st.physMem.num_frames)
    (hfree : st.physMem.free_frames.getD j false = true) :
    ∃ i : Nat, (st.allocateFrame).1 = (i : Int) ∧
      (i : Int) < st.physMem.num_frames ∧
      st.physMem.free_frames.getD i false = true ∧
      (∀ j' : Nat, (j' : Int) < st.physMem.num_frames →
        st.physMem.free_frames.getD j' false = true → i ≤ j') ∧
      (st.allocateFrame).2.physMem.free_frames = st.physMem.free_frames.set i false ∧
      (st.allocateFrame).2.physMem.free_frames.getD i false = false ∧
      (st.allocateFrame).2.physMem.fifo_queue =
        (if st.physMem.algo = ReplacementAlgorithm.FIFO then st.physMem.fifo_queue ++ [(i : Int)]
         else st.physMem.fifo_queue) ∧
      (st.allocateFrame).2.segment_directories = st.segment_directories ∧
      (st.allocateFrame).2.frame_to_page_map = st.frame_to_page_map := by
  obtain ⟨i, hi⟩ := SegmentTable.firstFree_isSome st.physMem j hj hfree
  obtain ⟨hfi, hlt, hmin⟩ := SegmentTable.firstFree_some st.physMem i hi
  refine ⟨i, ?_, hlt, hfi, ?_, ?_, ?_, ?_, ?_, ?_⟩
  · unfold SegmentTable.allocateFrame
    rw [hi]
  · intro j' _ hj'
    by_contra hcon
    have := hmin j' (by omega)
    rw [hj'] at this
    cases this
  · unfold SegmentTable.allocateFrame
    rw [hi]
  · unfold SegmentTable.allocateFrame
    rw [hi]
    show (st.physMem.free_frames.set i false).getD i false = false
    rw [SegmentTable.getD_set_false]
    simp
  · unfold SegmentTable.allocateFrame
    rw [hi]
  · unfold SegmentTable.allocateFrame
    rw [hi]
  · unfold SegmentTable.allocateFrame
    rw [hi]

/-- C11 at the example manager: both frames are free, frame 0 is handed out and queued. -/
theorem C11_free_frame_first_witness :
    ∃ i : Nat, (exampleManager.allocateFrame).1 = (i : Int) ∧
      (i : Int) < exampleManager.physMem.num_frames ∧
      exampleManager.physMem.free_frames.getD i false = true ∧
      (∀ j' : Nat, (j' : Int) < exampleManager.physMem.num_frames →
        exampleManager.physMem.free_frames.getD j' false = true → i ≤ j') ∧
      (exampleManager.allocateFrame).2.physMem.free_frames =
        exampleManager.physMem.free_frames.set i false ∧
      (exampleManager.allocateFrame).2.physMem.free_frames.getD i false = false ∧
      (exampleManager.allocateFrame).2.physMem.fifo_queue =
        (if exampleManager.physMem.algo = ReplacementAlgorithm.FIFO then
          exampleManager.physMem.fifo_queue ++ [(i : Int)]
         else exampleManager.physMem.fifo_queue) ∧
      (exampleManager.allocateFrame).2.segment_directories =
        exampleManager.segment_directories ∧
      (exampleManager.allocateFrame).2.frame_to_page_map = exampleManager.frame_to_page_map :=
  C11_free_frame_first exampleManager 1 (by decide) (by decide)

namespace StdMap

variable {β : Type}

theorem erase_of_find_none (m : StdMap β) (k : Int) (h : find m k = none) : erase m k = m := by
  induction m with
  | nil => rfl
  | cons e rest ih =>
    obtain ⟨k1, v1⟩ := e
    by_cases h1 : k1 = k
    · simp [find, h1] at h
    · simp only [find, h1, if_false] at h
      simp [erase, h1, ih h]

end StdMap

namespace SegmentTable

/-- The pool and the index after the eviction of an in-range victim. -/
theorem evict_in_range (st : SegmentTable) (v : Int) (h0 : 0 ≤ v)
    (h1 : v < st.physMem.num_frames) :
    (st.evict v).physMem.free_frames = st.physMem.free_frames.set v.toNat false ∧
    (st.evict v).frame_to_page_map = StdMap.erase st.frame_to_page_map v := by
  have hv : v ≠ -1 := by omega
  unfold evict
  simp only [ne_eq, hv, not_false_eq_true, if_true]
  cases hfind : StdMap.find st.frame_to_page_map v with
  | none =>
    simp only [ge_iff_le, h0, h1, and_self, if_true]
    refine ⟨?_, ?_⟩
    · first | rfl | trivial
    · exact (StdMap.erase_of_find_none _ _ hfind).symm
  | some val =>
    obtain ⟨r, q⟩ := val
    have hrange : v ≥ 0 ∧ v < (SegmentTable.physMem
        { st.updTable r (fun pt => pt.invalidatePage q) with
          frame_to_page_map := StdMap.erase st.frame_to_page_map v }).num_frames := ⟨h0, h1⟩
    simp only [hrange, and_self, if_true]
    refine ⟨?_, ?_⟩ <;> first | rfl | trivial

/-- What `allocateFrame` does when no frame is free and it does not fail, given that the queue
and the index hold frame ids of the pool only. -/
theorem allocateFrame_evicts (st : SegmentTable)
    (hq : ∀ f ∈ st.physMem.fifo_queue, 0 ≤ f ∧ f < st.physMem.num_frames)
    (hk : ∀ f v, StdMap.find st.frame_to_page_map f = some v →
      0 ≤ f ∧ f < st.physMem.num_frames)
    (hnone : st.physMem.firstFree = none) (hret : (st.allocateFrame).1 ≠ -1) :
    0 ≤ (st.allocateFrame).1 ∧ (st.allocateFrame).1 < st.physMem.num_frames ∧
    (st.allocateFrame).2.physMem.free_frames =
      st.physMem.free_frames.set (st.allocateFrame).1.toNat false ∧
    (st.allocateFrame).2.frame_to_page_map =
      StdMap.erase st.frame_to_page_map (st.allocateFrame).1 ∧
    ∀ ref p, (st.allocateFrame).2.pageAt ref p =
      if StdMap.find st.frame_to_page_map (st.allocateFrame).1 = some (ref, p) then
        (st.pageAt ref p).map (fun pg => { pg with frame_number := -1, present := false })
      else st.pageAt ref p := by
  unfold allocateFrame at hret ⊢
  rw [hnone] at hret ⊢
  simp only at hret ⊢
  by_cases ha : st.physMem.algo = ReplacementAlgorithm.FIFO
  · rw [if_pos ha] at hret ⊢
    cases hqe : st.physMem.fifo_queue with
    | nil =>
      rw [hqe] at hret
      exact absurd rfl hret
    | cons v rest =>
      simp only
      have hv := hq v (by rw [hqe]; exact List.mem_cons_self _ _)
      obtain ⟨e1, e2⟩ := evict_in_range
        { st with physMem := { st.physMem with fifo_queue := rest ++ [v] } } v hv.1 hv.2
      refine ⟨hv.1, hv.2, e1, e2, ?_⟩
      intro ref p
      rw [pageAt_evict]
      have hne : v ≠ -1 := by omega
      simp only [ne_eq, hne, not_false_eq_true, true_and]
      rfl
  · rw [if_neg ha] at hret ⊢
    simp only at hret ⊢
    obtain ⟨val, hfind⟩ := lruScan_key st hret
    have hv := hk _ val hfind
    obtain ⟨e1, e2⟩ := evict_in_range st _ hv.1 hv.2
    refine ⟨hv.1, hv.2, e1, e2, ?_⟩
    intro ref p
    rw [pageAt_evict]
    simp only [ne_eq, hret, not_false_eq_true, true_and]

end SegmentTable

/-- C12: in a state whose FIFO queue and `frame_to_page_map` hold frame ids of the pool only,
whenever `allocateFrame` returns a frame id `f` (not `-1`), `f` is in `[0, num_frames)` and is
marked occupied after the call, whether it came from the free scan or from eviction; after an
eviction `frame_to_page_map` has no entry for `f` and the page it recorded as owner of `f` is not
present. -/
theorem C12_allocated_frame_occupied (st : SegmentTable)
    (hq : ∀ f ∈ st.physMem.fifo_queue, 0 ≤ f ∧ f < st.physMem.num_frames)
    (hk : ∀ f v, StdMap.find st.frame_to_page_map f = some v →
      0 ≤ f ∧ f < st.physMem.num_frames)
    (hret : (st.allocateFrame).1 ≠ -1) :
    0 ≤ (st.allocateFrame).1 ∧ (st.allocateFrame).1 < st.physMem.num_frames ∧
    (st.allocateFrame).2.physMem.free_frames.getD (st.allocateFrame).1.toNat false = false ∧
    (st.physMem.firstFree = none →
      StdMap.find (st.allocateFrame).2.frame_to_page_map (st.allocateFrame).1 = none ∧
      ∀ ref p pg, StdMap.find st.frame_to_page_map (st.allocateFrame).1 = some (ref, p) →
        (st.allocateFrame).2.pageAt ref p = some pg → pg.present = false) := by
  cases hff : st.physMem.firstFree with
  | some i =>
    obtain ⟨_, hlt, _⟩ := SegmentTable.firstFree_some st.physMem i hff
    have h1 : (st.allocateFrame).1 = (i : Int) := by
      unfold SegmentTable.allocateFrame
      rw [hff]
    have h2 : (st.allocateFrame).2.physMem.free_frames = st.physMem.free_frames.set i false := by
      unfold SegmentTable.allocateFrame
      rw [hff]
    rw [h1, h2]
    refine ⟨by omega, hlt, ?_, fun h => by cases h⟩
    rw [Int.toNat_ofNat, SegmentTable.getD_set_false]
    simp
  | none =>
    obtain ⟨h0, h1, hfree, hmap, hpage⟩ := SegmentTable.allocateFrame_evicts st hq hk hff hret
    refine ⟨h0, h1, ?_, fun _ => ⟨?_, ?_⟩⟩
    · rw [hfree, SegmentTable.getD_set_false]
      simp
    · rw [hmap, StdMap.find_erase]
      simp
    · intro ref p pg hfind hpg
      rw [hpage, if_pos hfind] at hpg
      cases hst : st.pageAt ref p with
      | none => simp [hst] at hpg
      | some pg0 =>
        simp only [hst, Option.map_some', Option.some.injEq] at hpg
        rw [← hpg]

/-- C12 at the example manager after the example requests: both frames are taken, FIFO evicts
frame 1, whose owner, page 1 of table (0, 0), is no longer present. -/
theorem C12_allocated_frame_occupied_witness :
    0 ≤ ((exampleManager.run exampleRequests).allocateFrame).1 ∧
    ((exampleManager.run exampleRequests).allocateFrame).1 <
      (exampleManager.run exampleRequests).physMem.num_frames ∧
    ((exampleManager.run exampleRequests).allocateFrame).2.physMem.free_frames.getD
      ((exampleManager.run exampleRequests).allocateFrame).1.toNat false = false ∧
    ((exampleManager.run exampleRequests).physMem.firstFree = none →
      StdMap.find ((exampleManager.run exampleRequests).allocateFrame).2.frame_to_page_map
        ((exampleManager.run exampleRequests).allocateFrame).1 = none ∧
      ∀ ref p pg,
        StdMap.find (exampleManager.run exampleRequests).frame_to_page_map
          ((exampleManager.run exampleRequests).allocateFrame).1 = some (ref, p) →
        ((exampleManager.run exampleRequests).allocateFrame).2.pageAt ref p = some pg →
        pg.present = false) :=
  C12_allocated_frame_occupied (exampleManager.run exampleRequests) (by decide) (by
    intro f v hf
    have hmem := StdMap.mem_of_find _ _ _ hf
    have hm : (exampleManager.run exampleRequests).frame_to_page_map =
        [(0, ((0, 0), 2)), (1, ((0, 0), 1))] := by decide
    rw [hm] at hmem
    simp only [List.mem_cons, Prod.mk.injEq, List.mem_singleton, List.not_mem_nil,
      or_false] at hmem
    have hn : (exampleManager.run exampleRequests).physMem.num_frames = 2 := by decide
    rw [hn]
    rcases hmem with ⟨rfl, _⟩ | ⟨rfl, _⟩ <;> decide) (by decide)

/-! ## The LRU victim -/

namespace SegmentTable

/-- The LRU loop over a key-ordered list: it keeps the accumulator when no entry is older, and
otherwise ends on the oldest entry, the one with the smallest key among the oldest. -/
theorem lruScan_min (st : SegmentTable) (l : StdMap (TableRef × Int)) (acc : Int × Int)
    (hs : (l.map Prod.fst).Pairwise (fun a b => a < b)) :
    (l.foldl (fun acc e => if st.lastAccess e.2 < acc.1 then (st.lastAccess e.2, e.1) else acc)
        acc = acc ∧ ∀ e ∈ l, acc.1 ≤ st.lastAccess e.2) ∨
    ∃ e ∈ l,
      l.foldl (fun acc e => if st.lastAccess e.2 < acc.1 then (st.lastAccess e.2, e.1) else acc)
        acc = (st.lastAccess e.2, e.1) ∧
      st.lastAccess e.2 < acc.1 ∧
      (∀ e' ∈ l, st.lastAccess e.2 ≤ st.lastAccess e'.2) ∧
      (∀ e' ∈ l, st.lastAccess e'.2 = st.lastAccess e.2 → e.1 ≤ e'.1) := by
  induction l generalizing acc with
  | nil => left; simp
  | cons x rest ih =>
    simp only [List.map_cons, List.pairwise_cons] at hs
    obtain ⟨hx, hrest⟩ := hs
    simp only [List.foldl_cons]
    by_cases hlt : st.lastAccess x.2 < acc.1
    · simp only [hlt, if_true]
      right
      rcases ih (st.lastAccess x.2, x.1) hrest with ⟨heq, hall⟩ | ⟨e, he, heq, hlt2, hmin, htie⟩
      · refine ⟨x, List.mem_cons_self _ _, heq, hlt, ?_, ?_⟩
        · intro e' he'
          rcases List.mem_cons.mp he' with rfl | he'
          · exact le_refl _
          · exact hall e' he'
        · intro e' he' _
          rcases List.mem_cons.mp he' with rfl | he'
          · exact le_refl _
          · exact le_of_lt (hx e'.1 (List.mem_map_of_mem Prod.fst he'))
      · refine ⟨e, List.mem_cons_of_mem _ he, heq, lt_trans hlt2 hlt, ?_, ?_⟩
        · intro e' he'
          rcases List.mem_cons.mp he' with rfl | he'
          · exact le_of_lt hlt2
          · exact hmin e' he'
        · intro e' he' heq'
          rcases List.mem_cons.mp he' with rfl | he'
          · simp only at hlt2
            omega
          · exact htie e' he' heq'
    · simp only [hlt, if_false]
      rcases ih acc hrest with ⟨heq, hall⟩ | ⟨e, he, heq, hlt2, hmin, htie⟩
      · left
        refine ⟨heq, ?_⟩
        intro e' he'
        rcases List.mem_cons.mp he' with rfl | he'
        · exact not_lt.mp hlt
        · exact hall e' he'
      · right
        refine ⟨e, List.mem_cons_of_mem _ he, heq, hlt2, ?_, ?_⟩
        · intro e' he'
          rcases List.mem_cons.mp he' with rfl | he'
          · omega
          · exact hmin e' he'
        · intro e' he' heq'
          rcases List.mem_cons.mp he' with rfl | he'
          · omega
          · exact htie e' he' heq'

end SegmentTable

/-- C15: under LRU, when no frame is free and `frame_to_page_map` (keys in increasing order, as a
`std::map` iterates) is non-empty with every owner's `last_access_time` below `INT_MAX`,
`allocateFrame` returns the frame of the map whose owning page has the minimum
`last_access_time`, and among the frames tied for that minimum the smallest frame id. -/
theorem C15_lru_victim (st : SegmentTable)
    (hs : (st.frame_to_page_map.map Prod.fst).Pairwise (fun a b => a < b))
    (hne : st.frame_to_page_map ≠ [])
    (hlt : ∀ e ∈ st.frame_to_page_map, st.lastAccess e.2 < INT_MAX)
    (hnone : st.physMem.firstFree = none)
    (halgo : st.physMem.algo = ReplacementAlgorithm.LRU) :
    ∃ e ∈ st.frame_to_page_map, (st.allocateFrame).1 = e.1 ∧
      (∀ e' ∈ st.frame_to_page_map, st.lastAccess e.2 ≤ st.lastAccess e'.2) ∧
      (∀ e' ∈ st.frame_to_page_map, st.lastAccess e'.2 = st.lastAccess e.2 → e.1 ≤ e'.1) := by
  have hret : (st.allocateFrame).1 = (st.lruScan).2 := by
    unfold SegmentTable.allocateFrame
    rw [hnone]
    simp only
    rw [if_neg (by rw [halgo]; decide)]
  rcases SegmentTable.lruScan_min st st.frame_to_page_map (INT_MAX, -1) hs with
    ⟨_, hall⟩ | ⟨e, he, heq, _, hmin, htie⟩
  · exfalso
    cases hm : st.frame_to_page_map with
    | nil => exact hne hm
    | cons x rest =>
      have h1 := hall x (by rw [hm]; exact List.mem_cons_self _ _)
      have h2 := hlt x (by rw [hm]; exact List.mem_cons_self _ _)
      simp only at h1
      omega
  · refine ⟨e, he, ?_, hmin, htie⟩
    rw [hret]
    unfold SegmentTable.lruScan
    rw [heq]

/-- C15 at a manager under LRU with its three frames taken: frame 0 holds page 1 (last access
7), frames 1 and 2 hold pages 0 and 2 (last access 3 both); the victim is frame 1. -/
theorem C15_lru_victim_witness :
    ∃ e ∈ [((0 : Int), (((0 : Int), (0 : Int)), (1 : Int))), (1, ((0, 0), 0)), (2, ((0, 0), 2))],
      (SegmentTable.allocateFrame
        { segments := [⟨0, 1, Protection.READ_WRITE⟩]
          segment_directories :=
            [(0, { page_tables :=
                     [(0, { pages :=
                              [{ frame_number := 1, present := true, last_access_time := 3 },
                               { frame_number := 0, present := true, last_access_time := 7 },
                               { frame_number := 2, present := true, last_access_time := 3 }]
                            page_size := 16 })]
                   page_table_size := 3 })]
          physMem :=
            { num_frames := 3, free_frames := [false, false, false], fifo_queue := [], time := 7,
              algo := ReplacementAlgorithm.LRU }
          page_size := 16
          frame_to_page_map := [(0, ((0, 0), 1)), (1, ((0, 0), 0)), (2, ((0, 0), 2))] }).1 = e.1 ∧
      e.1 = 1 := by
  obtain ⟨e, he, hret, _, _⟩ := C15_lru_victim
    { segments := [⟨0, 1, Protection.READ_WRITE⟩]
      segment_directories :=
        [(0, { page_tables :=
                 [(0, { pages :=
                          [{ frame_number := 1, present := true, last_access_time := 3 },
                           { frame_number := 0, present := true, last_access_time := 7 },
                           { frame_number := 2, present := true, last_access_time := 3 }]
                        page_size := 16 })]
               page_table_size := 3 })]
      physMem :=
        { num_frames := 3, free_frames := [false, false, false], fifo_queue := [], time := 7,
          algo := ReplacementAlgorithm.LRU }
      page_size := 16
      frame_to_page_map := [(0, ((0, 0), 1)), (1, ((0, 0), 0)), (2, ((0, 0), 2))] }
    (by decide) (by decide) (by decide) (by decide) rfl
  refine ⟨e, he, hret, ?_⟩
  rw [← hret]
  decide

/-! ## What a call never changes -/

namespace SegmentTable

theorem setFrameAt_static (st : SegmentTable) (ref : TableRef) (q f : Int) (prot : Protection)
    (time : Int) :
    (st.setFrameAt ref q f prot time).physMem = st.physMem ∧
    (st.setFrameAt ref q f prot time).segments = st.segments ∧
    (st.setFrameAt ref q f prot time).page_size = st.page_size := by
  unfold setFrameAt
  cases st.table? ref with
  | none => exact ⟨rfl, rfl, rfl⟩
  | some t => exact ⟨rfl, rfl, rfl⟩

/-- Every call advances the clock by one and leaves the pool size, the policy, the segment list
and the page size alone. -/
theorem translateAddress_static (st : SegmentTable) (segNum pageDir pageNum offset : Int)
    (accessType : Protection) (rnd : Nat) :
    (st.translateAddress segNum pageDir pageNum offset accessType rnd).2.physMem.time =
      st.physMem.time + 1 ∧
    (st.translateAddress segNum pageDir pageNum offset accessType rnd).2.physMem.num_frames =
      st.physMem.num_frames ∧
    (st.translateAddress segNum pageDir pageNum offset accessType rnd).2.physMem.algo =
      st.physMem.algo ∧
    (st.translateAddress segNum pageDir pageNum offset accessType rnd).2.segments =
      st.segments ∧
    (st.translateAddress segNum pageDir pageNum offset accessType rnd).2.page_size =
      st.page_size := by
  have hbind : ∀ (s : SegmentTable) (f : Int) (prot : Protection) (time : Int),
      s.physMem.time = st.physMem.time + 1 → s.physMem.num_frames = st.physMem.num_frames →
      s.physMem.algo = st.physMem.algo → s.segments = st.segments →
      s.page_size = st.page_size →
      ((s.allocateFrame).2.physMem.time = st.physMem.time + 1 ∧
       (s.allocateFrame).2.physMem.num_frames = st.physMem.num_frames ∧
       (s.allocateFrame).2.physMem.algo = st.physMem.algo ∧
       (s.allocateFrame).2.segments = st.segments ∧
       (s.allocateFrame).2.page_size = st.page_size) ∧
      (((s.allocateFrame).2.setFrameAt (segNum, pageDir) pageNum f prot time).physMem.time =
          st.physMem.time + 1 ∧
       ((s.allocateFrame).2.setFrameAt (segNum, pageDir) pageNum f prot time).physMem.num_frames =
          st.physMem.num_frames ∧
       ((s.allocateFrame).2.setFrameAt (segNum, pageDir) pageNum f prot time).physMem.algo =
          st.physMem.algo ∧
       ((s.allocateFrame).2.setFrameAt (segNum, pageDir) pageNum f prot time).segments =
          st.segments ∧
       ((s.allocateFrame).2.setFrameAt (segNum, pageDir) pageNum f prot time).page_size =
          st.page_size) := by
    intro s f prot time h1 h2 h3 h4 h5
    obtain ⟨a1, a2, a3, a4, a5⟩ := allocateFrame_frame s
    obtain ⟨b1, b2, b3⟩ := setFrameAt_static (s.allocateFrame).2 (segNum, pageDir) pageNum f
      prot time
    refine ⟨⟨a1.trans h1, a2.trans h2, a3.trans h3, a4.trans h4, a5.trans h5⟩, ?_⟩
    rw [b1, b2, b3]
    exact ⟨a1.trans h1, a2.trans h2, a3.trans h3, a4.trans h4, a5.trans h5⟩
  rcases translateAddress_checked_or_rejected st segNum pageDir pageNum offset accessType rnd
    with ⟨dir, pt, c⟩ | ⟨hrej, _, _⟩
  swap
  · rw [hrej]
    exact ⟨rfl, rfl, rfl, rfl, rfl⟩
  by_cases hpp : accessType = Protection.READ_WRITE ∧
      (pt.page pageNum).protection = Protection.READ_ONLY
  · rw [translateAddress_page_protection st _ _ _ _ _ rnd dir pt c hpp.1 hpp.2]
    exact ⟨rfl, rfl, rfl, rfl, rfl⟩
  by_cases hpres : (pt.page pageNum).present = true
  · rw [translateAddress_present st _ _ _ _ _ rnd dir pt c hpp hpres]
    split
    · exact ⟨rfl, rfl, rfl, rfl, rfl⟩
    · split
      · split
        · exact (hbind (st.tick.updTable (segNum, pageDir) (fun _ => pt.setPage pageNum
            { pt.page pageNum with last_access_time := st.physMem.time + 1 })) 0
            Protection.READ_ONLY 0 rfl rfl rfl rfl rfl).1
        · exact (hbind (st.tick.updTable (segNum, pageDir) (fun _ => pt.setPage pageNum
            { pt.page pageNum with last_access_time := st.physMem.time + 1 })) _ _ _
            rfl rfl rfl rfl rfl).2
      · exact ⟨rfl, rfl, rfl, rfl, rfl⟩
  · have habs : (pt.page pageNum).present = false := by
      cases hb : (pt.page pageNum).present
      · rfl
      · exact absurd hb hpres
    rw [translateAddress_miss st _ _ _ _ _ rnd dir pt c hpp habs]
    split
    · exact (hbind st.tick 0 Protection.READ_ONLY 0 rfl rfl rfl rfl rfl).1
    · exact (hbind st.tick _ _ _ rfl rfl rfl rfl rfl).2

theorem run_static (st : SegmentTable) (reqs : List Request) :
    (st.run reqs).physMem.time = st.physMem.time + reqs.length ∧
    (st.run reqs).physMem.num_frames = st.physMem.num_frames ∧
    (st.run reqs).physMem.algo = st.physMem.algo ∧
    (st.run reqs).segments = st.segments ∧
    (st.run reqs).page_size = st.page_size := by
  induction reqs generalizing st with
  | nil => simp [run]
  | cons q qs ih =>
    obtain ⟨a1, a2, a3, a4, a5⟩ := translateAddress_static st q.segNum q.pageDir q.pageNum
      q.offset q.accessType q.rnd
    obtain ⟨b1, b2, b3, b4, b5⟩ := ih (st.serve q).2
    refine ⟨?_, b2.trans a2, b3.trans a3, b4.trans a4, b5.trans a5⟩
    show (run (st.serve q).2 qs).physMem.time = _
    rw [b1]
    show (st.translateAddress q.segNum q.pageDir q.pageNum q.offset q.accessType
      q.rnd).2.physMem.time + _ = _
    rw [a1]
    simp only [List.length_cons, Nat.cast_add, Nat.cast_one]
    omega

end SegmentTable

/-! ## The empty pool -/

/-- C16: with a pool of 0 frames, under FIFO and under LRU, in every state reached from a
freshly configured manager no page is present, and every `translateAddress` call that passes
the validation and protection checks (and so reaches a page that is not present) returns the
replacement-failure fault. -/
theorem C16_empty_pool (st0 : SegmentTable) (h : Configured st0)
    (hzero : st0.physMem.num_frames = 0) (reqs : List Request) :
    (∀ ref p pg, (st0.run reqs).pageAt ref p = some pg → pg.present = false) ∧
    ∀ (segNum pageDir pageNum offset : Int) (accessType : Protection) (rnd : Nat)
      (dir : PageDirectory) (pt : PageTable),
      Checks (st0.run reqs) segNum pageDir pageNum offset accessType dir pt →
      ¬ (accessType = Protection.READ_WRITE ∧
        (pt.page pageNum).protection = Protection.READ_ONLY) →
      ((st0.run reqs).translateAddress segNum pageDir pageNum offset accessType rnd).1.ret = -1 ∧
      ((st0.run reqs).translateAddress segNum pageDir pageNum offset accessType rnd).1.fault =
        Fault.ReplacementFailed := by
  have hinv := SegmentTable.reachable_inv st0 h reqs
  have hn : (st0.run reqs).physMem.num_frames = 0 :=
    (SegmentTable.run_static st0 reqs).2.1.trans hzero
  have habsent : ∀ ref p pg, (st0.run reqs).pageAt ref p = some pg → pg.present = false := by
    intro ref p pg hpg
    cases hb : pg.present
    · rfl
    · have := hinv.keys _ _ (hinv.fwd ref p pg hpg hb)
      omega
  refine ⟨habsent, ?_⟩
  intro segNum pageDir pageNum offset accessType rnd dir pt c hpp
  have habs : (pt.page pageNum).present = false :=
    habsent _ _ _ (SegmentTable.checks_pageAt c)
  have ht := SegmentTable.inv_tick (-1) _ hinv
  have hfail : ((st0.run reqs).tick.allocateFrame).1 = -1 := by
    by_contra hne
    have hr := (SegmentTable.allocateFrame_inv _ ht).2 hne
    obtain ⟨_, hnf, _, _, _⟩ := SegmentTable.allocateFrame_frame (st0.run reqs).tick
    have h1 := hr.lo
    have h2 := hr.hi
    rw [hnf] at h2
    have h3 : (st0.run reqs).tick.physMem.num_frames = 0 := hn
    omega
  rw [SegmentTable.translateAddress_miss _ _ _ _ _ _ rnd dir pt c hpp habs, if_pos hfail]
  exact ⟨rfl, rfl⟩

/-- C16 at the example segments with a pool of 0 frames under LRU: after a read of page 0, a
read of page 1 fails too and page 0 is not present. -/
theorem C16_empty_pool_witness :
    ((exampleEmptyPool.run [⟨0, 0, 0, 3, Protection.READ_ONLY, 7⟩]).pageAt (0, 0) 0).map
      (fun pg => pg.present) = some false ∧
    ((exampleEmptyPool.run [⟨0, 0, 0, 3, Protection.READ_ONLY, 7⟩]).translateAddress
      0 0 1 3 Protection.READ_ONLY 7).1.fault = Fault.ReplacementFailed :=
  ⟨by
    have h := (C16_empty_pool exampleEmptyPool ⟨0, 16, ReplacementAlgorithm.LRU, exampleSegments,
      by decide, rfl⟩ rfl [⟨0, 0, 0, 3, Protection.READ_ONLY, 7⟩]).1 (0, 0) 0
    cases hp : (exampleEmptyPool.run [⟨0, 0, 0, 3, Protection.READ_ONLY, 7⟩]).pageAt (0, 0) 0 with
    | none => exact absurd hp (by decide)
    | some pg => simp [h pg hp],
   ((C16_empty_pool exampleEmptyPool ⟨0, 16, ReplacementAlgorithm.LRU, exampleSegments,
      by decide, rfl⟩ rfl [⟨0, 0, 0, 3, Protection.READ_ONLY, 7⟩]).2 0 0 1 3
      Protection.READ_ONLY 7
      { page_tables :=
          [(0, { pages := List.replicate 4 { protection := Protection.READ_WRITE }
                 page_size := 16 })]
        page_table_size := 4 }
      { pages := List.replicate 4 { protection := Protection.READ_WRITE }, page_size := 16 }
      ⟨by decide, by decide, by decide, by decide, by decide, by decide, by decide, by decide,
        by decide⟩ (by decide)).2⟩

/-! ## Utilization -/

/-- For a pool of at least one frame whose bitmap has one entry for each frame, `utilization()`
is the number of occupied frames divided by `num_frames`, times 100, and lies in `[0, 100]`. -/
theorem utilization_of_pos (pm : PhysicalMemory) (hpos : 0 < pm.num_frames)
    (hlen : pm.free_frames.length = pm.num_frames.toNat) :
    ∃ u : ℚ, pm.utilization = some u ∧
      u = (pm.free_frames.count false : ℚ) / (pm.num_frames : ℚ) * 100 ∧ 0 ≤ u ∧ u ≤ 100 := by
  have hne : pm.num_frames ≠ 0 := by omega
  refine ⟨_, by simp [PhysicalMemory.utilization, hne], rfl, ?_, ?_⟩
  · have h1 : (0 : ℚ) ≤ (pm.free_frames.count false : ℚ) := Nat.cast_nonneg _
    have h2 : (0 : ℚ) ≤ (pm.num_frames : ℚ) := by exact_mod_cast le_of_lt hpos
    positivity
  · have hcount : pm.free_frames.count false ≤ pm.free_frames.length := List.count_le_length _ _
    have hq : (0 : ℚ) < (pm.num_frames : ℚ) := by exact_mod_cast hpos
    have hle : (pm.free_frames.count false : ℚ) ≤ (pm.num_frames : ℚ) := by
      have h3 : ((pm.free_frames.count false : Nat) : Int) ≤ pm.num_frames := by omega
      exact_mod_cast h3
    have : (pm.free_frames.count false : ℚ) / (pm.num_frames : ℚ) ≤ 1 :=
      (div_le_one hq).mpr hle
    linarith

/-- C17 fails for the empty pool: `utilization()` of a freshly constructed pool of 0 frames
divides 0 by 0 and is not a number in `[0, 100]`. -/
theorem C17_utilization_empty_pool :
    (PhysicalMemory.new 0 ReplacementAlgorithm.FIFO).map PhysicalMemory.utilization =
      some none := by
  rfl

/-! ## Configuration: `addPageTable` and `addSegment` -/

namespace SegmentTable

/-- The constructor `PageTable(numPages, pSize)` on a non-negative size. -/
theorem new_table_spec (numPages pSize : Int) (rnd : Nat → Nat) (h : 0 ≤ numPages) :
    ∃ t, PageTable.new numPages pSize rnd = some t ∧ t.pages.length = numPages.toNat ∧
      t.page_size = pSize ∧
      ∀ pg ∈ t.pages, pg.present = false ∧ pg.frame_number = -1 ∧ pg.last_access_time = 0 := by
  have hn : ¬ numPages < 0 := by omega
  refine ⟨{ pages := (List.range numPages.toNat).map (fun k =>
              { present := false
                protection :=
                  if rnd k % 2 ≠ 0 then Protection.READ_WRITE else Protection.READ_ONLY
                frame_number := -1
                last_access_time := 0 })
            page_size := pSize }, by simp only [PageTable.new, hn, if_false], by simp, rfl, ?_⟩
  intro pg hpg
  simp only [List.mem_map] at hpg
  obtain ⟨k, _, rfl⟩ := hpg
  exact ⟨rfl, rfl, rfl⟩

/-- The loop of `addSegment`: every listed index gets a fresh table, every other index keeps
what it had. -/
theorem addTables_spec (tableSize pageSize : Int) (rnd : Nat → Nat → Nat) (idxs : List Nat)
    (d : PageDirectory) (hts : 0 ≤ tableSize) :
    ∃ d', addTables d tableSize pageSize rnd idxs = some d' ∧
      d'.page_table_size = d.page_table_size ∧
      (∀ n ∈ idxs, StdMap.find d'.page_tables (n : Int) =
        PageTable.new tableSize pageSize (rnd n)) ∧
      (∀ i : Int, (∀ n ∈ idxs, (n : Int) ≠ i) →
        StdMap.find d'.page_tables i = StdMap.find d.page_tables i) := by
  induction idxs generalizing d with
  | nil => exact ⟨d, rfl, rfl, by simp, fun _ _ => rfl⟩
  | cons i0 rest ih =>
    obtain ⟨t0, ht0, _, _, _⟩ := new_table_spec tableSize pageSize (rnd i0) hts
    obtain ⟨d', hd', hsize, hin, hout⟩ := ih
      { d with page_tables := StdMap.insert (i0 : Int) t0 d.page_tables }
    refine ⟨d', ?_, hsize, ?_, ?_⟩
    · simp only [addTables, PageDirectory.addPageTable, ht0, Option.map_some',
        Option.some_bind]
      exact hd'
    · intro n hn
      by_cases hnr : n ∈ rest
      · exact hin n hnr
      · have hn0 : n = i0 := by
          rcases List.mem_cons.mp hn with h | h
          · exact h
          · exact absurd h hnr
        subst hn0
        rw [hout (n : Int) (by
          intro m hm hmn
          have : m = n := by exact_mod_cast hmn
          exact hnr (this ▸ hm))]
        simp only [StdMap.find_insert, if_true]
        exact ht0.symm
    · intro i hi
      rw [hout i (fun n hn => hi n (List.mem_cons_of_mem _ hn))]
      have hne : i ≠ (i0 : Int) := fun e => hi i0 (List.mem_cons_self _ _) e.symm
      simp only [StdMap.find_insert, hne, if_false]

end SegmentTable

/-- C18 fails on a duplicate id: the example manager has a directory under id 0, and
`addSegment(0, ...)` neither fails nor leaves things as they were: the segment list grows and
the directory under id 0 is replaced. -/
theorem C18_duplicate_id_accepted :
    StdMap.find exampleManager.segment_directories 0 ≠ none ∧
    ∃ st', exampleManager.addSegment 0 0 1 Protection.READ_ONLY 1 2 (fun _ _ => 0) = some st' ∧
      st'.segments.length = exampleManager.segments.length + 1 ∧
      StdMap.find st'.segment_directories 0 ≠ StdMap.find exampleManager.segment_directories 0 :=
  ⟨by decide, _, rfl, by decide, by decide⟩

/-- C18 as amended: `addSegment(id, ...)` has no failure path for a duplicate id. Whether or not
`id` was registered, it appends the descriptor to the segment list and stores under `id` a
freshly built directory of `dirSize` tables of `tableSize` pages, none present, in place of
whatever was stored there; the directories of the other ids, the pool and `frame_to_page_map`
stay as they were. -/
theorem C18_addSegment_replaces (st : SegmentTable) (id base limit : Int) (prot : Protection)
    (dirSize tableSize : Int) (rnd : Nat → Nat → Nat) (hts : 0 ≤ tableSize) :
    ∃ st' d, st.addSegment id base limit prot dirSize tableSize rnd = some st' ∧
      st'.segments = st.segments ++ [⟨base, limit, prot⟩] ∧
      StdMap.find st'.segment_directories id = some d ∧
      d.page_table_size = tableSize ∧
      (∀ n : Nat, (n : Int) < dirSize → ∃ t, StdMap.find d.page_tables (n : Int) = some t ∧
        t.pages.length = tableSize.toNat ∧ t.page_size = st.page_size ∧
        ∀ pg ∈ t.pages, pg.present = false) ∧
      (∀ i : Int, (i < 0 ∨ dirSize ≤ i) → StdMap.find d.page_tables i = none) ∧
      (∀ k, k ≠ id → StdMap.find st'.segment_directories k =
        StdMap.find st.segment_directories k) ∧
      st'.physMem = st.physMem ∧ st'.frame_to_page_map = st.frame_to_page_map := by
  obtain ⟨d, hd, hsize, hin, hout⟩ := SegmentTable.addTables_spec tableSize st.page_size rnd
    (List.range dirSize.toNat) (PageDirectory.new tableSize) hts
  refine ⟨{ st with
            segments := st.segments ++ [⟨base, limit, prot⟩]
            segment_directories := StdMap.insert id d st.segment_directories }, d,
    by simp only [SegmentTable.addSegment, hd, Option.map_some'], rfl, ?_, hsize,
    ?_, ?_, ?_, rfl, rfl⟩
  · simp only [StdMap.find_insert, if_true]
  · intro n hn
    obtain ⟨t, ht, hlen, hps, hpages⟩ := SegmentTable.new_table_spec tableSize st.page_size
      (rnd n) hts
    refine ⟨t, ?_, hlen, hps, fun pg hpg => (hpages pg hpg).1⟩
    rw [hin n (List.mem_range.mpr (by omega)), ht]
  · intro i hi
    rw [hout i (by
      intro n hn hni
      have := List.mem_range.mp hn
      omega)]
    rfl
  · intro k hk
    simp only [StdMap.find_insert, hk, if_false]

/-- C18 as amended, at the example manager and the already registered id 0. -/
theorem C18_addSegment_replaces_witness :
    ∃ st' d, exampleManager.addSegment 0 0 1 Protection.READ_ONLY 1 2 (fun _ _ => 0) = some st' ∧
      st'.segments = exampleManager.segments ++ [⟨0, 1, Protection.READ_ONLY⟩] ∧
      StdMap.find st'.segment_directories 0 = some d ∧
      d.page_table_size = 2 ∧
      (∀ n : Nat, (n : Int) < 1 → ∃ t, StdMap.find d.page_tables (n : Int) = some t ∧
        t.pages.length = (2 : Int).toNat ∧ t.page_size = exampleManager.page_size ∧
        ∀ pg ∈ t.pages, pg.present = false) ∧
      (∀ i : Int, (i < 0 ∨ 1 ≤ i) → StdMap.find d.page_tables i = none) ∧
      (∀ k, k ≠ 0 → StdMap.find st'.segment_directories k =
        StdMap.find exampleManager.segment_directories k) ∧
      st'.physMem = exampleManager.physMem ∧
      st'.frame_to_page_map = exampleManager.frame_to_page_map :=
  C18_addSegment_replaces exampleManager 0 0 1 Protection.READ_ONLY 1 2 (fun _ _ => 0)
    (by decide)

/-- C19 fails on an existing index: a directory whose table at index 0 has page 0 present in
frame 3 accepts `addPageTable(0, 2, 16)` without error and ends with a different table at
index 0. -/
theorem C19_existing_table_replaced :
    ∃ d', PageDirectory.addPageTable
        { page_tables :=
            [(0, { pages := [{ frame_number := 3, present := true, last_access_time := 5 }]
                   page_size := 16 })]
          page_table_size := 1 } 0 2 16 (fun _ => 1) = some d' ∧
      StdMap.find d'.page_tables 0 ≠
        some { pages := [{ frame_number := 3, present := true, last_access_time := 5 }]
               page_size := 16 } :=
  ⟨_, rfl, by decide⟩

/-- C19 as amended: `addPageTable(index, pageCount, pageSize)` with `pageCount >= 0` stores a
fresh table of `pageCount` entries, none present, under `index`, whether the index was absent
or already held a table (which is replaced; no error is reported), and leaves the tables at all
other indices as they were. -/
theorem C19_addPageTable_overwrites (d : PageDirectory) (index pageCount pageSize : Int)
    (rnd : Nat → Nat) (h : 0 ≤ pageCount) :
    ∃ d' t, d.addPageTable index pageCount pageSize rnd = some d' ∧
      StdMap.find d'.page_tables index = some t ∧
      t.pages.length = pageCount.toNat ∧ t.page_size = pageSize ∧
      (∀ pg ∈ t.pages, pg.present = false ∧ pg.frame_number = -1 ∧ pg.last_access_time = 0) ∧
      (∀ j, j ≠ index → StdMap.find d'.page_tables j = StdMap.find d.page_tables j) ∧
      d'.page_table_size = d.page_table_size := by
  obtain ⟨t, ht, hlen, hps, hpages⟩ := SegmentTable.new_table_spec pageCount pageSize rnd h
  refine ⟨{ d with page_tables := StdMap.insert index t d.page_tables }, t,
    by simp only [PageDirectory.addPageTable, ht, Option.map_some'], ?_, hlen, hps, hpages, ?_,
    rfl⟩
  · simp only [StdMap.find_insert, if_true]
  · intro j hj
    simp only [StdMap.find_insert, hj, if_false]

/-- C19 as amended, at a directory that already has a table at index 0. -/
theorem C19_addPageTable_overwrites_witness :
    ∃ d' t, PageDirectory.addPageTable
        { page_tables :=
            [(0, { pages := [{ frame_number := 3, present := true, last_access_time := 5 }]
                   page_size := 16 })]
          page_table_size := 1 } 0 2 16 (fun _ => 1) = some d' ∧
      StdMap.find d'.page_tables 0 = some t ∧
      t.pages.length = (2 : Int).toNat ∧ t.page_size = 16 ∧
      (∀ pg ∈ t.pages, pg.present = false ∧ pg.frame_number = -1 ∧ pg.last_access_time = 0) ∧
      (∀ j, j ≠ 0 → StdMap.find d'.page_tables j =
        StdMap.find
          (PageDirectory.page_tables
            { page_tables :=
                [(0, { pages := [{ frame_number := 3, present := true, last_access_time := 5 }]
                       page_size := 16 })]
              page_table_size := 1 }) j) ∧
      d'.page_table_size = 1 :=
  C19_addPageTable_overwrites _ 0 2 16 (fun _ => 1) (by decide)

/-- C20 fails when ids are not 0, 1, 2, ... in order, because `translateAddress` reads the
descriptor at position `segNum` of the segment list and the directory under key `segNum`.
With one segment of id 5, a read of segment 5 gets the invalid-segment fault. With id 1
(read-only) added before id 0 (read-write), a write to segment 0 is checked against the
protection given for id 1 and gets the segment-protection fault. -/
theorem C20_segment_id_mismatch :
    (SegmentTable.configure 1 16 ReplacementAlgorithm.FIFO
        [{ id := 5, base := 0, limit := 1, prot := Protection.READ_WRITE, dirSize := 1,
           tableSize := 4, rnd := fun _ _ => 1 }]).map
      (fun st => (st.translateAddress 5 0 0 0 Protection.READ_ONLY 7).1) =
      some ⟨-1, 3, Fault.InvalidSegment⟩ ∧
    (SegmentTable.configure 1 16 ReplacementAlgorithm.FIFO
        [{ id := 1, base := 0, limit := 1, prot := Protection.READ_ONLY, dirSize := 1,
           tableSize := 4, rnd := fun _ _ => 1 },
         { id := 0, base := 0, limit := 1, prot := Protection.READ_WRITE, dirSize := 1,
           tableSize := 4, rnd := fun _ _ => 1 }]).map
      (fun st => (st.translateAddress 0 0 0 0 Protection.READ_WRITE 7).1) =
      some ⟨-1, 3, Fault.SegmentProtection⟩ := by
  constructor <;> decide

/-! ## FIFO replacement -/

namespace SegmentTable

theorem fifoShape_congr (m : Nat) (st st' : SegmentTable) (h : FifoShape m st)
    (h1 : st'.physMem.algo = st.physMem.algo)
    (h2 : st'.physMem.num_frames = st.physMem.num_frames)
    (h3 : st'.physMem.free_frames = st.physMem.free_frames)
    (h4 : st'.physMem.fifo_queue = st.physMem.fifo_queue) : FifoShape m st' := by
  refine ⟨?_, ?_, ?_, ?_, ?_⟩
  · rw [h1]; exact h.algo
  · rw [h2]; exact h.nonneg
  · rw [h2, h3]; exact h.free
  · rw [h2, h4]; exact h.qlen
  · rw [h2, h4]; exact h.qget

/-- Under FIFO, with fewer resolutions so far than frames, the next frame comes from the free
scan and is frame `m`. -/
theorem fifo_alloc_free (m : Nat) (st : SegmentTable) (h : FifoShape m st)
    (hm : m < st.physMem.num_frames.toNat) :
    st.physMem.firstFree = some m ∧ (st.allocateFrame).1 = (m : Int) ∧
    FifoShape (m + 1) (st.allocateFrame).2 ∧
    (st.allocateFrame).2.segment_directories = st.segment_directories ∧
    (st.allocateFrame).2.frame_to_page_map = st.frame_to_page_map := by
  have hff : st.physMem.firstFree = some m := by
    unfold PhysicalMemory.firstFree
    rw [List.find?_range_eq_some]
    refine ⟨?_, List.mem_range.mpr hm, ?_⟩
    · rw [h.free m hm]
      simp
    · intro j hj
      rw [h.free j (by omega)]
      simp
      omega
  have hmin : min m st.physMem.num_frames.toNat = m := by omega
  have hmin' : min (m + 1) st.physMem.num_frames.toNat = m + 1 := by omega
  have hq := h.qlen
  rw [hmin] at hq
  refine ⟨hff, ?_, ?_, ?_, ?_⟩
  · unfold allocateFrame
    rw [hff]
  · have hst : (st.allocateFrame).2 =
        { st with physMem :=
            { st.physMem with
              free_frames := st.physMem.free_frames.set m false
              fifo_queue := st.physMem.fifo_queue ++ [(m : Int)] } } := by
      unfold allocateFrame
      rw [hff]
      simp only [h.algo, if_true]
    rw [hst]
    refine ⟨h.algo, h.nonneg, ?_, ?_, ?_⟩
    · intro i hi
      show (st.physMem.free_frames.set m false).getD i false = decide (m + 1 ≤ i)
      rw [getD_set_false]
      by_cases hmi : m = i
      · subst hmi
        simp
      · rw [if_neg hmi, h.free i hi]
        exact decide_eq_decide.mpr ⟨fun _ => by omega, fun _ => by omega⟩
    · show (st.physMem.fifo_queue ++ [(m : Int)]).length = min (m + 1) st.physMem.num_frames.toNat
      rw [List.length_append, hq, hmin']
      rfl
    · intro j hj
      show (st.physMem.fifo_queue ++ [(m : Int)])[j]? =
        some (((m + 1 - min (m + 1) st.physMem.num_frames.toNat + j) %
          st.physMem.num_frames.toNat : Nat) : Int)
      have hj' : j < m + 1 := by
        have : j < min (m + 1) st.physMem.num_frames.toNat := hj
        omega
      have he : m + 1 - min (m + 1) st.physMem.num_frames.toNat + j = j := by omega
      rw [he, Nat.mod_eq_of_lt (by omega)]
      by_cases hjm : j < m
      · rw [List.getElem?_append_left (by omega), h.qget j (by omega)]
        have he2 : m - min m st.physMem.num_frames.toNat + j = j := by omega
        rw [he2, Nat.mod_eq_of_lt (by omega)]
      · have hjm2 : j = m := by omega
        subst hjm2
        rw [List.getElem?_append_right (by omega), hq]
        simp
  · unfold allocateFrame
    rw [hff]
  · unfold allocateFrame
    rw [hff]

end SegmentTable

namespace SegmentTable

/-- Under FIFO, once every frame has been handed out, the next frame is the head of the queue,
`m mod k`, and the queue is rotated. -/
theorem fifo_alloc_evict (m : Nat) (st : SegmentTable) (h : FifoShape m st)
    (hk : 0 < st.physMem.num_frames.toNat) (hm : st.physMem.num_frames.toNat ≤ m) :
    st.physMem.firstFree = none ∧
    (st.allocateFrame).1 = ((m % st.physMem.num_frames.toNat : Nat) : Int) ∧
    FifoShape (m + 1) (st.allocateFrame).2 := by
  have hff : st.physMem.firstFree = none := by
    unfold PhysicalMemory.firstFree
    rw [List.find?_eq_none]
    intro i hi
    have hilt := List.mem_range.mp hi
    rw [h.free i hilt]
    simp
    omega
  have hmin : min m st.physMem.num_frames.toNat = st.physMem.num_frames.toNat := by omega
  have hmin' : min (m + 1) st.physMem.num_frames.toNat = st.physMem.num_frames.toNat := by omega
  have hq := h.qlen
  rw [hmin] at hq
  have hnf : st.physMem.num_frames = (st.physMem.num_frames.toNat : Int) :=
    (Int.toNat_of_nonneg h.nonneg).symm
  have hmod : (m - st.physMem.num_frames.toNat) % st.physMem.num_frames.toNat =
      m % st.physMem.num_frames.toNat := (Nat.mod_eq_sub_mod hm).symm
  cases hqe : st.physMem.fifo_queue with
  | nil =>
    rw [hqe] at hq
    simp at hq
    omega
  | cons v rest =>
    have hv : v = ((m % st.physMem.num_frames.toNat : Nat) : Int) := by
      have h0 := h.qget 0 (by omega)
      rw [hqe, hmin] at h0
      simp only [List.getElem?_cons_zero, Option.some.injEq, Nat.add_zero] at h0
      rw [h0, hmod]
    have hlt : m % st.physMem.num_frames.toNat < st.physMem.num_frames.toNat :=
      Nat.mod_lt _ hk
    have hv0 : 0 ≤ v := by rw [hv]; omega
    have hv1 : v < st.physMem.num_frames := by rw [hv]; omega
    have hrest : rest.length + 1 = st.physMem.num_frames.toNat := by
      rw [hqe] at hq
      simpa using hq
    have hst : st.allocateFrame =
        (v, ({ st with physMem := { st.physMem with fifo_queue := rest ++ [v] } }).evict v) := by
      unfold allocateFrame
      rw [hff]
      simp only
      rw [if_pos h.algo, hqe]
    obtain ⟨_, e2, e3, e4, _, _⟩ := evict_frame
      { st with physMem := { st.physMem with fifo_queue := rest ++ [v] } } v
    obtain ⟨e5, _⟩ := evict_in_range
      { st with physMem := { st.physMem with fifo_queue := rest ++ [v] } } v hv0 hv1
    refine ⟨hff, by rw [hst]; exact hv, ?_⟩
    rw [hst]
    refine ⟨e3.trans h.algo, by rw [e2]; exact h.nonneg, ?_, ?_, ?_⟩
    · intro i hi
      rw [e2] at hi
      rw [e5]
      show (st.physMem.free_frames.set v.toNat false).getD i false = decide (m + 1 ≤ i)
      have hi' : i < st.physMem.num_frames.toNat := hi
      rw [getD_set_false]
      have hfalse : decide (m + 1 ≤ i) = false := by simp; omega
      rw [hfalse]
      by_cases hvi : v.toNat = i
      · rw [if_pos hvi]
      · rw [if_neg hvi, h.free i hi']
        simp
        omega
    · rw [e2, e4]
      show (rest ++ [v]).length = min (m + 1) st.physMem.num_frames.toNat
      rw [hmin', List.length_append]
      simpa using hrest
    · intro j hj
      rw [e2] at hj ⊢
      rw [e4]
      show (rest ++ [v])[j]? = some (((m + 1 - min (m + 1) st.physMem.num_frames.toNat + j) %
          st.physMem.num_frames.toNat : Nat) : Int)
      have hj' : j < st.physMem.num_frames.toNat := by
        have : j < min (m + 1) st.physMem.num_frames.toNat := hj
        omega
      rw [hmin']
      by_cases hjr : j < rest.length
      · rw [List.getElem?_append_left hjr]
        have h1 := h.qget (j + 1) (by omega)
        rw [hqe, hmin, List.getElem?_cons_succ] at h1
        rw [h1]
        have he : m - st.physMem.num_frames.toNat + (j + 1) =
            m + 1 - st.physMem.num_frames.toNat + j := by omega
        rw [he]
      · rw [List.getElem?_append_right (by omega)]
        have hj0 : j - rest.length = 0 := by omega
        rw [hj0]
        simp only [List.getElem?_cons_zero, Option.some.injEq]
        rw [hv]
        have he : m + 1 - st.physMem.num_frames.toNat + j =
            (m - st.physMem.num_frames.toNat) + 1 * st.physMem.num_frames.toNat := by omega
        rw [he, Nat.add_mul_mod_self_right, hmod]

/-- Under FIFO with at least one frame, resolution number `m + 1` gets frame `m mod k`, and it
evicts exactly when `k <= m`. -/
theorem fifo_alloc (m : Nat) (st : SegmentTable) (h : FifoShape m st)
    (hk : 1 ≤ st.physMem.num_frames) :
    (st.allocateFrame).1 = ((m % st.physMem.num_frames.toNat : Nat) : Int) ∧
    FifoShape (m + 1) (st.allocateFrame).2 ∧
    st.physMem.firstFree.isNone = decide (st.physMem.num_frames.toNat ≤ m) := by
  by_cases hm : m < st.physMem.num_frames.toNat
  · obtain ⟨hff, hret, hshape, _, _⟩ := fifo_alloc_free m st h hm
    refine ⟨?_, hshape, ?_⟩
    · rw [hret, Nat.mod_eq_of_lt hm]
    · rw [hff]
      simp
      omega
  · obtain ⟨hff, hret, hshape⟩ := fifo_alloc_evict m st h (by omega) (by omega)
    refine ⟨hret, hshape, ?_⟩
    rw [hff]
    simp
    omega

end SegmentTable

namespace SegmentTable

theorem pageAt_congr (st st' : SegmentTable)
    (h : st'.segment_directories = st.segment_directories) (ref : TableRef) (p : Int) :
    st'.pageAt ref p = st.pageAt ref p := by
  unfold pageAt table?
  rw [h]

/-- Effect of a successful `allocateFrame` on every page entry, given that the queue and the
index hold frame ids of the pool only: the recorded owner of an evicted frame is invalidated,
nothing else changes. -/
theorem allocateFrame_pageAt_exact (st : SegmentTable)
    (hq : ∀ f ∈ st.physMem.fifo_queue, 0 ≤ f ∧ f < st.physMem.num_frames)
    (hk : ∀ f v, StdMap.find st.frame_to_page_map f = some v →
      0 ≤ f ∧ f < st.physMem.num_frames)
    (hret : (st.allocateFrame).1 ≠ -1) (ref : TableRef) (p : Int) :
    (st.allocateFrame).2.pageAt ref p =
      if st.physMem.firstFree = none ∧
          StdMap.find st.frame_to_page_map (st.allocateFrame).1 = some (ref, p) then
        (st.pageAt ref p).map (fun pg => { pg with frame_number := -1, present := false })
      else st.pageAt ref p := by
  cases hff : st.physMem.firstFree with
  | some i =>
    simp only [reduceCtorEq, false_and, if_false]
    apply pageAt_congr
    unfold allocateFrame
    rw [hff]
  | none =>
    obtain ⟨_, _, _, _, hpage⟩ := allocateFrame_evicts st hq hk hff hret
    rw [hpage]
    simp only [true_and]

/-- In the branches that reject a call the fault string is not the page-not-in-memory one. -/
theorem translateAddress_rejected_fault (st : SegmentTable)
    (segNum pageDir pageNum offset : Int) (accessType : Protection) (rnd : Nat) :
    (∃ dir pt, Checks st segNum pageDir pageNum offset accessType dir pt) ∨
    ((st.translateAddress segNum pageDir pageNum offset accessType rnd).2 = st.tick ∧
     (st.translateAddress segNum pageDir pageNum offset accessType rnd).1.fault ≠
       Fault.PageNotInMemory ∧
     (st.translateAddress segNum pageDir pageNum offset accessType rnd).1.fault ≠ Fault.OK) := by
  by_cases hseg : segNum < 0 ∨ segNum ≥ (st.tick.segments.length : Int)
  · right
    unfold translateAddress
    simp only [hseg, if_true]
    refine ⟨?_, ?_, ?_⟩ <;> first | rfl | trivial
  by_cases hsp : accessType = Protection.READ_WRITE ∧
      (st.tick.segments.getD segNum.toNat default).protection = Protection.READ_ONLY
  · right
    unfold translateAddress
    simp only [hseg, hsp, and_self, if_true, if_false]
    refine ⟨?_, ?_, ?_⟩ <;> first | rfl | trivial
  cases hdir : StdMap.find st.tick.segment_directories segNum with
  | none =>
    right
    unfold translateAddress
    simp only [hseg, hsp, hdir, if_false]
    refine ⟨?_, ?_, ?_⟩ <;> first | rfl | trivial
  | some dir =>
    cases htab : dir.getPageTable pageDir with
    | none =>
      right
      unfold translateAddress
      simp only [hseg, hsp, hdir, htab, if_false]
      refine ⟨?_, ?_, ?_⟩ <;> first | rfl | trivial
    | some pt =>
      by_cases hpg : pageNum < 0 ∨ pageNum ≥ (pt.pages.length : Int)
      · right
        unfold translateAddress
        simp only [hseg, hsp, hdir, htab, hpg, if_false, if_true]
        refine ⟨?_, ?_, ?_⟩ <;> first | rfl | trivial
      by_cases hoff : offset < 0 ∨ offset ≥ pt.page_size
      · right
        unfold translateAddress
        simp only [hseg, hsp, hdir, htab, hpg, hoff, if_false, if_true]
        refine ⟨?_, ?_, ?_⟩ <;> first | rfl | trivial
      left
      have hseg' : ¬ (segNum < 0 ∨ segNum ≥ (st.segments.length : Int)) := hseg
      exact ⟨dir, pt, ⟨by omega, by omega, hsp, hdir, htab, by omega, by omega, by omega,
        by omega⟩⟩

end SegmentTable

namespace SegmentTable

/-- A miss under FIFO, as resolution number `m + 1`: the addressed page is bound to frame
`m mod k`, the recorded owner of that frame is invalidated when the frame was evicted
(`k <= m`), and no other page entry changes. -/
theorem fifo_miss_step (m : Nat) (st : SegmentTable) (hinv : Inv (-1) st)
    (hshape : FifoShape m st) (hk : 1 ≤ st.physMem.num_frames)
    (segNum pageDir pageNum offset : Int) (accessType : Protection) (rnd : Nat)
    (dir : PageDirectory) (pt : PageTable)
    (c : Checks st segNum pageDir pageNum offset accessType dir pt)
    (hpp : ¬ (accessType = Protection.READ_WRITE ∧
      (pt.page pageNum).protection = Protection.READ_ONLY))
    (habs : (pt.page pageNum).present = false) :
    (st.translateAddress segNum pageDir pageNum offset accessType rnd).1.fault =
      Fault.PageNotInMemory ∧
    FifoShape (m + 1) (st.translateAddress segNum pageDir pageNum offset accessType rnd).2 ∧
    st.physMem.firstFree.isNone = decide (st.physMem.num_frames.toNat ≤ m) ∧
    (∃ pg, (st.translateAddress segNum pageDir pageNum offset accessType rnd).2.pageAt
        (segNum, pageDir) pageNum = some pg ∧ pg.present = true ∧
      pg.frame_number = ((m % st.physMem.num_frames.toNat : Nat) : Int)) ∧
    ∀ ref p, ¬ (ref = (segNum, pageDir) ∧ p = pageNum) →
      (st.translateAddress segNum pageDir pageNum offset accessType rnd).2.pageAt ref p =
        if st.physMem.num_frames.toNat ≤ m ∧
            StdMap.find st.frame_to_page_map ((m % st.physMem.num_frames.toNat : Nat) : Int) =
              some (ref, p) then
          (st.pageAt ref p).map (fun pg => { pg with frame_number := -1, present := false })
        else st.pageAt ref p := by
  have ht := inv_tick (-1) st hinv
  have hst : FifoShape m st.tick := fifoShape_congr m st st.tick hshape rfl rfl rfl rfl
  obtain ⟨hret, hnext, hnone⟩ := fifo_alloc m st.tick hst hk
  have hret' : (st.tick.allocateFrame).1 =
      ((m % st.physMem.num_frames.toNat : Nat) : Int) := hret
  have hne : (st.tick.allocateFrame).1 ≠ -1 := by
    rw [hret']
    omega
  have hpage := checks_pageAt c
  have hexact := allocateFrame_pageAt_exact st.tick ht.queue
    (fun f v hf => ⟨(ht.keys f v hf).1, (ht.keys f v hf).2.1⟩) hne
  have hstill : (st.tick.allocateFrame).2.pageAt (segNum, pageDir) pageNum =
      some (pt.page pageNum) := by
    rw [hexact, hpage]
    split
    · rename_i hc
      obtain ⟨pg, hpg, hpr, _⟩ := ht.bwd _ _ _ hc.2
      rw [hpage] at hpg
      cases hpg
      rw [habs] at hpr
      cases hpr
    · rfl
  have hafter := pageAt_setFrameAt (st.tick.allocateFrame).2 (segNum, pageDir) pageNum
    (st.tick.allocateFrame).1 (st.segments.getD segNum.toNat default).protection
    (st.tick.allocateFrame).2.physMem.time (pt.page pageNum) hstill
  obtain ⟨s1, _, _⟩ := setFrameAt_static (st.tick.allocateFrame).2 (segNum, pageDir) pageNum
    (st.tick.allocateFrame).1 (st.segments.getD segNum.toNat default).protection
    (st.tick.allocateFrame).2.physMem.time
  rw [translateAddress_miss st _ _ _ _ _ rnd dir pt c hpp habs, if_neg hne]
  refine ⟨rfl, ?_, hnone, ?_, ?_⟩
  · exact fifoShape_congr (m + 1) _ _ hnext (by rw [s1]) (by rw [s1]) (by rw [s1]) (by rw [s1])
  · refine ⟨{ pt.page pageNum with
              frame_number := (st.tick.allocateFrame).1
              present := true
              protection := (st.segments.getD segNum.toNat default).protection
              last_access_time := (st.tick.allocateFrame).2.physMem.time }, ?_, rfl, hret'⟩
    show ((st.tick.allocateFrame).2.setFrameAt (segNum, pageDir) pageNum
      (st.tick.allocateFrame).1 (st.segments.getD segNum.toNat default).protection
      (st.tick.allocateFrame).2.physMem.time).pageAt (segNum, pageDir) pageNum = _
    rw [hafter]
    simp
  · intro ref p hnot
    show ((st.tick.allocateFrame).2.setFrameAt (segNum, pageDir) pageNum
      (st.tick.allocateFrame).1 (st.segments.getD segNum.toNat default).protection
      (st.tick.allocateFrame).2.physMem.time).pageAt ref p = _
    rw [hafter, if_neg hnot, hexact, hret']
    have hn : (st.tick.physMem.firstFree = none) ↔ st.physMem.num_frames.toNat ≤ m := by
      have h1 : st.tick.physMem.firstFree.isNone = decide (st.physMem.num_frames.toNat ≤ m) :=
        hnone
      cases hff : st.tick.physMem.firstFree with
      | none =>
        rw [hff] at h1
        simp only [Option.isNone_none] at h1
        exact ⟨(fun _ => of_decide_eq_true h1.symm), (fun _ => rfl)⟩
      | some i =>
        rw [hff] at h1
        simp only [Option.isNone_some] at h1
        exact ⟨(fun h => Option.noConfusion h), (fun h => absurd h (of_decide_eq_false h1.symm))⟩
    by_cases hkm : st.physMem.num_frames.toNat ≤ m
    · have hnn : st.tick.physMem.firstFree = none := hn.mpr hkm
      simp only [hnn, hkm, true_and]
      rfl
    · have hnn : ¬ st.tick.physMem.firstFree = none := fun e => hkm (hn.mp e)
      simp only [hnn, hkm, false_and, if_false]
      rfl

end SegmentTable

namespace SegmentTable

/-- One call under FIFO: a resolved page fault is resolution number `m + 1` and uses frame
`m mod k`; any other call leaves the pool as it was. -/
theorem fifo_step (m : Nat) (st : SegmentTable) (hinv : Inv (-1) st) (hshape : FifoShape m st)
    (hk : 1 ≤ st.physMem.num_frames) (q : Request) :
    ((st.serve q).1.fault = Fault.PageNotInMemory →
      FifoShape (m + 1) (st.serve q).2 ∧
      st.physMem.firstFree.isNone = decide (st.physMem.num_frames.toNat ≤ m) ∧
      (((st.serve q).2.pageAt (q.segNum, q.pageDir) q.pageNum).getD default).frame_number =
        ((m % st.physMem.num_frames.toNat : Nat) : Int)) ∧
    ((st.serve q).1.fault ≠ Fault.PageNotInMemory → FifoShape m (st.serve q).2) := by
  have htick : FifoShape m st.tick := fifoShape_congr m st st.tick hshape rfl rfl rfl rfl
  unfold serve
  rcases translateAddress_rejected_fault st q.segNum q.pageDir q.pageNum q.offset q.accessType
    q.rnd with ⟨dir, pt, c⟩ | ⟨hrej, hne, _⟩
  swap
  · refine ⟨fun hf => absurd hf hne, fun _ => ?_⟩
    rw [hrej]
    exact htick
  have hpage := checks_pageAt c
  by_cases hpp : q.accessType = Protection.READ_WRITE ∧
      (pt.page q.pageNum).protection = Protection.READ_ONLY
  · rw [translateAddress_page_protection st _ _ _ _ _ q.rnd dir pt c hpp.1 hpp.2]
    exact ⟨(fun hf => by cases hf), (fun _ => htick)⟩
  by_cases hpres : (pt.page q.pageNum).present = true
  · have ht := inv_tick (-1) st hinv
    have hmap := ht.fwd _ _ _ hpage hpres
    obtain ⟨h0, _, _⟩ := ht.keys _ _ hmap
    rw [translateAddress_hit st _ _ _ _ _ q.rnd dir pt c hpp hpres (by omega) (by omega)]
    exact ⟨(fun hf => by cases hf), (fun _ => fifoShape_congr m st _ hshape rfl rfl rfl rfl)⟩
  · have habs : (pt.page q.pageNum).present = false := by
      cases hb : (pt.page q.pageNum).present
      · rfl
      · exact absurd hb hpres
    obtain ⟨hf, hnext, hnone, ⟨pg, hpg, _, hfr⟩, _⟩ := fifo_miss_step m st hinv hshape hk
      q.segNum q.pageDir q.pageNum q.offset q.accessType q.rnd dir pt c hpp habs
    refine ⟨fun _ => ⟨hnext, hnone, ?_⟩, fun hne => absurd hf hne⟩
    rw [hpg]
    exact hfr

/-- The resolutions of a run that starts after `m` resolutions are numbers `m + 1, m + 2, ...`:
entry `n` is frame `(m + n) mod k`, evicted exactly when `k <= m + n`. -/
theorem resolutions_fifo (k : Nat) (hk1 : 1 ≤ k) (reqs : List Request) :
    ∀ (m : Nat) (st : SegmentTable), Inv (-1) st → FifoShape m st →
      st.physMem.num_frames = (k : Int) →
      ∀ (n : Nat) (x : Int × Bool), (st.resolutions reqs)[n]? = some x →
        x = ((((m + n) % k : Nat) : Int), decide (k ≤ m + n)) := by
  induction reqs with
  | nil =>
    intro m st _ _ _ n x hx
    simp [resolutions] at hx
  | cons q qs ih =>
    intro m st hinv hshape hk n x hx
    have hkn : st.physMem.num_frames.toNat = k := by omega
    have hinv' : Inv (-1) (st.serve q).2 := translateAddress_inv st hinv _ _ _ _ _ _
    have hk' : (st.serve q).2.physMem.num_frames = (k : Int) :=
      (translateAddress_static st q.segNum q.pageDir q.pageNum q.offset q.accessType
        q.rnd).2.1.trans hk
    obtain ⟨hmiss, hother⟩ := fifo_step m st hinv hshape (by omega) q
    unfold resolutions at hx
    by_cases hf : (st.serve q).1.fault = Fault.PageNotInMemory
    · obtain ⟨hnext, hnone, hfr⟩ := hmiss hf
      rw [if_pos hf] at hx
      cases n with
      | zero =>
        simp only [List.singleton_append, List.getElem?_cons_zero, Option.some.injEq] at hx
        rw [← hx, hfr, hnone, hkn]
        rfl
      | succ n' =>
        simp only [List.singleton_append, List.getElem?_cons_succ] at hx
        have := ih (m + 1) (st.serve q).2 hinv' hnext hk' n' x hx
        rw [this]
        have he : m + 1 + n' = m + (n' + 1) := by omega
        rw [he]
    · rw [if_neg hf] at hx
      simp only [List.nil_append] at hx
      exact ih m (st.serve q).2 hinv' (hother hf) hk' n x hx

/-- A freshly configured FIFO manager has made no resolution. -/
theorem configured_fifoShape (st : SegmentTable) (h : Configured st)
    (halgo : st.physMem.algo = ReplacementAlgorithm.FIFO) : FifoShape 0 st := by
  obtain ⟨numFrames, pSize, algo, cs, _, hcfg⟩ := h
  obtain ⟨h0, hpm, _, _, _⟩ := configure_fresh numFrames pSize algo cs st hcfg
  refine ⟨halgo, ?_, ?_, ?_, ?_⟩
  · rw [hpm]; exact h0
  · intro i hi
    rw [hpm] at hi ⊢
    simp only at hi ⊢
    rw [getD_replicate_true _ _ hi]
    simp
  · rw [hpm]
    simp
  · intro j hj
    simp at hj

end SegmentTable

/-- C13: under FIFO with a pool of `k >= 1` frames and no `freeFrame`, in every run of
`translateAddress` calls from a freshly configured manager the `(n+1)`-th page-fault resolution
uses frame `n mod k`, taking it from a victim exactly when `k <= n`. So the first resolution
uses frame 0 from the free scan, and resolutions number `k + 1`, `2k + 1`, ... (index `j * k`,
`j >= 1`) evict and reuse frame 0. -/
theorem C13_fifo_round_robin (st0 : SegmentTable) (h : Configured st0)
    (halgo : st0.physMem.algo = ReplacementAlgorithm.FIFO) (k : Nat)
    (hk : st0.physMem.num_frames = (k : Int)) (hk1 : 1 ≤ k) (reqs : List Request) :
    (∀ n, n < (st0.resolutions reqs).length →
      (st0.resolutions reqs)[n]? = some (((n % k : Nat) : Int), decide (k ≤ n))) ∧
    (0 < (st0.resolutions reqs).length → (st0.resolutions reqs)[0]? = some (0, false)) ∧
    (∀ j, 1 ≤ j → j * k < (st0.resolutions reqs).length →
      (st0.resolutions reqs)[j * k]? = some (0, true)) := by
  have hinv := SegmentTable.configured_inv st0 h
  have hshape := SegmentTable.configured_fifoShape st0 h halgo
  have key : ∀ n, n < (st0.resolutions reqs).length →
      (st0.resolutions reqs)[n]? = some (((n % k : Nat) : Int), decide (k ≤ n)) := by
    intro n hn
    have hx : (st0.resolutions reqs)[n]? = some ((st0.resolutions reqs)[n]) :=
      List.getElem?_eq_getElem hn
    have := SegmentTable.resolutions_fifo k hk1 reqs 0 st0 hinv hshape hk n _ hx
    rw [hx, this]
    simp
  refine ⟨key, ?_, ?_⟩
  · intro h0
    rw [key 0 h0]
    have : decide (k ≤ 0) = false := by simp; omega
    rw [this]
    simp
  · intro j hj hlt
    rw [key (j * k) hlt]
    have h1 : j * k % k = 0 := Nat.mul_mod_left j k
    have h2 : decide (k ≤ j * k) = true := by
      simp
      exact Nat.le_mul_of_pos_left k (by omega)
    rw [h1, h2]
    simp

/-- C13 at the example manager (two frames, FIFO): five reads of pages 0, 1, 2, 3, 0 are five
resolutions, on frames 0, 1, 0, 1, 0, the last three by eviction. -/
theorem C13_fifo_round_robin_witness :
    exampleManager.resolutions
      [⟨0, 0, 0, 0, Protection.READ_ONLY, 0⟩, ⟨0, 0, 1, 0, Protection.READ_ONLY, 0⟩,
       ⟨0, 0, 2, 0, Protection.READ_ONLY, 0⟩, ⟨0, 0, 3, 0, Protection.READ_ONLY, 0⟩,
       ⟨0, 0, 0, 0, Protection.READ_ONLY, 0⟩] =
      [(0, false), (1, false), (0, true), (1, true), (0, true)] ∧
    (exampleManager.resolutions
      [⟨0, 0, 0, 0, Protection.READ_ONLY, 0⟩, ⟨0, 0, 1, 0, Protection.READ_ONLY, 0⟩,
       ⟨0, 0, 2, 0, Protection.READ_ONLY, 0⟩, ⟨0, 0, 3, 0, Protection.READ_ONLY, 0⟩,
       ⟨0, 0, 0, 0, Protection.READ_ONLY, 0⟩])[2 * 2]? = some (0, true) :=
  ⟨by decide,
   (C13_fifo_round_robin exampleManager ⟨2, 16, ReplacementAlgorithm.FIFO, exampleSegments,
      by decide, rfl⟩ rfl 2 rfl (by decide)
      [⟨0, 0, 0, 0, Protection.READ_ONLY, 0⟩, ⟨0, 0, 1, 0, Protection.READ_ONLY, 0⟩,
       ⟨0, 0, 2, 0, Protection.READ_ONLY, 0⟩, ⟨0, 0, 3, 0, Protection.READ_ONLY, 0⟩,
       ⟨0, 0, 0, 0, Protection.READ_ONLY, 0⟩]).2.2 2 (by decide) (by decide)⟩

/-! ## Tables keep their size -/

namespace SegmentTable

theorem shape_updTable (st : SegmentTable) (ref : TableRef) (f : PageTable → PageTable)
    (hf : ∀ t, st.table? ref = some t → (f t).shape = t.shape) (ref' : TableRef) :
    ((st.updTable ref f).table? ref').map PageTable.shape =
      (st.table? ref').map PageTable.shape := by
  rw [table?_updTable]
  by_cases hr : ref' = ref
  · subst hr
    rw [if_pos rfl]
    cases ht : st.table? ref' with
    | none => rfl
    | some t => simp [hf t ht]
  · rw [if_neg hr]

theorem invalidatePage_shape (t : PageTable) (q : Int) : (t.invalidatePage q).shape = t.shape := by
  unfold PageTable.invalidatePage
  split
  · simp [PageTable.shape, PageTable.setPage]
  · rfl

theorem setFrame_shape (t : PageTable) (self : TableRef) (q f : Int) (prot : Protection)
    (time : Int) (m : StdMap (TableRef × Int)) :
    (t.setFrame self q f prot time m).1.shape = t.shape := by
  unfold PageTable.setFrame
  split
  · simp [PageTable.shape, PageTable.setPage]
  · rfl

theorem evict_shape (st : SegmentTable) (v : Int) (ref : TableRef) :
    ((st.evict v).table? ref).map PageTable.shape = (st.table? ref).map PageTable.shape := by
  unfold evict
  by_cases hv : v = -1
  · simp [hv]
  · simp only [ne_eq, hv, not_false_eq_true, if_true]
    cases hfind : StdMap.find st.frame_to_page_map v with
    | none =>
      simp only
      split <;> rfl
    | some val =>
      obtain ⟨r, q⟩ := val
      have key := shape_updTable st r (fun pt => pt.invalidatePage q)
        (fun t _ => invalidatePage_shape t q) ref
      simp only
      rw [← key]
      split <;> rfl

theorem allocateFrame_shape (st : SegmentTable) (ref : TableRef) :
    ((st.allocateFrame).2.table? ref).map PageTable.shape =
      (st.table? ref).map PageTable.shape := by
  unfold allocateFrame
  cases hff : st.physMem.firstFree with
  | some i => rfl
  | none =>
    simp only
    by_cases ha : st.physMem.algo = ReplacementAlgorithm.FIFO
    · rw [if_pos ha]
      cases hq : st.physMem.fifo_queue with
      | nil => rfl
      | cons v rest =>
        simp only
        exact evict_shape { st with physMem := { st.physMem with fifo_queue := rest ++ [v] } } v ref
    · rw [if_neg ha]
      exact evict_shape st _ ref

theorem setFrameAt_shape (st : SegmentTable) (r : TableRef) (q f : Int) (prot : Protection)
    (time : Int) (ref : TableRef) :
    ((st.setFrameAt r q f prot time).table? ref).map PageTable.shape =
      (st.table? ref).map PageTable.shape := by
  unfold setFrameAt
  cases ht : st.table? r with
  | none => rfl
  | some t =>
    simp only
    exact shape_updTable st r (fun _ => (t.setFrame r q f prot time st.frame_to_page_map).1)
      (fun t' ht' => by
        rw [ht] at ht'
        cases ht'
        exact setFrame_shape t r q f prot time _) ref

/-- No call changes the number of pages or the page size of any table. -/
theorem translateAddress_shape (st : SegmentTable) (segNum pageDir pageNum offset : Int)
    (accessType : Protection) (rnd : Nat) (ref : TableRef) :
    ((st.translateAddress segNum pageDir pageNum offset accessType rnd).2.table? ref).map
      PageTable.shape = (st.table? ref).map PageTable.shape := by
  have hbind : ∀ (s : SegmentTable) (f : Int) (prot : Protection) (time : Int),
      (s.table? ref).map PageTable.shape = (st.table? ref).map PageTable.shape →
      (((s.allocateFrame).2.table? ref).map PageTable.shape =
        (st.table? ref).map PageTable.shape) ∧
      ((((s.allocateFrame).2.setFrameAt (segNum, pageDir) pageNum f prot time).table? ref).map
        PageTable.shape = (st.table? ref).map PageTable.shape) := by
    intro s f prot time hs
    have h1 := (allocateFrame_shape s ref).trans hs
    exact ⟨h1, (setFrameAt_shape _ _ _ _ _ _ ref).trans h1⟩
  rcases translateAddress_checked_or_rejected st segNum pageDir pageNum offset accessType rnd
    with ⟨dir, pt, c⟩ | ⟨hrej, _, _⟩
  swap
  · rw [hrej]
    rfl
  by_cases hpp : accessType = Protection.READ_WRITE ∧
      (pt.page pageNum).protection = Protection.READ_ONLY
  · rw [translateAddress_page_protection st _ _ _ _ _ rnd dir pt c hpp.1 hpp.2]
    rfl
  have htouch : ((st.tick.updTable (segNum, pageDir) (fun _ => pt.setPage pageNum
      { pt.page pageNum with last_access_time := st.physMem.time + 1 })).table? ref).map
      PageTable.shape = (st.table? ref).map PageTable.shape :=
    shape_updTable st.tick (segNum, pageDir) _ (fun t ht => by
      rw [checks_table c] at ht
      cases ht
      simp [PageTable.shape, PageTable.setPage]) ref
  by_cases hpres : (pt.page pageNum).present = true
  · rw [translateAddress_present st _ _ _ _ _ rnd dir pt c hpp hpres]
    split
    · exact htouch
    · split
      · split
        · exact (hbind _ 0 Protection.READ_ONLY 0 htouch).1
        · exact (hbind _ _ _ _ htouch).2
      · exact htouch
  · have habs : (pt.page pageNum).present = false := by
      cases hb : (pt.page pageNum).present
      · rfl
      · exact absurd hb hpres
    rw [translateAddress_miss st _ _ _ _ _ rnd dir pt c hpp habs]
    split
    · exact (hbind st.tick 0 Protection.READ_ONLY 0 rfl).1
    · exact (hbind st.tick _ _ _ rfl).2

/-- A request that passes the checks in one state passes them in any state with the same
segment list and the same table sizes. -/
theorem checks_persist (st st' : SegmentTable) (segNum pageDir pageNum offset : Int)
    (accessType : Protection) (dir : PageDirectory) (pt : PageTable)
    (c : Checks st segNum pageDir pageNum offset accessType dir pt)
    (hseg : st'.segments = st.segments)
    (hshape : (st'.table? (segNum, pageDir)).map PageTable.shape =
      (st.table? (segNum, pageDir)).map PageTable.shape) :
    ∃ dir' pt', Checks st' segNum pageDir pageNum offset accessType dir' pt' ∧
      pt'.page_size = pt.page_size ∧ pt'.pages.length = pt.pages.length := by
  have ht : st.table? (segNum, pageDir) = some pt := checks_table c
  rw [ht] at hshape
  cases ht' : st'.table? (segNum, pageDir) with
  | none => simp [ht'] at hshape
  | some pt' =>
    simp only [ht', Option.map_some', Option.some.injEq, PageTable.shape, Prod.mk.injEq] at hshape
    obtain ⟨hlen, hps⟩ := hshape
    unfold table? at ht'
    cases hd : StdMap.find st'.segment_directories segNum with
    | none => simp [hd] at ht'
    | some dir' =>
      simp only [hd, Option.some_bind] at ht'
      refine ⟨dir', pt', ⟨c.seg_lo, by rw [hseg]; exact c.seg_hi, by rw [hseg]; exact c.seg_prot,
        hd, ht', c.page_lo, by rw [hlen]; exact c.page_hi, c.off_lo, by rw [hps]; exact c.off_hi⟩,
        hps, hlen⟩

end SegmentTable

/-! ## Scenario A -/

/-- C14: with a pool of 2 frames under FIFO and a freshly configured manager, reading three
distinct in-range pages `p1`, `p2`, `p3` of one table in sequence leaves `p1` not present, `p2`
present in frame 1 and `p3` present in frame 0: the third request evicts the page the first one
bound. -/
theorem C14_scenario_a (st0 : SegmentTable) (h : Configured st0)
    (halgo : st0.physMem.algo = ReplacementAlgorithm.FIFO)
    (hk : st0.physMem.num_frames = 2)
    (segNum pageDir p1 p2 p3 o1 o2 o3 : Int) (r1 r2 r3 : Nat)
    (dir : PageDirectory) (pt : PageTable)
    (c1 : Checks st0 segNum pageDir p1 o1 Protection.READ_ONLY dir pt)
    (c2 : Checks st0 segNum pageDir p2 o2 Protection.READ_ONLY dir pt)
    (c3 : Checks st0 segNum pageDir p3 o3 Protection.READ_ONLY dir pt)
    (h12 : p1 ≠ p2) (h13 : p1 ≠ p3) (h23 : p2 ≠ p3) :
    (∃ pg, (st0.run [⟨segNum, pageDir, p1, o1, Protection.READ_ONLY, r1⟩,
        ⟨segNum, pageDir, p2, o2, Protection.READ_ONLY, r2⟩,
        ⟨segNum, pageDir, p3, o3, Protection.READ_ONLY, r3⟩]).pageAt (segNum, pageDir) p1 =
          some pg ∧ pg.present = false) ∧
    (∃ pg, (st0.run [⟨segNum, pageDir, p1, o1, Protection.READ_ONLY, r1⟩,
        ⟨segNum, pageDir, p2, o2, Protection.READ_ONLY, r2⟩,
        ⟨segNum, pageDir, p3, o3, Protection.READ_ONLY, r3⟩]).pageAt (segNum, pageDir) p2 =
          some pg ∧ pg.present = true ∧ pg.frame_number = 1) ∧
    (∃ pg, (st0.run [⟨segNum, pageDir, p1, o1, Protection.READ_ONLY, r1⟩,
        ⟨segNum, pageDir, p2, o2, Protection.READ_ONLY, r2⟩,
        ⟨segNum, pageDir, p3, o3, Protection.READ_ONLY, r3⟩]).pageAt (segNum, pageDir) p3 =
          some pg ∧ pg.present = true ∧ pg.frame_number = 0) := by
  have hread : ∀ t : PageTable, ∀ p : Int, ¬ (Protection.READ_ONLY = Protection.READ_WRITE ∧
      (t.page p).protection = Protection.READ_ONLY) := fun _ _ hc => by cases hc.1
  have hinv0 := SegmentTable.configured_inv st0 h
  have hshape0 := SegmentTable.configured_fifoShape st0 h halgo
  have habsent0 : ∀ ref p pg, st0.pageAt ref p = some pg → pg.present = false := by
    obtain ⟨numFrames, pSize, algo, cs, _, hcfg⟩ := h
    exact (SegmentTable.configure_fresh numFrames pSize algo cs st0 hcfg).2.2.2.2
  have hk0 : st0.physMem.num_frames.toNat = 2 := by omega
  -- first request
  have hpg1 : st0.pageAt (segNum, pageDir) p1 = some (pt.page p1) := SegmentTable.checks_pageAt c1
  have hpg2 : st0.pageAt (segNum, pageDir) p2 = some (pt.page p2) := SegmentTable.checks_pageAt c2
  have hpg3 : st0.pageAt (segNum, pageDir) p3 = some (pt.page p3) := SegmentTable.checks_pageAt c3
  obtain ⟨_, hsh1, _, ⟨g1, hg1, hg1p, hg1f⟩, hoth1⟩ := SegmentTable.fifo_miss_step 0 st0 hinv0
    hshape0 (by omega) segNum pageDir p1 o1 Protection.READ_ONLY r1 dir pt c1 (hread _ _)
    (habsent0 _ _ _ hpg1)
  have hinv1 := SegmentTable.translateAddress_inv st0 hinv0 segNum pageDir p1 o1
    Protection.READ_ONLY r1
  obtain ⟨_, hnf1, _, hseg1, _⟩ := SegmentTable.translateAddress_static st0 segNum pageDir p1 o1
    Protection.READ_ONLY r1
  have hshp1 := SegmentTable.translateAddress_shape st0 segNum pageDir p1 o1
    Protection.READ_ONLY r1 (segNum, pageDir)
  simp only [SegmentTable.run, SegmentTable.serve]
  generalize (st0.translateAddress segNum pageDir p1 o1 Protection.READ_ONLY r1).2 = st1
    at hsh1 hg1 hoth1 hinv1 hnf1 hseg1 hshp1 ⊢
  rw [hk0] at hg1f hoth1
  have hk1 : st1.physMem.num_frames.toNat = 2 := by omega
  have h1p2 : st1.pageAt (segNum, pageDir) p2 = some (pt.page p2) := by
    rw [hoth1 _ _ (fun hc => h12 hc.2.symm)]
    simp only [show ¬ (2 ≤ 0) by omega, false_and, if_false]
    exact hpg2
  have h1p3 : st1.pageAt (segNum, pageDir) p3 = some (pt.page p3) := by
    rw [hoth1 _ _ (fun hc => h13 hc.2.symm)]
    simp only [show ¬ (2 ≤ 0) by omega, false_and, if_false]
    exact hpg3
  -- second request
  obtain ⟨dir1, pt1, c2', _, _⟩ := SegmentTable.checks_persist st0 st1 segNum pageDir p2 o2
    Protection.READ_ONLY dir pt c2 hseg1 hshp1
  have hpt1 : pt1.page p2 = pt.page p2 := by
    have := SegmentTable.checks_pageAt c2'
    have h2 : st1.pageAt (segNum, pageDir) p2 = some (pt1.page p2) := this
    rw [h1p2] at h2
    exact (Option.some.inj h2).symm
  obtain ⟨_, hsh2, _, ⟨g2, hg2, hg2p, hg2f⟩, hoth2⟩ := SegmentTable.fifo_miss_step 1 st1 hinv1
    hsh1 (by omega) segNum pageDir p2 o2 Protection.READ_ONLY r2 dir1 pt1 c2' (hread _ _)
    (by rw [hpt1]; exact habsent0 _ _ _ hpg2)
  have hinv2 := SegmentTable.translateAddress_inv st1 hinv1 segNum pageDir p2 o2
    Protection.READ_ONLY r2
  obtain ⟨_, hnf2, _, hseg2, _⟩ := SegmentTable.translateAddress_static st1 segNum pageDir p2 o2
    Protection.READ_ONLY r2
  have hshp2 := SegmentTable.translateAddress_shape st1 segNum pageDir p2 o2
    Protection.READ_ONLY r2 (segNum, pageDir)
  generalize (st1.translateAddress segNum pageDir p2 o2 Protection.READ_ONLY r2).2 = st2
    at hsh2 hg2 hoth2 hinv2 hnf2 hseg2 hshp2 ⊢
  rw [hk1] at hg2f hoth2
  have hk2 : st2.physMem.num_frames.toNat = 2 := by omega
  have h2p1 : st2.pageAt (segNum, pageDir) p1 = some g1 := by
    rw [hoth2 _ _ (fun hc => h12 hc.2)]
    simp only [show ¬ (2 ≤ 1) by omega, false_and, if_false]
    exact hg1
  have h2p3 : st2.pageAt (segNum, pageDir) p3 = some (pt.page p3) := by
    rw [hoth2 _ _ (fun hc => h23 hc.2.symm)]
    simp only [show ¬ (2 ≤ 1) by omega, false_and, if_false]
    exact h1p3
  -- third request
  obtain ⟨dir2, pt2, c3', _, _⟩ := SegmentTable.checks_persist st0 st2 segNum pageDir p3 o3
    Protection.READ_ONLY dir pt c3 (hseg2.trans hseg1) (hshp2.trans hshp1)
  have hpt2 : pt2.page p3 = pt.page p3 := by
    have := SegmentTable.checks_pageAt c3'
    have h3 : st2.pageAt (segNum, pageDir) p3 = some (pt2.page p3) := this
    rw [h2p3] at h3
    exact (Option.some.inj h3).symm
  obtain ⟨_, _, _, ⟨g3, hg3, hg3p, hg3f⟩, hoth3⟩ := SegmentTable.fifo_miss_step 2 st2 hinv2
    hsh2 (by omega) segNum pageDir p3 o3 Protection.READ_ONLY r3 dir2 pt2 c3' (hread _ _)
    (by rw [hpt2]; exact habsent0 _ _ _ hpg3)
  rw [hk2] at hg3f hoth3
  have howner : StdMap.find st2.frame_to_page_map 0 = some ((segNum, pageDir), p1) := by
    have := hinv2.fwd _ _ g1 h2p1 hg1p
    rw [hg1f] at this
    exact this
  refine ⟨?_, ?_, ?_⟩
  · refine ⟨{ g1 with frame_number := -1, present := false }, ?_, rfl⟩
    rw [hoth3 _ _ (fun hc => h13 hc.2)]
    have h0 : ((2 % 2 : Nat) : Int) = 0 := by decide
    rw [h0, if_pos ⟨le_refl _, howner⟩, h2p1]
    rfl
  · refine ⟨g2, ?_, hg2p, by rw [hg2f]; decide⟩
    rw [hoth3 _ _ (fun hc => h23 hc.2)]
    have h0 : ((2 % 2 : Nat) : Int) = 0 := by decide
    rw [h0, howner]
    have hne : ¬ (2 ≤ 2 ∧ some ((segNum, pageDir), p1) = some ((segNum, pageDir), p2)) := by
      rintro ⟨_, hc⟩
      simp only [Option.some.injEq, Prod.mk.injEq, true_and] at hc
      exact h12 hc
    rw [if_neg hne]
    exact hg2
  · exact ⟨g3, hg3, hg3p, by rw [hg3f]; decide⟩

/-- C14 at the example manager: reads of pages 0, 1 and 2 of the table of segment 0. -/
theorem C14_scenario_a_witness :
    (∃ pg, (exampleManager.run [⟨0, 0, 0, 3, Protection.READ_ONLY, 7⟩,
        ⟨0, 0, 1, 3, Protection.READ_ONLY, 7⟩,
        ⟨0, 0, 2, 3, Protection.READ_ONLY, 7⟩]).pageAt (0, 0) 0 =
          some pg ∧ pg.present = false) ∧
    (∃ pg, (exampleManager.run [⟨0, 0, 0, 3, Protection.READ_ONLY, 7⟩,
        ⟨0, 0, 1, 3, Protection.READ_ONLY, 7⟩,
        ⟨0, 0, 2, 3, Protection.READ_ONLY, 7⟩]).pageAt (0, 0) 1 =
          some pg ∧ pg.present = true ∧ pg.frame_number = 1) ∧
    (∃ pg, (exampleManager.run [⟨0, 0, 0, 3, Protection.READ_ONLY, 7⟩,
        ⟨0, 0, 1, 3, Protection.READ_ONLY, 7⟩,
        ⟨0, 0, 2, 3, Protection.READ_ONLY, 7⟩]).pageAt (0, 0) 2 =
          some pg ∧ pg.present = true ∧ pg.frame_number = 0) :=
  C14_scenario_a exampleManager ⟨2, 16, ReplacementAlgorithm.FIFO, exampleSegments,
    by decide, rfl⟩ rfl rfl 0 0 0 1 2 3 3 3 7 7 7 exampleDirectory exampleTable
    ⟨by decide, by decide, by decide, rfl, rfl, by decide, by decide, by decide, by decide⟩
    ⟨by decide, by decide, by decide, rfl, rfl, by decide, by decide, by decide, by decide⟩
    ⟨by decide, by decide, by decide, rfl, rfl, by decide, by decide, by decide, by decide⟩
    (by decide) (by decide) (by decide)

/-! ## `frame_to_page_map` stays in key order -/

namespace StdMap

variable {β : Type}

theorem keys_insert (m : StdMap β) (k : Int) (v : β) (j : Int)
    (hj : j ∈ (insert k v m).map Prod.fst) : j = k ∨ j ∈ m.map Prod.fst := by
  induction m with
  | nil =>
    simp only [insert, List.map_cons, List.map_nil, List.mem_singleton] at hj
    exact Or.inl hj
  | cons e rest ih =>
    obtain ⟨k1, v1⟩ := e
    unfold insert at hj
    by_cases hlt : k < k1
    · simp only [hlt, if_true, List.map_cons, List.mem_cons] at hj
      rcases hj with hj | hj | hj
      · exact Or.inl hj
      · exact Or.inr (by simp [hj])
      · exact Or.inr (by simp [hj])
    · by_cases heq : k = k1
      · subst heq
        simp only [lt_self_iff_false, if_false, if_true, List.map_cons, List.mem_cons] at hj
        rcases hj with hj | hj
        · exact Or.inl hj
        · exact Or.inr (by simp [hj])
      · simp only [hlt, heq, if_false, List.map_cons, List.mem_cons] at hj
        rcases hj with hj | hj
        · exact Or.inr (by simp [hj])
        · rcases ih hj with h | h
          · exact Or.inl h
          · exact Or.inr (by simp [h])

theorem sorted_insert (m : StdMap β) (k : Int) (v : β)
    (hs : (m.map Prod.fst).Pairwise (fun a b => a < b)) :
    ((insert k v m).map Prod.fst).Pairwise (fun a b => a < b) := by
  induction m with
  | nil => simp [insert]
  | cons e rest ih =>
    obtain ⟨k1, v1⟩ := e
    simp only [List.map_cons, List.pairwise_cons] at hs
    obtain ⟨hx, hrest⟩ := hs
    unfold insert
    by_cases hlt : k < k1
    · simp only [hlt, if_true, List.map_cons, List.pairwise_cons, List.mem_cons]
      refine ⟨?_, hx, hrest⟩
      intro a ha
      rcases ha with rfl | ha
      · exact hlt
      · exact lt_trans hlt (hx a ha)
    · by_cases heq : k = k1
      · subst heq
        simp only [lt_self_iff_false, if_false, if_true, List.map_cons, List.pairwise_cons]
        exact ⟨hx, hrest⟩
      · simp only [hlt, heq, if_false, List.map_cons, List.pairwise_cons]
        refine ⟨?_, ih hrest⟩
        intro a ha
        rcases keys_insert rest k v a ha with rfl | ha
        · omega
        · exact hx a ha

theorem keys_erase (m : StdMap β) (k : Int) (j : Int) (hj : j ∈ (erase m k).map Prod.fst) :
    j ∈ m.map Prod.fst := by
  induction m with
  | nil => simp [erase] at hj
  | cons e rest ih =>
    obtain ⟨k1, v1⟩ := e
    unfold erase at hj
    by_cases h1 : k1 = k
    · simp only [h1, if_true] at hj
      exact List.mem_cons_of_mem _ (ih hj)
    · simp only [h1, if_false, List.map_cons, List.mem_cons] at hj
      rcases hj with hj | hj
      · simp [hj]
      · exact List.mem_cons_of_mem _ (ih hj)

theorem sorted_erase (m : StdMap β) (k : Int)
    (hs : (m.map Prod.fst).Pairwise (fun a b => a < b)) :
    ((erase m k).map Prod.fst).Pairwise (fun a b => a < b) := by
  induction m with
  | nil => simp [erase]
  | cons e rest ih =>
    obtain ⟨k1, v1⟩ := e
    simp only [List.map_cons, List.pairwise_cons] at hs
    obtain ⟨hx, hrest⟩ := hs
    unfold erase
    by_cases h1 : k1 = k
    · simp only [h1, if_true]
      exact ih hrest
    · simp only [h1, if_false, List.map_cons, List.pairwise_cons]
      exact ⟨fun a ha => hx a (keys_erase rest k a ha), ih hrest⟩

end StdMap

namespace SegmentTable

theorem evict_sorted (st : SegmentTable) (v : Int)
    (hs : (st.frame_to_page_map.map Prod.fst).Pairwise (fun a b => a < b)) :
    ((st.evict v).frame_to_page_map.map Prod.fst).Pairwise (fun a b => a < b) := by
  unfold evict
  by_cases hv : v = -1
  · simpa [hv] using hs
  · simp only [ne_eq, hv, not_false_eq_true, if_true]
    cases hfind : StdMap.find st.frame_to_page_map v with
    | none =>
      simp only
      split <;> exact hs
    | some val =>
      obtain ⟨r, q⟩ := val
      simp only
      split <;> exact StdMap.sorted_erase _ v hs

theorem allocateFrame_sorted (st : SegmentTable)
    (hs : (st.frame_to_page_map.map Prod.fst).Pairwise (fun a b => a < b)) :
    ((st.allocateFrame).2.frame_to_page_map.map Prod.fst).Pairwise (fun a b => a < b) := by
  unfold allocateFrame
  cases hff : st.physMem.firstFree with
  | some i => exact hs
  | none =>
    simp only
    by_cases ha : st.physMem.algo = ReplacementAlgorithm.FIFO
    · rw [if_pos ha]
      cases hq : st.physMem.fifo_queue with
      | nil => exact hs
      | cons v rest =>
        exact evict_sorted
          { st with physMem := { st.physMem with fifo_queue := rest ++ [v] } } v hs
    · rw [if_neg ha]
      exact evict_sorted st _ hs

theorem setFrameAt_sorted (st : SegmentTable) (r : TableRef) (q f : Int) (prot : Protection)
    (time : Int) (hs : (st.frame_to_page_map.map Prod.fst).Pairwise (fun a b => a < b)) :
    ((st.setFrameAt r q f prot time).frame_to_page_map.map Prod.fst).Pairwise
      (fun a b => a < b) := by
  unfold setFrameAt
  cases ht : st.table? r with
  | none => exact hs
  | some t =>
    simp only
    unfold PageTable.setFrame
    split
    · exact StdMap.sorted_insert _ f _ hs
    · exact hs

/-- Every call keeps the keys of `frame_to_page_map` strictly increasing. -/
theorem translateAddress_sorted (st : SegmentTable) (segNum pageDir pageNum offset : Int)
    (accessType : Protection) (rnd : Nat)
    (hs : (st.frame_to_page_map.map Prod.fst).Pairwise (fun a b => a < b)) :
    ((st.translateAddress segNum pageDir pageNum offset accessType rnd).2.frame_to_page_map.map
      Prod.fst).Pairwise (fun a b => a < b) := by
  rcases translateAddress_checked_or_rejected st segNum pageDir pageNum offset accessType rnd
    with ⟨dir, pt, c⟩ | ⟨hrej, _, _⟩
  swap
  · rw [hrej]
    exact hs
  by_cases hpp : accessType = Protection.READ_WRITE ∧
      (pt.page pageNum).protection = Protection.READ_ONLY
  · rw [translateAddress_page_protection st _ _ _ _ _ rnd dir pt c hpp.1 hpp.2]
    exact hs
  by_cases hpres : (pt.page pageNum).present = true
  · rw [translateAddress_present st _ _ _ _ _ rnd dir pt c hpp hpres]
    split
    · exact hs
    · split
      · split
        · exact allocateFrame_sorted _ hs
        · exact setFrameAt_sorted _ _ _ _ _ _ (allocateFrame_sorted _ hs)
      · exact hs
  · have habs : (pt.page pageNum).present = false := by
      cases hb : (pt.page pageNum).present
      · rfl
      · exact absurd hb hpres
    rw [translateAddress_miss st _ _ _ _ _ rnd dir pt c hpp habs]
    split
    · exact allocateFrame_sorted st.tick hs
    · exact setFrameAt_sorted _ _ _ _ _ _ (allocateFrame_sorted st.tick hs)

/-- In every state reached from a freshly configured manager the keys of `frame_to_page_map`
are strictly increasing. -/
theorem reachable_sorted (st : SegmentTable) (h : Configured st) (reqs : List Request) :
    (((st.run reqs).frame_to_page_map).map Prod.fst).Pairwise (fun a b => a < b) := by
  have h0 : (st.frame_to_page_map.map Prod.fst).Pairwise (fun a b => a < b) := by
    obtain ⟨numFrames, pSize, algo, cs, _, hcfg⟩ := h
    rw [(configure_fresh numFrames pSize algo cs st hcfg).2.2.1]
    simp
  clear h
  induction reqs generalizing st with
  | nil => exact h0
  | cons q qs ih => exact ih _ (translateAddress_sorted st _ _ _ _ _ _ h0)

end SegmentTable

/-! ## Binding and invalidation of a page -/

namespace SegmentTable

theorem page_setPage (t : PageTable) (q : Int) (pg : Page) (h0 : 0 ≤ q)
    (h1 : q < (t.pages.length : Int)) : (t.setPage q pg).page q = pg := by
  have hlt : q.toNat < t.pages.length := by omega
  simp [PageTable.page, PageTable.setPage, List.getD_eq_getElem?_getD,
    List.getElem?_set_self hlt]

theorem invalidatePage_page (t : PageTable) (q : Int) (h0 : 0 ≤ q)
    (h1 : q < (t.pages.length : Int)) :
    (t.invalidatePage q).page q = { t.page q with frame_number := -1, present := false } := by
  have hr : q ≥ 0 ∧ q < (t.pages.length : Int) := ⟨h0, h1⟩
  unfold PageTable.invalidatePage
  rw [if_pos hr]
  exact page_setPage t q _ h0 h1

theorem invalidatePage_eq (t : PageTable) (q : Int)
    (hr : q ≥ 0 ∧ q < (t.pages.length : Int)) :
    t.invalidatePage q =
      t.setPage q { t.page q with frame_number := -1, present := false } := by
  unfold PageTable.invalidatePage
  rw [if_pos hr]

theorem invalidatePage_idem (t : PageTable) (q : Int) :
    (t.invalidatePage q).invalidatePage q = t.invalidatePage q := by
  by_cases hr : q ≥ 0 ∧ q < (t.pages.length : Int)
  · have hpage := invalidatePage_page t q hr.1 hr.2
    have hlen : (t.invalidatePage q).pages.length = t.pages.length := by
      have := invalidatePage_shape t q
      simp only [PageTable.shape, Prod.mk.injEq] at this
      exact this.1
    have hr2 : q ≥ 0 ∧ q < ((t.invalidatePage q).pages.length : Int) := by
      rw [hlen]
      exact hr
    rw [invalidatePage_eq (t.invalidatePage q) q hr2, hpage, invalidatePage_eq t q hr]
    simp [PageTable.setPage, List.set_set]
  · have h1 : t.invalidatePage q = t := by
      unfold PageTable.invalidatePage
      rw [if_neg hr]
    rw [h1, h1]

end SegmentTable

/-- C21: for every page table, in-range page `p`, frame, protection and time, `setFrame`
followed by `invalidatePage(p)` followed by `getFrameNumber(p, _, Read)` yields `-2` (not
present) and changes nothing; `invalidatePage` leaves `frame_number = -1` and `present = false`,
and applying it twice is the same as applying it once. -/
theorem C21_bind_invalidate_resolve (pt : PageTable) (self : TableRef) (p f : Int)
    (prot : Protection) (time time2 : Int) (fault : Fault) (m : StdMap (TableRef × Int))
    (h0 : 0 ≤ p) (h1 : p < (pt.pages.length : Int)) :
    (((pt.setFrame self p f prot time m).1.invalidatePage p).getFrameNumber p time2
        Protection.READ_ONLY fault =
      (-2, Fault.PageNotInMemory, (pt.setFrame self p f prot time m).1.invalidatePage p)) ∧
    (((pt.setFrame self p f prot time m).1.invalidatePage p).page p).frame_number = -1 ∧
    (((pt.setFrame self p f prot time m).1.invalidatePage p).page p).present = false ∧
    ((pt.invalidatePage p).page p).frame_number = -1 ∧
    ((pt.invalidatePage p).page p).present = false ∧
    (pt.invalidatePage p).invalidatePage p = pt.invalidatePage p := by
  have hlen1 : (pt.setFrame self p f prot time m).1.pages.length = pt.pages.length := by
    have := SegmentTable.setFrame_shape pt self p f prot time m
    simp only [PageTable.shape, Prod.mk.injEq] at this
    exact this.1
  have hpage := SegmentTable.invalidatePage_page (pt.setFrame self p f prot time m).1 p h0
    (by rw [hlen1]; exact h1)
  have hlen2 : ((pt.setFrame self p f prot time m).1.invalidatePage p).pages.length =
      pt.pages.length := by
    have := SegmentTable.invalidatePage_shape (pt.setFrame self p f prot time m).1 p
    simp only [PageTable.shape, Prod.mk.injEq] at this
    rw [this.1, hlen1]
  have hpage0 := SegmentTable.invalidatePage_page pt p h0 h1
  refine ⟨?_, by rw [hpage], by rw [hpage], by rw [hpage0], by rw [hpage0],
    SegmentTable.invalidatePage_idem pt p⟩
  have hr : ¬ (p < 0 ∨ p ≥ (((pt.setFrame self p f prot time m).1.invalidatePage p).pages.length
      : Int)) := by
    rw [hlen2]
    omega
  unfold PageTable.getFrameNumber
  rw [if_neg hr, if_neg (fun hc => by cases hc.1), hpage]
  simp

/-- C21 at a one-page table: page 0 bound to frame 3 at time 5, invalidated, then read. -/
theorem C21_bind_invalidate_resolve_witness :
    (((PageTable.setFrame { pages := [{}], page_size := 16 } (0, 0) 0 3 Protection.READ_WRITE 5
        []).1.invalidatePage 0).getFrameNumber 0 6 Protection.READ_ONLY Fault.OK).1 = -2 :=
  by
    have h := (C21_bind_invalidate_resolve { pages := [{}], page_size := 16 } (0, 0) 0 3
      Protection.READ_WRITE 5 6 Fault.OK [] (by decide) (by decide)).1
    rw [h]

/-! ## Explicit release of a frame -/

namespace SegmentTable

theorem getD_set_true (l : List Bool) (i j : Nat) :
    (l.set i true).getD j false = if i = j then decide (i < l.length) else l.getD j false := by
  simp only [List.getD_eq_getElem?_getD, List.getElem?_set]
  by_cases h : i = j
  · subst h
    by_cases h2 : i < l.length <;> simp [h2]
  · simp [h]

theorem freeFrame_in_range (st : SegmentTable) (frame : Int) (h0 : 0 ≤ frame)
    (h1 : frame < st.physMem.num_frames) :
    st.freeFrame frame =
      { st with
        physMem := { st.physMem with free_frames := st.physMem.free_frames.set frame.toNat true }
        frame_to_page_map := StdMap.erase st.frame_to_page_map frame } := by
  have hr : frame ≥ 0 ∧ frame < st.physMem.num_frames := ⟨h0, h1⟩
  unfold freeFrame
  rw [if_pos hr]

theorem freeFrame_out_of_range (st : SegmentTable) (frame : Int)
    (h : ¬ (0 ≤ frame ∧ frame < st.physMem.num_frames)) : st.freeFrame frame = st := by
  have hr : ¬ (frame ≥ 0 ∧ frame < st.physMem.num_frames) := h
  unfold freeFrame
  rw [if_neg hr]

end SegmentTable

/-- C25: `freeFrame(id)` with `0 <= id < num_frames` (the bitmap having `num_frames` entries, as
the constructor makes it) marks frame `id` free and removes the entry of `id` from
`frame_to_page_map`; the status of every other frame, every other index entry, the queue, the
clock and the page tables are unchanged. With `id` out of range it changes nothing. -/
theorem C25_freeFrame_effect (st : SegmentTable) (id : Int)
    (hlen : st.physMem.free_frames.length = st.physMem.num_frames.toNat) :
    (0 ≤ id ∧ id < st.physMem.num_frames →
      (st.freeFrame id).physMem.free_frames.getD id.toNat false = true ∧
      StdMap.find (st.freeFrame id).frame_to_page_map id = none ∧
      (∀ i : Nat, i ≠ id.toNat →
        (st.freeFrame id).physMem.free_frames.getD i false =
          st.physMem.free_frames.getD i false) ∧
      (∀ g : Int, g ≠ id →
        StdMap.find (st.freeFrame id).frame_to_page_map g =
          StdMap.find st.frame_to_page_map g) ∧
      (st.freeFrame id).physMem.free_frames.length = st.physMem.free_frames.length ∧
      (st.freeFrame id).physMem.fifo_queue = st.physMem.fifo_queue ∧
      (st.freeFrame id).physMem.time = st.physMem.time ∧
      (st.freeFrame id).physMem.num_frames = st.physMem.num_frames ∧
      (st.freeFrame id).segment_directories = st.segment_directories ∧
      (st.freeFrame id).segments = st.segments) ∧
    (¬ (0 ≤ id ∧ id < st.physMem.num_frames) → st.freeFrame id = st) := by
  refine ⟨?_, SegmentTable.freeFrame_out_of_range st id⟩
  intro hr
  rw [SegmentTable.freeFrame_in_range st id hr.1 hr.2]
  refine ⟨?_, ?_, ?_, ?_, ?_, rfl, rfl, rfl, rfl, rfl⟩
  · show (st.physMem.free_frames.set id.toNat true).getD id.toNat false = true
    rw [SegmentTable.getD_set_true, if_pos rfl, hlen]
    have := hr.1
    have := hr.2
    simp only [decide_eq_true_eq]
    omega
  · show StdMap.find (StdMap.erase st.frame_to_page_map id) id = none
    rw [StdMap.find_erase, if_pos rfl]
  · intro i hi
    show (st.physMem.free_frames.set id.toNat true).getD i false = _
    rw [SegmentTable.getD_set_true, if_neg (fun h => hi h.symm)]
  · intro g hg
    show StdMap.find (StdMap.erase st.frame_to_page_map id) g = _
    rw [StdMap.find_erase, if_neg hg]
  · show (st.physMem.free_frames.set id.toNat true).length = _
    simp

/-- C25 at the example manager after its four requests: releasing frame 0. -/
theorem C25_freeFrame_effect_witness :
    ((exampleManager.run exampleRequests).freeFrame 0).physMem.free_frames.getD 0 false = true ∧
    StdMap.find ((exampleManager.run exampleRequests).freeFrame 0).frame_to_page_map 0 = none :=
  ⟨((C25_freeFrame_effect (exampleManager.run exampleRequests) 0 (by decide)).1
      (by decide)).1,
   ((C25_freeFrame_effect (exampleManager.run exampleRequests) 0 (by decide)).1
      (by decide)).2.1⟩

/-! ## Calls that return a fault -/

namespace SegmentTable

/-- When the queue holds frame ids of the pool only, a failing `allocateFrame` changes nothing. -/
theorem allocateFrame_fail_state (s : SegmentTable)
    (hq : ∀ f ∈ s.physMem.fifo_queue, 0 ≤ f ∧ f < s.physMem.num_frames)
    (h : (s.allocateFrame).1 = -1) : (s.allocateFrame).2 = s := by
  unfold allocateFrame at h ⊢
  cases hff : s.physMem.firstFree with
  | some i =>
    rw [hff] at h
    simp only at h
    omega
  | none =>
    rw [hff] at h
    simp only at h ⊢
    by_cases ha : s.physMem.algo = ReplacementAlgorithm.FIFO
    · rw [if_pos ha] at h ⊢
      cases hqq : s.physMem.fifo_queue with
      | nil => rfl
      | cons v rest =>
        rw [hqq] at h
        simp only at h
        have := (hq v (by rw [hqq]; exact List.mem_cons_self _ _)).1
        omega
    · rw [if_neg ha] at h ⊢
      simp only at h ⊢
      rw [h]
      exact evict_neg_one s

/-- In a consistent state a present page holds a frame id of the pool. -/
theorem present_frame_nonneg (st : SegmentTable) (h : Inv (-1) st)
    {segNum pageDir pageNum offset : Int} {accessType : Protection} {dir : PageDirectory}
    {pt : PageTable} (c : Checks st segNum pageDir pageNum offset accessType dir pt)
    (hpres : (pt.page pageNum).present = true) : 0 ≤ (pt.page pageNum).frame_number := by
  have hpage : st.pageAt (segNum, pageDir) pageNum = some (pt.page pageNum) := checks_pageAt c
  exact (h.keys _ _ (h.fwd _ _ _ hpage hpres)).1

/-- The address `frame * page_size + offset` of a request that passed the checks is not negative
when the frame is not. -/
theorem address_nonneg {st : SegmentTable}
    {segNum pageDir pageNum offset : Int} {accessType : Protection} {dir : PageDirectory}
    {pt : PageTable} (c : Checks st segNum pageDir pageNum offset accessType dir pt)
    (f : Int) (hf : 0 ≤ f) : 0 ≤ f * pt.page_size + offset := by
  have h1 := c.off_lo
  have h2 := c.off_hi
  have h3 : 0 ≤ f * pt.page_size := Int.mul_nonneg hf (by omega)
  omega

/-- In a consistent state, a call that returns `-1` has advanced the clock and done nothing else,
and its fault string is neither "OK" nor the page-fault notice. -/
theorem translateAddress_fault_state (st : SegmentTable) (h : Inv (-1) st)
    (segNum pageDir pageNum offset : Int) (accessType : Protection) (rnd : Nat)
    (hret : (st.translateAddress segNum pageDir pageNum offset accessType rnd).1.ret = -1) :
    (st.translateAddress segNum pageDir pageNum offset accessType rnd).2 = st.tick ∧
    (st.translateAddress segNum pageDir pageNum offset accessType rnd).1.fault ≠ Fault.OK ∧
    (st.translateAddress segNum pageDir pageNum offset accessType rnd).1.fault ≠
      Fault.PageNotInMemory := by
  rcases translateAddress_rejected_fault st segNum pageDir pageNum offset accessType rnd
    with ⟨dir, pt, c⟩ | ⟨hrej, h1, h2⟩
  swap
  · exact ⟨hrej, h2, h1⟩
  by_cases hpp : accessType = Protection.READ_WRITE ∧
      (pt.page pageNum).protection = Protection.READ_ONLY
  · rw [translateAddress_page_protection st _ _ _ _ _ rnd dir pt c hpp.1 hpp.2]
    exact ⟨rfl, fun hx => Fault.noConfusion hx, fun hx => Fault.noConfusion hx⟩
  by_cases hpres : (pt.page pageNum).present = true
  · have hf := present_frame_nonneg st h c hpres
    have hadd := address_nonneg c _ hf
    rw [translateAddress_hit st _ _ _ _ _ rnd dir pt c hpp hpres (by omega) (by omega)] at hret
    simp only at hret
    omega
  · have habs : (pt.page pageNum).present = false := by
      cases hb : (pt.page pageNum).present
      · rfl
      · exact absurd hb hpres
    rw [translateAddress_miss st _ _ _ _ _ rnd dir pt c hpp habs] at hret ⊢
    by_cases ha : (st.tick.allocateFrame).1 = -1
    · rw [if_pos ha]
      exact ⟨allocateFrame_fail_state st.tick (inv_tick (-1) st h).queue ha,
        fun hx => Fault.noConfusion hx, fun hx => Fault.noConfusion hx⟩
    · rw [if_neg ha] at hret
      have hready := (allocateFrame_inv st.tick (inv_tick (-1) st h)).2 ha
      have hadd := address_nonneg c _ hready.lo
      simp only at hret
      omega

end SegmentTable

/-! ## The logical clock -/

namespace SegmentTable

/-- In a consistent state, a call that does not return `-1` passed every check, and afterwards
the addressed page is present, holds the frame of the returned address, carries the new clock
value as access time, and has the protection it had (hit) or that of the segment (miss). -/
theorem translateAddress_success (st : SegmentTable) (h : Inv (-1) st)
    (segNum pageDir pageNum offset : Int) (accessType : Protection) (rnd : Nat)
    (hret : (st.translateAddress segNum pageDir pageNum offset accessType rnd).1.ret ≠ -1) :
    ∃ dir pt pg, Checks st segNum pageDir pageNum offset accessType dir pt ∧
      ¬ (accessType = Protection.READ_WRITE ∧
        (pt.page pageNum).protection = Protection.READ_ONLY) ∧
      (st.translateAddress segNum pageDir pageNum offset accessType rnd).2.pageAt
        (segNum, pageDir) pageNum = some pg ∧
      pg.present = true ∧
      (st.translateAddress segNum pageDir pageNum offset accessType rnd).1.ret =
        pg.frame_number * pt.page_size + offset ∧
      pg.last_access_time = st.physMem.time + 1 ∧
      (pg.protection = (pt.page pageNum).protection ∨
        pg.protection = (st.segments.getD segNum.toNat default).protection) := by
  rcases translateAddress_checked_or_rejected st segNum pageDir pageNum offset accessType rnd
    with ⟨dir, pt, c⟩ | ⟨_, hrej, _⟩
  swap
  · exact absurd hrej hret
  have hpage := checks_pageAt c
  by_cases hpp : accessType = Protection.READ_WRITE ∧
      (pt.page pageNum).protection = Protection.READ_ONLY
  · rw [translateAddress_page_protection st _ _ _ _ _ rnd dir pt c hpp.1 hpp.2] at hret
    exact absurd rfl hret
  by_cases hpres : (pt.page pageNum).present = true
  · have hf := present_frame_nonneg st h c hpres
    have htouch := pageAt_updTable_set st.tick (segNum, pageDir) pageNum
      (fun _ => pt.setPage pageNum
        { pt.page pageNum with last_access_time := st.physMem.time + 1 })
      (fun _ => { pt.page pageNum with last_access_time := st.physMem.time + 1 }) pt
      (pt.page pageNum) (checks_table c) hpage rfl (segNum, pageDir) pageNum
    simp only [and_self, if_true] at htouch
    rw [translateAddress_hit st _ _ _ _ _ rnd dir pt c hpp hpres (by omega) (by omega)]
    exact ⟨dir, pt, _, c, hpp, htouch, hpres, rfl, rfl, Or.inl rfl⟩
  · have habs : (pt.page pageNum).present = false := by
      cases hb : (pt.page pageNum).present
      · rfl
      · exact absurd hb hpres
    rw [translateAddress_miss st _ _ _ _ _ rnd dir pt c hpp habs] at hret ⊢
    by_cases ha : (st.tick.allocateFrame).1 = -1
    · rw [if_pos ha] at hret
      exact absurd rfl hret
    · rw [if_neg ha]
      have hex : ∃ pg1, (st.tick.allocateFrame).2.pageAt (segNum, pageDir) pageNum = some pg1 := by
        rcases allocateFrame_pageAt st.tick (segNum, pageDir) pageNum with hsame | ⟨_, hinv⟩
        · exact ⟨_, by rw [hsame]; exact hpage⟩
        · exact ⟨_, by rw [hinv, hpage]; rfl⟩
      obtain ⟨pg1, hpg1⟩ := hex
      have hbound := pageAt_setFrameAt (st.tick.allocateFrame).2 (segNum, pageDir) pageNum
        (st.tick.allocateFrame).1 (st.segments.getD segNum.toNat default).protection
        (st.tick.allocateFrame).2.physMem.time pg1 hpg1 (segNum, pageDir) pageNum
      simp only [and_self, if_true] at hbound
      have htime : (st.tick.allocateFrame).2.physMem.time = st.physMem.time + 1 :=
        (allocateFrame_frame st.tick).1
      exact ⟨dir, pt, _, c, hpp, hbound, rfl, rfl, htime, Or.inr rfl⟩

end SegmentTable

/-- C23: every `translateAddress` call increases the logical clock `physMem->time` by exactly
one, whatever its outcome; after `n` calls on a freshly configured manager the clock equals `n`;
and in every state so reached, a call that returns an address leaves the addressed page with
`last_access_time` equal to the clock value after the increment made by that call. -/
theorem C23_clock_ticks_once (st : SegmentTable) (segNum pageDir pageNum offset : Int)
    (accessType : Protection) (rnd : Nat) :
    (st.translateAddress segNum pageDir pageNum offset accessType rnd).2.physMem.time =
      st.physMem.time + 1 ∧
    (∀ (st0 : SegmentTable) (reqs : List Request), Configured st0 →
      (st0.run reqs).physMem.time = (reqs.length : Int)) ∧
    (∀ (st0 : SegmentTable) (reqs : List Request), Configured st0 → st = st0.run reqs →
      (st.translateAddress segNum pageDir pageNum offset accessType rnd).1.ret ≠ -1 →
      ∃ pg, (st.translateAddress segNum pageDir pageNum offset accessType rnd).2.pageAt
          (segNum, pageDir) pageNum = some pg ∧
        pg.last_access_time =
          (st.translateAddress segNum pageDir pageNum offset accessType rnd).2.physMem.time ∧
        pg.last_access_time = (reqs.length : Int) + 1) := by
  have htick := (SegmentTable.translateAddress_static st segNum pageDir pageNum offset accessType
    rnd).1
  have hrun : ∀ (st0 : SegmentTable) (reqs : List Request), Configured st0 →
      (st0.run reqs).physMem.time = (reqs.length : Int) := by
    intro st0 reqs hc
    obtain ⟨numFrames, pSize, algo, cs, _, hcfg⟩ := hc
    have h0 : st0.physMem.time = 0 := by
      rw [(SegmentTable.configure_fresh numFrames pSize algo cs st0 hcfg).2.1]
    rw [(SegmentTable.run_static st0 reqs).1, h0]
    omega
  refine ⟨htick, hrun, ?_⟩
  intro st0 reqs hc hst hret
  have hinv : Inv (-1) st := by
    rw [hst]
    exact SegmentTable.reachable_inv st0 hc reqs
  obtain ⟨_, _, pg, _, _, hpg, _, _, hlat, _⟩ := SegmentTable.translateAddress_success st hinv
    segNum pageDir pageNum offset accessType rnd hret
  have ht0 : st.physMem.time = (reqs.length : Int) := by
    rw [hst]
    exact hrun st0 reqs hc
  exact ⟨pg, hpg, by rw [hlat, htick], by rw [hlat, ht0]⟩

/-- C23 at the example manager after its four requests: a fifth call, a read of page 3, returns
an address and stamps the page with the clock value 5. -/
theorem C23_clock_ticks_once_witness :
    ∃ pg, ((exampleManager.run exampleRequests).translateAddress 0 0 3 3 Protection.READ_ONLY
        7).2.pageAt (0, 0) 3 = some pg ∧
      pg.last_access_time = ((exampleManager.run exampleRequests).translateAddress 0 0 3 3
        Protection.READ_ONLY 7).2.physMem.time ∧
      pg.last_access_time = ((exampleRequests.length : Nat) : Int) + 1 :=
  (C23_clock_ticks_once (exampleManager.run exampleRequests) 0 0 3 3 Protection.READ_ONLY 7).2.2
    exampleManager exampleRequests
    ⟨2, 16, ReplacementAlgorithm.FIFO, exampleSegments, by decide, rfl⟩ rfl (by decide)

/-! ## Latency -/

/-- C24: with `r` the value `rand()` returns, in every state reached from a freshly configured
manager the latency reported by `translateAddress` is `1 + r % 5`, in `[1, 5]`, or that plus 100,
in `[101, 105]`; the surcharge of 100 is added exactly when every check passed and the addressed
page was found not present, so a call rejected by a check and a hit carry none; in particular a
write to a read-only segment reports `1 + r % 5`. -/
theorem C24_latency (st0 : SegmentTable) (hc : Configured st0) (reqs : List Request)
    (segNum pageDir pageNum offset : Int) (accessType : Protection) (rnd : Nat) :
    (1 ≤ 1 + (rnd : Int) % 5 ∧ 1 + (rnd : Int) % 5 ≤ 5) ∧
    (101 ≤ 1 + (rnd : Int) % 5 + 100 ∧ 1 + (rnd : Int) % 5 + 100 ≤ 105) ∧
    (((st0.run reqs).translateAddress segNum pageDir pageNum offset accessType rnd).1.latency =
        1 + (rnd : Int) % 5 ∨
      ((st0.run reqs).translateAddress segNum pageDir pageNum offset accessType rnd).1.latency =
        1 + (rnd : Int) % 5 + 100) ∧
    (((st0.run reqs).translateAddress segNum pageDir pageNum offset accessType rnd).1.latency =
        1 + (rnd : Int) % 5 + 100 ↔
      ∃ dir pt, Checks (st0.run reqs) segNum pageDir pageNum offset accessType dir pt ∧
        ¬ (accessType = Protection.READ_WRITE ∧
          (pt.page pageNum).protection = Protection.READ_ONLY) ∧
        (pt.page pageNum).present = false) ∧
    (accessType = Protection.READ_WRITE →
      (((st0.run reqs).segments.getD segNum.toNat default).protection = Protection.READ_ONLY ∨
        ∃ dir pt, Checks (st0.run reqs) segNum pageDir pageNum offset accessType dir pt ∧
          (pt.page pageNum).protection = Protection.READ_ONLY) →
      ((st0.run reqs).translateAddress segNum pageDir pageNum offset accessType rnd).1.latency =
        1 + (rnd : Int) % 5) := by
  have hinv := SegmentTable.reachable_inv st0 hc reqs
  have hiff : ((st0.run reqs).translateAddress segNum pageDir pageNum offset accessType
        rnd).1.latency = 1 + (rnd : Int) % 5 + 100 ↔
      ∃ dir pt, Checks (st0.run reqs) segNum pageDir pageNum offset accessType dir pt ∧
        ¬ (accessType = Protection.READ_WRITE ∧
          (pt.page pageNum).protection = Protection.READ_ONLY) ∧
        (pt.page pageNum).present = false := by
    constructor
    · intro hlat
      rcases SegmentTable.translateAddress_checked_or_rejected (st0.run reqs) segNum pageDir
        pageNum offset accessType rnd with ⟨dir, pt, c⟩ | ⟨_, _, hrej⟩
      swap
      · rw [hrej] at hlat
        omega
      by_cases hpp : accessType = Protection.READ_WRITE ∧
          (pt.page pageNum).protection = Protection.READ_ONLY
      · rw [SegmentTable.translateAddress_page_protection _ _ _ _ _ _ rnd dir pt c hpp.1 hpp.2]
          at hlat
        simp only at hlat
        omega
      by_cases hpres : (pt.page pageNum).present = true
      · have hf := SegmentTable.present_frame_nonneg _ hinv c hpres
        rw [SegmentTable.translateAddress_hit _ _ _ _ _ _ rnd dir pt c hpp hpres (by omega)
          (by omega)] at hlat
        simp only at hlat
        omega
      · refine ⟨dir, pt, c, hpp, ?_⟩
        cases hb : (pt.page pageNum).present
        · rfl
        · exact absurd hb hpres
    · rintro ⟨dir, pt, c, hpp, habs⟩
      rw [SegmentTable.translateAddress_miss _ _ _ _ _ _ rnd dir pt c hpp habs]
      split <;> rfl
  have hdich : ((st0.run reqs).translateAddress segNum pageDir pageNum offset accessType
        rnd).1.latency = 1 + (rnd : Int) % 5 ∨
      ((st0.run reqs).translateAddress segNum pageDir pageNum offset accessType rnd).1.latency =
        1 + (rnd : Int) % 5 + 100 := by
    rcases SegmentTable.translateAddress_checked_or_rejected (st0.run reqs) segNum pageDir
      pageNum offset accessType rnd with ⟨dir, pt, c⟩ | ⟨_, _, hrej⟩
    swap
    · exact Or.inl hrej
    by_cases hpp : accessType = Protection.READ_WRITE ∧
        (pt.page pageNum).protection = Protection.READ_ONLY
    · rw [SegmentTable.translateAddress_page_protection _ _ _ _ _ _ rnd dir pt c hpp.1 hpp.2]
      exact Or.inl rfl
    by_cases hpres : (pt.page pageNum).present = true
    · have hf := SegmentTable.present_frame_nonneg _ hinv c hpres
      rw [SegmentTable.translateAddress_hit _ _ _ _ _ _ rnd dir pt c hpp hpres (by omega)
        (by omega)]
      exact Or.inl rfl
    · have habs : (pt.page pageNum).present = false := by
        cases hb : (pt.page pageNum).present
        · rfl
        · exact absurd hb hpres
      exact Or.inr (hiff.mpr ⟨dir, pt, c, hpp, habs⟩)
  refine ⟨by omega, by omega, hdich, hiff, ?_⟩
  intro hw hro
  rcases hdich with hl | hl
  · exact hl
  · exfalso
    obtain ⟨dir, pt, c, hpp, _⟩ := hiff.mp hl
    rcases hro with hseg | ⟨dir', pt', c', hpage⟩
    · exact c.seg_prot ⟨hw, hseg⟩
    · have hd : dir' = dir := by
        have h1 := c.directory
        rw [c'.directory] at h1
        exact Option.some.inj h1
      subst hd
      have ht : pt' = pt := by
        have h1 := c.table
        rw [c'.table] at h1
        exact Option.some.inj h1
      subst ht
      exact hpp ⟨hw, hpage⟩

/-- C24 at the example manager after its four requests: a write to the read-only segment 1
reports the latency `1 + 7 % 5 = 3`. -/
theorem C24_latency_witness :
    ((exampleManager.run exampleRequests).translateAddress 1 0 0 3 Protection.READ_WRITE
      7).1.latency = 1 + ((7 : Nat) : Int) % 5 :=
  (C24_latency exampleManager ⟨2, 16, ReplacementAlgorithm.FIFO, exampleSegments, by decide, rfl⟩
    exampleRequests 1 0 0 3 Protection.READ_WRITE 7).2.2.2.2 rfl (Or.inl (by decide))

/-! ## A repeated request -/

/-- C27: in every state reached from a freshly configured manager, if `translateAddress(s, d, p,
o, a)` returns a physical address (result `res1`), an immediately following call with the same
arguments (result `res2`) is a hit: it returns the same address, its latency is `1 + r % 5`
without the surcharge of 100, its fault string is "OK", the bitmap, the FIFO queue and
`frame_to_page_map` are unchanged (nothing is allocated or evicted), every other page entry is
unchanged, and the addressed page differs only in `last_access_time`, which is the new clock
value. -/
theorem C27_repeat_is_hit (st0 : SegmentTable) (hc : Configured st0) (reqs : List Request)
    (segNum pageDir pageNum offset : Int) (accessType : Protection) (r1 r2 : Nat)
    (res1 res2 : TranslateResult × SegmentTable)
    (h1 : res1 = (st0.run reqs).translateAddress segNum pageDir pageNum offset accessType r1)
    (h2 : res2 = res1.2.translateAddress segNum pageDir pageNum offset accessType r2)
    (hret : res1.1.ret ≠ -1) :
    res2.1.ret = res1.1.ret ∧
    res2.1.latency = 1 + (r2 : Int) % 5 ∧
    res2.1.fault = Fault.OK ∧
    res2.2.physMem.free_frames = res1.2.physMem.free_frames ∧
    res2.2.physMem.fifo_queue = res1.2.physMem.fifo_queue ∧
    res2.2.frame_to_page_map = res1.2.frame_to_page_map ∧
    res2.2.physMem.time = res1.2.physMem.time + 1 ∧
    (∀ ref q, ¬ (ref = (segNum, pageDir) ∧ q = pageNum) →
      res2.2.pageAt ref q = res1.2.pageAt ref q) ∧
    ∃ pg, res1.2.pageAt (segNum, pageDir) pageNum = some pg ∧ pg.present = true ∧
      res2.2.pageAt (segNum, pageDir) pageNum =
        some { pg with last_access_time := res2.2.physMem.time } := by
  have hinv0 := SegmentTable.reachable_inv st0 hc reqs
  rw [h1] at hret
  obtain ⟨dir, pt, pg, c, hpp, hpg, hpres, hreteq, _, hprot⟩ :=
    SegmentTable.translateAddress_success (st0.run reqs) hinv0 segNum pageDir pageNum offset
      accessType r1 hret
  have hinv1 := SegmentTable.translateAddress_inv (st0.run reqs) hinv0 segNum pageDir pageNum
    offset accessType r1
  obtain ⟨dir1, pt1, c1, hps, _⟩ := SegmentTable.checks_persist (st0.run reqs)
    ((st0.run reqs).translateAddress segNum pageDir pageNum offset accessType r1).2
    segNum pageDir pageNum offset accessType dir pt c
    (SegmentTable.translateAddress_static (st0.run reqs) segNum pageDir pageNum offset accessType
      r1).2.2.2.1
    (SegmentTable.translateAddress_shape (st0.run reqs) segNum pageDir pageNum offset accessType
      r1 (segNum, pageDir))
  rw [← h1] at hpg hreteq hinv1 c1
  have hpage1 : res1.2.pageAt (segNum, pageDir) pageNum = some (pt1.page pageNum) :=
    SegmentTable.checks_pageAt c1
  have hpgeq : pt1.page pageNum = pg := by
    rw [hpg] at hpage1
    exact (Option.some.inj hpage1).symm
  have hpp1 : ¬ (accessType = Protection.READ_WRITE ∧
      (pt1.page pageNum).protection = Protection.READ_ONLY) := by
    rw [hpgeq]
    rcases hprot with hp | hp
    · rw [hp]
      exact hpp
    · rw [hp]
      exact c.seg_prot
  have hpres1 : (pt1.page pageNum).present = true := by
    rw [hpgeq]
    exact hpres
  have hf := SegmentTable.present_frame_nonneg res1.2 hinv1 c1 hpres1
  have hhit := SegmentTable.translateAddress_hit res1.2 segNum pageDir pageNum offset accessType
    r2 dir1 pt1 c1 hpp1 hpres1 (by omega) (by omega)
  rw [← h2] at hhit
  have htouch := SegmentTable.pageAt_updTable_set res1.2.tick (segNum, pageDir) pageNum
    (fun _ => pt1.setPage pageNum
      { pt1.page pageNum with last_access_time := res1.2.physMem.time + 1 })
    (fun _ => { pt1.page pageNum with last_access_time := res1.2.physMem.time + 1 }) pt1
    (pt1.page pageNum) (SegmentTable.checks_table c1) hpage1 rfl
  rw [hhit]
  refine ⟨?_, rfl, rfl, rfl, rfl, rfl, rfl, ?_, pg, hpg, hpres, ?_⟩
  · show (pt1.page pageNum).frame_number * pt1.page_size + offset = res1.1.ret
    rw [hreteq, hpgeq, hps]
  · intro ref q hne
    have := htouch ref q
    rw [if_neg hne] at this
    exact this
  · have := htouch (segNum, pageDir) pageNum
    rw [if_pos ⟨rfl, rfl⟩] at this
    rw [← hpgeq]
    exact this

/-- C27 at the example manager after its four requests: page 1 is read twice in a row. -/
theorem C27_repeat_is_hit_witness :
    (((exampleManager.run exampleRequests).translateAddress 0 0 1 3 Protection.READ_ONLY
        7).2.translateAddress 0 0 1 3 Protection.READ_ONLY 9).1.ret =
      ((exampleManager.run exampleRequests).translateAddress 0 0 1 3 Protection.READ_ONLY
        7).1.ret :=
  (C27_repeat_is_hit exampleManager
    ⟨2, 16, ReplacementAlgorithm.FIFO, exampleSegments, by decide, rfl⟩ exampleRequests
    0 0 1 3 Protection.READ_ONLY 7 9 _ _ rfl rfl (by decide)).1

/-! ## The memory map -/

namespace StdMap

variable {β : Type}

theorem find_of_mem_sorted (m : StdMap β) (hs : (m.map Prod.fst).Pairwise (fun a b => a < b))
    (k : Int) (v : β) (h : (k, v) ∈ m) : find m k = some v := by
  induction m with
  | nil => simp at h
  | cons e rest ih =>
    obtain ⟨k1, v1⟩ := e
    simp only [List.map_cons, List.pairwise_cons] at hs
    obtain ⟨hx, hrest⟩ := hs
    rcases List.mem_cons.mp h with heq | hmem
    · cases heq
      simp [find]
    · have hlt : k1 < k := hx k (List.mem_map.mpr ⟨(k, v), hmem, rfl⟩)
      have hne : ¬ k1 = k := by omega
      unfold find
      rw [if_neg hne]
      exact ih hrest hmem

end StdMap

/-- C26: in every state reached by `translateAddress` calls from a freshly configured manager,
the keys of `frame_to_page_map` are exactly the occupied frames of the pool; the frames listed by
the memory map are strictly increasing, each occupied frame is listed exactly once and no other
frame is listed; and each line shows a page that is present in the listed frame, with its
`last_access_time`. -/
theorem C26_memory_map (st0 : SegmentTable) (hc : Configured st0) (reqs : List Request) :
    (∀ f : Int, (∃ v, StdMap.find (st0.run reqs).frame_to_page_map f = some v) ↔
      (0 ≤ f ∧ f < (st0.run reqs).physMem.num_frames ∧
        (st0.run reqs).physMem.free_frames.getD f.toNat false = false)) ∧
    ((st0.run reqs).memoryMap.map (fun l => l.1)).Pairwise (fun a b => a < b) ∧
    (∀ f : Int, ((st0.run reqs).memoryMap.map (fun l => l.1)).count f =
      if 0 ≤ f ∧ f < (st0.run reqs).physMem.num_frames ∧
        (st0.run reqs).physMem.free_frames.getD f.toNat false = false then 1 else 0) ∧
    (∀ f p t : Int, (f, p, t) ∈ (st0.run reqs).memoryMap →
      ∃ ref pg, StdMap.find (st0.run reqs).frame_to_page_map f = some (ref, p) ∧
        (st0.run reqs).pageAt ref p = some pg ∧ pg.present = true ∧ pg.frame_number = f ∧
        pg.last_access_time = t) := by
  have hinv := SegmentTable.reachable_inv st0 hc reqs
  have hsorted := SegmentTable.reachable_sorted st0 hc reqs
  have hkeys : (st0.run reqs).memoryMap.map (fun l => l.1) =
      (st0.run reqs).frame_to_page_map.map Prod.fst := by
    simp [SegmentTable.memoryMap, List.map_map, Function.comp_def]
  have hiff : ∀ f : Int, (∃ v, StdMap.find (st0.run reqs).frame_to_page_map f = some v) ↔
      (0 ≤ f ∧ f < (st0.run reqs).physMem.num_frames ∧
        (st0.run reqs).physMem.free_frames.getD f.toNat false = false) := by
    intro f
    constructor
    · rintro ⟨v, hv⟩
      exact hinv.keys f v hv
    · rintro ⟨h0, h1, h2⟩
      have hcast : ((f.toNat : Nat) : Int) = f := Int.toNat_of_nonneg h0
      have := hinv.occ f.toNat (by omega) (by omega) h2
      rw [hcast] at this
      cases hfind : StdMap.find (st0.run reqs).frame_to_page_map f with
      | none => exact absurd hfind this
      | some v => exact ⟨v, rfl⟩
  refine ⟨hiff, by rw [hkeys]; exact hsorted, ?_, ?_⟩
  · intro f
    rw [hkeys]
    have hnodup : ((st0.run reqs).frame_to_page_map.map Prod.fst).Nodup :=
      List.Pairwise.imp (fun hab => ne_of_lt hab) hsorted
    by_cases hocc : 0 ≤ f ∧ f < (st0.run reqs).physMem.num_frames ∧
        (st0.run reqs).physMem.free_frames.getD f.toNat false = false
    · rw [if_pos hocc]
      obtain ⟨v, hv⟩ := (hiff f).mpr hocc
      have hmem : f ∈ (st0.run reqs).frame_to_page_map.map Prod.fst :=
        List.mem_map.mpr ⟨(f, v), StdMap.mem_of_find _ f v hv, rfl⟩
      exact List.count_eq_one_of_mem hnodup hmem
    · rw [if_neg hocc]
      apply List.count_eq_zero_of_not_mem
      intro hmem
      obtain ⟨e, he, hfe⟩ := List.mem_map.mp hmem
      apply hocc
      apply (hiff f).mp
      refine ⟨e.2, ?_⟩
      rw [← hfe]
      exact StdMap.find_of_mem_sorted _ hsorted e.1 e.2 he
  · intro f p t hline
    unfold SegmentTable.memoryMap at hline
    obtain ⟨e, he, heq⟩ := List.mem_map.mp hline
    obtain ⟨k, ref, q⟩ := e
    simp only [Prod.mk.injEq] at heq
    obtain ⟨hk, hq, ht⟩ := heq
    subst hk
    subst hq
    have hfind := StdMap.find_of_mem_sorted _ hsorted k (ref, q) he
    obtain ⟨pg, hpg, hpres, hfr⟩ := hinv.bwd k ref q hfind
    refine ⟨ref, pg, hfind, hpg, hpres, hfr, ?_⟩
    obtain ⟨tb, htb, _, _, _, hpage⟩ := SegmentTable.pageAt_some _ ref q pg hpg
    rw [← ht]
    simp only [SegmentTable.lastAccess, htb, hpage]

/-- C26 at the example manager after its four requests: the memory map lists frame 0 with page
2 and frame 1 with page 1, in this order. -/
theorem C26_memory_map_witness :
    ((exampleManager.run exampleRequests).memoryMap.map (fun l => l.1)).Pairwise
      (fun a b => a < b) ∧
    (exampleManager.run exampleRequests).memoryMap = [(0, 2, 3), (1, 1, 4)] :=
  ⟨(C26_memory_map exampleManager
      ⟨2, 16, ReplacementAlgorithm.FIFO, exampleSegments, by decide, rfl⟩ exampleRequests).2.1,
   by decide⟩

/-! ## The partThree variant against the partFour variant -/

namespace PartThree

theorem evict_free_frames (st : SegmentTable) (v : Int) (h0 : 0 ≤ v)
    (h1 : v < st.physMem.num_frames) :
    (evict st v).physMem.free_frames = st.physMem.free_frames.set v.toNat true ∧
    (st.evict v).physMem.free_frames = st.physMem.free_frames.set v.toNat false := by
  have hne : v ≠ -1 := by omega
  have hr : v ≥ 0 ∧ v < st.physMem.num_frames := ⟨h0, h1⟩
  unfold evict SegmentTable.evict
  rw [if_pos hne, if_pos hne]
  cases hf : StdMap.find st.frame_to_page_map v with
  | none =>
    simp only
    rw [if_pos hr, if_pos hr]
    exact ⟨rfl, rfl⟩
  | some val =>
    obtain ⟨ref, p⟩ := val
    simp only
    have hr2 : v ≥ 0 ∧ v < (st.updTable ref (fun pt => pt.invalidatePage p)).physMem.num_frames :=
      hr
    rw [if_pos hr2, if_pos hr2]
    exact ⟨rfl, rfl⟩

end PartThree

namespace PartThree

/-- With no free frame, the two variants of `allocateFrame` pick the same victim and differ in
the tail that evicts it. -/
theorem allocateFrame_full (st : SegmentTable) (hff : st.physMem.firstFree = none) :
    (allocateFrame st).1 = (st.allocateFrame).1 ∧
    ∃ st' : SegmentTable, st'.physMem.free_frames = st.physMem.free_frames ∧
      st'.physMem.num_frames = st.physMem.num_frames ∧
      ((allocateFrame st).1 = -1 ∨
        ((allocateFrame st).2 = evict st' (allocateFrame st).1 ∧
          (st.allocateFrame).2 = st'.evict (allocateFrame st).1)) := by
  unfold allocateFrame SegmentTable.allocateFrame
  rw [hff]
  simp only
  by_cases ha : st.physMem.algo = ReplacementAlgorithm.FIFO
  · rw [if_pos ha, if_pos ha]
    cases hq : st.physMem.fifo_queue with
    | nil => exact ⟨rfl, st, rfl, rfl, Or.inl rfl⟩
    | cons v rest =>
      exact ⟨rfl, { st with physMem := { st.physMem with fifo_queue := rest ++ [v] } }, rfl, rfl,
        Or.inr ⟨rfl, rfl⟩⟩
  · rw [if_neg ha, if_neg ha]
    exact ⟨rfl, st, rfl, rfl, Or.inr ⟨rfl, rfl⟩⟩

end PartThree

/-- C28: the partThree and partFour variants are not equivalent. Whenever no frame is free and
`allocateFrame` picks a victim frame of the pool, both variants pick the same frame, partThree
leaves it marked free and partFour leaves it marked occupied. With 2 frames under FIFO and the
four pages of one table read in turn, `translateAddress` of partThree returns the addresses
3, 19, 3, 3 and that of partFour 3, 19, 3, 19: the fourth request is answered from frame 0 by
partThree and from frame 1 by partFour. -/
theorem C28_variants_differ :
    (∀ st : SegmentTable, st.physMem.firstFree = none →
      st.physMem.free_frames.length = st.physMem.num_frames.toNat →
      0 ≤ (PartThree.allocateFrame st).1 →
      (PartThree.allocateFrame st).1 < st.physMem.num_frames →
      (st.allocateFrame).1 = (PartThree.allocateFrame st).1 ∧
      (PartThree.allocateFrame st).2.physMem.free_frames.getD
        (PartThree.allocateFrame st).1.toNat false = true ∧
      (st.allocateFrame).2.physMem.free_frames.getD
        (PartThree.allocateFrame st).1.toNat false = false) ∧
    SegmentTable.configure 2 16 ReplacementAlgorithm.FIFO exampleSegments = some exampleManager ∧
    PartThree.results exampleManager exampleReads = [3, 19, 3, 3] ∧
    (exampleManager.results exampleReads).map (fun r => r.ret) = [3, 19, 3, 19] ∧
    (PartThree.results exampleManager exampleReads)[3]? ≠
      ((exampleManager.results exampleReads).map (fun r => r.ret))[3]? := by
  refine ⟨?_, rfl, by decide, by decide, by decide⟩
  intro st hff hlen hlo hhi
  obtain ⟨hsame, st', hfree, hnum, hcase⟩ := PartThree.allocateFrame_full st hff
  rcases hcase with hneg | ⟨h3, h4⟩
  · omega
  · obtain ⟨e3, e4⟩ := PartThree.evict_free_frames st' (PartThree.allocateFrame st).1 hlo
      (by rw [hnum]; exact hhi)
    refine ⟨hsame.symm, ?_, ?_⟩
    · rw [h3, e3, hfree, SegmentTable.getD_set_true, if_pos rfl, hlen]
      simp only [decide_eq_true_eq]
      omega
    · rw [h4, e4, hfree, SegmentTable.getD_set_false, if_pos rfl]

/-- C28 at the example manager after the first two reads, when both frames are occupied: both
variants pick frame 0, partThree leaves it free, partFour occupied. -/
theorem C28_variants_differ_witness :
    ((exampleManager.run (exampleReads.take 2)).allocateFrame).1 =
      (PartThree.allocateFrame (exampleManager.run (exampleReads.take 2))).1 ∧
    (PartThree.allocateFrame (exampleManager.run (exampleReads.take 2))).2.physMem.free_frames.getD
      (PartThree.allocateFrame (exampleManager.run (exampleReads.take 2))).1.toNat false = true ∧
    ((exampleManager.run (exampleReads.take 2)).allocateFrame).2.physMem.free_frames.getD
      (PartThree.allocateFrame (exampleManager.run (exampleReads.take 2))).1.toNat false = false :=
  C28_variants_differ.1 (exampleManager.run (exampleReads.take 2)) (by decide) (by decide)
    (by decide) (by decide)

/-! ## Aliasing in the partThree variant -/

/-- C29 fails for partThree: on the freshly configured manager with 2 frames under FIFO, after
reads of pages 0, 1, 2 and 3 of one table, pages 2 and 3 are both present with frame 0. The third
read evicts page 0 from frame 0 and leaves frame 0 marked free although page 2 is bound to it,
so the fourth read takes frame 0 from the free scan once more. -/
theorem C29_partThree_aliasing :
    SegmentTable.configure 2 16 ReplacementAlgorithm.FIFO exampleSegments = some exampleManager ∧
    (PartThree.run exampleManager (exampleReads.take 3)).physMem.free_frames = [true, false] ∧
    (PartThree.run exampleManager (exampleReads.take 3)).pageAt (0, 0) 2 =
      some { frame_number := 0, present := true, protection := Protection.READ_WRITE,
             last_access_time := 3 } ∧
    (PartThree.run exampleManager exampleReads).pageAt (0, 0) 2 =
      some { frame_number := 0, present := true, protection := Protection.READ_WRITE,
             last_access_time := 3 } ∧
    (PartThree.run exampleManager exampleReads).pageAt (0, 0) 3 =
      some { frame_number := 0, present := true, protection := Protection.READ_WRITE,
             last_access_time := 4 } ∧
    (PartThree.run exampleManager exampleReads).frame_to_page_map =
      [(0, ((0, 0), 3)), (1, ((0, 0), 1))] ∧
    ¬ NoAliasing (PartThree.run exampleManager exampleReads) := by
  refine ⟨rfl, by decide, by decide, by decide, by decide, by decide, ?_⟩
  intro h
  have h23 := h (0, 0) (0, 0) 2 3
    { frame_number := 0, present := true, protection := Protection.READ_WRITE,
      last_access_time := 3 }
    { frame_number := 0, present := true, protection := Protection.READ_WRITE,
      last_access_time := 4 }
    (by decide) (by decide) rfl rfl rfl
  exact absurd h23 (by decide)

/-! ## Release of a frame that holds a page -/

/-- C30 fails: `freeFrame` does not invalidate the page that holds the released frame. On the
freshly configured manager with 2 frames, after a read of page 0 (bound to frame 0) and
`freeFrame(0)`, page 0 is still present with frame 0 while `frame_to_page_map` has no entry for
frame 0; a following read of page 1 takes frame 0 from the free scan, and pages 0 and 1 are both
present with frame 0. -/
theorem C30_freeFrame_breaks_consistency :
    SegmentTable.configure 2 16 ReplacementAlgorithm.FIFO exampleSegments = some exampleManager ∧
    ((exampleManager.translateAddress 0 0 0 3 Protection.READ_ONLY 7).2.freeFrame 0).pageAt
        (0, 0) 0 =
      some { frame_number := 0, present := true, protection := Protection.READ_WRITE,
             last_access_time := 1 } ∧
    StdMap.find
      ((exampleManager.translateAddress 0 0 0 3 Protection.READ_ONLY 7).2.freeFrame
        0).frame_to_page_map 0 = none ∧
    ((((exampleManager.translateAddress 0 0 0 3 Protection.READ_ONLY 7).2.freeFrame
        0).translateAddress 0 0 1 3 Protection.READ_ONLY 7).2.pageAt (0, 0) 0 =
      some { frame_number := 0, present := true, protection := Protection.READ_WRITE,
             last_access_time := 1 }) ∧
    ((((exampleManager.translateAddress 0 0 0 3 Protection.READ_ONLY 7).2.freeFrame
        0).translateAddress 0 0 1 3 Protection.READ_ONLY 7).2.pageAt (0, 0) 1 =
      some { frame_number := 0, present := true, protection := Protection.READ_WRITE,
             last_access_time := 2 }) ∧
    ¬ NoAliasing (((exampleManager.translateAddress 0 0 0 3 Protection.READ_ONLY 7).2.freeFrame
        0).translateAddress 0 0 1 3 Protection.READ_ONLY 7).2 := by
  refine ⟨rfl, by decide, by decide, by decide, by decide, ?_⟩
  intro h
  have h01 := h (0, 0) (0, 0) 0 1
    { frame_number := 0, present := true, protection := Protection.READ_WRITE,
      last_access_time := 1 }
    { frame_number := 0, present := true, protection := Protection.READ_WRITE,
      last_access_time := 2 }
    (by decide) (by decide) rfl rfl rfl
  exact absurd h01 (by decide)

/-! ## What every table of a configured manager satisfies -/

namespace SegmentTable

theorem addTables_all (P : PageTable → Prop) (tableSize pageSize : Int) (rnd : Nat → Nat → Nat)
    (hP : ∀ (r : Nat → Nat) (t : PageTable), PageTable.new tableSize pageSize r = some t → P t)
    (idxs : List Nat) (d d' : PageDirectory)
    (hd : ∀ i t, StdMap.find d.page_tables i = some t → P t)
    (h : addTables d tableSize pageSize rnd idxs = some d') :
    ∀ i t, StdMap.find d'.page_tables i = some t → P t := by
  induction idxs generalizing d with
  | nil =>
    simp only [addTables, Option.some.injEq] at h
    subst h
    exact hd
  | cons i0 rest ih =>
    simp only [addTables, PageDirectory.addPageTable] at h
    cases hnew : PageTable.new tableSize pageSize (rnd i0) with
    | none => simp [hnew] at h
    | some t0 =>
      simp only [hnew, Option.map_some', Option.some_bind] at h
      refine ih _ ?_ h
      intro i t hfind
      simp only [StdMap.find_insert] at hfind
      by_cases hi : i = (i0 : Int)
      · simp only [hi, if_true, Option.some.injEq] at hfind
        subst hfind
        exact hP _ _ hnew
      · simp only [hi, if_false] at hfind
        exact hd i t hfind

theorem addSegment_all (P : PageTable → Prop) (st st' : SegmentTable) (id base limit : Int)
    (prot : Protection) (dirSize tableSize : Int) (rnd : Nat → Nat → Nat)
    (hP : ∀ (n : Int) (r : Nat → Nat) (t : PageTable),
      PageTable.new n st.page_size r = some t → P t)
    (hd : ∀ k d, StdMap.find st.segment_directories k = some d →
      ∀ i t, StdMap.find d.page_tables i = some t → P t)
    (h : st.addSegment id base limit prot dirSize tableSize rnd = some st') :
    ∀ k d, StdMap.find st'.segment_directories k = some d →
      ∀ i t, StdMap.find d.page_tables i = some t → P t := by
  unfold addSegment at h
  cases hadd : addTables (PageDirectory.new tableSize) tableSize st.page_size rnd
      (List.range dirSize.toNat) with
  | none => simp [hadd] at h
  | some d0 =>
    simp only [hadd, Option.map_some', Option.some.injEq] at h
    subst h
    intro k d hfind
    simp only [StdMap.find_insert] at hfind
    by_cases hk : k = id
    · simp only [hk, if_true, Option.some.injEq] at hfind
      subst hfind
      exact addTables_all P _ _ _ (hP tableSize) _ _ _
        (by intro i t hf; simp [PageDirectory.new, StdMap.find] at hf) hadd
    · simp only [hk, if_false] at hfind
      exact hd k d hfind

theorem addSegments_all (P : PageTable → Prop) (cs : List SegmentConfig) (st st' : SegmentTable)
    (hP : ∀ (n : Int) (r : Nat → Nat) (t : PageTable),
      PageTable.new n st.page_size r = some t → P t)
    (hd : ∀ k d, StdMap.find st.segment_directories k = some d →
      ∀ i t, StdMap.find d.page_tables i = some t → P t)
    (h : st.addSegments cs = some st') :
    ∀ k d, StdMap.find st'.segment_directories k = some d →
      ∀ i t, StdMap.find d.page_tables i = some t → P t := by
  induction cs generalizing st with
  | nil =>
    simp only [addSegments, Option.some.injEq] at h
    subst h
    exact hd
  | cons c rest ih =>
    simp only [addSegments] at h
    cases h1 : st.addSegment c.id c.base c.limit c.prot c.dirSize c.tableSize c.rnd with
    | none => simp [h1] at h
    | some st1 =>
      simp only [h1, Option.some_bind] at h
      have hps : st1.page_size = st.page_size := by
        have h1' := h1
        unfold addSegment at h1'
        cases hadd : addTables (PageDirectory.new c.tableSize) c.tableSize st.page_size c.rnd
            (List.range c.dirSize.toNat) with
        | none => simp [hadd] at h1'
        | some d0 =>
          simp only [hadd, Option.map_some', Option.some.injEq] at h1'
          subst h1'
          rfl
      exact ih st1 (by rw [hps]; exact hP) (addSegment_all P st st1 _ _ _ _ _ _ _ hP hd h1) h

end SegmentTable

namespace SegmentTable

/-- Every table of a freshly configured manager satisfies what the constructor `PageTable(n,
pSize)` establishes. -/
theorem configure_tables (P : PageTable → Prop) (numFrames pSize : Int)
    (algo : ReplacementAlgorithm) (cs : List SegmentConfig) (st : SegmentTable)
    (hP : ∀ (n : Int) (r : Nat → Nat) (t : PageTable), PageTable.new n pSize r = some t → P t)
    (h : configure numFrames pSize algo cs = some st) :
    ∀ ref t, st.table? ref = some t → P t := by
  unfold configure SegmentTable.new PhysicalMemory.new at h
  by_cases hn : numFrames < 0
  · simp [hn] at h
  · simp only [hn, if_false, Option.map_some', Option.some_bind] at h
    have hall := addSegments_all P cs _ st hP (by intro k d hf; simp [StdMap.find] at hf) h
    intro ref t ht
    unfold table? at ht
    cases hdir : StdMap.find st.segment_directories ref.1 with
    | none => simp [hdir] at ht
    | some dir =>
      simp only [hdir, Option.some_bind] at ht
      exact hall _ dir hdir _ t ht

theorem new_page_size (n pSize : Int) (r : Nat → Nat) (t : PageTable)
    (h : PageTable.new n pSize r = some t) : t.page_size = pSize := by
  unfold PageTable.new at h
  by_cases hn : n < 0
  · simp [hn] at h
  · simp only [hn, if_false, Option.some.injEq] at h
    subst h
    rfl

theorem run_shape (st : SegmentTable) (reqs : List Request) (ref : TableRef) :
    ((st.run reqs).table? ref).map PageTable.shape = (st.table? ref).map PageTable.shape := by
  induction reqs generalizing st with
  | nil => rfl
  | cons q qs ih =>
    exact (ih (st.serve q).2).trans (translateAddress_shape st _ _ _ _ _ _ ref)

/-- In every state reached from a freshly configured manager, each table has the page size of
the manager. -/
theorem reachable_page_size (st0 : SegmentTable) (hc : Configured st0) (reqs : List Request)
    (ref : TableRef) (t : PageTable) (ht : (st0.run reqs).table? ref = some t) :
    t.page_size = (st0.run reqs).page_size := by
  obtain ⟨numFrames, pSize, algo, cs, _, hcfg⟩ := hc
  have hps0 : st0.page_size = pSize := (configure_fresh numFrames pSize algo cs st0 hcfg).2.2.2.1
  have hshape := run_shape st0 reqs ref
  rw [ht] at hshape
  cases ht0 : st0.table? ref with
  | none => simp [ht0] at hshape
  | some t0 =>
    simp only [ht0, Option.map_some', Option.some.injEq, PageTable.shape, Prod.mk.injEq] at hshape
    have h0 := configure_tables (fun t => t.page_size = pSize) numFrames pSize algo cs st0
      (fun n r t h => new_page_size n pSize r t h) hcfg ref t0 ht0
    rw [hshape.2, (run_static st0 reqs).2.2.2.2, hps0]
    exact h0

end SegmentTable

/-- C33: in every state reached from a freshly configured manager, a `translateAddress` call
that succeeds (it does not return `-1`, or its fault string is "OK" or the page-fault notice of
a resolved miss) returns `frame * pageSize + offset` in exact integers, where `frame` is the
frame the addressed page holds afterwards, `0 <= frame < num_frames`, `pageSize` is the page size
of the manager and of the table, and `0 <= offset < pageSize`; so the address lies in
`[0, num_frames * pageSize)`, is not `-1`, its quotient by `pageSize` is the frame and its
remainder the offset. -/
theorem C33_address_range (st0 : SegmentTable) (hc : Configured st0) (reqs : List Request)
    (segNum pageDir pageNum offset : Int) (accessType : Protection) (rnd : Nat)
    (res : TranslateResult × SegmentTable)
    (hres : res = (st0.run reqs).translateAddress segNum pageDir pageNum offset accessType rnd)
    (hsucc : res.1.ret ≠ -1 ∨ res.1.fault = Fault.OK ∨ res.1.fault = Fault.PageNotInMemory) :
    ∃ pg, res.2.pageAt (segNum, pageDir) pageNum = some pg ∧ pg.present = true ∧
      0 ≤ pg.frame_number ∧ pg.frame_number < (st0.run reqs).physMem.num_frames ∧
      0 ≤ offset ∧ offset < (st0.run reqs).page_size ∧
      res.1.ret = pg.frame_number * (st0.run reqs).page_size + offset ∧
      0 ≤ res.1.ret ∧
      res.1.ret < (st0.run reqs).physMem.num_frames * (st0.run reqs).page_size ∧
      res.1.ret ≠ -1 ∧
      res.1.ret / (st0.run reqs).page_size = pg.frame_number ∧
      res.1.ret % (st0.run reqs).page_size = offset := by
  have hinv := SegmentTable.reachable_inv st0 hc reqs
  have hret : res.1.ret ≠ -1 := by
    rcases hsucc with h | h | h
    · exact h
    · intro hneg
      rw [hres] at hneg h
      exact (SegmentTable.translateAddress_fault_state _ hinv _ _ _ _ _ _ hneg).2.1 h
    · intro hneg
      rw [hres] at hneg h
      exact (SegmentTable.translateAddress_fault_state _ hinv _ _ _ _ _ _ hneg).2.2 h
  rw [hres] at hret ⊢
  obtain ⟨dir, pt, pg, c, _, hpg, hpres, hreteq, _, _⟩ :=
    SegmentTable.translateAddress_success (st0.run reqs) hinv segNum pageDir pageNum offset
      accessType rnd hret
  have hinv1 := SegmentTable.translateAddress_inv (st0.run reqs) hinv segNum pageDir pageNum
    offset accessType rnd
  obtain ⟨hf0, hf1, _⟩ := hinv1.keys _ _ (hinv1.fwd _ _ _ hpg hpres)
  rw [(SegmentTable.translateAddress_static (st0.run reqs) segNum pageDir pageNum offset
    accessType rnd).2.1] at hf1
  have hps : pt.page_size = (st0.run reqs).page_size :=
    SegmentTable.reachable_page_size st0 hc reqs (segNum, pageDir) pt (SegmentTable.checks_table c)
  have ho0 := c.off_lo
  have ho1 := c.off_hi
  rw [hps] at ho1 hreteq
  have hpos : 0 < (st0.run reqs).page_size := by omega
  have hmul0 : 0 ≤ pg.frame_number * (st0.run reqs).page_size :=
    Int.mul_nonneg hf0 (by omega)
  have hmul1 : (pg.frame_number + 1) * (st0.run reqs).page_size ≤
      (st0.run reqs).physMem.num_frames * (st0.run reqs).page_size :=
    Int.mul_le_mul_of_nonneg_right (by omega) (by omega)
  have hexp : (pg.frame_number + 1) * (st0.run reqs).page_size =
      pg.frame_number * (st0.run reqs).page_size + (st0.run reqs).page_size := by ring
  refine ⟨pg, hpg, hpres, hf0, hf1, ho0, ho1, hreteq, ?_, ?_, hret, ?_, ?_⟩
  · rw [hreteq]
    omega
  · rw [hreteq]
    omega
  · rw [hreteq, add_comm, Int.add_mul_ediv_right _ _ (by omega), Int.ediv_eq_zero_of_lt ho0 ho1]
    omega
  · rw [hreteq, add_comm, Int.add_mul_emod_self, Int.emod_eq_of_lt ho0 ho1]

/-- C33 at the example manager after its four requests: a read of offset 3 of page 3. -/
theorem C33_address_range_witness :
    ∃ pg, ((exampleManager.run exampleRequests).translateAddress 0 0 3 3 Protection.READ_ONLY
        7).2.pageAt (0, 0) 3 = some pg ∧ pg.present = true ∧
      0 ≤ pg.frame_number ∧ pg.frame_number < (exampleManager.run exampleRequests).physMem.num_frames ∧
      (0 : Int) ≤ 3 ∧ 3 < (exampleManager.run exampleRequests).page_size ∧
      ((exampleManager.run exampleRequests).translateAddress 0 0 3 3 Protection.READ_ONLY
        7).1.ret = pg.frame_number * (exampleManager.run exampleRequests).page_size + 3 ∧
      0 ≤ ((exampleManager.run exampleRequests).translateAddress 0 0 3 3 Protection.READ_ONLY
        7).1.ret ∧
      ((exampleManager.run exampleRequests).translateAddress 0 0 3 3 Protection.READ_ONLY
        7).1.ret < (exampleManager.run exampleRequests).physMem.num_frames *
          (exampleManager.run exampleRequests).page_size ∧
      ((exampleManager.run exampleRequests).translateAddress 0 0 3 3 Protection.READ_ONLY
        7).1.ret ≠ -1 ∧
      ((exampleManager.run exampleRequests).translateAddress 0 0 3 3 Protection.READ_ONLY
        7).1.ret / (exampleManager.run exampleRequests).page_size = pg.frame_number ∧
      ((exampleManager.run exampleRequests).translateAddress 0 0 3 3 Protection.READ_ONLY
        7).1.ret % (exampleManager.run exampleRequests).page_size = 3 :=
  C33_address_range exampleManager
    ⟨2, 16, ReplacementAlgorithm.FIFO, exampleSegments, by decide, rfl⟩ exampleRequests
    0 0 3 3 Protection.READ_ONLY 7 _ rfl (Or.inl (by decide))

/-! ## Pages that are present after a call -/

namespace SegmentTable

/-- In a consistent state, a page that is present after a `translateAddress` call either is as
it was before the call, or is the addressed page, stamped with the new clock value; its
protection and frame are then what they were on a hit, and its protection is that of the
segment on a miss. -/
theorem translateAddress_present_pages (st : SegmentTable) (h : Inv (-1) st)
    (segNum pageDir pageNum offset : Int) (accessType : Protection) (rnd : Nat)
    (ref : TableRef) (p : Int) (pg' : Page)
    (hp : (st.translateAddress segNum pageDir pageNum offset accessType rnd).2.pageAt ref p =
      some pg')
    (hpres' : pg'.present = true) :
    st.pageAt ref p = some pg' ∨
    (ref = (segNum, pageDir) ∧ p = pageNum ∧ pg'.last_access_time = st.physMem.time + 1 ∧
      0 ≤ segNum ∧ segNum < (st.segments.length : Int) ∧
      ((∃ pg0, st.pageAt ref p = some pg0 ∧ pg0.present = true ∧
          pg'.protection = pg0.protection ∧ pg'.frame_number = pg0.frame_number) ∨
        pg'.protection = (st.segments.getD segNum.toNat default).protection)) := by
  rcases translateAddress_checked_or_rejected st segNum pageDir pageNum offset accessType rnd
    with ⟨dir, pt, c⟩ | ⟨hrej, _, _⟩
  swap
  · rw [hrej] at hp
    exact Or.inl hp
  have hpage := checks_pageAt c
  by_cases hpp : accessType = Protection.READ_WRITE ∧
      (pt.page pageNum).protection = Protection.READ_ONLY
  · rw [translateAddress_page_protection st _ _ _ _ _ rnd dir pt c hpp.1 hpp.2] at hp
    exact Or.inl hp
  by_cases hpres : (pt.page pageNum).present = true
  · have hf := present_frame_nonneg st h c hpres
    have htouch := pageAt_updTable_set st.tick (segNum, pageDir) pageNum
      (fun _ => pt.setPage pageNum
        { pt.page pageNum with last_access_time := st.physMem.time + 1 })
      (fun _ => { pt.page pageNum with last_access_time := st.physMem.time + 1 }) pt
      (pt.page pageNum) (checks_table c) hpage rfl ref p
    rw [translateAddress_hit st _ _ _ _ _ rnd dir pt c hpp hpres (by omega) (by omega)] at hp
    simp only at hp
    rw [htouch] at hp
    by_cases hadr : ref = (segNum, pageDir) ∧ p = pageNum
    · rw [if_pos hadr] at hp
      have hpg : pg' = { pt.page pageNum with last_access_time := st.physMem.time + 1 } :=
        (Option.some.inj hp).symm
      right
      refine ⟨hadr.1, hadr.2, by rw [hpg], c.seg_lo, c.seg_hi, Or.inl ⟨pt.page pageNum, ?_, hpres,
        by rw [hpg], by rw [hpg]⟩⟩
      rw [hadr.1, hadr.2]
      exact hpage
    · rw [if_neg hadr] at hp
      exact Or.inl hp
  · have habs : (pt.page pageNum).present = false := by
      cases hb : (pt.page pageNum).present
      · rfl
      · exact absurd hb hpres
    rw [translateAddress_miss st _ _ _ _ _ rnd dir pt c hpp habs] at hp
    have hkeep : ∀ pg1, (st.tick.allocateFrame).2.pageAt ref p = some pg1 → pg1.present = true →
        st.pageAt ref p = some pg1 := by
      intro pg1 h1 hpr1
      rcases allocateFrame_pageAt st.tick ref p with hsame | ⟨_, hinv⟩
      · rw [hsame] at h1
        exact h1
      · rw [hinv] at h1
        cases hq : st.tick.pageAt ref p with
        | none => simp [hq] at h1
        | some pg2 =>
          simp only [hq, Option.map_some', Option.some.injEq] at h1
          rw [← h1] at hpr1
          cases hpr1
    by_cases ha : (st.tick.allocateFrame).1 = -1
    · rw [if_pos ha] at hp
      exact Or.inl (hkeep pg' hp hpres')
    · rw [if_neg ha] at hp
      have hex : ∃ pg1, (st.tick.allocateFrame).2.pageAt (segNum, pageDir) pageNum = some pg1 := by
        rcases allocateFrame_pageAt st.tick (segNum, pageDir) pageNum with hsame | ⟨_, hinv⟩
        · exact ⟨_, by rw [hsame]; exact hpage⟩
        · exact ⟨_, by rw [hinv, hpage]; rfl⟩
      obtain ⟨pg1, hpg1⟩ := hex
      have hbound := pageAt_setFrameAt (st.tick.allocateFrame).2 (segNum, pageDir) pageNum
        (st.tick.allocateFrame).1 (st.segments.getD segNum.toNat default).protection
        (st.tick.allocateFrame).2.physMem.time pg1 hpg1 ref p
      simp only at hp
      rw [hbound] at hp
      by_cases hadr : ref = (segNum, pageDir) ∧ p = pageNum
      · rw [if_pos hadr] at hp
        have hpg := (Option.some.inj hp).symm
        right
        refine ⟨hadr.1, hadr.2, ?_, c.seg_lo, c.seg_hi, Or.inr (by rw [hpg])⟩
        rw [hpg]
        exact (allocateFrame_frame st.tick).1
      · rw [if_neg hadr] at hp
        exact Or.inl (hkeep pg' hp hpres')

/-- Either every check passes, or the fault string is that of one of the six checks made before
the page table is asked. -/
theorem translateAddress_rejected_kind (st : SegmentTable)
    (segNum pageDir pageNum offset : Int) (accessType : Protection) (rnd : Nat) :
    (∃ dir pt, Checks st segNum pageDir pageNum offset accessType dir pt) ∨
    (st.translateAddress segNum pageDir pageNum offset accessType rnd).1.fault ∈
      [Fault.InvalidSegment, Fault.SegmentProtection, Fault.NoPageDirectory,
       Fault.InvalidDirectoryIndex, Fault.PageNumberExceedsLimit,
       Fault.OffsetExceedsPageSize] := by
  by_cases hseg : segNum < 0 ∨ segNum ≥ (st.tick.segments.length : Int)
  · right
    unfold translateAddress
    simp only [hseg, if_true]
    decide
  by_cases hsp : accessType = Protection.READ_WRITE ∧
      (st.tick.segments.getD segNum.toNat default).protection = Protection.READ_ONLY
  · right
    unfold translateAddress
    simp only [hseg, hsp, and_self, if_true, if_false]
    decide
  cases hdir : StdMap.find st.tick.segment_directories segNum with
  | none =>
    right
    unfold translateAddress
    simp only [hseg, hsp, hdir, if_false]
    decide
  | some dir =>
    cases htab : dir.getPageTable pageDir with
    | none =>
      right
      unfold translateAddress
      simp only [hseg, hsp, hdir, htab, if_false]
      decide
    | some pt =>
      by_cases hpg : pageNum < 0 ∨ pageNum ≥ (pt.pages.length : Int)
      · right
        unfold translateAddress
        simp only [hseg, hsp, hdir, htab, hpg, if_false, if_true]
        decide
      by_cases hoff : offset < 0 ∨ offset ≥ pt.page_size
      · right
        unfold translateAddress
        simp only [hseg, hsp, hdir, htab, hpg, hoff, if_false, if_true]
        decide
      left
      have hseg' : ¬ (segNum < 0 ∨ segNum ≥ (st.segments.length : Int)) := hseg
      exact ⟨dir, pt, ⟨by omega, by omega, hsp, hdir, htab, by omega, by omega, by omega,
        by omega⟩⟩

theorem run_protection (reqs : List Request) (st : SegmentTable) (hinv : Inv (-1) st)
    (hst : ∀ ref p pg, st.pageAt ref p = some pg → pg.present = true →
      0 ≤ ref.1 ∧ ref.1 < (st.segments.length : Int) ∧
      pg.protection = (st.segments.getD ref.1.toNat default).protection) :
    ∀ ref p pg, (st.run reqs).pageAt ref p = some pg → pg.present = true →
      0 ≤ ref.1 ∧ ref.1 < ((st.run reqs).segments.length : Int) ∧
      pg.protection = ((st.run reqs).segments.getD ref.1.toNat default).protection := by
  induction reqs generalizing st with
  | nil => exact hst
  | cons q qs ih =>
    apply ih (st.serve q).2 (translateAddress_inv st hinv _ _ _ _ _ _)
    intro ref p pg hp hpres
    have hsegs : (st.serve q).2.segments = st.segments :=
      (translateAddress_static st _ _ _ _ _ _).2.2.2.1
    rw [hsegs]
    rcases translateAddress_present_pages st hinv _ _ _ _ _ _ ref p pg hp hpres
      with hold | ⟨href, _, _, hlo, hhi, hcase⟩
    · exact hst ref p pg hold hpres
    · rcases hcase with ⟨pg0, hpg0, hpres0, hprot, _⟩ | hprot
      · rw [hprot]
        exact hst ref p pg0 hpg0 hpres0
      · rw [href]
        exact ⟨hlo, hhi, hprot⟩

/-- In every state reached from a freshly configured manager, a present page of a table of the
directory keyed `s` carries the protection of `segments[s]`. -/
theorem reachable_protection (st0 : SegmentTable) (hc : Configured st0) (reqs : List Request)
    (ref : TableRef) (p : Int) (pg : Page) (hp : (st0.run reqs).pageAt ref p = some pg)
    (hpres : pg.present = true) :
    0 ≤ ref.1 ∧ ref.1 < ((st0.run reqs).segments.length : Int) ∧
    pg.protection = ((st0.run reqs).segments.getD ref.1.toNat default).protection := by
  refine run_protection reqs st0 (configured_inv st0 hc) ?_ ref p pg hp hpres
  intro ref p pg hp hpres
  obtain ⟨numFrames, pSize, algo, cs, _, hcfg⟩ := hc
  rw [(configure_fresh numFrames pSize algo cs st0 hcfg).2.2.2.2 ref p pg hp] at hpres
  cases hpres

end SegmentTable

/-- C31: in every state reached from a freshly configured manager, every present page of a table
of the directory keyed `s` has the protection of `segments[s]`; hence a call that passes the
checks and addresses a present page does not return the page-level protection violation, and a
call that returns it addressed a page that is not present. -/
theorem C31_present_page_protection (st0 : SegmentTable) (hc : Configured st0)
    (reqs : List Request) :
    (∀ (ref : TableRef) (p : Int) (pg : Page), (st0.run reqs).pageAt ref p = some pg →
      pg.present = true →
      0 ≤ ref.1 ∧ ref.1 < ((st0.run reqs).segments.length : Int) ∧
      pg.protection = ((st0.run reqs).segments.getD ref.1.toNat default).protection) ∧
    (∀ (segNum pageDir pageNum offset : Int) (accessType : Protection) (rnd : Nat),
      ((st0.run reqs).translateAddress segNum pageDir pageNum offset accessType rnd).1.fault =
        Fault.PageProtection →
      ∃ dir pt, Checks (st0.run reqs) segNum pageDir pageNum offset accessType dir pt ∧
        (pt.page pageNum).present = false ∧
        (st0.run reqs).pageAt (segNum, pageDir) pageNum = some (pt.page pageNum)) := by
  refine ⟨SegmentTable.reachable_protection st0 hc reqs, ?_⟩
  intro segNum pageDir pageNum offset accessType rnd hfault
  have hinv := SegmentTable.reachable_inv st0 hc reqs
  rcases SegmentTable.translateAddress_rejected_kind (st0.run reqs) segNum pageDir pageNum offset
    accessType rnd with ⟨dir, pt, c⟩ | hrej
  swap
  · rw [hfault] at hrej
    exact absurd hrej (by decide)
  have hpage : (st0.run reqs).pageAt (segNum, pageDir) pageNum = some (pt.page pageNum) :=
    SegmentTable.checks_pageAt c
  refine ⟨dir, pt, c, ?_, hpage⟩
  cases hb : (pt.page pageNum).present
  · rfl
  · exfalso
    obtain ⟨_, _, hprot⟩ := SegmentTable.reachable_protection st0 hc reqs (segNum, pageDir)
      pageNum (pt.page pageNum) hpage hb
    have hpp : ¬ (accessType = Protection.READ_WRITE ∧
        (pt.page pageNum).protection = Protection.READ_ONLY) := by
      rw [hprot]
      exact c.seg_prot
    have hf := SegmentTable.present_frame_nonneg _ hinv c hb
    rw [SegmentTable.translateAddress_hit _ _ _ _ _ _ rnd dir pt c hpp hb (by omega) (by omega)]
      at hfault
    cases hfault

/-- C31 at the example manager after its four requests: page 1 of segment 0 is present in frame
1 and carries the protection of segment 0. -/
theorem C31_present_page_protection_witness :
    (0 : Int) ≤ 0 ∧ (0 : Int) < ((exampleManager.run exampleRequests).segments.length : Int) ∧
    Protection.READ_WRITE =
      ((exampleManager.run exampleRequests).segments.getD (0 : Int).toNat default).protection :=
  (C31_present_page_protection exampleManager
    ⟨2, 16, ReplacementAlgorithm.FIFO, exampleSegments, by decide, rfl⟩ exampleRequests).1
    (0, 0) 1
    { frame_number := 1, present := true, protection := Protection.READ_WRITE,
      last_access_time := 4 } (by decide) rfl

/-! ## Access times of present pages -/

namespace SegmentTable

theorem run_times (reqs : List Request) (st : SegmentTable) (hinv : Inv (-1) st)
    (ht0 : 0 ≤ st.physMem.time)
    (hlo : ∀ ref p pg, st.pageAt ref p = some pg → pg.present = true → 1 ≤ pg.last_access_time)
    (hdist : ∀ ref1 p1 pg1 ref2 p2 pg2, st.pageAt ref1 p1 = some pg1 →
      st.pageAt ref2 p2 = some pg2 → pg1.present = true → pg2.present = true →
      pg1.last_access_time = pg2.last_access_time → (ref1, p1) = (ref2, p2)) :
    (∀ ref p pg, (st.run reqs).pageAt ref p = some pg → pg.present = true →
      1 ≤ pg.last_access_time) ∧
    (∀ ref1 p1 pg1 ref2 p2 pg2, (st.run reqs).pageAt ref1 p1 = some pg1 →
      (st.run reqs).pageAt ref2 p2 = some pg2 → pg1.present = true → pg2.present = true →
      pg1.last_access_time = pg2.last_access_time → (ref1, p1) = (ref2, p2)) := by
  induction reqs generalizing st with
  | nil => exact ⟨hlo, hdist⟩
  | cons q qs ih =>
    have hstep := translateAddress_present_pages st hinv q.segNum q.pageDir q.pageNum q.offset
      q.accessType q.rnd
    apply ih (st.serve q).2 (translateAddress_inv st hinv _ _ _ _ _ _)
    · have := (translateAddress_static st q.segNum q.pageDir q.pageNum q.offset q.accessType
        q.rnd).1
      show 0 ≤ (st.translateAddress q.segNum q.pageDir q.pageNum q.offset q.accessType
        q.rnd).2.physMem.time
      omega
    · intro ref p pg hp hpres
      rcases hstep ref p pg hp hpres with hold | ⟨_, _, hlat, _⟩
      · exact hlo ref p pg hold hpres
      · omega
    · intro ref1 p1 pg1 ref2 p2 pg2 hp1 hp2 hpres1 hpres2 heq
      rcases hstep ref1 p1 pg1 hp1 hpres1 with hold1 | ⟨hr1, hq1, hlat1, _⟩
      · rcases hstep ref2 p2 pg2 hp2 hpres2 with hold2 | ⟨_, _, hlat2, _⟩
        · exact hdist ref1 p1 pg1 ref2 p2 pg2 hold1 hold2 hpres1 hpres2 heq
        · have := hinv.times ref1 p1 pg1 hold1 hpres1
          omega
      · rcases hstep ref2 p2 pg2 hp2 hpres2 with hold2 | ⟨hr2, hq2, _, _⟩
        · have := hinv.times ref2 p2 pg2 hold2 hpres2
          omega
        · rw [hr1, hq1, hr2, hq2]

/-- In every state reached from a freshly configured manager, the access times of the present
pages are at least 1, at most the clock, and pairwise distinct. -/
theorem reachable_times (st0 : SegmentTable) (hc : Configured st0) (reqs : List Request) :
    (∀ ref p pg, (st0.run reqs).pageAt ref p = some pg → pg.present = true →
      1 ≤ pg.last_access_time ∧ pg.last_access_time ≤ (st0.run reqs).physMem.time) ∧
    (∀ ref1 p1 pg1 ref2 p2 pg2, (st0.run reqs).pageAt ref1 p1 = some pg1 →
      (st0.run reqs).pageAt ref2 p2 = some pg2 → pg1.present = true → pg2.present = true →
      pg1.last_access_time = pg2.last_access_time → (ref1, p1) = (ref2, p2)) := by
  have hinv := reachable_inv st0 hc reqs
  have habs : ∀ ref p pg, st0.pageAt ref p = some pg → pg.present = false := by
    obtain ⟨numFrames, pSize, algo, cs, _, hcfg⟩ := hc
    exact (configure_fresh numFrames pSize algo cs st0 hcfg).2.2.2.2
  have ht0 : st0.physMem.time = 0 := by
    obtain ⟨numFrames, pSize, algo, cs, _, hcfg⟩ := hc
    rw [(configure_fresh numFrames pSize algo cs st0 hcfg).2.1]
  obtain ⟨h1, h2⟩ := run_times reqs st0 (configured_inv st0 hc) (by omega)
    (fun ref p pg hp hpres => by rw [habs ref p pg hp] at hpres; cases hpres)
    (fun ref1 p1 pg1 _ _ _ hp1 _ hpres1 _ _ => by rw [habs ref1 p1 pg1 hp1] at hpres1; cases hpres1)
  exact ⟨fun ref p pg hp hpres => ⟨h1 ref p pg hp hpres, hinv.times ref p pg hp hpres⟩, h2⟩

end SegmentTable

/-- C32: in every state reached from a freshly configured manager, the `last_access_time` of each
present page lies in `[1, time]` and no two present pages have the same value; hence the entries
of `frame_to_page_map` have pairwise distinct access times, and when the LRU loop selects a
victim, every other entry was accessed strictly later (the tie-break on the frame id decides
nothing). -/
theorem C32_access_times_distinct (st0 : SegmentTable) (hc : Configured st0)
    (reqs : List Request) :
    (∀ ref p pg, (st0.run reqs).pageAt ref p = some pg → pg.present = true →
      1 ≤ pg.last_access_time ∧ pg.last_access_time ≤ (st0.run reqs).physMem.time) ∧
    (∀ ref1 p1 pg1 ref2 p2 pg2, (st0.run reqs).pageAt ref1 p1 = some pg1 →
      (st0.run reqs).pageAt ref2 p2 = some pg2 → pg1.present = true → pg2.present = true →
      pg1.last_access_time = pg2.last_access_time → (ref1, p1) = (ref2, p2)) ∧
    (∀ e ∈ (st0.run reqs).frame_to_page_map, ∀ e' ∈ (st0.run reqs).frame_to_page_map,
      (st0.run reqs).lastAccess e.2 = (st0.run reqs).lastAccess e'.2 → e = e') ∧
    (((st0.run reqs).lruScan).2 ≠ -1 →
      ∃ e ∈ (st0.run reqs).frame_to_page_map,
        (st0.run reqs).lruScan = ((st0.run reqs).lastAccess e.2, e.1) ∧
        ∀ e' ∈ (st0.run reqs).frame_to_page_map, e' ≠ e →
          (st0.run reqs).lastAccess e.2 < (st0.run reqs).lastAccess e'.2) := by
  have hinv := SegmentTable.reachable_inv st0 hc reqs
  have hsorted := SegmentTable.reachable_sorted st0 hc reqs
  obtain ⟨hrange, hdist⟩ := SegmentTable.reachable_times st0 hc reqs
  have hentry : ∀ e ∈ (st0.run reqs).frame_to_page_map,
      ∃ pg, (st0.run reqs).pageAt e.2.1 e.2.2 = some pg ∧ pg.present = true ∧
        pg.frame_number = e.1 ∧ (st0.run reqs).lastAccess e.2 = pg.last_access_time := by
    intro e he
    obtain ⟨k, ref, q⟩ := e
    have hfind := StdMap.find_of_mem_sorted _ hsorted k (ref, q) he
    obtain ⟨pg, hpg, hpres, hfr⟩ := hinv.bwd k ref q hfind
    obtain ⟨tb, htb, _, _, _, hpage⟩ := SegmentTable.pageAt_some _ ref q pg hpg
    exact ⟨pg, hpg, hpres, hfr, by simp only [SegmentTable.lastAccess, htb, hpage]⟩
  have hdistinct : ∀ e ∈ (st0.run reqs).frame_to_page_map,
      ∀ e' ∈ (st0.run reqs).frame_to_page_map,
      (st0.run reqs).lastAccess e.2 = (st0.run reqs).lastAccess e'.2 → e = e' := by
    intro e he e' he' heq
    obtain ⟨pg, hpg, hpres, hfr, hla⟩ := hentry e he
    obtain ⟨pg', hpg', hpres', hfr', hla'⟩ := hentry e' he'
    rw [hla, hla'] at heq
    have hid := hdist _ _ pg _ _ pg' hpg hpg' hpres hpres' heq
    simp only [Prod.mk.injEq] at hid
    have hsame : pg = pg' := by
      rw [hid.1, hid.2, hpg'] at hpg
      exact (Option.some.inj hpg).symm
    apply Prod.ext
    · rw [← hfr, ← hfr', hsame]
    · exact Prod.ext hid.1 hid.2
  refine ⟨hrange, hdist, hdistinct, ?_⟩
  intro hv
  rcases SegmentTable.lruScan_min (st0.run reqs) (st0.run reqs).frame_to_page_map (INT_MAX, -1)
    hsorted with ⟨heq, _⟩ | ⟨e, he, heq, _, hmin, _⟩
  · exfalso
    apply hv
    unfold SegmentTable.lruScan
    rw [heq]
  · refine ⟨e, he, heq, ?_⟩
    intro e' he' hne
    have hle := hmin e' he'
    have hneq : (st0.run reqs).lastAccess e.2 ≠ (st0.run reqs).lastAccess e'.2 :=
      fun h => hne (hdistinct e he e' he' h).symm
    omega

/-- C32 at the example manager after its four requests: pages 2 and 1 are present with access
times 3 and 4, within `[1, 4]`. -/
theorem C32_access_times_distinct_witness :
    (1 : Int) ≤ 3 ∧ (3 : Int) ≤ (exampleManager.run exampleRequests).physMem.time :=
  (C32_access_times_distinct exampleManager
    ⟨2, 16, ReplacementAlgorithm.FIFO, exampleSegments, by decide, rfl⟩ exampleRequests).1
    (0, 0) 2
    { frame_number := 0, present := true, protection := Protection.READ_WRITE,
      last_access_time := 3 } (by decide) rfl

/-! ## Counting present pages and occupied frames -/

namespace StdMap

variable {β : Type}

theorem adjust_keys (m : StdMap β) (k : Int) (f : β → β) :
    (adjust m k f).map Prod.fst = m.map Prod.fst := by
  induction m with
  | nil => rfl
  | cons e rest ih =>
    obtain ⟨k1, v1⟩ := e
    unfold adjust
    by_cases h : k1 = k
    · rw [if_pos h]
      rfl
    · rw [if_neg h]
      simp only [List.map_cons, ih]

theorem mem_adjust (m : StdMap β) (k : Int) (f : β → β) (e : Int × β) (he : e ∈ adjust m k f) :
    e ∈ m ∨ ∃ v, (k, v) ∈ m ∧ e = (k, f v) := by
  induction m with
  | nil => simp [adjust] at he
  | cons x rest ih =>
    obtain ⟨k1, v1⟩ := x
    unfold adjust at he
    by_cases h : k1 = k
    · rw [if_pos h] at he
      rcases List.mem_cons.mp he with heq | hmem
      · exact Or.inr ⟨v1, by rw [← h]; exact List.mem_cons_self _ _, by rw [heq, h]⟩
      · exact Or.inl (List.mem_cons_of_mem _ hmem)
    · rw [if_neg h] at he
      rcases List.mem_cons.mp he with heq | hmem
      · exact Or.inl (by rw [heq]; exact List.mem_cons_self _ _)
      · rcases ih hmem with h1 | ⟨v, hv, h2⟩
        · exact Or.inl (List.mem_cons_of_mem _ h1)
        · exact Or.inr ⟨v, List.mem_cons_of_mem _ hv, h2⟩

end StdMap

namespace SegmentTable

/-- Counting the entries that satisfy `p` is counting the positions that hold such an entry. -/
theorem countP_eq_filter_range {α : Type} (p : α → Bool) (d : α) (l : List α) :
    l.countP p = ((List.range l.length).filter (fun i => p (l.getD i d))).length := by
  induction l using List.reverseRecOn with
  | nil => rfl
  | append_singleton l a ih =>
    rw [List.countP_append, List.length_append, List.length_singleton, List.range_succ,
      List.filter_append, List.length_append, ih]
    have h1 : (List.range l.length).filter (fun i => p ((l ++ [a]).getD i d)) =
        (List.range l.length).filter (fun i => p (l.getD i d)) := by
      apply List.filter_congr
      intro x hx
      rw [List.getD_append l [a] d x (List.mem_range.mp hx)]
    have h2 : (l ++ [a]).getD l.length d = a := by
      rw [List.getD_append_right l [a] d l.length (le_refl _)]
      simp
    rw [h1]
    congr 1
    simp only [List.filter_cons, List.filter_nil, h2, List.countP_cons, List.countP_nil]
    cases p a <;> rfl

theorem presentCount_table (t : PageTable) : t.presentCount = t.presentPages.length := by
  unfold PageTable.presentCount PageTable.presentPages
  exact countP_eq_filter_range (fun pg => pg.present) default t.pages

theorem presentCount_eq (st : SegmentTable) : st.presentCount = st.presentPages.length := by
  unfold presentCount presentPages PageDirectory.presentCount
  rw [List.length_flatMap]
  congr 1
  apply List.map_congr_left
  intro e _
  simp only [Function.comp_apply]
  rw [List.length_flatMap]
  congr 1
  apply List.map_congr_left
  intro e2 _
  show e2.2.presentCount =
    (e2.2.presentPages.map (fun (k : Nat) => ((e.1, e2.1), (k : Int)))).length
  rw [List.length_map]
  exact presentCount_table e2.2

end SegmentTable

namespace SegmentTable

/-- A property of states kept by the clock tick, by a write through a table pointer, by
`allocateFrame` and by `setFrame` is kept by `translateAddress`. -/
theorem translateAddress_preserves (Q : SegmentTable → Prop)
    (htick : ∀ s : SegmentTable, Q s → Q s.tick)
    (hupd : ∀ (s : SegmentTable) (ref : TableRef) (f : PageTable → PageTable),
      Q s → Q (s.updTable ref f))
    (halloc : ∀ s : SegmentTable, Q s → Q (s.allocateFrame).2)
    (hbind : ∀ (s : SegmentTable) (ref : TableRef) (q f : Int) (prot : Protection) (time : Int),
      Q s → Q (s.setFrameAt ref q f prot time))
    (st : SegmentTable) (segNum pageDir pageNum offset : Int) (accessType : Protection)
    (rnd : Nat) (h : Q st) :
    Q (st.translateAddress segNum pageDir pageNum offset accessType rnd).2 := by
  rcases translateAddress_checked_or_rejected st segNum pageDir pageNum offset accessType rnd
    with ⟨dir, pt, c⟩ | ⟨hrej, _, _⟩
  swap
  · rw [hrej]
    exact htick st h
  by_cases hpp : accessType = Protection.READ_WRITE ∧
      (pt.page pageNum).protection = Protection.READ_ONLY
  · rw [translateAddress_page_protection st _ _ _ _ _ rnd dir pt c hpp.1 hpp.2]
    exact htick st h
  by_cases hpres : (pt.page pageNum).present = true
  · rw [translateAddress_present st _ _ _ _ _ rnd dir pt c hpp hpres]
    split
    · exact hupd _ _ _ (htick st h)
    · split
      · split
        · exact halloc _ (hupd _ _ _ (htick st h))
        · exact hbind _ _ _ _ _ _ (halloc _ (hupd _ _ _ (htick st h)))
      · exact hupd _ _ _ (htick st h)
  · have habs : (pt.page pageNum).present = false := by
      cases hb : (pt.page pageNum).present
      · rfl
      · exact absurd hb hpres
    rw [translateAddress_miss st _ _ _ _ _ rnd dir pt c hpp habs]
    split
    · exact halloc _ (htick st h)
    · exact hbind _ _ _ _ _ _ (halloc _ (htick st h))

theorem run_preserves (Q : SegmentTable → Prop)
    (htick : ∀ s : SegmentTable, Q s → Q s.tick)
    (hupd : ∀ (s : SegmentTable) (ref : TableRef) (f : PageTable → PageTable),
      Q s → Q (s.updTable ref f))
    (halloc : ∀ s : SegmentTable, Q s → Q (s.allocateFrame).2)
    (hbind : ∀ (s : SegmentTable) (ref : TableRef) (q f : Int) (prot : Protection) (time : Int),
      Q s → Q (s.setFrameAt ref q f prot time))
    (reqs : List Request) (st : SegmentTable) (h : Q st) : Q (st.run reqs) := by
  induction reqs generalizing st with
  | nil => exact h
  | cons q qs ih =>
    exact ih _ (translateAddress_preserves Q htick hupd halloc hbind st _ _ _ _ _ _ h)

theorem evict_directories (st : SegmentTable) (v : Int) :
    (st.evict v).segment_directories = st.segment_directories ∨
    ∃ ref f, (st.evict v).segment_directories = (st.updTable ref f).segment_directories := by
  unfold evict
  by_cases hv : v = -1
  · left
    simp [hv]
  · simp only [ne_eq, hv, not_false_eq_true, if_true]
    cases hfind : StdMap.find st.frame_to_page_map v with
    | none =>
      left
      simp only
      split <;> rfl
    | some val =>
      obtain ⟨r, q⟩ := val
      right
      refine ⟨r, fun pt => pt.invalidatePage q, ?_⟩
      simp only
      split <;> rfl

theorem evict_free (st : SegmentTable) (v : Int) :
    (st.evict v).physMem.free_frames = st.physMem.free_frames ∨
    (st.evict v).physMem.free_frames = st.physMem.free_frames.set v.toNat false := by
  unfold evict
  by_cases hv : v = -1
  · left
    simp [hv]
  · simp only [ne_eq, hv, not_false_eq_true, if_true]
    cases hfind : StdMap.find st.frame_to_page_map v with
    | none =>
      simp only
      split
      · exact Or.inr rfl
      · exact Or.inl rfl
    | some val =>
      obtain ⟨r, q⟩ := val
      simp only
      split
      · exact Or.inr rfl
      · exact Or.inl rfl

theorem allocateFrame_directories (st : SegmentTable) :
    (st.allocateFrame).2.segment_directories = st.segment_directories ∨
    ∃ ref f, (st.allocateFrame).2.segment_directories =
      (st.updTable ref f).segment_directories := by
  unfold allocateFrame
  cases hff : st.physMem.firstFree with
  | some i => exact Or.inl rfl
  | none =>
    simp only
    by_cases ha : st.physMem.algo = ReplacementAlgorithm.FIFO
    · rw [if_pos ha]
      cases hq : st.physMem.fifo_queue with
      | nil => exact Or.inl rfl
      | cons v rest =>
        exact evict_directories
          { st with physMem := { st.physMem with fifo_queue := rest ++ [v] } } v
    · rw [if_neg ha]
      exact evict_directories st _

theorem allocateFrame_free (st : SegmentTable) :
    (st.allocateFrame).2.physMem.free_frames = st.physMem.free_frames ∨
    ∃ n : Nat, (st.allocateFrame).2.physMem.free_frames = st.physMem.free_frames.set n false := by
  unfold allocateFrame
  cases hff : st.physMem.firstFree with
  | some i => exact Or.inr ⟨i, rfl⟩
  | none =>
    simp only
    by_cases ha : st.physMem.algo = ReplacementAlgorithm.FIFO
    · rw [if_pos ha]
      cases hq : st.physMem.fifo_queue with
      | nil => exact Or.inl rfl
      | cons v rest =>
        rcases evict_free { st with physMem := { st.physMem with fifo_queue := rest ++ [v] } } v
          with h | h
        · exact Or.inl h
        · exact Or.inr ⟨v.toNat, h⟩
    · rw [if_neg ha]
      rcases evict_free st (st.lruScan).2 with h | h
      · exact Or.inl h
      · exact Or.inr ⟨_, h⟩

theorem setFrameAt_directories (st : SegmentTable) (ref : TableRef) (q f : Int)
    (prot : Protection) (time : Int) :
    (st.setFrameAt ref q f prot time).segment_directories = st.segment_directories ∨
    ∃ g, (st.setFrameAt ref q f prot time).segment_directories =
      (st.updTable ref g).segment_directories := by
  unfold setFrameAt
  cases ht : st.table? ref with
  | none => exact Or.inl rfl
  | some t => exact Or.inr ⟨_, rfl⟩

/-- No `translateAddress` call marks an occupied frame free. -/
theorem translateAddress_occupied (st : SegmentTable) (segNum pageDir pageNum offset : Int)
    (accessType : Protection) (rnd : Nat) (i : Nat)
    (h : st.physMem.free_frames.getD i false = false) :
    (st.translateAddress segNum pageDir pageNum offset accessType rnd).2.physMem.free_frames.getD
      i false = false := by
  refine translateAddress_preserves (fun s => s.physMem.free_frames.getD i false = false)
    (fun s hs => hs) (fun s ref f hs => hs) ?_ ?_ st _ _ _ _ _ _ h
  · intro s hs
    rcases allocateFrame_free s with heq | ⟨n, heq⟩
    · show (s.allocateFrame).2.physMem.free_frames.getD i false = false
      rw [heq]
      exact hs
    · show (s.allocateFrame).2.physMem.free_frames.getD i false = false
      rw [heq, getD_set_false]
      split
      · rfl
      · exact hs
  · intro s ref q f prot time hs
    show (s.setFrameAt ref q f prot time).physMem.free_frames.getD i false = false
    rw [(setFrameAt_static s ref q f prot time).1]
    exact hs

theorem run_occupied (reqs : List Request) (st : SegmentTable) (i : Nat)
    (h : st.physMem.free_frames.getD i false = false) :
    (st.run reqs).physMem.free_frames.getD i false = false := by
  induction reqs generalizing st with
  | nil => exact h
  | cons q qs ih => exact ih _ (translateAddress_occupied st _ _ _ _ _ _ i h)

end SegmentTable

namespace StdMap

variable {β : Type}

theorem mem_insert (m : StdMap β) (k : Int) (v : β) (e : Int × β) (he : e ∈ insert k v m) :
    e = (k, v) ∨ e ∈ m := by
  induction m with
  | nil =>
    simp only [insert, List.mem_singleton] at he
    exact Or.inl he
  | cons x rest ih =>
    obtain ⟨k1, v1⟩ := x
    unfold insert at he
    by_cases hlt : k < k1
    · rw [if_pos hlt] at he
      rcases List.mem_cons.mp he with h | h
      · exact Or.inl h
      · exact Or.inr h
    · rw [if_neg hlt] at he
      by_cases heq : k = k1
      · rw [if_pos heq] at he
        rcases List.mem_cons.mp he with h | h
        · exact Or.inl h
        · exact Or.inr (List.mem_cons_of_mem _ h)
      · rw [if_neg heq] at he
        rcases List.mem_cons.mp he with h | h
        · exact Or.inr (by rw [h]; exact List.mem_cons_self _ _)
        · rcases ih h with h1 | h1
          · exact Or.inl h1
          · exact Or.inr (List.mem_cons_of_mem _ h1)

end StdMap

namespace SegmentTable

theorem dirSorted_congr (s s' : SegmentTable)
    (h : s'.segment_directories = s.segment_directories) (hs : DirSorted s) : DirSorted s' :=
  ⟨by rw [h]; exact hs.dirs, by rw [h]; exact hs.tables⟩

theorem dirSorted_updTable (s : SegmentTable) (ref : TableRef) (f : PageTable → PageTable)
    (hs : DirSorted s) : DirSorted (s.updTable ref f) := by
  refine ⟨?_, ?_⟩
  · show ((StdMap.adjust s.segment_directories ref.1 _).map Prod.fst).Pairwise _
    rw [StdMap.adjust_keys]
    exact hs.dirs
  · intro e he
    rcases StdMap.mem_adjust s.segment_directories ref.1 _ e he with h | ⟨v, hv, heq⟩
    · exact hs.tables e h
    · rw [heq]
      show ((StdMap.adjust v.page_tables ref.2 f).map Prod.fst).Pairwise _
      rw [StdMap.adjust_keys]
      exact hs.tables _ hv

theorem run_dirSorted (reqs : List Request) (st : SegmentTable) (h : DirSorted st) :
    DirSorted (st.run reqs) := by
  refine run_preserves DirSorted (fun s hs => dirSorted_congr s s.tick rfl hs)
    dirSorted_updTable ?_ ?_ reqs st h
  · intro s hs
    rcases allocateFrame_directories s with heq | ⟨ref, f, heq⟩
    · exact dirSorted_congr s _ heq hs
    · exact dirSorted_congr _ _ heq (dirSorted_updTable s ref f hs)
  · intro s ref q f prot time hs
    rcases setFrameAt_directories s ref q f prot time with heq | ⟨g, heq⟩
    · exact dirSorted_congr s _ heq hs
    · exact dirSorted_congr _ _ heq (dirSorted_updTable s ref g hs)

theorem addTables_sorted (tableSize pageSize : Int) (rnd : Nat → Nat → Nat) (idxs : List Nat)
    (d d' : PageDirectory)
    (hd : (d.page_tables.map Prod.fst).Pairwise (fun a b => a < b))
    (h : addTables d tableSize pageSize rnd idxs = some d') :
    (d'.page_tables.map Prod.fst).Pairwise (fun a b => a < b) := by
  induction idxs generalizing d with
  | nil =>
    simp only [addTables, Option.some.injEq] at h
    subst h
    exact hd
  | cons i0 rest ih =>
    simp only [addTables, PageDirectory.addPageTable] at h
    cases hnew : PageTable.new tableSize pageSize (rnd i0) with
    | none => simp [hnew] at h
    | some t0 =>
      simp only [hnew, Option.map_some', Option.some_bind] at h
      exact ih _ (StdMap.sorted_insert _ _ _ hd) h

theorem addSegment_dirSorted (st st' : SegmentTable) (id base limit : Int) (prot : Protection)
    (dirSize tableSize : Int) (rnd : Nat → Nat → Nat) (hs : DirSorted st)
    (h : st.addSegment id base limit prot dirSize tableSize rnd = some st') : DirSorted st' := by
  unfold addSegment at h
  cases hadd : addTables (PageDirectory.new tableSize) tableSize st.page_size rnd
      (List.range dirSize.toNat) with
  | none => simp [hadd] at h
  | some d0 =>
    simp only [hadd, Option.map_some', Option.some.injEq] at h
    subst h
    refine ⟨StdMap.sorted_insert _ _ _ hs.dirs, ?_⟩
    intro e he
    rcases StdMap.mem_insert _ _ _ e he with heq | hmem
    · rw [heq]
      exact addTables_sorted _ _ _ _ _ _ (by simp [PageDirectory.new]) hadd
    · exact hs.tables e hmem

theorem addSegments_dirSorted (cs : List SegmentConfig) (st st' : SegmentTable)
    (hs : DirSorted st) (h : st.addSegments cs = some st') : DirSorted st' := by
  induction cs generalizing st with
  | nil =>
    simp only [addSegments, Option.some.injEq] at h
    subst h
    exact hs
  | cons c rest ih =>
    simp only [addSegments] at h
    cases h1 : st.addSegment c.id c.base c.limit c.prot c.dirSize c.tableSize c.rnd with
    | none => simp [h1] at h
    | some st1 =>
      simp only [h1, Option.some_bind] at h
      exact ih st1 (addSegment_dirSorted st st1 _ _ _ _ _ _ _ hs h1) h

/-- In every state reached from a freshly configured manager the keys of the directory map and
of every table map are strictly increasing. -/
theorem reachable_dirSorted (st0 : SegmentTable) (hc : Configured st0) (reqs : List Request) :
    DirSorted (st0.run reqs) := by
  apply run_dirSorted
  obtain ⟨numFrames, pSize, algo, cs, _, hcfg⟩ := hc
  unfold configure SegmentTable.new PhysicalMemory.new at hcfg
  by_cases hn : numFrames < 0
  · simp [hn] at hcfg
  · simp only [hn, if_false, Option.map_some', Option.some_bind] at hcfg
    exact addSegments_dirSorted cs _ st0 ⟨by simp, by simp⟩ hcfg

end SegmentTable

namespace SegmentTable

theorem mem_presentPages_table (t : PageTable) (k : Nat) :
    k ∈ t.presentPages ↔ k < t.pages.length ∧ (t.page (k : Int)).present = true := by
  unfold PageTable.presentPages PageTable.page
  rw [List.mem_filter, List.mem_range, Int.toNat_ofNat]

theorem mem_presentPages_inner (st : SegmentTable) (x : TableRef × Int) :
    x ∈ st.presentPages ↔
      ∃ e ∈ st.segment_directories, ∃ e2 ∈ e.2.page_tables, ∃ k ∈ e2.2.presentPages,
        x = ((e.1, e2.1), (k : Int)) := by
  unfold presentPages
  simp only [List.mem_flatMap, List.mem_map]
  constructor
  · rintro ⟨e, he, e2, he2, k, hk, heq⟩
    exact ⟨e, he, e2, he2, k, hk, heq.symm⟩
  · rintro ⟨e, he, e2, he2, k, hk, heq⟩
    exact ⟨e, he, e2, he2, k, hk, heq.symm⟩

/-- With unique keys, the enumeration `presentPages` lists exactly the pages that are present
when read through their table pointer. -/
theorem mem_presentPages (st : SegmentTable) (hs : DirSorted st) (ref : TableRef) (p : Int) :
    (ref, p) ∈ st.presentPages ↔ ∃ pg, st.pageAt ref p = some pg ∧ pg.present = true := by
  rw [mem_presentPages_inner]
  constructor
  · rintro ⟨e, he, e2, he2, k, hk, heq⟩
    obtain ⟨hlt, hpres⟩ := (mem_presentPages_table e2.2 k).mp hk
    have hd : StdMap.find st.segment_directories e.1 = some e.2 :=
      StdMap.find_of_mem_sorted _ hs.dirs e.1 e.2 he
    have ht : StdMap.find e.2.page_tables e2.1 = some e2.2 :=
      StdMap.find_of_mem_sorted _ (hs.tables e he) e2.1 e2.2 he2
    have htab : st.table? (e.1, e2.1) = some e2.2 := by
      simp only [table?, hd, Option.some_bind, ht]
    simp only [Prod.mk.injEq] at heq
    rw [heq.1, heq.2]
    exact ⟨_, pageAt_of_table st _ _ e2.2 htab (by omega) (by omega), hpres⟩
  · rintro ⟨pg, hpg, hpres⟩
    obtain ⟨t, ht, h0, h1, _, hpage⟩ := pageAt_some st ref p pg hpg
    unfold table? at ht
    cases hd : StdMap.find st.segment_directories ref.1 with
    | none => simp [hd] at ht
    | some d =>
      simp only [hd, Option.some_bind] at ht
      refine ⟨(ref.1, d), StdMap.mem_of_find _ _ _ hd, (ref.2, t), StdMap.mem_of_find _ _ _ ht,
        p.toNat, ?_, ?_⟩
      · rw [mem_presentPages_table]
        have hcast : ((p.toNat : Nat) : Int) = p := Int.toNat_of_nonneg h0
        rw [hcast, hpage]
        show p.toNat < t.pages.length ∧ pg.present = true
        exact ⟨by omega, hpres⟩
      · have hcast : ((p.toNat : Nat) : Int) = p := Int.toNat_of_nonneg h0
        rw [hcast]

theorem nodup_presentPages (st : SegmentTable) (hs : DirSorted st) : st.presentPages.Nodup := by
  unfold presentPages
  rw [List.nodup_flatMap]
  constructor
  · intro e he
    rw [List.nodup_flatMap]
    constructor
    · intro e2 _
      apply List.Nodup.map
      · intro a b hab
        simp only [Prod.mk.injEq, Nat.cast_inj, true_and] at hab
        exact hab
      · exact List.Nodup.filter _ (List.nodup_range _)
    · have hp := List.pairwise_map.mp (hs.tables e he)
      refine List.Pairwise.imp ?_ hp
      intro a b hab
      show List.Disjoint _ _
      intro x hxa hxb
      obtain ⟨ka, _, hka⟩ := List.mem_map.mp hxa
      obtain ⟨kb, _, hkb⟩ := List.mem_map.mp hxb
      rw [← hkb] at hka
      simp only [Prod.mk.injEq] at hka
      omega
  · have hp := List.pairwise_map.mp hs.dirs
    refine List.Pairwise.imp ?_ hp
    intro a b hab
    show List.Disjoint _ _
    intro x hxa hxb
    obtain ⟨a2, _, hxa2⟩ := List.mem_flatMap.mp hxa
    obtain ⟨b2, _, hxb2⟩ := List.mem_flatMap.mp hxb
    obtain ⟨ka, _, hka⟩ := List.mem_map.mp hxa2
    obtain ⟨kb, _, hkb⟩ := List.mem_map.mp hxb2
    rw [← hkb] at hka
    simp only [Prod.mk.injEq] at hka
    omega

end SegmentTable

namespace SegmentTable

/-- In a consistent state a frame has an index entry exactly when it is a frame of the pool that
is marked occupied. -/
theorem index_iff_occupied (st : SegmentTable) (hinv : Inv (-1) st) (f : Int) :
    (∃ v, StdMap.find st.frame_to_page_map f = some v) ↔
      (0 ≤ f ∧ f < st.physMem.num_frames ∧
        st.physMem.free_frames.getD f.toNat false = false) := by
  constructor
  · rintro ⟨v, hv⟩
    exact hinv.keys f v hv
  · rintro ⟨h0, h1, h2⟩
    have hcast : ((f.toNat : Nat) : Int) = f := Int.toNat_of_nonneg h0
    have := hinv.occ f.toNat (by omega) (by omega) h2
    rw [hcast] at this
    cases hfind : StdMap.find st.frame_to_page_map f with
    | none => exact absurd hfind this
    | some v => exact ⟨v, rfl⟩

/-- In a consistent state with unique keys, the present pages are as many as the index entries
and as many as the occupied frames. -/
theorem presentCount_eq_occupied (st : SegmentTable) (hinv : Inv (-1) st) (hd : DirSorted st)
    (hs : (st.frame_to_page_map.map Prod.fst).Pairwise (fun a b => a < b)) :
    st.presentCount = st.frame_to_page_map.length ∧
    st.presentCount = st.physMem.free_frames.count false := by
  have hkeys : (st.frame_to_page_map.map Prod.fst).Nodup :=
    List.Pairwise.imp (fun hab => ne_of_lt hab) hs
  have hentry : ∀ e ∈ st.frame_to_page_map,
      ∃ pg, st.pageAt e.2.1 e.2.2 = some pg ∧ pg.present = true ∧ pg.frame_number = e.1 := by
    intro e he
    obtain ⟨k, ref, q⟩ := e
    exact hinv.bwd k ref q (StdMap.find_of_mem_sorted _ hs k (ref, q) he)
  have hvals : (st.frame_to_page_map.map Prod.snd).Nodup := by
    apply List.Nodup.map_on _ (List.Nodup.of_map Prod.fst hkeys)
    intro x hx y hy hxy
    obtain ⟨pg, hpg, _, hfr⟩ := hentry x hx
    obtain ⟨pg', hpg', _, hfr'⟩ := hentry y hy
    rw [hxy, hpg'] at hpg
    apply Prod.ext _ hxy
    rw [← hfr, ← hfr', Option.some.inj hpg]
  have hperm1 : st.presentPages.Perm (st.frame_to_page_map.map Prod.snd) := by
    rw [List.perm_ext_iff_of_nodup (nodup_presentPages st hd) hvals]
    rintro ⟨ref, p⟩
    rw [mem_presentPages st hd]
    constructor
    · rintro ⟨pg, hpg, hpres⟩
      exact List.mem_map.mpr ⟨(pg.frame_number, (ref, p)),
        StdMap.mem_of_find _ _ _ (hinv.fwd ref p pg hpg hpres), rfl⟩
    · intro hmem
      obtain ⟨e, he, heq⟩ := List.mem_map.mp hmem
      obtain ⟨pg, hpg, hpres, _⟩ := hentry e he
      rw [heq] at hpg
      exact ⟨pg, hpg, hpres⟩
  have hlen1 : st.presentCount = st.frame_to_page_map.length := by
    rw [presentCount_eq, hperm1.length_eq, List.length_map]
  refine ⟨hlen1, ?_⟩
  have hocc : ((List.range st.physMem.free_frames.length).filter
      (fun i => st.physMem.free_frames.getD i false == false)).length =
      st.physMem.free_frames.count false :=
    (countP_eq_filter_range (fun b => b == false) false st.physMem.free_frames).symm
  have hnd3 : (((List.range st.physMem.free_frames.length).filter
      (fun i => st.physMem.free_frames.getD i false == false)).map
        (fun (i : Nat) => (i : Int))).Nodup :=
    List.Nodup.map (fun a b hab => Nat.cast_injective hab)
      (List.Nodup.filter _ (List.nodup_range _))
  have hperm2 : (st.frame_to_page_map.map Prod.fst).Perm
      (((List.range st.physMem.free_frames.length).filter
        (fun i => st.physMem.free_frames.getD i false == false)).map
          (fun (i : Nat) => (i : Int))) := by
    rw [List.perm_ext_iff_of_nodup hkeys hnd3]
    intro f
    have hlen := hinv.len
    constructor
    · intro hmem
      obtain ⟨e, he, heq⟩ := List.mem_map.mp hmem
      have hfind := StdMap.find_of_mem_sorted _ hs e.1 e.2 he
      rw [heq] at hfind
      obtain ⟨h0, h1, h2⟩ := (index_iff_occupied st hinv f).mp ⟨_, hfind⟩
      refine List.mem_map.mpr ⟨f.toNat, ?_, Int.toNat_of_nonneg h0⟩
      rw [List.mem_filter, List.mem_range, hlen, h2]
      exact ⟨by omega, rfl⟩
    · intro hmem
      obtain ⟨i, hi, heq⟩ := List.mem_map.mp hmem
      rw [List.mem_filter, List.mem_range, hlen] at hi
      obtain ⟨hlt, hfree⟩ := hi
      have hfree' : st.physMem.free_frames.getD i false = false := by
        simpa using hfree
      have hocc' : 0 ≤ f ∧ f < st.physMem.num_frames ∧
          st.physMem.free_frames.getD f.toNat false = false := by
        rw [← heq]
        refine ⟨by omega, by omega, ?_⟩
        rw [Int.toNat_ofNat]
        exact hfree'
      obtain ⟨v, hv⟩ := (index_iff_occupied st hinv f).mpr hocc'
      exact List.mem_map.mpr ⟨(f, v), StdMap.mem_of_find _ _ _ hv, rfl⟩
  rw [hlen1, ← hocc, ← List.length_map st.frame_to_page_map Prod.fst, hperm2.length_eq,
    List.length_map]

end SegmentTable

namespace SegmentTable

theorem run_append (reqs more : List Request) (st : SegmentTable) :
    st.run (reqs ++ more) = (st.run reqs).run more := by
  induction reqs generalizing st with
  | nil => rfl
  | cons q qs ih => exact ih (st.serve q).2

end SegmentTable

/-- C34: no `translateAddress` call marks an occupied frame free, in any state, so along every
sequence of calls a frame that is occupied stays occupied; and in every state reached from a
freshly configured manager the number of present pages over all tables equals the number of
index entries and the number of frames marked occupied, and is at most `num_frames`. -/
theorem C34_occupied_frames (st0 : SegmentTable) (hc : Configured st0)
    (reqs more : List Request) :
    (∀ (st : SegmentTable) (segNum pageDir pageNum offset : Int) (accessType : Protection)
      (rnd : Nat) (i : Nat), st.physMem.free_frames.getD i false = false →
      (st.translateAddress segNum pageDir pageNum offset accessType
        rnd).2.physMem.free_frames.getD i false = false) ∧
    (∀ i : Nat, (st0.run reqs).physMem.free_frames.getD i false = false →
      (st0.run (reqs ++ more)).physMem.free_frames.getD i false = false) ∧
    (st0.run reqs).presentCount = (st0.run reqs).physMem.free_frames.count false ∧
    (st0.run reqs).presentCount = (st0.run reqs).frame_to_page_map.length ∧
    (st0.run reqs).physMem.free_frames.length = (st0.run reqs).physMem.num_frames.toNat ∧
    ((st0.run reqs).presentCount : Int) ≤ (st0.run reqs).physMem.num_frames := by
  have hinv := SegmentTable.reachable_inv st0 hc reqs
  obtain ⟨hidx, hocc⟩ := SegmentTable.presentCount_eq_occupied (st0.run reqs) hinv
    (SegmentTable.reachable_dirSorted st0 hc reqs) (SegmentTable.reachable_sorted st0 hc reqs)
  refine ⟨fun st segNum pageDir pageNum offset accessType rnd i h =>
      SegmentTable.translateAddress_occupied st segNum pageDir pageNum offset accessType rnd i h,
    ?_, hocc, hidx, hinv.len, ?_⟩
  · intro i hi
    rw [SegmentTable.run_append]
    exact SegmentTable.run_occupied more _ i hi
  · have hle := List.count_le_length false (st0.run reqs).physMem.free_frames
    rw [hinv.len] at hle
    have hn : 0 ≤ (st0.run reqs).physMem.num_frames := by
      obtain ⟨numFrames, pSize, algo, cs, _, hcfg⟩ := hc
      obtain ⟨h0, hpm, _⟩ := SegmentTable.configure_fresh numFrames pSize algo cs st0 hcfg
      rw [(SegmentTable.run_static st0 reqs).2.1, hpm]
      exact h0
    rw [hocc]
    omega

/-- C34 at the example manager: after its four requests two pages are present and two frames
are occupied; frame 0 is occupied then and still is after the reads of pages 0 to 3. -/
theorem C34_occupied_frames_witness :
    (exampleManager.run (exampleRequests ++ exampleReads)).physMem.free_frames.getD 0 false =
      false ∧
    (exampleManager.run exampleRequests).presentCount = 2 :=
  ⟨(C34_occupied_frames exampleManager
      ⟨2, 16, ReplacementAlgorithm.FIFO, exampleSegments, by decide, rfl⟩ exampleRequests
      exampleReads).2.1 0 (by decide),
   by decide⟩

/-! ## Independence of the protection bits for read requests -/

namespace StdMap

variable {β γ : Type}

theorem find_mapVals (g : β → γ) (m : StdMap β) (k : Int) :
    find (mapVals g m) k = (find m k).map g := by
  induction m with
  | nil => rfl
  | cons e rest ih =>
    obtain ⟨k1, v1⟩ := e
    show find ((k1, g v1) :: mapVals g rest) k = _
    unfold find
    by_cases h : k1 = k
    · rw [if_pos h, if_pos h]
      rfl
    · rw [if_neg h, if_neg h]
      exact ih

theorem insert_mapVals (g : β → γ) (m : StdMap β) (k : Int) (v : β) :
    insert k (g v) (mapVals g m) = mapVals g (insert k v m) := by
  induction m with
  | nil => rfl
  | cons e rest ih =>
    obtain ⟨k1, v1⟩ := e
    show insert k (g v) ((k1, g v1) :: mapVals g rest) = _
    unfold insert
    by_cases hlt : k < k1
    · rw [if_pos hlt, if_pos hlt]
      rfl
    · rw [if_neg hlt, if_neg hlt]
      by_cases heq : k = k1
      · rw [if_pos heq, if_pos heq]
        rfl
      · rw [if_neg heq, if_neg heq]
        show (k1, g v1) :: insert k (g v) (mapVals g rest) = (k1, g v1) :: mapVals g (insert k v rest)
        rw [ih]

theorem adjust_mapVals (g : β → β) (m : StdMap β) (k : Int) (f f' : β → β)
    (hf : ∀ v, g (f v) = f' (g v)) :
    adjust (mapVals g m) k f' = mapVals g (adjust m k f) := by
  induction m with
  | nil => rfl
  | cons e rest ih =>
    obtain ⟨k1, v1⟩ := e
    show adjust ((k1, g v1) :: mapVals g rest) k f' = _
    unfold adjust
    by_cases h : k1 = k
    · rw [if_pos h, if_pos h]
      show (k1, f' (g v1)) :: mapVals g rest = (k1, g (f v1)) :: mapVals g rest
      rw [hf]
    · rw [if_neg h, if_neg h]
      show (k1, g v1) :: adjust (mapVals g rest) k f' = (k1, g v1) :: mapVals g (adjust rest k f)
      rw [ih]

end StdMap

namespace SegmentTable

theorem unprot_page (t : PageTable) (p : Int) : t.unprot.page p = (t.page p).unprot := by
  unfold PageTable.page PageTable.unprot
  exact List.getD_map t.pages default Page.unprot

theorem unprot_setPage (t : PageTable) (p : Int) (pg : Page) :
    (t.setPage p pg).unprot = t.unprot.setPage p pg.unprot := by
  unfold PageTable.setPage PageTable.unprot
  simp only [List.map_set]

theorem unprot_length (t : PageTable) : t.unprot.pages.length = t.pages.length := by
  unfold PageTable.unprot
  simp

theorem unprot_table_idem (t : PageTable) : t.unprot.unprot = t.unprot := by
  unfold PageTable.unprot
  simp only [List.map_map]
  congr 1

/-- A read is answered by a table as by the table with the protections disregarded. -/
theorem unprot_getFrameNumber (t : PageTable) (p time : Int) (fault : Fault) :
    t.unprot.getFrameNumber p time Protection.READ_ONLY fault =
      ((t.getFrameNumber p time Protection.READ_ONLY fault).1,
       (t.getFrameNumber p time Protection.READ_ONLY fault).2.1,
       (t.getFrameNumber p time Protection.READ_ONLY fault).2.2.unprot) := by
  have hro : ∀ x : Protection, ¬ (Protection.READ_ONLY = Protection.READ_WRITE ∧
      x = Protection.READ_ONLY) := fun x h => Protection.noConfusion h.1
  unfold PageTable.getFrameNumber
  rw [unprot_length, unprot_page]
  by_cases hr : p < 0 ∨ p ≥ (t.pages.length : Int)
  · rw [if_pos hr, if_pos hr]
  · rw [if_neg hr, if_neg hr, if_neg (hro _), if_neg (hro _)]
    by_cases hp : (t.page p).present = false
    · have hp' : (t.page p).unprot.present = false := hp
      rw [if_pos hp, if_pos hp']
    · have hp' : ¬ (t.page p).unprot.present = false := hp
      rw [if_neg hp, if_neg hp']
      simp only [unprot_setPage]
      rfl

theorem unprot_invalidatePage (t : PageTable) (p : Int) :
    (t.invalidatePage p).unprot = t.unprot.invalidatePage p := by
  unfold PageTable.invalidatePage
  rw [unprot_length, unprot_page]
  by_cases hr : p ≥ 0 ∧ p < (t.pages.length : Int)
  · rw [if_pos hr, if_pos hr, unprot_setPage]
    rfl
  · rw [if_neg hr, if_neg hr]

theorem unprot_setFrame (t : PageTable) (self : TableRef) (p f : Int) (prot : Protection)
    (time : Int) (m : StdMap (TableRef × Int)) :
    (t.setFrame self p f prot time m).1.unprot =
      (t.unprot.setFrame self p f Protection.READ_WRITE time m).1 ∧
    (t.unprot.setFrame self p f Protection.READ_WRITE time m).2 =
      (t.setFrame self p f prot time m).2 := by
  unfold PageTable.setFrame
  rw [unprot_length, unprot_page]
  by_cases hr : p ≥ 0 ∧ p < (t.pages.length : Int)
  · rw [if_pos hr, if_pos hr]
    exact ⟨unprot_setPage _ _ _, rfl⟩
  · rw [if_neg hr, if_neg hr]
    exact ⟨rfl, rfl⟩

end SegmentTable

namespace SegmentTable

theorem unprot_table? (st : SegmentTable) (ref : TableRef) :
    st.unprot.table? ref = (st.table? ref).map PageTable.unprot := by
  unfold table?
  show (StdMap.find (StdMap.mapVals PageDirectory.unprot st.segment_directories) ref.1).bind _ = _
  rw [StdMap.find_mapVals]
  cases hd : StdMap.find st.segment_directories ref.1 with
  | none => rfl
  | some d =>
    show StdMap.find (StdMap.mapVals PageTable.unprot d.page_tables) ref.2 = _
    rw [StdMap.find_mapVals]
    rfl

theorem unprot_updTable (st : SegmentTable) (ref : TableRef) (f f' : PageTable → PageTable)
    (hf : ∀ t, (f t).unprot = f' t.unprot) :
    (st.updTable ref f).unprot = st.unprot.updTable ref f' := by
  have hinner : ∀ d : PageDirectory,
      PageDirectory.unprot { d with page_tables := StdMap.adjust d.page_tables ref.2 f } =
      { d.unprot with page_tables := StdMap.adjust d.unprot.page_tables ref.2 f' } := by
    intro d
    show ({ page_tables := StdMap.mapVals PageTable.unprot (StdMap.adjust d.page_tables ref.2 f),
            page_table_size := d.page_table_size } : PageDirectory) =
      { page_tables := StdMap.adjust (StdMap.mapVals PageTable.unprot d.page_tables) ref.2 f',
        page_table_size := d.page_table_size }
    rw [StdMap.adjust_mapVals PageTable.unprot d.page_tables ref.2 f f' hf]
  have houter := StdMap.adjust_mapVals PageDirectory.unprot st.segment_directories ref.1
    (fun d => { d with page_tables := StdMap.adjust d.page_tables ref.2 f })
    (fun d => { d with page_tables := StdMap.adjust d.page_tables ref.2 f' }) hinner
  show ({ segments := st.segments.map Segment.unprot
          segment_directories := StdMap.mapVals PageDirectory.unprot
            (StdMap.adjust st.segment_directories ref.1
              (fun d => { d with page_tables := StdMap.adjust d.page_tables ref.2 f }))
          physMem := st.physMem
          page_size := st.page_size
          frame_to_page_map := st.frame_to_page_map } : SegmentTable) =
    { segments := st.segments.map Segment.unprot
      segment_directories := StdMap.adjust
        (StdMap.mapVals PageDirectory.unprot st.segment_directories) ref.1
        (fun d => { d with page_tables := StdMap.adjust d.page_tables ref.2 f' })
      physMem := st.physMem
      page_size := st.page_size
      frame_to_page_map := st.frame_to_page_map }
  rw [houter]

theorem unprot_lastAccess (st : SegmentTable) (info : TableRef × Int) :
    st.unprot.lastAccess info = st.lastAccess info := by
  unfold lastAccess
  rw [unprot_table?]
  cases st.table? info.1 with
  | none => rfl
  | some t =>
    show (t.unprot.page info.2).last_access_time = (t.page info.2).last_access_time
    rw [unprot_page]
    rfl

theorem unprot_lruScan (st : SegmentTable) : st.unprot.lruScan = st.lruScan := by
  unfold lruScan
  show List.foldl _ (INT_MAX, -1) st.frame_to_page_map = _
  congr 1
  funext acc e
  rw [unprot_lastAccess]

theorem unprot_evict (st : SegmentTable) (v : Int) : (st.evict v).unprot = st.unprot.evict v := by
  unfold evict
  by_cases hv : v = -1
  · simp [hv]
  · have hne : v ≠ -1 := hv
    rw [if_pos hne, if_pos hne]
    show _ = (if v ≥ 0 ∧ v < _ then _ else _)
    cases hfind : StdMap.find st.frame_to_page_map v with
    | none =>
      have hfind' : StdMap.find st.unprot.frame_to_page_map v = none := hfind
      simp only [hfind']
      by_cases hr : v ≥ 0 ∧ v < st.physMem.num_frames
      · have hr' : v ≥ 0 ∧ v < st.unprot.physMem.num_frames := hr
        rw [if_pos hr, if_pos hr']
        rfl
      · have hr' : ¬ (v ≥ 0 ∧ v < st.unprot.physMem.num_frames) := hr
        rw [if_neg hr, if_neg hr']
    | some val =>
      obtain ⟨r, q⟩ := val
      have hfind' : StdMap.find st.unprot.frame_to_page_map v = some (r, q) := hfind
      simp only [hfind']
      have hupd := unprot_updTable st r (fun pt => pt.invalidatePage q)
        (fun pt => pt.invalidatePage q) (fun t => unprot_invalidatePage t q)
      by_cases hr : v ≥ 0 ∧ v < st.physMem.num_frames
      · have hr1 : v ≥ 0 ∧ v < (st.updTable r (fun pt => pt.invalidatePage q)).physMem.num_frames :=
          hr
        have hr2 : v ≥ 0 ∧
            v < (st.unprot.updTable r (fun pt => pt.invalidatePage q)).physMem.num_frames := hr
        rw [if_pos hr1, if_pos hr2, ← hupd]
        rfl
      · have hr1 : ¬ (v ≥ 0 ∧
            v < (st.updTable r (fun pt => pt.invalidatePage q)).physMem.num_frames) := hr
        have hr2 : ¬ (v ≥ 0 ∧
            v < (st.unprot.updTable r (fun pt => pt.invalidatePage q)).physMem.num_frames) := hr
        rw [if_neg hr1, if_neg hr2, ← hupd]
        rfl

end SegmentTable

namespace SegmentTable

theorem unprot_allocateFrame (st : SegmentTable) :
    st.unprot.allocateFrame = ((st.allocateFrame).1, (st.allocateFrame).2.unprot) := by
  unfold allocateFrame
  show (match st.physMem.firstFree with
    | some i => _
    | none => _) = _
  cases hff : st.physMem.firstFree with
  | some i => rfl
  | none =>
    simp only
    by_cases ha : st.physMem.algo = ReplacementAlgorithm.FIFO
    · have ha' : st.unprot.physMem.algo = ReplacementAlgorithm.FIFO := ha
      rw [if_pos ha, if_pos ha']
      show (match st.physMem.fifo_queue with
        | [] => _
        | victimFrame :: rest => _) = _
      cases hq : st.physMem.fifo_queue with
      | nil => rfl
      | cons v rest =>
        simp only
        rw [unprot_evict]
        rfl
    · have ha' : ¬ st.unprot.physMem.algo = ReplacementAlgorithm.FIFO := ha
      rw [if_neg ha, if_neg ha']
      simp only
      rw [unprot_lruScan, unprot_evict]

theorem unprot_setFrameAt (st : SegmentTable) (ref : TableRef) (p f : Int) (prot : Protection)
    (time : Int) :
    (st.setFrameAt ref p f prot time).unprot =
      st.unprot.setFrameAt ref p f Protection.READ_WRITE time := by
  unfold setFrameAt
  rw [unprot_table?]
  cases ht : st.table? ref with
  | none => rfl
  | some t =>
    simp only [Option.map_some']
    obtain ⟨h1, h2⟩ := unprot_setFrame t ref p f prot time st.frame_to_page_map
    have hupd := unprot_updTable st ref
      (fun _ => (t.setFrame ref p f prot time st.frame_to_page_map).1)
      (fun _ => (t.unprot.setFrame ref p f Protection.READ_WRITE time
        st.frame_to_page_map).1) (fun _ => h1)
    show ({ (st.updTable ref
        (fun _ => (t.setFrame ref p f prot time st.frame_to_page_map).1)).unprot with
        frame_to_page_map := (t.setFrame ref p f prot time st.frame_to_page_map).2 } :
        SegmentTable) =
      { st.unprot.updTable ref (fun _ => (t.unprot.setFrame ref p f Protection.READ_WRITE time
          st.frame_to_page_map).1) with
        frame_to_page_map := (t.unprot.setFrame ref p f Protection.READ_WRITE time
          st.frame_to_page_map).2 }
    rw [hupd, h2]

theorem unprot_idem (st : SegmentTable) : st.unprot.unprot = st.unprot := by
  have hseg : ∀ s : Segment, s.unprot.unprot = s.unprot := fun _ => rfl
  have hdir : ∀ d : PageDirectory, d.unprot.unprot = d.unprot := by
    intro d
    unfold PageDirectory.unprot StdMap.mapVals
    simp only [List.map_map]
    congr 1
    apply List.map_congr_left
    intro e _
    simp only [Function.comp_apply, unprot_table_idem]
  have h1 : (st.segments.map Segment.unprot).map Segment.unprot =
      st.segments.map Segment.unprot := by
    rw [List.map_map]
    apply List.map_congr_left
    intro s _
    exact hseg s
  have h2 : StdMap.mapVals PageDirectory.unprot
      (StdMap.mapVals PageDirectory.unprot st.segment_directories) =
      StdMap.mapVals PageDirectory.unprot st.segment_directories := by
    unfold StdMap.mapVals
    rw [List.map_map]
    apply List.map_congr_left
    intro e _
    simp only [Function.comp_apply, hdir]
  show ({ segments := (st.segments.map Segment.unprot).map Segment.unprot
          segment_directories := StdMap.mapVals PageDirectory.unprot
            (StdMap.mapVals PageDirectory.unprot st.segment_directories)
          physMem := st.physMem
          page_size := st.page_size
          frame_to_page_map := st.frame_to_page_map } : SegmentTable) = st.unprot
  rw [h1, h2]
  rfl

end SegmentTable

namespace SegmentTable

/-- A read request is served by a manager as by the manager with the protections disregarded:
same result, and the same state afterwards up to protections. -/
theorem unprot_translateAddress (st : SegmentTable) (segNum pageDir pageNum offset : Int)
    (rnd : Nat) :
    (st.unprot.translateAddress segNum pageDir pageNum offset Protection.READ_ONLY rnd).1 =
      (st.translateAddress segNum pageDir pageNum offset Protection.READ_ONLY rnd).1 ∧
    (st.unprot.translateAddress segNum pageDir pageNum offset Protection.READ_ONLY rnd).2.unprot =
      (st.translateAddress segNum pageDir pageNum offset Protection.READ_ONLY rnd).2.unprot := by
  have hU : st.unprot.tick = st.tick.unprot := rfl
  have hro : ∀ x : Protection, ¬ (Protection.READ_ONLY = Protection.READ_WRITE ∧
      x = Protection.READ_ONLY) := fun x h => Protection.noConfusion h.1
  have hlen : (st.unprot.tick.segments.length : Int) = (st.tick.segments.length : Int) := by
    show (((st.segments.map Segment.unprot).length : Nat) : Int) = _
    rw [List.length_map]
    rfl
  have hfind : StdMap.find st.unprot.tick.segment_directories segNum =
      (StdMap.find st.tick.segment_directories segNum).map PageDirectory.unprot :=
    StdMap.find_mapVals PageDirectory.unprot st.segment_directories segNum
  by_cases hseg : segNum < 0 ∨ segNum ≥ (st.tick.segments.length : Int)
  · have hseg' : segNum < 0 ∨ segNum ≥ (st.unprot.tick.segments.length : Int) := by
      rw [hlen]
      exact hseg
    unfold translateAddress
    simp only [hseg, hseg', if_true]
    exact ⟨trivial, unprot_idem st.tick⟩
  have hseg' : ¬ (segNum < 0 ∨ segNum ≥ (st.unprot.tick.segments.length : Int)) := by
    rw [hlen]
    exact hseg
  cases hdir : StdMap.find st.tick.segment_directories segNum with
  | none =>
    have hdir' : StdMap.find st.unprot.tick.segment_directories segNum = none := by
      rw [hfind, hdir]
      rfl
    unfold translateAddress
    simp only [hseg, hseg', hro, hdir, hdir', if_false]
    exact ⟨trivial, unprot_idem st.tick⟩
  | some dir =>
    have hdir' : StdMap.find st.unprot.tick.segment_directories segNum = some dir.unprot := by
      rw [hfind, hdir]
      rfl
    have htabU : dir.unprot.getPageTable pageDir =
        (dir.getPageTable pageDir).map PageTable.unprot :=
      StdMap.find_mapVals PageTable.unprot dir.page_tables pageDir
    cases htab : dir.getPageTable pageDir with
    | none =>
      have htab' : dir.unprot.getPageTable pageDir = none := by
        rw [htabU, htab]
        rfl
      unfold translateAddress
      simp only [hseg, hseg', hro, hdir, hdir', htab, htab', if_false]
      exact ⟨trivial, unprot_idem st.tick⟩
    | some pt =>
      have htab' : dir.unprot.getPageTable pageDir = some pt.unprot := by
        rw [htabU, htab]
        rfl
      have hplen : (pt.unprot.pages.length : Int) = (pt.pages.length : Int) := by
        rw [unprot_length]
      have hps : pt.unprot.page_size = pt.page_size := rfl
      by_cases hpg : pageNum < 0 ∨ pageNum ≥ (pt.pages.length : Int)
      · have hpg' : pageNum < 0 ∨ pageNum ≥ (pt.unprot.pages.length : Int) := by
          rw [hplen]
          exact hpg
        unfold translateAddress
        simp only [hseg, hseg', hro, hdir, hdir', htab, htab', hpg, hpg', if_false, if_true]
        exact ⟨trivial, unprot_idem st.tick⟩
      have hpg' : ¬ (pageNum < 0 ∨ pageNum ≥ (pt.unprot.pages.length : Int)) := by
        rw [hplen]
        exact hpg
      by_cases hoff : offset < 0 ∨ offset ≥ pt.page_size
      · have hoff' : offset < 0 ∨ offset ≥ pt.unprot.page_size := hoff
        unfold translateAddress
        simp only [hseg, hseg', hro, hdir, hdir', htab, htab', hpg, hpg', hoff, hoff',
          if_false, if_true]
        exact ⟨trivial, unprot_idem st.tick⟩
      have hoff' : ¬ (offset < 0 ∨ offset ≥ pt.unprot.page_size) := hoff
      have hr := unprot_getFrameNumber pt pageNum st.tick.physMem.time Fault.OK
      have hr' : pt.unprot.getFrameNumber pageNum st.unprot.tick.physMem.time
          Protection.READ_ONLY Fault.OK =
          ((pt.getFrameNumber pageNum st.tick.physMem.time Protection.READ_ONLY Fault.OK).1,
           (pt.getFrameNumber pageNum st.tick.physMem.time Protection.READ_ONLY Fault.OK).2.1,
           (pt.getFrameNumber pageNum st.tick.physMem.time Protection.READ_ONLY
             Fault.OK).2.2.unprot) := hr
      have hst1 : st.unprot.tick.updTable (segNum, pageDir) (fun _ =>
            (pt.getFrameNumber pageNum st.tick.physMem.time Protection.READ_ONLY
              Fault.OK).2.2.unprot) =
          (st.tick.updTable (segNum, pageDir) (fun _ =>
            (pt.getFrameNumber pageNum st.tick.physMem.time Protection.READ_ONLY
              Fault.OK).2.2)).unprot :=
        (unprot_updTable st.tick (segNum, pageDir)
          (fun _ => (pt.getFrameNumber pageNum st.tick.physMem.time Protection.READ_ONLY
            Fault.OK).2.2)
          (fun _ => (pt.getFrameNumber pageNum st.tick.physMem.time Protection.READ_ONLY
            Fault.OK).2.2.unprot) (fun _ => rfl)).symm
      unfold translateAddress
      simp only [hseg, hseg', hro, hdir, hdir', htab, htab', hpg, hpg', hoff, hoff', hr',
        if_false, hst1, unprot_allocateFrame]
      split
      · exact ⟨rfl, unprot_idem _⟩
      · split
        · split
          · exact ⟨rfl, unprot_idem _⟩
          · refine ⟨rfl, ?_⟩
            simp only
            rw [unprot_setFrameAt, unprot_idem, unprot_setFrameAt]
            rfl
        · exact ⟨rfl, unprot_idem _⟩

end SegmentTable

namespace SegmentTable

/-- Managers that differ in protections only serve a sequence of read requests with the same
results and end in states that differ in protections only. -/
theorem unprot_run (reqs : List Request)
    (hread : ∀ q ∈ reqs, q.accessType = Protection.READ_ONLY) (st1 st2 : SegmentTable)
    (h : st1.unprot = st2.unprot) :
    st1.results reqs = st2.results reqs ∧ (st1.run reqs).unprot = (st2.run reqs).unprot := by
  induction reqs generalizing st1 st2 with
  | nil => exact ⟨rfl, h⟩
  | cons q qs ih =>
    have hq : q.accessType = Protection.READ_ONLY := hread q (List.mem_cons_self _ _)
    have h1 := unprot_translateAddress st1 q.segNum q.pageDir q.pageNum q.offset q.rnd
    have h2 := unprot_translateAddress st2 q.segNum q.pageDir q.pageNum q.offset q.rnd
    rw [h] at h1
    have hres : (st1.serve q).1 = (st2.serve q).1 := by
      unfold serve
      rw [hq, ← h1.1, h2.1]
    have hst : (st1.serve q).2.unprot = (st2.serve q).2.unprot := by
      unfold serve
      rw [hq, ← h1.2, h2.2]
    obtain ⟨ihres, ihrun⟩ := ih (fun q' hq' => hread q' (List.mem_cons_of_mem _ hq'))
      (st1.serve q).2 (st2.serve q).2 hst
    refine ⟨?_, ihrun⟩
    show (st1.serve q).1 :: results (st1.serve q).2 qs = (st2.serve q).1 :: results (st2.serve q).2 qs
    rw [hres, ihres]

theorem unprot_new_table (n pSize : Int) (r1 r2 : Nat → Nat) :
    (PageTable.new n pSize r1).map PageTable.unprot =
      (PageTable.new n pSize r2).map PageTable.unprot := by
  unfold PageTable.new
  by_cases hn : n < 0
  · rw [if_pos hn, if_pos hn]
  · rw [if_neg hn, if_neg hn]
    simp only [Option.map_some', PageTable.unprot, List.map_map, Option.some.injEq]
    congr 1

theorem unprot_addPageTable (d1 d2 : PageDirectory) (i n pSize : Int) (r1 r2 : Nat → Nat)
    (h : d1.unprot = d2.unprot) :
    (d1.addPageTable i n pSize r1).map PageDirectory.unprot =
      (d2.addPageTable i n pSize r2).map PageDirectory.unprot := by
  have hnew := unprot_new_table n pSize r1 r2
  have hpt : StdMap.mapVals PageTable.unprot d1.page_tables =
      StdMap.mapVals PageTable.unprot d2.page_tables := congrArg (fun d => d.page_tables) h
  have hsz : d1.page_table_size = d2.page_table_size :=
    congrArg (fun d => d.page_table_size) h
  unfold PageDirectory.addPageTable
  cases h1 : PageTable.new n pSize r1 with
  | none =>
    rw [h1] at hnew
    cases h2 : PageTable.new n pSize r2 with
    | none => rfl
    | some t2 => rw [h2] at hnew; cases hnew
  | some t1 =>
    rw [h1] at hnew
    cases h2 : PageTable.new n pSize r2 with
    | none => rw [h2] at hnew; cases hnew
    | some t2 =>
      rw [h2] at hnew
      simp only [Option.map_some', Option.some.injEq] at hnew ⊢
      show ({ page_tables := StdMap.mapVals PageTable.unprot (StdMap.insert i t1 d1.page_tables)
              page_table_size := d1.page_table_size } : PageDirectory) =
        { page_tables := StdMap.mapVals PageTable.unprot (StdMap.insert i t2 d2.page_tables)
          page_table_size := d2.page_table_size }
      rw [← StdMap.insert_mapVals, ← StdMap.insert_mapVals, hpt, hsz, hnew]

theorem unprot_addTables (tableSize pageSize : Int) (rnd1 rnd2 : Nat → Nat → Nat)
    (idxs : List Nat) (d1 d2 : PageDirectory) (h : d1.unprot = d2.unprot) :
    (addTables d1 tableSize pageSize rnd1 idxs).map PageDirectory.unprot =
      (addTables d2 tableSize pageSize rnd2 idxs).map PageDirectory.unprot := by
  induction idxs generalizing d1 d2 with
  | nil => simp only [addTables, Option.map_some', h]
  | cons i0 rest ih =>
    have hstep := unprot_addPageTable d1 d2 (i0 : Int) tableSize pageSize (rnd1 i0) (rnd2 i0) h
    simp only [addTables]
    cases h1 : d1.addPageTable (i0 : Int) tableSize pageSize (rnd1 i0) with
    | none =>
      rw [h1] at hstep
      cases h2 : d2.addPageTable (i0 : Int) tableSize pageSize (rnd2 i0) with
      | none => rfl
      | some e2 => rw [h2] at hstep; cases hstep
    | some e1 =>
      rw [h1] at hstep
      cases h2 : d2.addPageTable (i0 : Int) tableSize pageSize (rnd2 i0) with
      | none => rw [h2] at hstep; cases hstep
      | some e2 =>
        rw [h2] at hstep
        simp only [Option.map_some', Option.some.injEq] at hstep
        simp only [Option.some_bind]
        exact ih e1 e2 hstep

theorem unprot_addSegment (st1 st2 : SegmentTable) (id base limit : Int)
    (prot1 prot2 : Protection) (dirSize tableSize : Int) (rnd1 rnd2 : Nat → Nat → Nat)
    (h : st1.unprot = st2.unprot) :
    (st1.addSegment id base limit prot1 dirSize tableSize rnd1).map SegmentTable.unprot =
      (st2.addSegment id base limit prot2 dirSize tableSize rnd2).map SegmentTable.unprot := by
  have hps : st1.page_size = st2.page_size := congrArg (fun s => s.page_size) h
  have hsegs : st1.segments.map Segment.unprot = st2.segments.map Segment.unprot :=
    congrArg (fun s => s.segments) h
  have hdirs : StdMap.mapVals PageDirectory.unprot st1.segment_directories =
      StdMap.mapVals PageDirectory.unprot st2.segment_directories :=
    congrArg (fun s => s.segment_directories) h
  have hpm : st1.physMem = st2.physMem := congrArg (fun s => s.physMem) h
  have hmap : st1.frame_to_page_map = st2.frame_to_page_map :=
    congrArg (fun s => s.frame_to_page_map) h
  have htabs := unprot_addTables tableSize st1.page_size rnd1 rnd2 (List.range dirSize.toNat)
    (PageDirectory.new tableSize) (PageDirectory.new tableSize) rfl
  unfold addSegment
  rw [← hps]
  cases h1 : addTables (PageDirectory.new tableSize) tableSize st1.page_size rnd1
      (List.range dirSize.toNat) with
  | none =>
    rw [h1] at htabs
    cases h2 : addTables (PageDirectory.new tableSize) tableSize st1.page_size rnd2
        (List.range dirSize.toNat) with
    | none => rfl
    | some e2 => rw [h2] at htabs; cases htabs
  | some e1 =>
    rw [h1] at htabs
    cases h2 : addTables (PageDirectory.new tableSize) tableSize st1.page_size rnd2
        (List.range dirSize.toNat) with
    | none => rw [h2] at htabs; cases htabs
    | some e2 =>
      rw [h2] at htabs
      simp only [Option.map_some', Option.some.injEq] at htabs ⊢
      show ({ segments := (st1.segments ++ [(⟨base, limit, prot1⟩ : Segment)]).map Segment.unprot
              segment_directories := StdMap.mapVals PageDirectory.unprot
                (StdMap.insert id e1 st1.segment_directories)
              physMem := st1.physMem
              page_size := st1.page_size
              frame_to_page_map := st1.frame_to_page_map } : SegmentTable) =
        { segments := (st2.segments ++ [(⟨base, limit, prot2⟩ : Segment)]).map Segment.unprot
          segment_directories := StdMap.mapVals PageDirectory.unprot
            (StdMap.insert id e2 st2.segment_directories)
          physMem := st2.physMem
          page_size := st1.page_size
          frame_to_page_map := st2.frame_to_page_map }
      rw [List.map_append, List.map_append, ← StdMap.insert_mapVals, ← StdMap.insert_mapVals,
        hsegs, hdirs, hpm, hmap, htabs]
      rfl

theorem unprot_addSegments (cs1 cs2 : List SegmentConfig)
    (hshape : List.Forall₂ SegmentConfig.SameShape cs1 cs2) (st1 st2 : SegmentTable)
    (h : st1.unprot = st2.unprot) :
    (st1.addSegments cs1).map SegmentTable.unprot =
      (st2.addSegments cs2).map SegmentTable.unprot := by
  induction hshape generalizing st1 st2 with
  | nil => simp only [addSegments, Option.map_some', h]
  | @cons c1 c2 r1 r2 hc _ ih =>
    obtain ⟨hid, hbase, hlimit, hds, hts⟩ := hc
    have hstep := unprot_addSegment st1 st2 c1.id c1.base c1.limit c1.prot c2.prot c1.dirSize
      c1.tableSize c1.rnd c2.rnd h
    rw [hid, hbase, hlimit, hds, hts] at hstep
    simp only [addSegments]
    rw [hid, hbase, hlimit, hds, hts]
    cases h1 : st1.addSegment c2.id c2.base c2.limit c1.prot c2.dirSize c2.tableSize c1.rnd with
    | none =>
      rw [h1] at hstep
      cases h2 : st2.addSegment c2.id c2.base c2.limit c2.prot c2.dirSize c2.tableSize c2.rnd with
      | none => rfl
      | some e2 => rw [h2] at hstep; cases hstep
    | some e1 =>
      rw [h1] at hstep
      cases h2 : st2.addSegment c2.id c2.base c2.limit c2.prot c2.dirSize c2.tableSize c2.rnd with
      | none => rw [h2] at hstep; cases hstep
      | some e2 =>
        rw [h2] at hstep
        simp only [Option.map_some', Option.some.injEq] at hstep
        simp only [Option.some_bind]
        exact ih e1 e2 hstep

/-- Configurations that differ in protections only give managers that differ in protections
only, and one is rejected exactly when the other is. -/
theorem unprot_configure (numFrames pSize : Int) (algo : ReplacementAlgorithm)
    (cs1 cs2 : List SegmentConfig) (hshape : List.Forall₂ SegmentConfig.SameShape cs1 cs2) :
    (configure numFrames pSize algo cs1).map SegmentTable.unprot =
      (configure numFrames pSize algo cs2).map SegmentTable.unprot := by
  unfold configure
  cases hnew : SegmentTable.new numFrames pSize algo with
  | none => rfl
  | some st =>
    simp only [Option.some_bind]
    exact unprot_addSegments cs1 cs2 hshape st st rfl

end SegmentTable

namespace SegmentTable

theorem unprot_pageAt (st : SegmentTable) (ref : TableRef) (p : Int) :
    st.unprot.pageAt ref p = (st.pageAt ref p).map Page.unprot := by
  unfold pageAt
  rw [unprot_table?]
  cases st.table? ref with
  | none => rfl
  | some t =>
    simp only [Option.map_some', Option.some_bind]
    by_cases hp : 0 ≤ p
    · rw [if_pos hp, if_pos hp]
      show (t.pages.map Page.unprot)[p.toNat]? = _
      rw [List.getElem?_map]
    · rw [if_neg hp, if_neg hp]
      rfl

end SegmentTable

/-- C35: for two configurations that differ at most in the segment protections and in the
`rand()` values that set the initial page protections, and every sequence of read requests:
one configuration is accepted exactly when the other is, the sequences of `translateAddress`
results (returned value, latency and fault string) are equal, and the resulting states are
equal up to protections: the same `frame_to_page_map`, the same frame pool, and for every page
the same frame number, presence and access time. -/
theorem C35_reads_ignore_protection (numFrames pSize : Int) (algo : ReplacementAlgorithm)
    (cs1 cs2 : List SegmentConfig) (hshape : List.Forall₂ SegmentConfig.SameShape cs1 cs2)
    (reqs : List Request) (hread : ∀ q ∈ reqs, q.accessType = Protection.READ_ONLY) :
    (SegmentTable.configure numFrames pSize algo cs1).isSome =
      (SegmentTable.configure numFrames pSize algo cs2).isSome ∧
    ∀ st1 st2 : SegmentTable,
      SegmentTable.configure numFrames pSize algo cs1 = some st1 →
      SegmentTable.configure numFrames pSize algo cs2 = some st2 →
      st1.results reqs = st2.results reqs ∧
      (st1.run reqs).frame_to_page_map = (st2.run reqs).frame_to_page_map ∧
      (st1.run reqs).physMem = (st2.run reqs).physMem ∧
      (st1.run reqs).unprot = (st2.run reqs).unprot ∧
      ∀ (ref : TableRef) (p : Int),
        ((st1.run reqs).pageAt ref p).map
            (fun pg => (pg.frame_number, pg.present, pg.last_access_time)) =
          ((st2.run reqs).pageAt ref p).map
            (fun pg => (pg.frame_number, pg.present, pg.last_access_time)) := by
  have hcfg := SegmentTable.unprot_configure numFrames pSize algo cs1 cs2 hshape
  constructor
  · have := congrArg Option.isSome hcfg
    simpa using this
  · intro st1 st2 h1 h2
    rw [h1, h2] at hcfg
    simp only [Option.map_some', Option.some.injEq] at hcfg
    obtain ⟨hres, hrun⟩ := SegmentTable.unprot_run reqs hread st1 st2 hcfg
    refine ⟨hres, congrArg (fun s => s.frame_to_page_map) hrun,
      congrArg (fun s => s.physMem) hrun, hrun, ?_⟩
    intro ref p
    have hp : ((st1.run reqs).pageAt ref p).map Page.unprot =
        ((st2.run reqs).pageAt ref p).map Page.unprot := by
      rw [← SegmentTable.unprot_pageAt, ← SegmentTable.unprot_pageAt, hrun]
    have := congrArg (Option.map
      (fun pg : Page => (pg.frame_number, pg.present, pg.last_access_time))) hp
    simpa only [Option.map_map] using this

/-- C35 at the example: with segment 0 read-write or read-only, reads of its pages 0 to 3
get the same results. -/
theorem C35_reads_ignore_protection_witness :
    exampleManager.results exampleReads = exampleManagerAlt.results exampleReads :=
  ((C35_reads_ignore_protection 2 16 ReplacementAlgorithm.FIFO exampleSegments
      exampleSegmentsAlt
      (List.Forall₂.cons ⟨rfl, rfl, rfl, rfl, rfl⟩
        (List.Forall₂.cons ⟨rfl, rfl, rfl, rfl, rfl⟩ List.Forall₂.nil))
      exampleReads (by decide)).2 exampleManager exampleManagerAlt rfl rfl).1

/-! ## Calls that end with a fault string -/

namespace SegmentTable

/-- In a consistent state, a call whose fault string is neither "OK" nor the page-fault notice
has advanced the clock and done nothing else, returns `-1`, and its fault string is that of one
of the six checks, of the page-level protection check or of the replacement failure. -/
theorem translateAddress_fault_kind (st : SegmentTable) (h : Inv (-1) st)
    (segNum pageDir pageNum offset : Int) (accessType : Protection) (rnd : Nat)
    (hok : (st.translateAddress segNum pageDir pageNum offset accessType rnd).1.fault ≠
      Fault.OK)
    (hpf : (st.translateAddress segNum pageDir pageNum offset accessType rnd).1.fault ≠
      Fault.PageNotInMemory) :
    (st.translateAddress segNum pageDir pageNum offset accessType rnd).2 = st.tick ∧
    (st.translateAddress segNum pageDir pageNum offset accessType rnd).1.ret = -1 ∧
    (st.translateAddress segNum pageDir pageNum offset accessType rnd).1.fault ∈
      [Fault.InvalidSegment, Fault.SegmentProtection, Fault.NoPageDirectory,
       Fault.InvalidDirectoryIndex, Fault.PageNumberExceedsLimit, Fault.OffsetExceedsPageSize,
       Fault.PageProtection, Fault.ReplacementFailed] := by
  have hchecked : ∀ dir pt, Checks st segNum pageDir pageNum offset accessType dir pt →
      (st.translateAddress segNum pageDir pageNum offset accessType rnd).2 = st.tick ∧
      (st.translateAddress segNum pageDir pageNum offset accessType rnd).1.ret = -1 ∧
      (st.translateAddress segNum pageDir pageNum offset accessType rnd).1.fault ∈
        [Fault.InvalidSegment, Fault.SegmentProtection, Fault.NoPageDirectory,
         Fault.InvalidDirectoryIndex, Fault.PageNumberExceedsLimit, Fault.OffsetExceedsPageSize,
         Fault.PageProtection, Fault.ReplacementFailed] := by
    intro dir pt c
    by_cases hpp : accessType = Protection.READ_WRITE ∧
        (pt.page pageNum).protection = Protection.READ_ONLY
    · rw [translateAddress_page_protection st _ _ _ _ _ rnd dir pt c hpp.1 hpp.2]
      refine ⟨rfl, rfl, ?_⟩
      simp
    by_cases hpres : (pt.page pageNum).present = true
    · exfalso
      have hf := present_frame_nonneg st h c hpres
      rw [translateAddress_hit st _ _ _ _ _ rnd dir pt c hpp hpres (by omega) (by omega)] at hok
      exact hok rfl
    · have habs : (pt.page pageNum).present = false := by
        cases hb : (pt.page pageNum).present
        · rfl
        · exact absurd hb hpres
      rw [translateAddress_miss st _ _ _ _ _ rnd dir pt c hpp habs] at hpf ⊢
      by_cases ha : (st.tick.allocateFrame).1 = -1
      · rw [if_pos ha]
        refine ⟨allocateFrame_fail_state st.tick (inv_tick (-1) st h).queue ha, rfl, ?_⟩
        simp
      · rw [if_neg ha] at hpf
        exact absurd rfl hpf
  rcases translateAddress_rejected_kind st segNum pageDir pageNum offset accessType rnd
    with ⟨dir, pt, c⟩ | hkind
  · exact hchecked dir pt c
  rcases translateAddress_checked_or_rejected st segNum pageDir pageNum offset accessType rnd
    with ⟨dir, pt, c⟩ | ⟨hst, hret, _⟩
  · exact hchecked dir pt c
  refine ⟨hst, hret, ?_⟩
  simp only [List.mem_cons, List.mem_singleton, List.not_mem_nil, or_false] at hkind ⊢
  rcases hkind with hk | hk | hk | hk | hk | hk
  · exact Or.inl hk
  · exact Or.inr (Or.inl hk)
  · exact Or.inr (Or.inr (Or.inl hk))
  · exact Or.inr (Or.inr (Or.inr (Or.inl hk)))
  · exact Or.inr (Or.inr (Or.inr (Or.inr (Or.inl hk))))
  · exact Or.inr (Or.inr (Or.inr (Or.inr (Or.inr (Or.inl hk)))))

end SegmentTable

/-- C22: in every state reached from a freshly configured manager, a `translateAddress` call that
ends with a fault (its fault string is neither "OK" nor the notice "Page Fault: Page not in
memory" of a page fault that was resolved) leaves the state equal to the one before it with the
clock advanced by one: every page entry, the free/occupied bitmap, the FIFO queue and
`frame_to_page_map` are unchanged. Such a call returns `-1`, and its fault string is that of an
invalid segment, a segment or page protection violation, a missing directory or table, a page or
offset out of range, or a replacement failure. No returned address enters the statement. -/
theorem C22_fault_changes_clock_only (st0 : SegmentTable) (hc : Configured st0)
    (reqs : List Request) (segNum pageDir pageNum offset : Int) (accessType : Protection)
    (rnd : Nat)
    (hok : ((st0.run reqs).translateAddress segNum pageDir pageNum offset accessType
      rnd).1.fault ≠ Fault.OK)
    (hpf : ((st0.run reqs).translateAddress segNum pageDir pageNum offset accessType
      rnd).1.fault ≠ Fault.PageNotInMemory) :
    ((st0.run reqs).translateAddress segNum pageDir pageNum offset accessType rnd).2 =
      (st0.run reqs).tick ∧
    ((st0.run reqs).translateAddress segNum pageDir pageNum offset accessType rnd).1.ret = -1 ∧
    ((st0.run reqs).translateAddress segNum pageDir pageNum offset accessType rnd).1.fault ∈
      [Fault.InvalidSegment, Fault.SegmentProtection, Fault.NoPageDirectory,
       Fault.InvalidDirectoryIndex, Fault.PageNumberExceedsLimit, Fault.OffsetExceedsPageSize,
       Fault.PageProtection, Fault.ReplacementFailed] ∧
    (∀ ref p,
      ((st0.run reqs).translateAddress segNum pageDir pageNum offset accessType rnd).2.pageAt
        ref p = (st0.run reqs).pageAt ref p) ∧
    ((st0.run reqs).translateAddress segNum pageDir pageNum offset accessType rnd
      ).2.segment_directories = (st0.run reqs).segment_directories ∧
    ((st0.run reqs).translateAddress segNum pageDir pageNum offset accessType rnd
      ).2.physMem.free_frames = (st0.run reqs).physMem.free_frames ∧
    ((st0.run reqs).translateAddress segNum pageDir pageNum offset accessType rnd
      ).2.physMem.fifo_queue = (st0.run reqs).physMem.fifo_queue ∧
    ((st0.run reqs).translateAddress segNum pageDir pageNum offset accessType rnd
      ).2.frame_to_page_map = (st0.run reqs).frame_to_page_map ∧
    ((st0.run reqs).translateAddress segNum pageDir pageNum offset accessType rnd
      ).2.physMem.time = (st0.run reqs).physMem.time + 1 := by
  obtain ⟨hst, hret, hkind⟩ := SegmentTable.translateAddress_fault_kind (st0.run reqs)
    (SegmentTable.reachable_inv st0 hc reqs) segNum pageDir pageNum offset accessType rnd hok hpf
  refine ⟨hst, hret, hkind, ?_, ?_, ?_, ?_, ?_, ?_⟩ <;> rw [hst] <;> first | rfl | (intros; rfl)

/-- C22 at the example manager after its four requests (both frames hold pages): a write to the
read-only segment 1 ends with the segment protection fault and only the clock moves. -/
theorem C22_fault_changes_clock_only_witness :
    ((exampleManager.run exampleRequests).translateAddress 1 0 0 3 Protection.READ_WRITE 7).2 =
      (exampleManager.run exampleRequests).tick ∧
    ((exampleManager.run exampleRequests).translateAddress 1 0 0 3 Protection.READ_WRITE
      7).1.ret = -1 :=
  ⟨(C22_fault_changes_clock_only exampleManager
      ⟨2, 16, ReplacementAlgorithm.FIFO, exampleSegments, by decide, rfl⟩ exampleRequests
      1 0 0 3 Protection.READ_WRITE 7 (by decide) (by decide)).1,
   (C22_fault_changes_clock_only exampleManager
      ⟨2, 16, ReplacementAlgorithm.FIFO, exampleSegments, by decide, rfl⟩ exampleRequests
      1 0 0 3 Protection.READ_WRITE 7 (by decide) (by decide)).2.1⟩

/-! ## Recovery from a miss -/

/-- C10: in every state reachable by `translateAddress` calls from a freshly configured manager
with at least one frame in the pool, under FIFO and under LRU, a call that passes the segment,
segment-protection, directory, page-range, offset and page-protection checks never ends with the
replacement-failure fault: its fault string is "OK" (hit) or the page-fault notice (resolved
miss), and after it the addressed page is present, bound to a frame of the pool that is marked
occupied and that `frame_to_page_map` maps to this page; on a hit this is the frame the page
held, on a miss the one `allocateFrame` returned. When `num_frames * page_size` does not exceed
`INT_MAX + 1`, so that `frame * page_size + offset` does not overflow an `int`, the returned
value is this address of the frame the page is bound to, lies in `[0, INT_MAX]` and is not `-1`.
Under LRU the clock is taken to be below `INT_MAX`, which is what makes the increment
`physMem->time++` of the call defined. -/
theorem C10_miss_recovered (st0 : SegmentTable) (h : Configured st0) (reqs : List Request)
    (segNum pageDir pageNum offset : Int) (accessType : Protection) (rnd : Nat)
    (dir : PageDirectory) (pt : PageTable)
    (hframes : 1 ≤ (st0.run reqs).physMem.num_frames)
    (hclock : (st0.run reqs).physMem.algo = ReplacementAlgorithm.LRU →
      (st0.run reqs).physMem.time < INT_MAX)
    (c : Checks (st0.run reqs) segNum pageDir pageNum offset accessType dir pt)
    (hpp : ¬ (accessType = Protection.READ_WRITE ∧
      (pt.page pageNum).protection = Protection.READ_ONLY)) :
    ((st0.run reqs).translateAddress segNum pageDir pageNum offset accessType rnd).1.fault ≠
      Fault.ReplacementFailed ∧
    (((st0.run reqs).translateAddress segNum pageDir pageNum offset accessType rnd).1.fault =
        Fault.OK ∨
      ((st0.run reqs).translateAddress segNum pageDir pageNum offset accessType rnd).1.fault =
        Fault.PageNotInMemory) ∧
    ∃ pg,
      ((st0.run reqs).translateAddress segNum pageDir pageNum offset accessType rnd).2.pageAt
        (segNum, pageDir) pageNum = some pg ∧
      pg.present = true ∧
      0 ≤ pg.frame_number ∧ pg.frame_number < (st0.run reqs).physMem.num_frames ∧
      StdMap.find ((st0.run reqs).translateAddress segNum pageDir pageNum offset accessType
        rnd).2.frame_to_page_map pg.frame_number = some ((segNum, pageDir), pageNum) ∧
      ((st0.run reqs).translateAddress segNum pageDir pageNum offset accessType
        rnd).2.physMem.free_frames.getD pg.frame_number.toNat false = false ∧
      ((pt.page pageNum).present = true → pg.frame_number = (pt.page pageNum).frame_number) ∧
      ((pt.page pageNum).present = false →
        pg.frame_number = ((st0.run reqs).tick.allocateFrame).1) ∧
      ((st0.run reqs).physMem.num_frames * pt.page_size ≤ INT_MAX + 1 →
        ((st0.run reqs).translateAddress segNum pageDir pageNum offset accessType rnd).1.ret =
          pg.frame_number * pt.page_size + offset ∧
        0 ≤ pg.frame_number * pt.page_size ∧ pg.frame_number * pt.page_size ≤ INT_MAX ∧
        0 ≤ ((st0.run reqs).translateAddress segNum pageDir pageNum offset accessType
          rnd).1.ret ∧
        ((st0.run reqs).translateAddress segNum pageDir pageNum offset accessType rnd).1.ret ≤
          INT_MAX ∧
        ((st0.run reqs).translateAddress segNum pageDir pageNum offset accessType rnd).1.ret ≠
          -1) := by
  have hinv := SegmentTable.reachable_inv st0 h reqs
  have ht := SegmentTable.inv_tick (-1) _ hinv
  have hpage := SegmentTable.checks_pageAt c
  have hinv1 := SegmentTable.translateAddress_inv (st0.run reqs) hinv segNum pageDir pageNum
    offset accessType rnd
  have hnum := (SegmentTable.translateAddress_static (st0.run reqs) segNum pageDir pageNum offset
    accessType rnd).2.1
  have ho0 := c.off_lo
  have ho1 := c.off_hi
  have hfit : ∀ fr : Int, 0 ≤ fr → fr < (st0.run reqs).physMem.num_frames →
      (st0.run reqs).physMem.num_frames * pt.page_size ≤ INT_MAX + 1 →
      0 ≤ fr * pt.page_size ∧ fr * pt.page_size ≤ INT_MAX ∧
      0 ≤ fr * pt.page_size + offset ∧ fr * pt.page_size + offset ≤ INT_MAX ∧
      fr * pt.page_size + offset ≠ -1 := by
    intro fr h0 h1 hb
    have hm0 : 0 ≤ fr * pt.page_size := Int.mul_nonneg h0 (by omega)
    have hm1 : (fr + 1) * pt.page_size ≤ (st0.run reqs).physMem.num_frames * pt.page_size :=
      Int.mul_le_mul_of_nonneg_right (by omega) (by omega)
    have hexp : (fr + 1) * pt.page_size = fr * pt.page_size + pt.page_size := by ring
    refine ⟨hm0, ?_, ?_, ?_, ?_⟩ <;> omega
  have hafter : ∀ pg,
      ((st0.run reqs).translateAddress segNum pageDir pageNum offset accessType rnd).2.pageAt
        (segNum, pageDir) pageNum = some pg → pg.present = true →
      0 ≤ pg.frame_number ∧ pg.frame_number < (st0.run reqs).physMem.num_frames ∧
      StdMap.find ((st0.run reqs).translateAddress segNum pageDir pageNum offset accessType
        rnd).2.frame_to_page_map pg.frame_number = some ((segNum, pageDir), pageNum) ∧
      ((st0.run reqs).translateAddress segNum pageDir pageNum offset accessType
        rnd).2.physMem.free_frames.getD pg.frame_number.toNat false = false := by
    intro pg hpg hpr
    have hfind := hinv1.fwd _ _ _ hpg hpr
    obtain ⟨k0, k1, k2⟩ := hinv1.keys _ _ hfind
    rw [hnum] at k1
    exact ⟨k0, k1, hfind, k2⟩
  by_cases hpres : (pt.page pageNum).present = true
  · have hf := SegmentTable.present_frame_nonneg _ hinv c hpres
    have htouch := SegmentTable.pageAt_updTable_set (st0.run reqs).tick (segNum, pageDir) pageNum
      (fun _ => pt.setPage pageNum
        { pt.page pageNum with last_access_time := (st0.run reqs).physMem.time + 1 })
      (fun _ => { pt.page pageNum with last_access_time := (st0.run reqs).physMem.time + 1 }) pt
      (pt.page pageNum) (SegmentTable.checks_table c) hpage rfl (segNum, pageDir) pageNum
    simp only [and_self, if_true] at htouch
    have heq := SegmentTable.translateAddress_hit _ _ _ _ _ _ rnd dir pt c hpp hpres
      (by omega) (by omega)
    have hpg : ((st0.run reqs).translateAddress segNum pageDir pageNum offset accessType
        rnd).2.pageAt (segNum, pageDir) pageNum =
        some { pt.page pageNum with last_access_time := (st0.run reqs).physMem.time + 1 } := by
      rw [heq]
      exact htouch
    obtain ⟨a0, a1, a2, a3⟩ := hafter _ hpg hpres
    refine ⟨by rw [heq]; exact fun hx => Fault.noConfusion hx, Or.inl (by rw [heq]), _, hpg,
      hpres, a0, a1, a2, a3, fun _ => rfl, fun hx => ?_, fun hb => ?_⟩
    · rw [hpres] at hx
      cases hx
    · obtain ⟨b0, b1, b2, b3, b4⟩ := hfit _ a0 a1 hb
      rw [heq]
      exact ⟨rfl, b0, b1, b2, b3, b4⟩
  · have habs : (pt.page pageNum).present = false := by
      cases hb : (pt.page pageNum).present
      · rfl
      · exact absurd hb hpres
    have hsucc := SegmentTable.allocateFrame_succeeds _ ht hframes (by
      intro hlru ref p pg hpg hpr
      have h1 := hinv.times ref p pg hpg hpr
      have h2 := hclock hlru
      omega)
    have heq := SegmentTable.translateAddress_miss _ _ _ _ _ _ rnd dir pt c hpp habs
    rw [if_neg hsucc] at heq
    have hex : ∃ pg1, ((st0.run reqs).tick.allocateFrame).2.pageAt (segNum, pageDir) pageNum =
        some pg1 := by
      rcases SegmentTable.allocateFrame_pageAt (st0.run reqs).tick (segNum, pageDir) pageNum
        with hsame | ⟨_, hinvd⟩
      · exact ⟨_, by rw [hsame]; exact hpage⟩
      · exact ⟨_, by rw [hinvd, hpage]; rfl⟩
    obtain ⟨pg1, hpg1⟩ := hex
    have hbound := SegmentTable.pageAt_setFrameAt ((st0.run reqs).tick.allocateFrame).2
      (segNum, pageDir) pageNum ((st0.run reqs).tick.allocateFrame).1
      ((st0.run reqs).segments.getD segNum.toNat default).protection
      ((st0.run reqs).tick.allocateFrame).2.physMem.time pg1 hpg1 (segNum, pageDir) pageNum
    simp only [and_self, if_true] at hbound
    have hpg : ((st0.run reqs).translateAddress segNum pageDir pageNum offset accessType
        rnd).2.pageAt (segNum, pageDir) pageNum =
        some { pg1 with
          frame_number := ((st0.run reqs).tick.allocateFrame).1
          present := true
          protection := ((st0.run reqs).segments.getD segNum.toNat default).protection
          last_access_time := ((st0.run reqs).tick.allocateFrame).2.physMem.time } := by
      rw [heq]
      exact hbound
    obtain ⟨a0, a1, a2, a3⟩ := hafter _ hpg rfl
    refine ⟨by rw [heq]; exact fun hx => Fault.noConfusion hx, Or.inr (by rw [heq]), _, hpg,
      rfl, a0, a1, a2, a3, fun hx => ?_, fun _ => rfl, fun hb => ?_⟩
    · rw [habs] at hx
      cases hx
    · obtain ⟨b0, b1, b2, b3, b4⟩ := hfit _ a0 a1 hb
      rw [heq]
      exact ⟨rfl, b0, b1, b2, b3, b4⟩

/-- C10 at the example manager after the example requests: both frames are taken, and a read of
the evicted page 0 is a miss that is resolved: page 0 ends up present in frame 1, which the
index maps to it, and the returned value is `1 * 16 + 3`. -/
theorem C10_miss_recovered_witness :
    ((exampleManager.run exampleRequests).translateAddress 0 0 0 3 Protection.READ_ONLY 7
      ).1.fault ≠ Fault.ReplacementFailed ∧
    ∃ pg,
      ((exampleManager.run exampleRequests).translateAddress 0 0 0 3 Protection.READ_ONLY
        7).2.pageAt (0, 0) 0 = some pg ∧
      pg.present = true ∧ pg.frame_number = 1 ∧
      StdMap.find ((exampleManager.run exampleRequests).translateAddress 0 0 0 3
        Protection.READ_ONLY 7).2.frame_to_page_map pg.frame_number = some ((0, 0), 0) ∧
      ((exampleManager.run exampleRequests).translateAddress 0 0 0 3 Protection.READ_ONLY
        7).1.ret = pg.frame_number * 16 + 3 ∧
      ((exampleManager.run exampleRequests).translateAddress 0 0 0 3 Protection.READ_ONLY
        7).1.ret ≠ -1 := by
  obtain ⟨hrf, _, pg, hpg, hpres, _, _, hfind, _, _, hmiss, hval⟩ :=
    C10_miss_recovered exampleManager ⟨2, 16, ReplacementAlgorithm.FIFO, exampleSegments,
      by decide, rfl⟩ exampleRequests 0 0 0 3 Protection.READ_ONLY 7
      { page_tables :=
          [(0, { pages :=
                   [{ frame_number := -1, present := false, last_access_time := 1 },
                    { frame_number := 1, present := true, last_access_time := 4 },
                    { frame_number := 0, present := true, last_access_time := 3 },
                    { frame_number := -1, present := false, last_access_time := 0 }]
                 page_size := 16 })]
        page_table_size := 4 }
      { pages :=
          [{ frame_number := -1, present := false, last_access_time := 1 },
           { frame_number := 1, present := true, last_access_time := 4 },
           { frame_number := 0, present := true, last_access_time := 3 },
           { frame_number := -1, present := false, last_access_time := 0 }]
        page_size := 16 }
      (by decide) (by decide)
      ⟨by decide, by decide, by decide, by decide, by decide, by decide, by decide, by decide,
        by decide⟩
      (by decide)
  obtain ⟨hret, _, _, _, _, hne⟩ := hval (by decide)
  exact ⟨hrf, pg, hpg, hpres, (hmiss rfl).trans (by decide), hfind, hret, hne⟩

end PartFour
